import Mathlib

/-!
# Delta-compressed snapshot packets

A shallow embedding of `src/src/game/DeltaDemo.cpp` (the `DeltaSnapshotPacket` and
`DeltaAckPacket` serialize routines and the two per-cube helpers) together with the
parts of the stream substrate, the sliding window and the sequence buffer that the
routines reach through their context pointers.

The serialize routines are C++ templates over the stream type; here they are
functions of a `StreamMode`, written once, exactly as in the source.
-/

set_option autoImplicit false

namespace NetworkedPhysics

/-! ## Stream substrate -/

/-- How a serialize routine can stop early. `assertion` is a violated `CORE_ASSERT`;
`range`, `underflow` and `misaligned` are the failures a stream reports; `bounds` is an
index decoded from the wire that lies outside the cube array (undefined behaviour in the
source). -/
inductive Failure where
  | assertion
  | range
  | underflow
  | bounds
  | misaligned
  deriving DecidableEq, Repr

/-- The three stream types a serialize template is instantiated with. -/
inductive StreamMode where
  | writing
  | reading
  | measuring
  deriving DecidableEq, Repr

/-- Modelled from the spec: `Stream::IsWriting`; the measure stream is a dry run of
writing, so it takes the writing branches. -/
def StreamMode.IsWriting : StreamMode → Bool
  | .reading => false
  | _ => true

/-- Modelled from the spec: `Stream::IsReading`. -/
def StreamMode.IsReading : StreamMode → Bool
  | .reading => true
  | _ => false

/-- The stream itself: for writing the bits emitted so far, for reading the bits still
to be consumed, for measuring the number of bits counted. -/
structure Stream where
  bits : List Bool
  measured : Nat
  deriving DecidableEq, Repr

/-- A serialize routine: it runs on a stream and on the memory `σ` it reaches through
its references, and it leaves both behind also when it fails. -/
def StreamM (σ α : Type) : Type :=
  Stream × σ → Except Failure α × (Stream × σ)

/-- Run a serialize routine. -/
def StreamM.run {σ α : Type} (x : StreamM σ α) (s : Stream × σ) :
    Except Failure α × (Stream × σ) := x s

instance instMonadStreamM (σ : Type) : Monad (StreamM σ) where
  pure a := fun s => (Except.ok a, s)
  bind x f := fun s =>
    match x s with
    | (Except.ok a, s') => f a s'
    | (Except.error e, s') => (Except.error e, s')

/-- Stop with a failure, keeping the state reached so far. -/
def StreamM.fail {σ α : Type} (e : Failure) : StreamM σ α :=
  fun s => (Except.error e, s)

/-- Read the memory. -/
def StreamM.getMem {σ : Type} : StreamM σ σ :=
  fun s => (Except.ok s.2, s)

/-- Change the memory. -/
def StreamM.modifyMem {σ : Type} (f : σ → σ) : StreamM σ Unit :=
  fun s => (Except.ok (), (s.1, f s.2))

/-- The low `n` bits of `v`, least significant first. -/
def toBits : Nat → Nat → List Bool
  | 0, _ => []
  | n + 1, v => decide (v % 2 = 1) :: toBits n (v / 2)

/-- The number a list of bits stands for, least significant first. -/
def fromBits : List Bool → Nat
  | [] => 0
  | b :: bs => (if b then 1 else 0) + 2 * fromBits bs

/-- Number of binary digits of `r`, by halving (`fuel` bounds the number of halvings). -/
def bitLength : Nat → Nat → Nat
  | 0, _ => 0
  | fuel + 1, r => if r = 0 then 0 else 1 + bitLength fuel (r / 2)

/-- Modelled from the spec: the width `⌈log₂(max − min + 1)⌉` of a ranged integer. -/
def bits_required (min max : Int) : Nat :=
  bitLength (max - min).toNat (max - min).toNat

/-- Modelled from the spec: `serialize_bits(value, n)`. Writing emits the low `n` bits,
measuring counts `n`, reading consumes `n` bits and fails on underflow. The routine
returns the value the variable holds afterwards. -/
def serialize_bits {σ : Type} (m : StreamMode) (value n : Nat) : StreamM σ Nat :=
  fun s =>
    match m with
    | .writing => (Except.ok value, ({ s.1 with bits := s.1.bits ++ toBits n value }, s.2))
    | .measuring => (Except.ok value, ({ s.1 with measured := s.1.measured + n }, s.2))
    | .reading =>
      if s.1.bits.length < n then (Except.error Failure.underflow, s)
      else (Except.ok (fromBits (s.1.bits.take n)), ({ s.1 with bits := s.1.bits.drop n }, s.2))

/-- Modelled from the spec: `serialize_bool(b)` is `serialize_bits(b, 1)`. -/
def serialize_bool {σ : Type} (m : StreamMode) (value : Bool) : StreamM σ Bool := do
  let v ← serialize_bits m (if value then 1 else 0) 1
  pure (decide (v = 1))

/-- Modelled from the spec: `serialize_uint16(value)`, 16 bits. -/
def serialize_uint16 {σ : Type} (m : StreamMode) (value : Nat) : StreamM σ Nat :=
  serialize_bits m value 16

/-- Modelled from the spec: `serialize_int(value, min, max)` in `bits_required min max`
bits. Writing (and its dry run) fails when the value is outside the range; reading fails
on underflow and when the decoded value is above `max`. -/
def serialize_int {σ : Type} (m : StreamMode) (value min max : Int) : StreamM σ Int :=
  if m.IsWriting then
    if min ≤ value ∧ value ≤ max then do
      let _ ← serialize_bits m (value - min).toNat (bits_required min max)
      pure value
    else StreamM.fail Failure.range
  else do
    let u ← serialize_bits m 0 (bits_required min max)
    if min + (u : Int) ≤ max then pure (min + (u : Int)) else StreamM.fail Failure.range

/-! ## Data model -/

/-- The constants of `Cubes.h` and `Snapshot.h`, headers that are not part of the
sources at hand; every routine takes them as a parameter. -/
structure Constants where
  NumCubes : Nat
  UnitsPerMeter : Int
  PositionBoundXY : Int
  PositionBoundZ : Int
  deriving DecidableEq, Repr

/-- Line 19: `QuantizedPositionBoundXY = UnitsPerMeter * PositionBoundXY`. -/
def Constants.QuantizedPositionBoundXY (K : Constants) : Int :=
  K.UnitsPerMeter * K.PositionBoundXY

/-- Line 20: `QuantizedPositionBoundZ = UnitsPerMeter * PositionBoundZ`. -/
def Constants.QuantizedPositionBoundZ (K : Constants) : Int :=
  K.UnitsPerMeter * K.PositionBoundZ

/-- Line 18. -/
def MaxSnapshots : Nat := 256

/-- Lines 29-37: the delta modes. -/
def DELTA_MODE_NOT_CHANGED : Int := 0

/-- See `DELTA_MODE_NOT_CHANGED`. -/
def DELTA_MODE_CHANGED_INDEX : Int := 1

/-- See `DELTA_MODE_NOT_CHANGED`. -/
def DELTA_MODE_RELATIVE_INDEX : Int := 2

/-- See `DELTA_MODE_NOT_CHANGED`. -/
def DELTA_MODE_RELATIVE_POSITION : Int := 3

/-- See `DELTA_MODE_NOT_CHANGED`. -/
def DELTA_MODE_RELATIVE_ORIENTATION : Int := 4

/-- See `DELTA_MODE_NOT_CHANGED`. -/
def DELTA_NUM_MODES : Int := 5

/-- Modelled from the spec: the smallest-three quaternion `{ largest: 0..=3, a, b, c }`
whose three components have the fixed bit width `Q` (`OrientationBits`); a component is
held as its `Q`-bit pattern, and equality is equality of `(largest, a, b, c)`. -/
structure CompressedQuaternion (Q : Nat) where
  largest : Fin 4
  integer_a : Fin (2 ^ Q)
  integer_b : Fin (2 ^ Q)
  integer_c : Fin (2 ^ Q)
  deriving DecidableEq

/-- Modelled from the spec: the quantized cube state of section 3. -/
structure QuantizedCubeState (Q : Nat) where
  interacting : Bool
  position_x : Int
  position_y : Int
  position_z : Int
  orientation : CompressedQuaternion Q
  deriving DecidableEq

/-- A cube array `QuantizedCubeState cubes[NumCubes]`; only the indices below
`NumCubes` are part of the array. -/
abbrev Cubes (Q : Nat) : Type := Nat → QuantizedCubeState Q

/-- What `quantized_base_cubes` points to: an array of its own, or the very array
`quantized_cubes` points to (the base slot is the slot being serialized). -/
inductive BaseRef (Q : Nat) where
  | snapshot (cubes : Cubes Q)
  | aliased

/-- The base cube `quantized_base_cubes[i]` as memory stands. -/
def BaseRef.get {Q : Nat} (base : BaseRef Q) (current : Cubes Q) (i : Nat) :
    QuantizedCubeState Q :=
  match base with
  | .snapshot cubes => cubes i
  | .aliased => current i

/-- The cube `quantized_cubes[i]`. -/
def cubeAt {Q : Nat} (i : Nat) : StreamM (Cubes Q) (QuantizedCubeState Q) :=
  fun s => (Except.ok (s.2 i), s)

/-- The cube `quantized_base_cubes[i]`. -/
def baseAt {Q : Nat} (base : BaseRef Q) (i : Nat) : StreamM (Cubes Q) (QuantizedCubeState Q) :=
  fun s => (Except.ok (base.get s.2 i), s)

/-- Assign to `quantized_cubes[i]`. -/
def setCube {Q : Nat} (i : Nat) (f : QuantizedCubeState Q → QuantizedCubeState Q) :
    StreamM (Cubes Q) Unit :=
  StreamM.modifyMem (fun cubes => Function.update cubes i (f (cubes i)))

/-- The `memcpy( &quantized_cubes[i], &quantized_base_cubes[i], ... )` of the read paths. -/
def copyBase {Q : Nat} (base : BaseRef Q) (i : Nat) : StreamM (Cubes Q) Unit :=
  StreamM.modifyMem (fun cubes => Function.update cubes i (base.get cubes i))

/-- Modelled from the spec: `serialize_object` on the orientation emits `largest` in
2 bits and the three components in `Q` bits each. -/
def CompressedQuaternion.Serialize {σ : Type} {Q : Nat} (m : StreamMode)
    (q : CompressedQuaternion Q) : StreamM σ (CompressedQuaternion Q) := do
  let largest ← serialize_bits m q.largest.val 2
  let integer_a ← serialize_bits m q.integer_a.val Q
  let integer_b ← serialize_bits m q.integer_b.val Q
  let integer_c ← serialize_bits m q.integer_c.val Q
  pure { largest := ⟨largest % 4, Nat.mod_lt _ (by decide)⟩
         integer_a := ⟨integer_a % 2 ^ Q, Nat.mod_lt _ (Nat.two_pow_pos Q)⟩
         integer_b := ⟨integer_b % 2 ^ Q, Nat.mod_lt _ (Nat.two_pow_pos Q)⟩
         integer_c := ⟨integer_c % 2 ^ Q, Nat.mod_lt _ (Nat.two_pow_pos Q)⟩ }

/-- `serialize_object( stream, cube.orientation )` on `quantized_cubes[i]`. -/
def serialize_orientation {Q : Nat} (m : StreamMode) (i : Nat) : StreamM (Cubes Q) Unit := do
  let cube ← cubeAt i
  let orientation ← cube.orientation.Serialize m
  setCube i (fun c => { c with orientation := orientation })

/-! ## Per-cube routines -/

/-- The absolute cube form that lines 527-531 (and 600-604, 619-623, 642-646, 736-740,
764-768, 790-794) spell out: `interacting`, three ranged positions, the orientation. -/
def serialize_cube_absolute {Q : Nat} (K : Constants) (m : StreamMode) (i : Nat) :
    StreamM (Cubes Q) Unit := do
  let cube ← cubeAt i
  let interacting ← serialize_bool m cube.interacting
  setCube i (fun c => { c with interacting := interacting })
  let cube ← cubeAt i
  let position_x ← serialize_int m cube.position_x
    (-K.QuantizedPositionBoundXY) K.QuantizedPositionBoundXY
  setCube i (fun c => { c with position_x := position_x })
  let cube ← cubeAt i
  let position_y ← serialize_int m cube.position_y
    (-K.QuantizedPositionBoundXY) K.QuantizedPositionBoundXY
  setCube i (fun c => { c with position_y := position_y })
  let cube ← cubeAt i
  let position_z ← serialize_int m cube.position_z 0 K.QuantizedPositionBoundZ
  setCube i (fun c => { c with position_z := position_z })
  serialize_orientation m i

/-- Line 84 (and 214). -/
def RelativePositionBound : Int := 1023

/-- Lines 78-125: `serialize_cube_relative_position( stream, cube, base )` with
`cube = quantized_cubes[i]` and `base = quantized_base_cubes[i]`. A variable the source
leaves uninitialized when reading starts as `false` or `0` here; it is overwritten by the
value read. -/
def serialize_cube_relative_position {Q : Nat} (K : Constants) (m : StreamMode)
    (base : BaseRef Q) (i : Nat) : StreamM (Cubes Q) Unit := do
  let cube ← cubeAt i
  let interacting ← serialize_bool m cube.interacting
  setCube i (fun c => { c with interacting := interacting })
  let cube ← cubeAt i
  let b ← baseAt base i
  let relative_position ← serialize_bool m
    (if m.IsWriting then
      decide (|cube.position_x - b.position_x| ≤ RelativePositionBound) &&
      decide (|cube.position_y - b.position_y| ≤ RelativePositionBound) &&
      decide (|cube.position_z - b.position_z| ≤ RelativePositionBound)
    else false)
  if relative_position then do
    let cube ← cubeAt i
    let b ← baseAt base i
    let offset_x ← serialize_int m
      (if m.IsWriting then cube.position_x - b.position_x else 0)
      (-RelativePositionBound) RelativePositionBound
    let offset_y ← serialize_int m
      (if m.IsWriting then cube.position_y - b.position_y else 0)
      (-RelativePositionBound) RelativePositionBound
    let offset_z ← serialize_int m
      (if m.IsWriting then cube.position_z - b.position_z else 0)
      (-RelativePositionBound) RelativePositionBound
    let b ← baseAt base i
    setCube i (fun c => { c with position_x := b.position_x + offset_x })
    let b ← baseAt base i
    setCube i (fun c => { c with position_y := b.position_y + offset_y })
    let b ← baseAt base i
    setCube i (fun c => { c with position_z := b.position_z + offset_z })
  else do
    let cube ← cubeAt i
    let position_x ← serialize_int m cube.position_x
      (-K.QuantizedPositionBoundXY) K.QuantizedPositionBoundXY
    setCube i (fun c => { c with position_x := position_x })
    let cube ← cubeAt i
    let position_y ← serialize_int m cube.position_y
      (-K.QuantizedPositionBoundXY) K.QuantizedPositionBoundXY
    setCube i (fun c => { c with position_y := position_y })
    let cube ← cubeAt i
    let position_z ← serialize_int m cube.position_z 0 K.QuantizedPositionBoundZ
    setCube i (fun c => { c with position_z := position_z })
    if m.IsReading then setCube i (fun c => { c with interacting := false }) else pure ()
  serialize_orientation m i

/-- Lines 208-298: `serialize_cube_relative_orientation( stream, cube, base )`; the
relative orientation block of lines 254-295 is commented out in the source. -/
def serialize_cube_relative_orientation {Q : Nat} (K : Constants) (m : StreamMode)
    (base : BaseRef Q) (i : Nat) : StreamM (Cubes Q) Unit := do
  let cube ← cubeAt i
  let interacting ← serialize_bool m cube.interacting
  setCube i (fun c => { c with interacting := interacting })
  let cube ← cubeAt i
  let b ← baseAt base i
  let relative_position ← serialize_bool m
    (if m.IsWriting then
      decide (|cube.position_x - b.position_x| ≤ RelativePositionBound) &&
      decide (|cube.position_y - b.position_y| ≤ RelativePositionBound) &&
      decide (|cube.position_z - b.position_z| ≤ RelativePositionBound)
    else false)
  if relative_position then do
    let cube ← cubeAt i
    let b ← baseAt base i
    let offset_x ← serialize_int m
      (if m.IsWriting then cube.position_x - b.position_x else 0)
      (-RelativePositionBound) RelativePositionBound
    let offset_y ← serialize_int m
      (if m.IsWriting then cube.position_y - b.position_y else 0)
      (-RelativePositionBound) RelativePositionBound
    let offset_z ← serialize_int m
      (if m.IsWriting then cube.position_z - b.position_z else 0)
      (-RelativePositionBound) RelativePositionBound
    let b ← baseAt base i
    setCube i (fun c => { c with position_x := b.position_x + offset_x })
    let b ← baseAt base i
    setCube i (fun c => { c with position_y := b.position_y + offset_y })
    let b ← baseAt base i
    setCube i (fun c => { c with position_z := b.position_z + offset_z })
  else do
    let cube ← cubeAt i
    let position_x ← serialize_int m cube.position_x
      (-K.QuantizedPositionBoundXY) K.QuantizedPositionBoundXY
    setCube i (fun c => { c with position_x := position_x })
    let cube ← cubeAt i
    let position_y ← serialize_int m cube.position_y
      (-K.QuantizedPositionBoundXY) K.QuantizedPositionBoundXY
    setCube i (fun c => { c with position_y := position_y })
    let cube ← cubeAt i
    let position_z ← serialize_int m cube.position_z 0 K.QuantizedPositionBoundZ
    setCube i (fun c => { c with position_z := position_z })
    if m.IsReading then setCube i (fun c => { c with interacting := false }) else pure ()
  serialize_orientation m i

/-! ## Index layer -/

/-- The routine `serialize_index_relative( stream, previous, current )` of `Snapshot.h`
is not part of the sources at hand; it is taken as a parameter: what it writes, what it
reads back, and what it counts when measuring. It touches the stream only. -/
structure IndexCodec where
  write : Nat → Nat → Except Failure (List Bool)
  read : Nat → List Bool → Except Failure (Nat × List Bool)
  measure : Nat → Nat → Except Failure Nat

/-- The call `serialize_index_relative( stream, previous_index, i )`. -/
def serialize_index_relative {σ : Type} (codec : IndexCodec) (m : StreamMode)
    (previous current : Nat) : StreamM σ Nat :=
  fun s =>
    match m with
    | .writing =>
      match codec.write previous current with
      | Except.ok bits => (Except.ok current, ({ s.1 with bits := s.1.bits ++ bits }, s.2))
      | Except.error e => (Except.error e, s)
    | .measuring =>
      match codec.measure previous current with
      | Except.ok n => (Except.ok current, ({ s.1 with measured := s.1.measured + n }, s.2))
      | Except.error e => (Except.error e, s)
    | .reading =>
      match codec.read previous s.1.bits with
      | Except.ok (i, rest) => (Except.ok i, ({ s.1 with bits := rest }, s.2))
      | Except.error e => (Except.error e, s)

/-- The loop every indexed mode runs when writing (lines 575-580, 691-696, 839-844,
967-972): `changed[i] = quantized_cubes[i] != quantized_base_cubes[i]` and the count of
the changed cubes, for `i` from `i` up, `n` times. -/
def compute_changed {Q : Nat} (cubes : Cubes Q) (base : BaseRef Q) :
    Nat → Nat → (Nat → Bool) × Nat → (Nat → Bool) × Nat
  | 0, _, acc => acc
  | n + 1, i, acc =>
    let c := decide (cubes i ≠ base.get cubes i)
    compute_changed cubes base n (i + 1)
      (Function.update acc.1 i c, if c then acc.2 + 1 else acc.2)

/-- Lines 516-537, the cube loop of `DELTA_MODE_NOT_CHANGED`, for `i` from `i` up, `n`
times. The `changed` flag of each cube is recorded in the array the loop returns. -/
def not_changed_loop {Q : Nat} (K : Constants) (m : StreamMode) (base : BaseRef Q) :
    Nat → Nat → (Nat → Bool) → StreamM (Cubes Q) (Nat → Bool)
  | 0, _, log => pure log
  | n + 1, i, log => do
    let cube ← cubeAt i
    let b ← baseAt base i
    let changed ← serialize_bool m (if m.IsWriting then decide (cube ≠ b) else false)
    if changed then serialize_cube_absolute K m i
    else if m.IsReading then copyBase base i
    else pure ()
    not_changed_loop K m base n (i + 1) (Function.update log i changed)

/-- Lines 636-652 (and 784-800, 916-928, 1044-1056): the per-cube `changed` bits an
indexed mode falls back to; `cube` is the cube form of the mode. -/
def changed_bits_loop {Q : Nat} (m : StreamMode) (base : BaseRef Q)
    (cube : Nat → StreamM (Cubes Q) Unit) :
    Nat → Nat → (Nat → Bool) → StreamM (Cubes Q) (Nat → Bool)
  | 0, _, changed => pure changed
  | n + 1, i, changed => do
    let c ← serialize_bool m (changed i)
    if c then cube i
    else if m.IsReading then copyBase base i
    else pure ()
    changed_bits_loop m base cube n (i + 1) (Function.update changed i c)

/-- Lines 593-609 (and 717-748, 857-884, 985-1012): the writer's loop over the changed
cubes; it returns `num_written`. With `relativeIndices` the first index is absolute and
the later ones go through `serialize_index_relative`; without (mode `CHANGED_INDEX`)
every index is absolute. -/
def indices_write_loop {Q : Nat} (K : Constants) (codec : IndexCodec) (m : StreamMode)
    (relativeIndices : Bool) (cube : Nat → StreamM (Cubes Q) Unit) (changed : Nat → Bool) :
    Nat → Nat → Bool → Nat → Nat → StreamM (Cubes Q) Nat
  | 0, _, _, _, num_written => pure num_written
  | n + 1, i, first, previous_index, num_written =>
    if changed i then do
      if first || !relativeIndices then do
        let _ ← serialize_int m (i : Int) 0 ((K.NumCubes : Int) - 1)
        pure ()
      else do
        let _ ← serialize_index_relative codec m previous_index i
        pure ()
      cube i
      indices_write_loop K codec m relativeIndices cube changed n (i + 1) false i
        (num_written + 1)
    else
      indices_write_loop K codec m relativeIndices cube changed n (i + 1) first
        previous_index num_written

/-- Lines 615-625 (and 756-773, 892-905, 1020-1033): the reader's loop `for j <
num_changed`, here with `r` iterations left. An index decoded outside the cube array
stops the loop with `Failure.bounds`. -/
def indices_read_loop {Q : Nat} (K : Constants) (codec : IndexCodec) (m : StreamMode)
    (relativeIndices : Bool) (cube : Nat → StreamM (Cubes Q) Unit) :
    Nat → Nat → Nat → (Nat → Bool) → StreamM (Cubes Q) (Nat → Bool)
  | 0, _, _, changed => pure changed
  | r + 1, j, previous_index, changed => do
    let i ←
      if j = 0 || !relativeIndices then do
        let v ← serialize_int m 0 0 ((K.NumCubes : Int) - 1)
        pure v.toNat
      else serialize_index_relative codec m previous_index 0
    if i < K.NumCubes then pure () else StreamM.fail Failure.bounds
    cube i
    indices_read_loop K codec m relativeIndices cube r (j + 1) i (Function.update changed i true)

/-- Lines 627-631 (and 775-779, 907-911, 1035-1039): copy the base into every cube that
was not decoded. -/
def copy_unchanged_loop {Q : Nat} (base : BaseRef Q) (changed : Nat → Bool) :
    Nat → Nat → StreamM (Cubes Q) Unit
  | 0, _ => pure ()
  | n + 1, i => do
    if !changed i then copyBase base i else pure ()
    copy_unchanged_loop base changed n (i + 1)

/-- The part of the body of an indexed mode that follows the `use_indices` bit (lines
587-653, 711-801, 851-929, 979-1057): `num_changed` and the index form, or the per-cube
`changed` form. -/
def serialize_indexed_rest {Q : Nat} (K : Constants) (codec : IndexCodec) (m : StreamMode)
    (base : BaseRef Q) (maxCount : Int) (relativeIndices : Bool)
    (cube : Nat → StreamM (Cubes Q) Unit) (changed : Nat → Bool) (counted : Nat)
    (use_indices : Bool) : StreamM (Cubes Q) (Nat → Bool) :=
  if use_indices then do
    let num_changed ← serialize_int m (counted : Int) 0 maxCount
    if m.IsWriting then do
      let num_written ←
        indices_write_loop K codec m relativeIndices cube changed K.NumCubes 0 true 0 0
      if (num_written : Int) = num_changed then pure changed
      else StreamM.fail Failure.assertion
    else do
      let changed ←
        indices_read_loop K codec m relativeIndices cube num_changed.toNat 0 0 (fun _ => false)
      copy_unchanged_loop base changed K.NumCubes 0
      pure changed
  else
    changed_bits_loop m base cube K.NumCubes 0 changed

/-- The body the four indexed modes share (lines 568-653, 684-801, 832-929, 960-1057).
They differ in the rule `useIndices` that the writer decides with, in the upper end
`maxCount` of the range `num_changed` is serialized in, in the index form and in the
cube form. The routine returns the `changed` array. -/
def serialize_indexed {Q : Nat} (K : Constants) (codec : IndexCodec) (m : StreamMode)
    (base : BaseRef Q) (useIndices : (Nat → Bool) → Nat → Bool) (maxCount : Int)
    (relativeIndices : Bool) (cube : Nat → StreamM (Cubes Q) Unit) :
    StreamM (Cubes Q) (Nat → Bool) := do
  let cubes ← StreamM.getMem
  let counted :=
    if m.IsWriting then compute_changed cubes base K.NumCubes 0 (fun _ => false, 0)
    else (fun _ => false, 0)
  let use_indices ← serialize_bool m (if m.IsWriting then useIndices counted.1 counted.2 else false)
  serialize_indexed_rest K codec m base maxCount relativeIndices cube counted.1 counted.2
    use_indices

/-! ## The five modes -/

/-- Lines 516-537: the body of `DELTA_MODE_NOT_CHANGED`. -/
def serialize_not_changed {Q : Nat} (K : Constants) (m : StreamMode) (base : BaseRef Q) :
    StreamM (Cubes Q) (Nat → Bool) :=
  not_changed_loop K m base K.NumCubes 0 (fun _ => false)

/-- Lines 568-653: the body of `DELTA_MODE_CHANGED_INDEX`, `MaxIndex = 89`. -/
def serialize_changed_index {Q : Nat} (K : Constants) (codec : IndexCodec) (m : StreamMode)
    (base : BaseRef Q) : StreamM (Cubes Q) (Nat → Bool) :=
  serialize_indexed K codec m base (fun _ num_changed => decide (num_changed < 89)) (89 + 1)
    false (serialize_cube_absolute K m)

/-- Lines 684-801: the body of `DELTA_MODE_RELATIVE_INDEX`, `MaxChanged = 255`. The
helper `count_relative_index_bits` of `Snapshot.h` is not part of the sources at hand
and is a parameter. -/
def serialize_relative_index {Q : Nat} (K : Constants) (codec : IndexCodec)
    (count_relative_index_bits : (Nat → Bool) → Int) (m : StreamMode) (base : BaseRef Q) :
    StreamM (Cubes Q) (Nat → Bool) :=
  serialize_indexed K codec m base
    (fun changed num_changed =>
      decide (count_relative_index_bits changed < 900) && decide (num_changed ≤ 255))
    255 true (serialize_cube_absolute K m)

/-- Lines 832-929: the body of `DELTA_MODE_RELATIVE_POSITION`, `MaxIndex = 126`. -/
def serialize_relative_position {Q : Nat} (K : Constants) (codec : IndexCodec)
    (m : StreamMode) (base : BaseRef Q) : StreamM (Cubes Q) (Nat → Bool) :=
  serialize_indexed K codec m base (fun _ num_changed => decide (num_changed < 126)) (126 + 1)
    true (serialize_cube_relative_position K m base)

/-- Lines 960-1057: the body of `DELTA_MODE_RELATIVE_ORIENTATION`, `MaxIndex = 126`. -/
def serialize_relative_orientation {Q : Nat} (K : Constants) (codec : IndexCodec)
    (m : StreamMode) (base : BaseRef Q) : StreamM (Cubes Q) (Nat → Bool) :=
  serialize_indexed K codec m base (fun _ num_changed => decide (num_changed < 126)) (126 + 1)
    true (serialize_cube_relative_orientation K m base)

/-- Lines 484-1063: the `switch ( delta_mode )`; the default case does nothing. -/
def serialize_body {Q : Nat} (K : Constants) (codec : IndexCodec)
    (count_relative_index_bits : (Nat → Bool) → Int) (m : StreamMode) (delta_mode : Int)
    (base : BaseRef Q) : StreamM (Cubes Q) (Nat → Bool) :=
  if delta_mode = DELTA_MODE_NOT_CHANGED then serialize_not_changed K m base
  else if delta_mode = DELTA_MODE_CHANGED_INDEX then serialize_changed_index K codec m base
  else if delta_mode = DELTA_MODE_RELATIVE_INDEX then
    serialize_relative_index K codec count_relative_index_bits m base
  else if delta_mode = DELTA_MODE_RELATIVE_POSITION then
    serialize_relative_position K codec m base
  else if delta_mode = DELTA_MODE_RELATIVE_ORIENTATION then
    serialize_relative_orientation K codec m base
  else pure (fun _ => false)

/-! ## Sliding window and sequence buffer -/

/-- Modelled from the spec: `seq_greater_than(a,b)` is
`(a>b ∧ a-b ≤ 2^15) ∨ (a<b ∧ b-a > 2^15)` on 16-bit sequence numbers. -/
def sequence_greater_than (a b : Nat) : Bool :=
  (decide (a > b) && decide (a - b ≤ 32768)) || (decide (a < b) && decide (b - a > 32768))

/-- Modelled from the spec: the mirror image of `sequence_greater_than`. -/
def sequence_less_than (a b : Nat) : Bool :=
  sequence_greater_than b a

/-- Modelled from the spec: the sender's sliding window of `protocol/SlidingWindow.h`,
a ring of `size` slots indexed by `seq mod size`, each storing a snapshot and its
sequence, with the next sequence to allocate and the ack cursor: the latest acked
sequence, none before any ack. -/
structure SlidingWindow (Q : Nat) where
  size : Nat
  sequence : Nat
  ack : Option Nat
  entry_sequence : Nat → Nat
  entries : Nat → Cubes Q

/-- Modelled from the spec: `get(seq)` hands out the slot `seq mod size`; whether its tag
still matches is the caller's business (property P3). -/
def SlidingWindow.Get {Q : Nat} (w : SlidingWindow Q) (sequence : Nat) : Cubes Q :=
  w.entries (sequence % w.size)

/-- Store cubes back through the reference `Get` handed out. -/
def SlidingWindow.store {Q : Nat} (w : SlidingWindow Q) (sequence : Nat) (cubes : Cubes Q) :
    SlidingWindow Q :=
  { w with entries := Function.update w.entries (sequence % w.size) cubes }

/-- Modelled from the spec: one slot `{ sequence, valid, snapshot }` of the sequence
buffer. -/
structure SequenceBufferSlot (Q : Nat) where
  sequence : Nat
  valid : Bool
  snapshot : Cubes Q

/-- Modelled from the spec: the receiver's sequence buffer of
`protocol/SequenceBuffer.h`, a ring of `size` slots and the newest sequence inserted so
far (none after `reset`). -/
structure SequenceBuffer (Q : Nat) where
  size : Nat
  newest : Option Nat
  slots : Nat → SequenceBufferSlot Q

/-- Modelled from the spec: `insert(seq)` rejects a sequence older than `newest - N`;
otherwise it claims the slot `seq mod N` for `seq`, whatever was there before, and leaves
the slot's cubes for the caller to fill in. -/
def SequenceBuffer.Insert {Q : Nat} (b : SequenceBuffer Q) (sequence : Nat) :
    Option (SequenceBuffer Q) :=
  let place : Nat → SequenceBufferSlot Q :=
    Function.update b.slots (sequence % b.size)
      { sequence := sequence, valid := true, snapshot := (b.slots (sequence % b.size)).snapshot }
  match b.newest with
  | none => some { b with newest := some sequence, slots := place }
  | some newest =>
    if sequence_less_than sequence ((newest + 65536 - b.size % 65536) % 65536) then none
    else some { b with
      newest := some (if sequence_greater_than sequence newest then sequence else newest)
      slots := place }

/-- Modelled from the spec: `find(seq)` returns the slot `seq mod N` iff it is valid and
its stored sequence is `seq`. -/
def SequenceBuffer.Find {Q : Nat} (b : SequenceBuffer Q) (sequence : Nat) : Option (Cubes Q) :=
  if (b.slots (sequence % b.size)).valid && decide ((b.slots (sequence % b.size)).sequence = sequence)
  then some (b.slots (sequence % b.size)).snapshot
  else none

/-- Store cubes back through the pointer `Insert` handed out. -/
def SequenceBuffer.store {Q : Nat} (b : SequenceBuffer Q) (sequence : Nat) (cubes : Cubes Q) :
    SequenceBuffer Q :=
  let slot : SequenceBufferSlot Q :=
    { sequence := (b.slots (sequence % b.size)).sequence
      valid := (b.slots (sequence % b.size)).valid
      snapshot := cubes }
  { b with slots := Function.update b.slots (sequence % b.size) slot }

/-! ## The packets -/

/-- Lines 439-445: the fields of `DeltaSnapshotPacket`. The two sequence numbers are
`uint16_t`, values below `65536`. -/
structure DeltaSnapshotPacket where
  sequence : Nat
  base_sequence : Nat
  initial : Bool
  delta_mode : Int
  deriving DecidableEq, Repr

/-- The `uint16_t` fields hold 16-bit values. -/
def DeltaSnapshotPacket.WellTyped (p : DeltaSnapshotPacket) : Prop :=
  p.sequence < 65536 ∧ p.base_sequence < 65536

instance (p : DeltaSnapshotPacket) : Decidable p.WellTyped :=
  inferInstanceAs (Decidable (_ ∧ _))

/-- Lines 454-456: the three context pointers of the stream; `DeltaInternal` sets all
three (lines 1120-1123). -/
structure Context (Q : Nat) where
  sliding_window : SlidingWindow Q
  sequence_buffer : SequenceBuffer Q
  initial_snapshot : Cubes Q

/-- Lines 458-465: the header of the packet, on the packet's own fields. -/
def DeltaSnapshotPacket.serialize_header (m : StreamMode) : StreamM DeltaSnapshotPacket Unit := do
  let p ← StreamM.getMem
  let sequence ← serialize_uint16 m p.sequence
  StreamM.modifyMem (fun p => { p with sequence := sequence })
  let p ← StreamM.getMem
  let delta_mode ← serialize_int m p.delta_mode 0 (DELTA_NUM_MODES - 1)
  StreamM.modifyMem (fun p => { p with delta_mode := delta_mode })
  let p ← StreamM.getMem
  let initial ← serialize_bool m p.initial
  StreamM.modifyMem (fun p => { p with initial := initial })
  if !initial then do
    let p ← StreamM.getMem
    let base_sequence ← serialize_uint16 m p.base_sequence
    StreamM.modifyMem (fun p => { p with base_sequence := base_sequence })
  else pure ()

/-- What a run of `DeltaSnapshotPacket::Serialize` leaves behind: whether it ran to its
end, the packet, the stream, the context, and the `changed` array of the body. -/
structure SerializeResult (Q : Nat) where
  status : Except Failure Unit
  packet : DeltaSnapshotPacket
  stream : Stream
  context : Context Q
  changed : Nat → Bool

/-- Lines 495-514 (and 547-566, 663-682, 811-830, 939-958): where `quantized_base_cubes`
points. The reader asserts that `Find( base_sequence )` returned an entry. The base is
the array being serialized when both lie in the same slot. -/
def resolve_base {Q : Nat} (m : StreamMode) (ctx : Context Q) (p : DeltaSnapshotPacket) :
    Except Failure (BaseRef Q) :=
  if p.initial then Except.ok (BaseRef.snapshot ctx.initial_snapshot)
  else if m.IsWriting then
    if p.base_sequence % ctx.sliding_window.size = p.sequence % ctx.sliding_window.size
    then Except.ok BaseRef.aliased
    else Except.ok (BaseRef.snapshot (ctx.sliding_window.Get p.base_sequence))
  else
    match ctx.sequence_buffer.Find p.base_sequence with
    | none => Except.error Failure.assertion
    | some cubes =>
      if p.base_sequence % ctx.sequence_buffer.size = p.sequence % ctx.sequence_buffer.size
      then Except.ok BaseRef.aliased
      else Except.ok (BaseRef.snapshot cubes)

/-- Lines 484-1063 on the cubes `quantized_cubes` points to: resolve the base inside the
case of the mode, run the body, and store the cubes back where they live. -/
def serialize_cubes {Q : Nat} (K : Constants) (codec : IndexCodec)
    (count_relative_index_bits : (Nat → Bool) → Int) (m : StreamMode) (ctx : Context Q)
    (p : DeltaSnapshotPacket) (stream : Stream) (cubes : Cubes Q)
    (store : Cubes Q → Context Q) : SerializeResult Q :=
  if 0 ≤ p.delta_mode ∧ p.delta_mode < DELTA_NUM_MODES then
    match resolve_base m ctx p with
    | Except.error e =>
      { status := Except.error e, packet := p, stream := stream, context := ctx,
        changed := fun _ => false }
    | Except.ok base =>
      match (serialize_body K codec count_relative_index_bits m p.delta_mode base).run
          (stream, cubes) with
      | (Except.ok changed, out) =>
        { status := Except.ok (), packet := p, stream := out.1, context := store out.2,
          changed := changed }
      | (Except.error e, out) =>
        { status := Except.error e, packet := p, stream := out.1, context := store out.2,
          changed := fun _ => false }
  else
    { status := Except.ok (), packet := p, stream := stream, context := ctx,
      changed := fun _ => false }

/-- Lines 452-1064: `DeltaSnapshotPacket::Serialize`. Writing and measuring take the
cubes from the sliding window entry of `sequence`; reading inserts `sequence` into the
sequence buffer, asserts that the insert gave an entry, and decodes into it. -/
def DeltaSnapshotPacket.Serialize {Q : Nat} (K : Constants) (codec : IndexCodec)
    (count_relative_index_bits : (Nat → Bool) → Int) (m : StreamMode) (ctx : Context Q)
    (p : DeltaSnapshotPacket) (stream : Stream) : SerializeResult Q :=
  match (DeltaSnapshotPacket.serialize_header m).run (stream, p) with
  | (Except.error e, out) =>
    { status := Except.error e, packet := out.2, stream := out.1, context := ctx,
      changed := fun _ => false }
  | (Except.ok _, out) =>
    if m.IsWriting then
      serialize_cubes K codec count_relative_index_bits m ctx out.2 out.1
        (ctx.sliding_window.Get out.2.sequence)
        (fun cubes => { ctx with sliding_window := ctx.sliding_window.store out.2.sequence cubes })
    else
      match ctx.sequence_buffer.Insert out.2.sequence with
      | none =>
        { status := Except.error Failure.assertion, packet := out.2, stream := out.1,
          context := ctx, changed := fun _ => false }
      | some buffer =>
        serialize_cubes K codec count_relative_index_bits m
          { ctx with sequence_buffer := buffer } out.2 out.1
          ((buffer.slots (out.2.sequence % buffer.size)).snapshot)
          (fun cubes => { ctx with sequence_buffer := buffer.store out.2.sequence cubes })

/-- Lines 1067-1080: `DeltaAckPacket`, a `uint16_t ack`. -/
structure DeltaAckPacket where
  ack : Nat
  deriving DecidableEq, Repr

/-- Lines 1076-1079: `DeltaAckPacket::Serialize`. -/
def DeltaAckPacket.Serialize (m : StreamMode) : StreamM DeltaAckPacket Unit := do
  let p ← StreamM.getMem
  let ack ← serialize_uint16 m p.ack
  StreamM.modifyMem (fun _ => { ack := ack })

/-! ## The body as the reader finds it on the wire

Section 4.4 of the spec in the reader's words, stated on the bits of the stream; the
properties below compare the read of `serialize_body` with it. -/

/-- The bits of `serialize_int( value, min, max )`. -/
def intBits (min max value : Int) : List Bool :=
  toBits (bits_required min max) (value - min).toNat

/-- The bits of the orientation. -/
def quatBits {Q : Nat} (q : CompressedQuaternion Q) : List Bool :=
  toBits 2 q.largest.val ++ (toBits Q q.integer_a.val ++
    (toBits Q q.integer_b.val ++ toBits Q q.integer_c.val))

/-- The bits of a cube in absolute form. -/
def absoluteBits {Q : Nat} (K : Constants) (c : QuantizedCubeState Q) : List Bool :=
  c.interacting :: (intBits (-K.QuantizedPositionBoundXY) K.QuantizedPositionBoundXY c.position_x ++
    (intBits (-K.QuantizedPositionBoundXY) K.QuantizedPositionBoundXY c.position_y ++
      (intBits 0 K.QuantizedPositionBoundZ c.position_z ++ quatBits c.orientation)))

/-- The writer's `relative_position` flag of lines 88-90. -/
def useRelative {Q : Nat} (c b : QuantizedCubeState Q) : Bool :=
  decide (|c.position_x - b.position_x| ≤ RelativePositionBound) &&
  decide (|c.position_y - b.position_y| ≤ RelativePositionBound) &&
  decide (|c.position_z - b.position_z| ≤ RelativePositionBound)

/-- The bits of a cube in relative-position form against the base cube `b`. -/
def relativeBits {Q : Nat} (K : Constants) (c b : QuantizedCubeState Q) : List Bool :=
  c.interacting :: useRelative c b ::
    ((if useRelative c b then
        intBits (-RelativePositionBound) RelativePositionBound (c.position_x - b.position_x) ++
        (intBits (-RelativePositionBound) RelativePositionBound (c.position_y - b.position_y) ++
          intBits (-RelativePositionBound) RelativePositionBound (c.position_z - b.position_z))
      else
        intBits (-K.QuantizedPositionBoundXY) K.QuantizedPositionBoundXY c.position_x ++
        (intBits (-K.QuantizedPositionBoundXY) K.QuantizedPositionBoundXY c.position_y ++
          intBits 0 K.QuantizedPositionBoundZ c.position_z)) ++ quatBits c.orientation)

/-- The cube lies within the quantized position bounds. -/
def InBounds {Q : Nat} (K : Constants) (c : QuantizedCubeState Q) : Prop :=
  -K.QuantizedPositionBoundXY ≤ c.position_x ∧ c.position_x ≤ K.QuantizedPositionBoundXY ∧
  -K.QuantizedPositionBoundXY ≤ c.position_y ∧ c.position_y ≤ K.QuantizedPositionBoundXY ∧
  0 ≤ c.position_z ∧ c.position_z ≤ K.QuantizedPositionBoundZ

instance {Q : Nat} (K : Constants) (c : QuantizedCubeState Q) : Decidable (InBounds K c) :=
  inferInstanceAs (Decidable (_ ∧ _))

/-- What the reader makes of a cube written in relative-position form: the cube itself,
with `interacting` cleared when the absolute positions were sent (lines 120-121). -/
def decodedRelative {Q : Nat} (c b : QuantizedCubeState Q) : QuantizedCubeState Q :=
  if useRelative c b then c else { c with interacting := false }

/-- The number of changed cubes among the `n` cubes from `i` up. -/
def countChanged (changed : Nat → Bool) : Nat → Nat → Nat
  | 0, _ => 0
  | n + 1, i => (if changed i then 1 else 0) + countChanged changed n (i + 1)

/-- The `changed` array the writer computes for the cubes `S` against the base cubes
`B`: `S[i] != B[i]` below `NumCubes`, `false` above. -/
def changedMask {Q : Nat} (K : Constants) (S B : Cubes Q) : Nat → Bool :=
  fun i => decide (i < K.NumCubes) && decide (S i ≠ B i)

/-- The bits of the per-cube `changed` form: for each of the `n` cubes from `i` up its
`changed` bit, followed by the cube's own bits `enc i` when the bit is set. -/
def changedBitsImage (changed : Nat → Bool) (enc : Nat → List Bool) : Nat → Nat → List Bool
  | 0, _ => []
  | n + 1, i =>
    changed i :: ((if changed i then enc i else []) ++ changedBitsImage changed enc n (i + 1))

/-- The bits `serialize_index_relative` writes, none if it fails. -/
def IndexCodec.bits (codec : IndexCodec) (previous current : Nat) : List Bool :=
  match codec.write previous current with
  | Except.ok bits => bits
  | Except.error _ => []

/-- The bits of the index form: for each changed cube among the `n` cubes from `i` up
its index (absolute for the first one and when the mode has no relative indices),
followed by the cube's own bits `enc i`. -/
def indicesImage (K : Constants) (codec : IndexCodec) (relativeIndices : Bool)
    (changed : Nat → Bool) (enc : Nat → List Bool) : Nat → Nat → Bool → Nat → List Bool
  | 0, _, _, _ => []
  | n + 1, i, first, previous_index =>
    if changed i then
      (if first || !relativeIndices then intBits 0 ((K.NumCubes : Int) - 1) (i : Int)
        else codec.bits previous_index i) ++
        (enc i ++ indicesImage K codec relativeIndices changed enc n (i + 1) false i)
    else indicesImage K codec relativeIndices changed enc n (i + 1) first previous_index

/-- What is assumed of the absent `serialize_index_relative`: for indices
`previous < current < N` it writes bits that it reads back as `current`, and it measures
the number of bits it writes. -/
def IndexCodec.Lawful (codec : IndexCodec) (N : Nat) : Prop :=
  ∀ previous current : Nat, previous < current → current < N →
    ∃ bits : List Bool, codec.write previous current = Except.ok bits ∧
      codec.measure previous current = Except.ok bits.length ∧
      ∀ rest : List Bool, codec.read previous (bits ++ rest) = Except.ok (current, rest)

/-- The bits of the body of an indexed mode: the `use_indices` bit, then either
`num_changed` and the index form, or the per-cube `changed` form. -/
def indexedImage (K : Constants) (codec : IndexCodec) (relativeIndices : Bool)
    (use_indices : Bool) (maxCount : Int) (changed : Nat → Bool) (enc : Nat → List Bool) :
    List Bool :=
  if use_indices then
    true :: (intBits 0 maxCount (countChanged changed K.NumCubes 0 : Nat) ++
      indicesImage K codec relativeIndices changed enc K.NumCubes 0 true 0)
  else false :: changedBitsImage changed enc K.NumCubes 0

/-- The bits of the body of a packet in mode `delta_mode`, for the cubes `S` against the
base cubes `B`. -/
def bodyImage {Q : Nat} (K : Constants) (codec : IndexCodec)
    (count_relative_index_bits : (Nat → Bool) → Int) (delta_mode : Int) (S B : Cubes Q) :
    List Bool :=
  if delta_mode = DELTA_MODE_NOT_CHANGED then
    changedBitsImage (changedMask K S B) (fun k => absoluteBits K (S k)) K.NumCubes 0
  else if delta_mode = DELTA_MODE_CHANGED_INDEX then
    indexedImage K codec false
      (decide (countChanged (changedMask K S B) K.NumCubes 0 < 89)) (89 + 1)
      (changedMask K S B) (fun k => absoluteBits K (S k))
  else if delta_mode = DELTA_MODE_RELATIVE_INDEX then
    indexedImage K codec true
      (decide (count_relative_index_bits (changedMask K S B) < 900) &&
        decide (countChanged (changedMask K S B) K.NumCubes 0 ≤ 255)) 255
      (changedMask K S B) (fun k => absoluteBits K (S k))
  else if delta_mode = DELTA_MODE_RELATIVE_POSITION ∨
      delta_mode = DELTA_MODE_RELATIVE_ORIENTATION then
    indexedImage K codec true
      (decide (countChanged (changedMask K S B) K.NumCubes 0 < 126)) (126 + 1)
      (changedMask K S B) (fun k => relativeBits K (S k) (B k))
  else []

/-- What the reader makes of the cube `c` written against the base cube `b` in mode
`delta_mode`: the cube itself, but in the two relative modes with `interacting` cleared
when the cube was sent with absolute positions. -/
def decodedCube {Q : Nat} (delta_mode : Int) (c b : QuantizedCubeState Q) :
    QuantizedCubeState Q :=
  if delta_mode = DELTA_MODE_RELATIVE_POSITION ∨ delta_mode = DELTA_MODE_RELATIVE_ORIENTATION
  then decodedRelative c b else c

/-- The bits of the header of a packet. -/
def headerImage (p : DeltaSnapshotPacket) : List Bool :=
  toBits 16 p.sequence ++ (intBits 0 (DELTA_NUM_MODES - 1) p.delta_mode ++
    (p.initial :: (if p.initial then [] else toBits 16 p.base_sequence)))

/-- The base cubes the sender encodes against: the initial snapshot, or the sliding
window entry of `base_sequence`. -/
def senderBase {Q : Nat} (ctx : Context Q) (p : DeltaSnapshotPacket) : Cubes Q :=
  if p.initial then ctx.initial_snapshot else ctx.sliding_window.Get p.base_sequence

/-- The bits of a whole packet, as the sender with context `ctx` writes it. -/
def packetImage {Q : Nat} (K : Constants) (codec : IndexCodec)
    (count_relative_index_bits : (Nat → Bool) → Int) (ctx : Context Q)
    (p : DeltaSnapshotPacket) : List Bool :=
  headerImage p ++ bodyImage K codec count_relative_index_bits p.delta_mode
    (ctx.sliding_window.Get p.sequence) (senderBase ctx p)

/-! ## Instances used to exercise the routines -/

/-- Modelled from the spec: an instance of the relative index codec with the shape
section 4.4 gives for `serialize_index_relative`. The gap `d = current − previous − 1`
is sent as tag `0` and 3 bits when `d ∈ [0,7]`, as tag `10` and 5 bits when
`d ∈ [8,39]`, and otherwise the index is sent absolutely after tag `1111`. -/
def spec_index_codec (K : Constants) : IndexCodec where
  write previous current :=
    if previous < current then
      if current - previous - 1 ≤ 7 then
        Except.ok (false :: toBits 3 (current - previous - 1))
      else if current - previous - 1 ≤ 39 then
        Except.ok (true :: false :: toBits 5 (current - previous - 1 - 8))
      else if current < K.NumCubes then
        Except.ok (true :: true :: true :: true ::
          intBits 0 ((K.NumCubes : Int) - 1) (current : Int))
      else Except.error Failure.range
    else Except.error Failure.assertion
  read previous bits :=
    match bits with
    | false :: rest =>
      if rest.length < 3 then Except.error Failure.underflow
      else Except.ok (previous + 1 + fromBits (rest.take 3), rest.drop 3)
    | true :: false :: rest =>
      if rest.length < 5 then Except.error Failure.underflow
      else Except.ok (previous + 1 + 8 + fromBits (rest.take 5), rest.drop 5)
    | true :: true :: true :: true :: rest =>
      if rest.length < bits_required 0 ((K.NumCubes : Int) - 1) then
        Except.error Failure.underflow
      else if fromBits (rest.take (bits_required 0 ((K.NumCubes : Int) - 1))) < K.NumCubes then
        Except.ok (fromBits (rest.take (bits_required 0 ((K.NumCubes : Int) - 1))),
          rest.drop (bits_required 0 ((K.NumCubes : Int) - 1)))
      else Except.error Failure.range
    | true :: true :: true :: false :: _ => Except.error Failure.range
    | true :: true :: false :: _ => Except.error Failure.range
    | _ => Except.error Failure.underflow
  measure previous current :=
    if previous < current then
      if current - previous - 1 ≤ 7 then Except.ok 4
      else if current - previous - 1 ≤ 39 then Except.ok 7
      else if current < K.NumCubes then
        Except.ok (4 + bits_required 0 ((K.NumCubes : Int) - 1))
      else Except.error Failure.range
    else Except.error Failure.assertion

/-- The number of bits the indices of the changed cubes take among the `n` cubes from
`i` up: the first index absolutely, each later one through the codec. -/
def indexBitCount (K : Constants) (codec : IndexCodec) (changed : Nat → Bool) :
    Nat → Nat → Bool → Nat → Nat
  | 0, _, _, _ => 0
  | n + 1, i, first, previous_index =>
    if changed i then
      (if first then bits_required 0 ((K.NumCubes : Int) - 1)
        else (codec.bits previous_index i).length) +
        indexBitCount K codec changed n (i + 1) false i
    else indexBitCount K codec changed n (i + 1) first previous_index

/-- Modelled from the spec: `count_relative_index_bits(changed[])` estimates the cost
of the index form, here as the 8 bits of `num_changed` plus the bits of the indices
under `spec_index_codec`. -/
def spec_count_relative_index_bits (K : Constants) (changed : Nat → Bool) : Int :=
  ((8 + indexBitCount K (spec_index_codec K) changed K.NumCubes 0 true 0 : Nat) : Int)

/-- Four cubes, as in scenario S2 of the spec, positions within `±16384` and `[0, 8192]`. -/
def fourCubes : Constants :=
  { NumCubes := 4, UnitsPerMeter := 512, PositionBoundXY := 32, PositionBoundZ := 16 }

/-- The constants of a program of 901 cubes, for the examples of the bit costs. -/
def demoCubes : Constants :=
  { NumCubes := 901, UnitsPerMeter := 512, PositionBoundXY := 32, PositionBoundZ := 16 }

/-- The cube at rest in the origin, orientation `(largest = 3, 0, 0, 0)`. -/
def restCube : QuantizedCubeState 9 :=
  { interacting := false, position_x := 0, position_y := 0, position_z := 0,
    orientation := { largest := 3, integer_a := 0, integer_b := 0, integer_c := 0 } }

/-- A snapshot of cubes at rest. -/
def restSnapshot : Cubes 9 := fun _ => restCube

/-- Scenario S2: the snapshot that differs from `restSnapshot` at index 2 by
`(+5, -3, +1)`; cube 2 is also raised to `z = 1` from `z = 0`. -/
def movedSnapshot : Cubes 9 :=
  fun k => if k = 2 then { restCube with position_x := 5, position_y := -3, position_z := 1 }
    else restCube

/-- A snapshot whose cube 1 is interacting and `2000` units away from rest in `x`. -/
def farSnapshot : Cubes 9 :=
  fun k => if k = 1 then { restCube with interacting := true, position_x := 2000 }
    else restCube

/-- A sender whose window holds `restSnapshot` in slot 7, `movedSnapshot` in slot 8 and
`farSnapshot` in slot 9. -/
def exampleSender : Context 9 :=
  { sliding_window :=
      { size := MaxSnapshots, sequence := 10, ack := some 7, entry_sequence := fun k => k,
        entries := fun k => if k = 8 then movedSnapshot else if k = 9 then farSnapshot
          else restSnapshot }
    sequence_buffer :=
      { size := MaxSnapshots, newest := none,
        slots := fun _ => { sequence := 0, valid := false, snapshot := restSnapshot } }
    initial_snapshot := restSnapshot }

/-- A receiver whose buffer holds `restSnapshot` for sequence 7 and nothing else. -/
def exampleReceiver : Context 9 :=
  { sliding_window :=
      { size := MaxSnapshots, sequence := 0, ack := none, entry_sequence := fun _ => 0,
        entries := fun _ => restSnapshot }
    sequence_buffer :=
      { size := MaxSnapshots, newest := some 7,
        slots := fun k => { sequence := 7, valid := decide (k = 7), snapshot := restSnapshot } }
    initial_snapshot := restSnapshot }

/-- A receiver straight after `reset`: an empty buffer. -/
def freshReceiver : Context 9 :=
  { sliding_window :=
      { size := MaxSnapshots, sequence := 0, ack := none, entry_sequence := fun _ => 0,
        entries := fun _ => restSnapshot }
    sequence_buffer :=
      { size := MaxSnapshots, newest := none,
        slots := fun _ => { sequence := 0, valid := false, snapshot := restSnapshot } }
    initial_snapshot := restSnapshot }

/-- The packet the factory hands to the reader (lines 446-450). -/
def blankPacket : DeltaSnapshotPacket :=
  { sequence := 0, base_sequence := 0, initial := false, delta_mode := DELTA_MODE_NOT_CHANGED }

/-- The receiver decodes against the same base as the sender: the insert of the packet's
sequence succeeds and then, for an initial packet, the receiver's initial snapshot is the
sender's and, for any other packet, the receiver's buffer finds `base_sequence` with the
cubes of the sender's base. -/
def ReceiverHasBase {Q : Nat} (K : Constants) (sender receiver : Context Q)
    (p : DeltaSnapshotPacket) : Prop :=
  match receiver.sequence_buffer.Insert p.sequence with
  | none => False
  | some buffer =>
    if p.initial then
      ∀ k, k < K.NumCubes → receiver.initial_snapshot k = senderBase sender p k
    else
      ∃ cubes, buffer.Find p.base_sequence = some cubes ∧
        ∀ k, k < K.NumCubes → cubes k = senderBase sender p k

/-- The packet of sequence 8 against base 7 in mode `delta_mode`. -/
def movedPacket (delta_mode : Int) : DeltaSnapshotPacket :=
  { sequence := 8, base_sequence := 7, initial := false, delta_mode := delta_mode }

/-- The packet of sequence 9 against base 7 in mode `delta_mode`. -/
def farPacket (delta_mode : Int) : DeltaSnapshotPacket :=
  { sequence := 9, base_sequence := 7, initial := false, delta_mode := delta_mode }

/-- A routine run for writing and the same routine run for measuring agree: from the
same memory they end with the same result and the same memory, and the measure stream
has counted as many bits as the write stream has been given. -/
def Sim {σ α : Type} (xw xm : StreamM σ α) : Prop :=
  ∀ (bs bm : List Bool) (cw cm : Nat) (mem : σ),
    ∃ (W : List Bool) (r : Except Failure α) (mem' : σ),
      xw.run (⟨bs, cw⟩, mem) = (r, (⟨bs ++ W, cw⟩, mem')) ∧
      xm.run (⟨bm, cm⟩, mem) = (r, (⟨bm, cm + W.length⟩, mem'))

/-- As `fourCubes`, with 126 cubes. -/
def manyCubes : Constants :=
  { NumCubes := 126, UnitsPerMeter := 512, PositionBoundXY := 32, PositionBoundZ := 16 }

/-- A snapshot all of whose cubes are one unit away from rest in `x`. -/
def shiftedSnapshot : Cubes 9 := fun _ => { restCube with position_x := 1 }

/-- A routine that assigns to no cube other than `quantized_cubes[i]`. -/
def OnlyAt {Q : Nat} {α : Type} (i : Nat) (x : StreamM (Cubes Q) α) : Prop :=
  ∀ (s : Stream × Cubes Q) (k : Nat), k ≠ i → (x.run s).2.2 k = s.2 k

/-- The indices of the changed cubes among the `n` cubes from `i` up, in the order the
writer's loop `for ( int i = 0; i < NumCubes; ++i )` meets them. -/
def changedIndices (changed : Nat → Bool) : Nat → Nat → List Nat
  | 0, _ => []
  | n + 1, i =>
    if changed i then i :: changedIndices changed n (i + 1)
    else changedIndices changed n (i + 1)

/-- The bits of a list of `(index, cube)` entries: each index (absolute for the first
entry and when the mode has no relative indices, else relative to the index before),
followed by the cube's own bits `enc i`. -/
def entriesImage (K : Constants) (codec : IndexCodec) (relativeIndices : Bool)
    (enc : Nat → List Bool) : List Nat → Bool → Nat → List Bool
  | [], _, _ => []
  | i :: rest, first, previous_index =>
    (if first || !relativeIndices then intBits 0 ((K.NumCubes : Int) - 1) (i : Int)
      else codec.bits previous_index i) ++
      (enc i ++ entriesImage K codec relativeIndices enc rest false i)

/-- Scenario S1: a single cube. -/
def oneCube : Constants :=
  { NumCubes := 1, UnitsPerMeter := 512, PositionBoundXY := 32, PositionBoundZ := 16 }

/-- The bits of the body of a packet in mode `RELATIVE_POSITION` whose only changed cube
is cube `i`, `c`, within `±1023` of the base cube `b` on every axis: `use_indices = 1`,
`num_changed = 1` in 7 bits, the index in `⌈log₂ NumCubes⌉` bits, the `interacting` bit,
`use_relative = 1`, three offsets in 11 bits each, shifted by `1023`, and the
orientation. -/
def singleRelativeImage {Q : Nat} (K : Constants) (c b : QuantizedCubeState Q) (i : Nat) :
    List Bool :=
  true :: (toBits 7 1 ++ (toBits (Nat.clog 2 K.NumCubes) i ++
    (c.interacting :: true ::
      (toBits 11 (c.position_x - b.position_x + 1023).toNat ++
        (toBits 11 (c.position_y - b.position_y + 1023).toNat ++
          (toBits 11 (c.position_z - b.position_z + 1023).toNat ++
            quatBits c.orientation))))))

/-- Modelled from the spec: `reset()` of the sliding window; the next sequence is `0` and
no sequence is acked. -/
def SlidingWindow.Reset {Q : Nat} (w : SlidingWindow Q) : SlidingWindow Q :=
  { w with sequence := 0, ack := none }

/-- Modelled from the spec: `insert() → (seq, &mut snapshot_slot)` allocates the next
sequence, a 16-bit counter, and hands out the slot `seq mod size`. -/
def SlidingWindow.Insert {Q : Nat} (w : SlidingWindow Q) : Nat × SlidingWindow Q :=
  (w.sequence,
    { w with
      sequence := (w.sequence + 1) % 65536
      entry_sequence := Function.update w.entry_sequence (w.sequence % w.size) w.sequence })

/-- Modelled from the spec: `ack(seq)` sets the high-water to
`max_by_wrap(current, seq)`. -/
def SlidingWindow.Ack {Q : Nat} (w : SlidingWindow Q) (sequence : Nat) : SlidingWindow Q :=
  match w.ack with
  | none => { w with ack := some sequence }
  | some current =>
    if sequence_greater_than sequence current then { w with ack := some sequence } else w

/-- Modelled from the spec: `get_ack()` returns the latest acked sequence, `−1` if
none. -/
def SlidingWindow.GetAck {Q : Nat} (w : SlidingWindow Q) : Int :=
  match w.ack with
  | none => -1
  | some sequence => (sequence : Int)

/-- Modelled from the spec: `reset()` of the sequence buffer; no slot is valid. -/
def SequenceBuffer.Reset {Q : Nat} (b : SequenceBuffer Q) : SequenceBuffer Q :=
  { b with
    newest := none
    slots := fun idx => { b.slots idx with valid := false } }

/-- Lines 16-17. -/
def LeftPort : Nat := 1000

/-- Lines 16-17. -/
def RightPort : Nat := 1001

/-- Lines 71-76: the two packet types of the demo, each with its fields. -/
inductive Packet where
  | snapshot (p : DeltaSnapshotPacket)
  | ack (p : DeltaAckPacket)
  deriving DecidableEq

/-- A packet handed to `SendPacket`, with the port of the address it is sent to. -/
structure Sent where
  port : Nat
  packet : Packet
  deriving DecidableEq

/-- A packet `ReceivePacket` hands back, with the port of its address, and the sequence
buffer as the simulator, which reads snapshot packets into it, has left it by then. -/
structure Received (Q : Nat) where
  port : Nat
  packet : Packet
  sequence_buffer : SequenceBuffer Q

/-- Lines 1107-1169: the fields of `DeltaInternal` the session logic uses.
`send_accumulator` is a float and is left out: whether a send is due is an input of
`Update`. -/
structure DeltaInternal (Q : Nat) where
  send_sequence : Nat
  recv_sequence : Nat
  received_ack : Bool
  quantized_snapshot_sliding_window : SlidingWindow Q
  quantized_snapshot_sequence_buffer : SequenceBuffer Q

/-- Lines 1139-1151: `Reset`. -/
def DeltaInternal.Reset {Q : Nat} (d : DeltaInternal Q) : DeltaInternal Q :=
  { quantized_snapshot_sliding_window := d.quantized_snapshot_sliding_window.Reset
    quantized_snapshot_sequence_buffer := d.quantized_snapshot_sequence_buffer.Reset
    send_sequence := 0
    recv_sequence := 0
    received_ack := false }

/-- What one call of `Update` gets from outside: whether
`send_accumulator >= 1.0f / send_rate` (line 1238), `GetMode()`, what
`GetQuantizedSnapshot` returns (the cubes it writes when it returns true, none when it
returns false), and the packets `ReceivePacket` hands back, in order. -/
structure UpdateInput (Q : Nat) where
  send_due : Bool
  mode : Int
  sample : Option (Cubes Q)
  received : List (Received Q)

/-- Lines 1244-1250: the snapshot packet as `Update` fills it in; `GetAck() + 1` is
stored in a `uint16_t`. -/
def build_snapshot_packet {Q : Nat} (d : DeltaInternal Q) (mode : Int) : DeltaSnapshotPacket :=
  { sequence := d.send_sequence
    base_sequence := ((d.quantized_snapshot_sliding_window.GetAck + 1) % 65536).toNat
    initial := !d.received_ack
    delta_mode := mode }

/-- Lines 1238-1260: the send path. The counter `send_sequence` advances and the window
allocates its slot whether or not the sampling succeeds; the packet is sent to
`RightPort` when it does and destroyed when it does not. -/
def send_snapshot {Q : Nat} (d : DeltaInternal Q) (mode : Int) (sample : Option (Cubes Q)) :
    DeltaInternal Q × List Sent :=
  let snapshot_packet := build_snapshot_packet d mode
  let inserted := d.quantized_snapshot_sliding_window.Insert
  let d1 : DeltaInternal Q :=
    { d with
      send_sequence := (d.send_sequence + 1) % 65536
      quantized_snapshot_sliding_window := inserted.2 }
  match sample with
  | some cubes =>
    ({ d1 with quantized_snapshot_sliding_window := inserted.2.store inserted.1 cubes },
      [{ port := RightPort, packet := Packet.snapshot snapshot_packet }])
  | none => (d1, [])

/-- Lines 1268-1309: the receive loop, on the packets handed back in this frame. It
carries `received_snapshot_this_frame` and `ack_sequence`; `ack_packet->ack - 1` is
passed as a `uint16_t`. A snapshot packet whose sequence `Find` does not return stops
the loop on `CORE_ASSERT( quantized_snapshot )`. -/
def receive_loop {Q : Nat} :
    List (Received Q) → DeltaInternal Q → Bool → Nat → Except Failure (DeltaInternal Q × Bool × Nat)
  | [], d, received_snapshot_this_frame, ack_sequence =>
    Except.ok (d, received_snapshot_this_frame, ack_sequence)
  | x :: rest, d, received_snapshot_this_frame, ack_sequence =>
    let d0 : DeltaInternal Q := { d with quantized_snapshot_sequence_buffer := x.sequence_buffer }
    match x.packet with
    | Packet.snapshot snapshot_packet =>
      if x.port = RightPort then
        match d0.quantized_snapshot_sequence_buffer.Find snapshot_packet.sequence with
        | none => Except.error Failure.assertion
        | some _ =>
          if !received_snapshot_this_frame ||
              (received_snapshot_this_frame &&
                sequence_greater_than snapshot_packet.sequence ack_sequence) then
            receive_loop rest d0 true snapshot_packet.sequence
          else receive_loop rest d0 received_snapshot_this_frame ack_sequence
      else receive_loop rest d0 received_snapshot_this_frame ack_sequence
    | Packet.ack ack_packet =>
      if x.port = LeftPort then
        receive_loop rest
          { d0 with
            quantized_snapshot_sliding_window :=
              d0.quantized_snapshot_sliding_window.Ack ((ack_packet.ack + 65535) % 65536)
            received_ack := true }
          received_snapshot_this_frame ack_sequence
      else receive_loop rest d0 received_snapshot_this_frame ack_sequence

/-- Lines 1223-1338: `DeltaDemo::Update`, the session part: the send path, the receive
loop, and the ack packet to `LeftPort` when a snapshot packet was received in this
frame. It returns the session and the packets handed to `SendPacket`, in order. -/
def Update {Q : Nat} (d : DeltaInternal Q) ( input : UpdateInput Q) :
    Except Failure (DeltaInternal Q × List Sent) :=
  let sent := if input.send_due then send_snapshot d input.mode input.sample else (d, [])
  match receive_loop input.received sent.1 false 0 with
  | Except.error e => Except.error e
  | Except.ok (d', received_snapshot_this_frame, ack_sequence) =>
    Except.ok (d', sent.2 ++
      (if received_snapshot_this_frame then
        [{ port := LeftPort, packet := Packet.ack { ack := ack_sequence } }]
      else []))

/-- A run of calls of `Update` from the session `d`, one per input; it returns the session
and what each call sent. -/
def runUpdates {Q : Nat} :
    DeltaInternal Q → List (UpdateInput Q) → Except Failure (DeltaInternal Q × List (List Sent))
  | d, [] => Except.ok (d, [])
  | d, input :: rest =>
    match Update d input with
    | Except.error e => Except.error e
    | Except.ok (d', sent) =>
      match runUpdates d' rest with
      | Except.error e => Except.error e
      | Except.ok (d'', more) => Except.ok (d'', sent :: more)

/-- The packet is an ack packet on `LeftPort` (line 1300). -/
def Received.isAck {Q : Nat} (x : Received Q) : Bool :=
  match x.packet with
  | Packet.ack _ => decide (x.port = LeftPort)
  | Packet.snapshot _ => false

/-- Whether the frame hands an ack packet to the sender. -/
def UpdateInput.hasAck {Q : Nat} ( input : UpdateInput Q) : Bool :=
  input.received.any Received.isAck

/-- The sequences of the snapshot packets the frame hands to the receiver, in order. -/
def snapshotSequences {Q : Nat} : List (Received Q) → List Nat
  | [] => []
  | x :: rest =>
    match x.packet with
    | Packet.snapshot p =>
      if x.port = RightPort then p.sequence :: snapshotSequences rest
      else snapshotSequences rest
    | Packet.ack _ => snapshotSequences rest

/-- The `ack` fields of the ack packets among the packets sent. -/
def sentAcks : List Sent → List Nat
  | [] => []
  | x :: rest =>
    match x.packet with
    | Packet.ack p => p.ack :: sentAcks rest
    | Packet.snapshot _ => sentAcks rest

/-- A session of the demo, before `Reset`: windows of `MaxSnapshots` slots. -/
def exampleSession : DeltaInternal 9 :=
  { send_sequence := 0
    recv_sequence := 0
    received_ack := false
    quantized_snapshot_sliding_window := exampleSender.sliding_window
    quantized_snapshot_sequence_buffer := exampleReceiver.sequence_buffer }

/-- A frame in which a snapshot is sampled and sent and nothing is received. -/
def sendFrame : UpdateInput 9 :=
  { send_due := true, mode := DELTA_MODE_RELATIVE_POSITION, sample := some restSnapshot,
    received := [] }

/-- A frame in which the sampling fails, so the packet built is destroyed, and nothing is
received. -/
def failedFrame : UpdateInput 9 :=
  { send_due := true, mode := DELTA_MODE_RELATIVE_POSITION, sample := none, received := [] }

/-- A frame in which nothing is sent and the sender receives an ack packet naming
`sequence`. -/
def ackFrame (sequence : Nat) : UpdateInput 9 :=
  { send_due := false, mode := DELTA_MODE_RELATIVE_POSITION, sample := none,
    received :=
      [{ port := LeftPort, packet := Packet.ack { ack := sequence },
         sequence_buffer := exampleReceiver.sequence_buffer }] }

/-- What the receive loop makes of `received_snapshot_this_frame` and `ack_sequence` over
the sequences of the snapshot packets of a frame (lines 1290-1294). -/
def ackFold : List Nat → Bool → Nat → Bool × Nat
  | [], received_snapshot_this_frame, ack_sequence =>
    (received_snapshot_this_frame, ack_sequence)
  | sequence :: rest, received_snapshot_this_frame, ack_sequence =>
    if !received_snapshot_this_frame ||
        (received_snapshot_this_frame && sequence_greater_than sequence ack_sequence) then
      ackFold rest true sequence
    else ackFold rest received_snapshot_this_frame ack_sequence

/-- A sequence buffer in which `Find( sequence )` returns a snapshot. -/
def holdingBuffer (sequence : Nat) : SequenceBuffer 9 :=
  { size := MaxSnapshots, newest := some sequence,
    slots := fun _ => { sequence := sequence, valid := true, snapshot := restSnapshot } }

/-- The snapshot packet of `sequence` as the simulator hands it to the receiver, read
into the sequence buffer. -/
def snapshotArrival (sequence : Nat) : Received 9 :=
  { port := RightPort
    packet := Packet.snapshot
      { sequence := sequence, base_sequence := 0, initial := true,
        delta_mode := DELTA_MODE_RELATIVE_POSITION }
    sequence_buffer := holdingBuffer sequence }

/-- A frame in which nothing is sent and the snapshot packets 5, 7 and 6 arrive, in this
order. -/
def arrivalFrame : UpdateInput 9 :=
  { send_due := false, mode := DELTA_MODE_RELATIVE_POSITION, sample := none,
    received := [snapshotArrival 5, snapshotArrival 7, snapshotArrival 6] }

/-- The snapshot packets the frame hands to the receiver: the sequence of each, with the
sequence buffer as it stood when the packet was handed over. -/
def arrivals {Q : Nat} : List (Received Q) → List (Nat × SequenceBuffer Q)
  | [] => []
  | x :: rest =>
    match x.packet with
    | Packet.snapshot p =>
      if x.port = RightPort then (p.sequence, x.sequence_buffer) :: arrivals rest
      else arrivals rest
    | Packet.ack _ => arrivals rest

/-- What the read of a snapshot packet of `sequence` makes of the sequence buffer (lines
478-480 and the decoding into the slot): the insert, when accepted, and the decoded
cubes in the slot. -/
def SequenceBuffer.read {Q : Nat} (b : SequenceBuffer Q) (sequence : Nat) (cubes : Cubes Q) :
    SequenceBuffer Q :=
  match b.Insert sequence with
  | none => b
  | some buffer => buffer.store sequence cubes

/-- Lines 13-40: `ConnectPacket`. -/
structure ConnectPacket where
  a : Int
  b : Int
  c : Int
  deriving DecidableEq, Repr

/-- Lines 24-29: `ConnectPacket::Serialize`. -/
def ConnectPacket.Serialize (m : StreamMode) : StreamM ConnectPacket Unit := do
  let p ← StreamM.getMem
  let a ← serialize_int m p.a (-10) 10
  StreamM.modifyMem (fun p => { p with a := a })
  let p ← StreamM.getMem
  let b ← serialize_int m p.b (-10) 10
  StreamM.modifyMem (fun p => { p with b := b })
  let p ← StreamM.getMem
  let c ← serialize_int m p.c (-10) 10
  StreamM.modifyMem (fun p => { p with c := c })

/-- Lines 31-34: `ConnectPacket::operator==`. -/
def ConnectPacket.equals (p other : ConnectPacket) : Bool :=
  decide (p.a = other.a) && decide (p.b = other.b) && decide (p.c = other.c)

/-- Lines 17-22: the packet the factory makes. -/
def ConnectPacket.fresh : ConnectPacket := { a := 1, b := 2, c := 3 }

/-- Lines 42-65: `UpdatePacket`; `timestamp` is a `uint16_t`. -/
structure UpdatePacket where
  timestamp : Nat
  deriving DecidableEq, Repr

/-- Lines 51-54: `UpdatePacket::Serialize`. -/
def UpdatePacket.Serialize (m : StreamMode) : StreamM UpdatePacket Unit := do
  let p ← StreamM.getMem
  let timestamp ← serialize_bits m p.timestamp 16
  StreamM.modifyMem (fun _ => { timestamp := timestamp })

/-- Lines 56-59: `UpdatePacket::operator==`. -/
def UpdatePacket.equals (p other : UpdatePacket) : Bool :=
  decide (p.timestamp = other.timestamp)

/-- Lines 46-49: the packet the factory makes. -/
def UpdatePacket.fresh : UpdatePacket := { timestamp := 0 }

/-- Lines 67-90: `DisconnectPacket`. -/
structure DisconnectPacket where
  x : Int
  deriving DecidableEq, Repr

/-- Lines 76-79: `DisconnectPacket::Serialize`. -/
def DisconnectPacket.Serialize (m : StreamMode) : StreamM DisconnectPacket Unit := do
  let p ← StreamM.getMem
  let x ← serialize_int m p.x (-100) 100
  StreamM.modifyMem (fun _ => { x := x })

/-- Lines 81-84: `DisconnectPacket::operator==`. -/
def DisconnectPacket.equals (p other : DisconnectPacket) : Bool :=
  decide (p.x = other.x)

/-- Lines 71-74: the packet the factory makes. -/
def DisconnectPacket.fresh : DisconnectPacket := { x := 2 }

/-! ## The network simulator of `NetworkSimulator.h`

Times are `double` and latency, jitter and packet loss are `float` in the source; here
they are values of a linearly ordered additive group `T`, in exact arithmetic. The
packets are values of a type `P`, the addresses of a type `A`; `nullptr` is `none`.
`random_float` and `rand` are not part of the sources at hand: what they return is an
input of the routine that calls them. -/

/-- Lines 14-24: `NetworkSimulatorConfig`. -/
structure NetworkSimulatorConfig where
  stateChance : Nat
  numPackets : Nat
  deriving DecidableEq, Repr

/-- Lines 20-23: the default configuration. -/
def NetworkSimulatorConfig.default : NetworkSimulatorConfig :=
  { stateChance := 1000, numPackets := 1024 }

/-- Lines 26-47: `NetworkSimulatorState`. -/
structure NetworkSimulatorState (T : Type) where
  latency : T
  jitter : T
  packetLoss : T

/-- Modelled from the spec: the injected `time_base { time, delta_time }` of
`Common.h`. -/
structure TimeBase (T : Type) where
  time : T
  deltaTime : T

/-- Lines 51-56: `PacketData`; the packet carries the address `SetAddress` gave it. -/
structure PacketData (A P T : Type) where
  packet : Option (A × P)
  dequeueTime : T
  packetNumber : Nat

/-- Lines 141-151: the fields of `NetworkSimulator`. -/
structure NetworkSimulator (A P T : Type) where
  m_config : NetworkSimulatorConfig
  m_timeBase : TimeBase T
  m_packetNumber : Nat
  m_packets : List (PacketData A P T)
  m_state : NetworkSimulatorState T
  m_states : List (NetworkSimulatorState T)

section SimulatorModel

variable {A P T : Type} [LinearOrderedAddCommGroup T]

/-- Lines 60-65: the constructor; `numPackets` empty slots, the default state, packet
number 0. -/
def NetworkSimulator.create (config : NetworkSimulatorConfig) : NetworkSimulator A P T :=
  { m_config := config
    m_timeBase := { time := 0, deltaTime := 0 }
    m_packetNumber := 0
    m_packets := List.replicate config.numPackets
      { packet := none, dequeueTime := 0, packetNumber := 0 }
    m_state := { latency := 0, jitter := 0, packetLoss := 0 }
    m_states := [] }

/-- Lines 67-70: `AddState`. -/
def NetworkSimulator.AddState (sim : NetworkSimulator A P T) (state : NetworkSimulatorState T) :
    NetworkSimulator A P T :=
  { sim with m_states := sim.m_states ++ [state] }

/-- Lines 72-92: `SendPacket`; `random` is what
`random_float( -m_state.jitter, +m_state.jitter )` returns. The loss roll of lines 82-83
is commented out in the source. The packet number is a `uint32_t`. -/
def NetworkSimulator.SendPacket (sim : NetworkSimulator A P T) (address : A) (packet : P)
    (random : T) : NetworkSimulator A P T :=
  let index := sim.m_packetNumber % sim.m_config.numPackets
  let delay := sim.m_state.latency + random
  { sim with
    m_packets := sim.m_packets.set index
      { packet := some (address, packet)
        packetNumber := sim.m_packetNumber
        dequeueTime := sim.m_timeBase.time + delay }
    m_packetNumber := (sim.m_packetNumber + 1) % 4294967296 }

/-- Lines 102-111: the loop of `ReceivePacket` over the slots from index `i` on;
`oldestPacket` is carried as the index and the content of the slot it points to. -/
def oldestPacketLoop :
    List (PacketData A P T) → Nat → Option (Nat × PacketData A P T) →
      Option (Nat × PacketData A P T)
  | [], _, oldestPacket => oldestPacket
  | x :: rest, i, oldestPacket =>
    match x.packet with
    | none => oldestPacketLoop rest (i + 1) oldestPacket
    | some _ =>
      match oldestPacket with
      | none => oldestPacketLoop rest (i + 1) (some (i, x))
      | some oldest =>
        if x.dequeueTime < oldest.2.dequeueTime then
          oldestPacketLoop rest (i + 1) (some (i, x))
        else oldestPacketLoop rest (i + 1) (some oldest)

/-- Lines 102-113: the slot `ReceivePacket` hands out, if any: the one `oldestPacket`
points to after the loop, when its dequeue time has come. -/
def NetworkSimulator.chosen (sim : NetworkSimulator A P T) :
    Option (Nat × PacketData A P T) :=
  match oldestPacketLoop sim.m_packets 0 none with
  | none => none
  | some oldest =>
    if oldest.2.dequeueTime ≤ sim.m_timeBase.time then some oldest else none

/-- Lines 100-122: `ReceivePacket`; it returns the packet, or none, and the simulator. -/
def NetworkSimulator.ReceivePacket (sim : NetworkSimulator A P T) :
    Option (A × P) × NetworkSimulator A P T :=
  match sim.chosen with
  | none => (none, sim)
  | some oldest =>
    (oldest.2.packet,
      { sim with m_packets := sim.m_packets.set oldest.1 { oldest.2 with packet := none } })

/-- Lines 124-134: `Update`; `rand1` and `rand2` are what the two calls of `rand()`
return, when they are made. -/
def NetworkSimulator.Update (sim : NetworkSimulator A P T) (timeBase : TimeBase T)
    (rand1 rand2 : Nat) : NetworkSimulator A P T :=
  let sim1 := { sim with m_timeBase := timeBase }
  if sim1.m_states.length ≠ 0 ∧ rand1 % sim1.m_config.stateChance = 0 then
    match sim1.m_states[rand2 % sim1.m_states.length]? with
    | some state => { sim1 with m_state := state }
    | none => sim1
  else sim1

/-- A call of one of the routines that send or configure: `SendPacket`, `Update`,
`AddState`. -/
inductive SimulatorCall (A P T : Type) where
  | send (address : A) (packet : P) (random : T)
  | update (timeBase : TimeBase T) (rand1 rand2 : Nat)
  | addState (state : NetworkSimulatorState T)

/-- The simulator after the call. -/
def NetworkSimulator.call (sim : NetworkSimulator A P T) :
    SimulatorCall A P T → NetworkSimulator A P T
  | SimulatorCall.send address packet random => sim.SendPacket address packet random
  | SimulatorCall.update timeBase rand1 rand2 => sim.Update timeBase rand1 rand2
  | SimulatorCall.addState state => sim.AddState state

/-- The simulator after the calls, in order. -/
def NetworkSimulator.calls (sim : NetworkSimulator A P T) :
    List (SimulatorCall A P T) → NetworkSimulator A P T
  | [] => sim
  | c :: rest => (sim.call c).calls rest

/-- The packets the calls send, in order, each with its address. -/
def sentPackets : List (SimulatorCall A P T) → List (A × P)
  | [] => []
  | SimulatorCall.send address packet _ :: rest => (address, packet) :: sentPackets rest
  | SimulatorCall.update _ _ _ :: rest => sentPackets rest
  | SimulatorCall.addState _ :: rest => sentPackets rest

/-- The slots `ReceivePacket` hands out in up to `n` successive calls that return a
packet, in order, and the simulator after them. -/
def NetworkSimulator.receiveLog :
    Nat → NetworkSimulator A P T → List (PacketData A P T) × NetworkSimulator A P T
  | 0, sim => ([], sim)
  | n + 1, sim =>
    match sim.chosen with
    | none => ([], sim)
    | some oldest =>
      let later := NetworkSimulator.receiveLog n sim.ReceivePacket.2
      (oldest.2 :: later.1, later.2)

/-- The packets up to `n` successive calls of `ReceivePacket` return, until one returns
none. -/
def NetworkSimulator.receiveMany :
    Nat → NetworkSimulator A P T → List (A × P) × NetworkSimulator A P T
  | 0, sim => ([], sim)
  | n + 1, sim =>
    match sim.ReceivePacket with
    | (none, _) => ([], sim)
    | (some packet, sim') =>
      let later := NetworkSimulator.receiveMany n sim'
      (packet :: later.1, later.2)

/-- A run of `Update` and `ReceivePacket` calls with no `SendPacket` among them: an entry
holds the arguments of an `Update`, or is none for a `ReceivePacket`. The result lists
the slots the `ReceivePacket` calls hand out, in order. -/
def NetworkSimulator.receiveRun :
    List (Option (TimeBase T × Nat × Nat)) → NetworkSimulator A P T → List (PacketData A P T)
  | [], _ => []
  | some u :: rest, sim => NetworkSimulator.receiveRun rest (sim.Update u.1 u.2.1 u.2.2)
  | none :: rest, sim =>
    match sim.chosen with
    | none => NetworkSimulator.receiveRun rest sim.ReceivePacket.2
    | some oldest => oldest.2 :: NetworkSimulator.receiveRun rest sim.ReceivePacket.2

/-- Ghost invariant of a simulator that has been sent the packets `sent`, in order, and
has received none: slot `i` is empty when no packet number below `sent.length` is `i`
modulo `N`, and otherwise holds the packet with the greatest such number. -/
def RingHolds (N : Nat) (sim : NetworkSimulator A P T) (sent : List (A × P)) : Prop :=
  sim.m_config.numPackets = N ∧ sim.m_packets.length = N ∧
  sim.m_packetNumber = sent.length ∧
  ∀ i, i < N → ∃ e, sim.m_packets[i]? = some e ∧
    ((e.packet = none ∧ ∀ m, m < sent.length → m % N ≠ i) ∨
     (e.packetNumber < sent.length ∧ e.packetNumber % N = i ∧
       e.packet = sent[e.packetNumber]? ∧
       ∀ m, m < sent.length → m % N = i → m ≤ e.packetNumber))

end SimulatorModel

/-- A simulator of two slots, for the examples; addresses and packets are numbers and
times are whole numbers. -/
def twoSlots : NetworkSimulatorConfig := { stateChance := 1000, numPackets := 2 }

/-- Two packets sent at time 0 with delays 5 and 1, then the clock moved to 10. -/
def exampleSends : List (SimulatorCall Nat Nat Int) :=
  [SimulatorCall.send 1000 10 5, SimulatorCall.send 1001 20 1,
    SimulatorCall.update { time := 10, deltaTime := 10 } 1 0]

/-- The simulator of two slots after `exampleSends`. -/
def exampleSimulator : NetworkSimulator Nat Nat Int :=
  (NetworkSimulator.create twoSlots).calls exampleSends

/-- A state of packet loss 100 is added and made the active one by an `Update` whose
first `rand()` is a multiple of `stateChance`. -/
def lossyCalls : List (SimulatorCall Nat Nat Int) :=
  [SimulatorCall.addState { latency := 0, jitter := 0, packetLoss := 100 },
    SimulatorCall.update { time := 0, deltaTime := 0 } 0 0]

/-- The simulator of two slots whose active state has packet loss 100. -/
def lossySimulator : NetworkSimulator Nat Nat Int :=
  (NetworkSimulator.create twoSlots).calls lossyCalls

/-- Three packets sent to a simulator of two slots. -/
def overwriteSends : List (SimulatorCall Nat Nat Int) :=
  [SimulatorCall.send 1000 10 0, SimulatorCall.send 1000 11 0, SimulatorCall.send 1000 12 0]

/-- Whether the call is an `Update` whose first `rand()` is a multiple of `stateChance`:
the only call that can pick a new active state (line 128). -/
def SimulatorCall.selects {A P T : Type} (stateChance : Nat) : SimulatorCall A P T → Bool
  | SimulatorCall.update _ rand1 _ => decide (rand1 % stateChance = 0)
  | _ => false

/-- A state added, a packet sent, and an `Update` whose first `rand()` is not a multiple
of `stateChance`. -/
def quietCalls : List (SimulatorCall Nat Nat Int) :=
  [SimulatorCall.addState { latency := 3, jitter := 1, packetLoss := 0 },
    SimulatorCall.send 1000 10 0,
    SimulatorCall.update { time := 4, deltaTime := 4 } 1 0]

/-- The simulator of two slots after `exampleSends` and the two `ReceivePacket` calls
that hand both packets out: every slot is empty again and the packet number is 2. -/
def drainedSimulator : NetworkSimulator Nat Nat Int :=
  (exampleSimulator.receiveMany 2).2

/-- Two more packets sent with delays 2 and 1, then the clock moved to 20. -/
def laterSends : List (SimulatorCall Nat Nat Int) :=
  [SimulatorCall.send 1000 30 2, SimulatorCall.send 1001 40 1,
    SimulatorCall.update { time := 20, deltaTime := 10 } 1 0]

/-- A state of latency 3 and jitter 2 is added and made the active one by an `Update`
that moves the clock to 4 and whose first `rand()` is a multiple of `stateChance`. -/
def jitterCalls : List (SimulatorCall Nat Nat Int) :=
  [SimulatorCall.addState { latency := 3, jitter := 2, packetLoss := 0 },
    SimulatorCall.update { time := 4, deltaTime := 4 } 0 0]

/-- The simulator of two slots at clock 4 whose active state has latency 3 and jitter 2. -/
def jitterSimulator : NetworkSimulator Nat Nat Int :=
  (NetworkSimulator.create twoSlots).calls jitterCalls

/-! ## The data block fragment packet of `ClientServerPackets.h` -/

/-- Modelled from the spec: `serialize_uint32(value)`, 32 bits. -/
def serialize_uint32 {σ : Type} (m : StreamMode) (value : Nat) : StreamM σ Nat :=
  serialize_bits m value 32

/-- Modelled from the spec: `serialize_align()` pads to the next byte boundary. Writing
emits zero bits up to a multiple of 8, measuring counts them; the buffer a reader is
given is a whole number of bytes, so the reader skips the remaining bits modulo 8, and
it fails when one of them is set. -/
def serialize_align {σ : Type} (m : StreamMode) : StreamM σ Unit :=
  fun s =>
    match m with
    | .writing =>
      (Except.ok (),
        ({ s.1 with bits := s.1.bits ++ List.replicate ((8 - s.1.bits.length % 8) % 8) false },
          s.2))
    | .measuring =>
      (Except.ok (), ({ s.1 with measured := s.1.measured + (8 - s.1.measured % 8) % 8 }, s.2))
    | .reading =>
      if (s.1.bits.take (s.1.bits.length % 8)).all (fun b => !b) then
        (Except.ok (), ({ s.1 with bits := s.1.bits.drop (s.1.bits.length % 8) }, s.2))
      else (Except.error Failure.misaligned, s)

/-- The raw copy of `serialize_bytes`: `n` bytes of the buffer `data`, one after the
other; it returns the bytes the buffer holds in their place afterwards. -/
def serialize_bytes_loop {σ : Type} (m : StreamMode) : List Nat → Nat → StreamM σ (List Nat)
  | _, 0 => pure []
  | data, n + 1 => do
    let byte ← serialize_bits m (data.headD 0) 8
    let rest ← serialize_bytes_loop m data.tail n
    pure (byte :: rest)

/-- Modelled from the spec: `serialize_bytes(buf, n)` aligns to the next byte boundary,
then copies the `n` bytes raw. -/
def serialize_bytes {σ : Type} (m : StreamMode) (data : List Nat) (n : Nat) :
    StreamM σ (List Nat) := do
  serialize_align m
  serialize_bytes_loop m data n

/-- Lines 182-192: the fields of `DataBlockFragmentPacket`; `fragmentData` is a null
pointer or a buffer of bytes. -/
structure DataBlockFragmentPacket where
  clientId : Nat
  serverId : Nat
  blockSize : Nat
  fragmentSize : Nat
  numFragments : Nat
  fragmentId : Nat
  fragmentBytes : Nat
  fragmentData : Option (List Nat)
  deriving DecidableEq, Repr

/-- Lines 194-198: the packet the constructor makes; a bit field the constructor leaves
unset is taken as 0. -/
def DataBlockFragmentPacket.fresh : DataBlockFragmentPacket :=
  { clientId := 0, serverId := 0, blockSize := 0, fragmentSize := 0, numFragments := 0,
    fragmentId := 0, fragmentBytes := 0, fragmentData := none }

/-- Lines 208-231: `DataBlockFragmentPacket::Serialize`. The constant
`protocol::MaxFragmentSize` is not part of the sources at hand and is a parameter. The
scratch allocator hands out a buffer of `fragmentBytes` bytes, taken as zeroed. -/
def DataBlockFragmentPacket.Serialize (MaxFragmentSize : Nat) (m : StreamMode) :
    StreamM DataBlockFragmentPacket Unit := do
  let p ← StreamM.getMem
  if m.IsWriting ∧ ¬ p.fragmentSize ≤ MaxFragmentSize then StreamM.fail Failure.assertion
  else pure ()
  let p ← StreamM.getMem
  let clientId ← serialize_uint16 m p.clientId
  StreamM.modifyMem (fun p => { p with clientId := clientId })
  let p ← StreamM.getMem
  let serverId ← serialize_uint16 m p.serverId
  StreamM.modifyMem (fun p => { p with serverId := serverId })
  let p ← StreamM.getMem
  let blockSize ← serialize_uint32 m p.blockSize
  StreamM.modifyMem (fun p => { p with blockSize := blockSize })
  let p ← StreamM.getMem
  let numFragments ← serialize_bits m p.numFragments 16
  StreamM.modifyMem (fun p => { p with numFragments := numFragments })
  let p ← StreamM.getMem
  let fragmentSize ← serialize_bits m p.fragmentSize 16
  StreamM.modifyMem (fun p => { p with fragmentSize := fragmentSize })
  let p ← StreamM.getMem
  let fragmentId ← serialize_bits m p.fragmentId 16
  StreamM.modifyMem (fun p => { p with fragmentId := fragmentId })
  let p ← StreamM.getMem
  let fragmentBytes ← serialize_bits m p.fragmentBytes 16
  StreamM.modifyMem (fun p => { p with fragmentBytes := fragmentBytes })
  let p ← StreamM.getMem
  if m.IsReading then
    if p.fragmentSize ≤ MaxFragmentSize then
      StreamM.modifyMem (fun p =>
        { p with fragmentData := some (List.replicate p.fragmentBytes 0) })
    else StreamM.fail Failure.assertion
  else pure ()
  let p ← StreamM.getMem
  match p.fragmentData with
  | none => StreamM.fail Failure.assertion
  | some data => do
    let bytes ← serialize_bytes m data p.fragmentBytes
    StreamM.modifyMem (fun p =>
      { p with fragmentData := some (bytes ++ data.drop p.fragmentBytes) })

/-- The bits of a list of bytes. -/
def bytesBits : List Nat → List Bool
  | [] => []
  | byte :: rest => toBits 8 byte ++ bytesBits rest

/-- The bits of a fragment packet whose buffer holds `data`, written from a byte
boundary: 128 bits of header, then the bytes. -/
def fragmentImage (p : DataBlockFragmentPacket) (data : List Nat) : List Bool :=
  toBits 16 p.clientId ++ (toBits 16 p.serverId ++ (toBits 32 p.blockSize ++
    (toBits 16 p.numFragments ++ (toBits 16 p.fragmentSize ++ (toBits 16 p.fragmentId ++
      (toBits 16 p.fragmentBytes ++ bytesBits data))))))

/-- A fragment of three bytes in a packet that declares a fragment size of one byte. -/
def oversizedFragment : DataBlockFragmentPacket :=
  { clientId := 1, serverId := 2, blockSize := 3, fragmentSize := 1, numFragments := 1,
    fragmentId := 0, fragmentBytes := 3, fragmentData := some [7, 8, 9] }

/-- A routine that leaves the memory it works on as it found it, whether it runs to its
end or fails. -/
def Keeps {σ α : Type} (x : StreamM σ α) : Prop :=
  ∀ s : Stream × σ, (x.run s).2.2 = s.2

/-! ## The console of `Console.cpp`

A `char` is held as its code, `0` being NUL, and a `char` array is seen through the
pointer to its first element: the `char` at each offset. The array itself is the offsets
`0 .. MaxLine - 1`. -/

/-- Line 17. -/
def MaxLine : Int := 256

/-- Line 18. -/
def CommandHistorySize : Int := 256

/-- The fields of `ConsoleInternal` the command line works on (lines 61-67). -/
structure ConsoleInternal where
  commandHistoryIsEmpty : Bool
  commandCursorPosition : Int
  commandLength : Int
  commandHistoryIndex : Int
  commandHistorySelection : Int
  commandString : Int → Nat
  commandHistory : Int → Int → Nat

/-- Lines 22-38: the constructor. -/
def ConsoleInternal.create : ConsoleInternal :=
  { commandHistoryIsEmpty := true
    commandCursorPosition := 0
    commandLength := 0
    commandHistoryIndex := 0
    commandHistorySelection := -1
    commandString := fun _ => 0
    commandHistory := fun _ _ => 0 }

/-- The call `memset( array, 0, size )` of the C library. -/
def memsetZero (array : Int → Nat) (size : Int) : Int → Nat :=
  fun k => if 0 ≤ k ∧ k < size then 0 else array k

/-- The scan of `strlen` of the C library from offset `i` on: the offset of the first
NUL, looking at `n` characters at most. -/
def strlenFrom (string : Int → Nat) : Nat → Int → Int
  | 0, i => i
  | n + 1, i => if string i = 0 then i else strlenFrom string n (i + 1)

/-- The call `strlen( string )` on an array of `MaxLine` characters. -/
def strlen (string : Int → Nat) : Int :=
  strlenFrom string MaxLine.toNat 0

/-- The scan of `strcmp( a, b ) == 0` of the C library from offset `i` on, looking at
`n` characters at most: the strings agree up to and including the first NUL. -/
def strcmpEqFrom (a b : Int → Nat) : Nat → Int → Bool
  | 0, _ => true
  | n + 1, i =>
    if a i ≠ b i then false
    else if a i = 0 then true
    else strcmpEqFrom a b n (i + 1)

/-- The test `strcmp( a, b ) == 0` on strings held in arrays of `MaxLine` characters. -/
def strcmpEq (a b : Int → Nat) : Bool :=
  strcmpEqFrom a b MaxLine.toNat 0

/-- The helper `strncpy_safe( dst, src, n )` is not part of the sources at hand; it is
taken as `strncpy( dst, src, n )` followed by `dst[n-1] = 0`: the characters of `src`
before its first NUL, `n - 1` at most, and NUL in the rest of the `n` characters. -/
def strncpy_safe (dst src : Int → Nat) (n : Int) : Int → Nat :=
  fun k =>
    if 0 ≤ k ∧ k < n then (if k < strlenFrom src (n - 1).toNat 0 then src k else 0)
    else dst k

/-- Lines 81-87: `ClearCommandString`. -/
def ConsoleInternal.ClearCommandString (c : ConsoleInternal) : ConsoleInternal :=
  { c with
    commandLength := 0
    commandCursorPosition := 0
    commandString := memsetZero c.commandString MaxLine
    commandHistorySelection := -1 }

/-- Lines 95-96: the loop `for ( int i = commandLength; i > commandCursorPosition; --i )
commandString[i] = commandString[i-1]`, at `i` with `n` iterations in hand. -/
def shiftRightLoop (commandCursorPosition : Int) : Nat → Int → (Int → Nat) → (Int → Nat)
  | 0, _, commandString => commandString
  | n + 1, i, commandString =>
    if i > commandCursorPosition then
      shiftRightLoop commandCursorPosition n (i - 1)
        (Function.update commandString i (commandString (i - 1)))
    else commandString

/-- Lines 89-104: `CharacterTyped`. The test of line 91 compares with the unsigned
`sizeof( commandString ) - 1`, which no negative `commandLength` is below. The loop
makes `commandLength - commandCursorPosition` iterations. -/
def ConsoleInternal.CharacterTyped (c : ConsoleInternal) (character : Nat) : ConsoleInternal :=
  if 0 ≤ c.commandLength ∧ c.commandLength < MaxLine - 1 then
    let shifted :=
      if c.commandCursorPosition < c.commandLength then
        shiftRightLoop c.commandCursorPosition (c.commandLength - c.commandCursorPosition).toNat
          c.commandLength c.commandString
      else c.commandString
    { c with
      commandString := Function.update shifted c.commandCursorPosition character
      commandCursorPosition := c.commandCursorPosition + 1
      commandLength := c.commandLength + 1 }
  else c

/-- Lines 116-117: the loop `for ( int i = commandCursorPosition; i < commandLength; ++i )
commandString[i-1] = commandString[i]`, at `i` with `n` iterations in hand. -/
def shiftLeftLoop (commandLength : Int) : Nat → Int → (Int → Nat) → (Int → Nat)
  | 0, _, commandString => commandString
  | n + 1, i, commandString =>
    if i < commandLength then
      shiftLeftLoop commandLength n (i + 1)
        (Function.update commandString (i - 1) (commandString i))
    else commandString

/-- Lines 106-124: `Backspace`. The loop makes `commandLength - commandCursorPosition`
iterations. -/
def ConsoleInternal.Backspace (c : ConsoleInternal) : ConsoleInternal :=
  if c.commandLength = 0 then c
  else if c.commandCursorPosition = 0 then c
  else
    let shifted :=
      if c.commandCursorPosition < c.commandLength then
        shiftLeftLoop c.commandLength (c.commandLength - c.commandCursorPosition).toNat
          c.commandCursorPosition c.commandString
      else c.commandString
    { c with
      commandString := Function.update shifted (c.commandLength - 1) 0
      commandLength := c.commandLength - 1
      commandCursorPosition := c.commandCursorPosition - 1 }

/-- Lines 126-130: `CursorLeft`. -/
def ConsoleInternal.CursorLeft (c : ConsoleInternal) : ConsoleInternal :=
  if c.commandCursorPosition > 0 then
    { c with commandCursorPosition := c.commandCursorPosition - 1 }
  else c

/-- Lines 132-136: `CursorRight`. -/
def ConsoleInternal.CursorRight (c : ConsoleInternal) : ConsoleInternal :=
  if c.commandCursorPosition < c.commandLength then
    { c with commandCursorPosition := c.commandCursorPosition + 1 }
  else c

/-- Lines 138-141: `CursorBegin`. -/
def ConsoleInternal.CursorBegin (c : ConsoleInternal) : ConsoleInternal :=
  { c with commandCursorPosition := 0 }

/-- Lines 143-146: `CursorEnd`. -/
def ConsoleInternal.CursorEnd (c : ConsoleInternal) : ConsoleInternal :=
  { c with commandCursorPosition := c.commandLength }

/-- Lines 151-153: `previousIndex`. -/
def ConsoleInternal.previousIndex (c : ConsoleInternal) : Int :=
  if c.commandHistoryIndex - 1 < 0 then c.commandHistoryIndex - 1 + CommandHistorySize
  else c.commandHistoryIndex - 1

/-- Lines 148-161: `AddToCommandHistory( string )`; `%=` is the remainder of C, which
truncates. -/
def ConsoleInternal.AddToCommandHistory (c : ConsoleInternal) (string : Int → Nat) :
    ConsoleInternal :=
  if strcmpEq string (c.commandHistory c.previousIndex) then c
  else
    { c with
      commandHistory := Function.update c.commandHistory c.commandHistoryIndex
        (strncpy_safe (c.commandHistory c.commandHistoryIndex) string MaxLine)
      commandHistoryIndex := (c.commandHistoryIndex + 1).tmod CommandHistorySize
      commandHistoryIsEmpty := false }

/-- Lines 179-186 (and 208-215): the command of the selected history line is copied
into the command string. -/
def ConsoleInternal.loadSelection (c : ConsoleInternal) : ConsoleInternal :=
  let commandString :=
    strncpy_safe (memsetZero c.commandString MaxLine) (c.commandHistory c.commandHistorySelection)
      MaxLine
  ConsoleInternal.CursorEnd
    { c with commandString := commandString, commandLength := strlen commandString }

/-- Lines 176-177: the selection moves on by one, around the end of the history. -/
def ConsoleInternal.selectNext (c : ConsoleInternal) : ConsoleInternal :=
  { c with commandHistorySelection := (c.commandHistorySelection + 1).tmod CommandHistorySize }

/-- Lines 205-207: the selection moves back by one, around the start of the history. -/
def ConsoleInternal.selectPrevious (c : ConsoleInternal) : ConsoleInternal :=
  { c with
    commandHistorySelection :=
      if c.commandHistorySelection - 1 < 0 then
        c.commandHistorySelection - 1 + CommandHistorySize
      else c.commandHistorySelection - 1 }

/-- Lines 174-187: the loop of `NextCommandInHistory`, with `n` iterations left. -/
def ConsoleInternal.nextLoop : Nat → ConsoleInternal → ConsoleInternal
  | 0, c => c
  | n + 1, c =>
    if c.selectNext.commandHistory c.selectNext.commandHistorySelection 0 ≠ 0 then
      c.selectNext.loadSelection
    else ConsoleInternal.nextLoop n c.selectNext

/-- Lines 203-216: the loop of `PrevCommandInHistory`, with `n` iterations left. -/
def ConsoleInternal.prevLoop : Nat → ConsoleInternal → ConsoleInternal
  | 0, c => c
  | n + 1, c =>
    if c.selectPrevious.commandHistory c.selectPrevious.commandHistorySelection 0 ≠ 0 then
      c.selectPrevious.loadSelection
    else ConsoleInternal.prevLoop n c.selectPrevious

/-- Lines 168-172 (and 196-200): on the first step into the history the selection
starts at the history index and the command being edited is added to the history. -/
def ConsoleInternal.enterHistory (c : ConsoleInternal) : ConsoleInternal :=
  if c.commandHistorySelection = -1 then
    ConsoleInternal.AddToCommandHistory
      { c with commandHistorySelection := c.commandHistoryIndex } c.commandString
  else c

/-- Lines 163-189: `NextCommandInHistory`. -/
def ConsoleInternal.NextCommandInHistory (c : ConsoleInternal) : ConsoleInternal :=
  if c.commandHistoryIsEmpty then c
  else ConsoleInternal.nextLoop CommandHistorySize.toNat c.enterHistory

/-- Lines 191-218: `PrevCommandInHistory`. -/
def ConsoleInternal.PrevCommandInHistory (c : ConsoleInternal) : ConsoleInternal :=
  if c.commandHistoryIsEmpty then c
  else ConsoleInternal.prevLoop CommandHistorySize.toNat c.enterHistory

/-- Lines 246-252: the Enter key, as far as the command line goes:
`AddToCommandHistory( commandString )`, then `ClearCommandString`. -/
def ConsoleInternal.Enter (c : ConsoleInternal) : ConsoleInternal :=
  (c.AddToCommandHistory c.commandString).ClearCommandString

/-- A call of one of the routines of `ConsoleInternal` that work on the command line. -/
inductive ConsoleCall where
  | characterTyped (character : Nat)
  | backspace
  | cursorLeft
  | cursorRight
  | cursorBegin
  | cursorEnd
  | clearCommandString
  | prevCommandInHistory
  | nextCommandInHistory
  | addToCommandHistory (string : Int → Nat)
  | enter

/-- The character typed is not NUL. -/
def ConsoleCall.valid : ConsoleCall → Bool
  | ConsoleCall.characterTyped character => decide (character ≠ 0)
  | _ => true

/-- The console after the call. -/
def ConsoleInternal.call (c : ConsoleInternal) : ConsoleCall → ConsoleInternal
  | ConsoleCall.characterTyped character => c.CharacterTyped character
  | ConsoleCall.backspace => c.Backspace
  | ConsoleCall.cursorLeft => c.CursorLeft
  | ConsoleCall.cursorRight => c.CursorRight
  | ConsoleCall.cursorBegin => c.CursorBegin
  | ConsoleCall.cursorEnd => c.CursorEnd
  | ConsoleCall.clearCommandString => c.ClearCommandString
  | ConsoleCall.prevCommandInHistory => c.PrevCommandInHistory
  | ConsoleCall.nextCommandInHistory => c.NextCommandInHistory
  | ConsoleCall.addToCommandHistory string => c.AddToCommandHistory string
  | ConsoleCall.enter => c.Enter

/-- The console after the calls, in order. -/
def ConsoleInternal.calls (c : ConsoleInternal) : List ConsoleCall → ConsoleInternal
  | [] => c
  | call :: rest => (c.call call).calls rest

/-- The array holds a string of `length` characters: no NUL before offset `length`, NUL
at offset `length`. -/
def IsString (string : Int → Nat) (length : Int) : Prop :=
  0 ≤ length ∧ (∀ k, 0 ≤ k → k < length → string k ≠ 0) ∧ string length = 0

/-- What the routines keep true of the console: the cursor lies within the command, the
command is shorter than `MaxLine`, it has no NUL before `commandLength` and only NUL from
there to the end of the array; the history index lies within the history; and while the
history is flagged empty every history line is empty. -/
def ConsoleInternal.Invariant (c : ConsoleInternal) : Prop :=
  0 ≤ c.commandCursorPosition ∧ c.commandCursorPosition ≤ c.commandLength ∧
  c.commandLength ≤ MaxLine - 1 ∧
  (∀ k, 0 ≤ k → k < c.commandLength → c.commandString k ≠ 0) ∧
  (∀ k, c.commandLength ≤ k → k < MaxLine → c.commandString k = 0) ∧
  0 ≤ c.commandHistoryIndex ∧ c.commandHistoryIndex < CommandHistorySize ∧
  (c.commandHistoryIsEmpty = true → ∀ line, c.commandHistory line 0 = 0)

/-- The characters of a string given as a list, as an array: the characters, then NUL. -/
def stringOf (l : List Nat) : Int → Nat :=
  fun k => if 0 ≤ k then l.getD k.toNat 0 else 0

/-- The keys `h`, `i` and cursor left. -/
def exampleKeys : List ConsoleCall :=
  [ConsoleCall.characterTyped 104, ConsoleCall.characterTyped 105, ConsoleCall.cursorLeft]

/-- A fresh console after `exampleKeys`: the command `hi` with the cursor before `i`. -/
def exampleConsole : ConsoleInternal :=
  ConsoleInternal.create.calls exampleKeys

/-- The command `quit`. -/
def quitCommand : Int → Nat := stringOf [113, 117, 105, 116]

/-! ## Properties -/

section Substrate

variable {σ α β : Type}

theorem run_pure (a : α) (s : Stream × σ) :
    (pure a : StreamM σ α).run s = (Except.ok a, s) := rfl

theorem run_bind (x : StreamM σ α) (f : α → StreamM σ β) (s : Stream × σ) :
    (x >>= f).run s =
      match x.run s with
      | (Except.ok a, s') => (f a).run s'
      | (Except.error e, s') => (Except.error e, s') := rfl

theorem run_bind_ok (x : StreamM σ α) (f : α → StreamM σ β) (s s' : Stream × σ) (a : α)
    (h : x.run s = (Except.ok a, s')) : (x >>= f).run s = (f a).run s' := by
  rw [run_bind, h]

theorem run_bind_error (x : StreamM σ α) (f : α → StreamM σ β) (s s' : Stream × σ)
    (e : Failure) (h : x.run s = (Except.error e, s')) :
    (x >>= f).run s = (Except.error e, s') := by
  rw [run_bind, h]

theorem run_fail (e : Failure) (s : Stream × σ) :
    (StreamM.fail e : StreamM σ α).run s = (Except.error e, s) := rfl

theorem run_getMem (s : Stream × σ) :
    (StreamM.getMem : StreamM σ σ).run s = (Except.ok s.2, s) := rfl

theorem run_modifyMem (f : σ → σ) (s : Stream × σ) :
    (StreamM.modifyMem f).run s = (Except.ok (), (s.1, f s.2)) := rfl

theorem run_ite (c : Prop) [Decidable c] (x y : StreamM σ α) (s : Stream × σ) :
    (if c then x else y).run s = if c then x.run s else y.run s := by
  split <;> rfl

theorem length_toBits (n v : Nat) : (toBits n v).length = n := by
  induction n generalizing v with
  | zero => rfl
  | succ n ih => simp [toBits, ih]

theorem fromBits_toBits (n v : Nat) (h : v < 2 ^ n) : fromBits (toBits n v) = v := by
  induction n generalizing v with
  | zero =>
    have : v = 0 := by simpa using h
    simp [toBits, fromBits, this]
  | succ n ih =>
    have h2 : v / 2 < 2 ^ n := by
      rw [Nat.div_lt_iff_lt_mul (by decide)]
      simpa [Nat.pow_succ] using h
    simp only [toBits, fromBits, ih _ h2]
    rcases Nat.mod_two_eq_zero_or_one v with h0 | h1
    · simp [h0]; omega
    · simp [h1]; omega

theorem lt_two_pow_bitLength (fuel r : Nat) (h : r ≤ fuel) : r < 2 ^ bitLength fuel r := by
  induction fuel generalizing r with
  | zero =>
    have : r = 0 := by omega
    simp [bitLength, this]
  | succ fuel ih =>
    unfold bitLength
    split
    · next h0 => simp [h0]
    · next h0 =>
      have := ih (r / 2) (by omega)
      rw [Nat.pow_add, Nat.pow_one, Nat.mul_comm]
      omega

theorem intBits_length (min max value : Int) :
    (intBits min max value).length = bits_required min max := by
  simp [intBits, length_toBits]

theorem toNat_lt_two_pow_bits_required (min max value : Int) (_h1 : min ≤ value)
    (h2 : value ≤ max) : (value - min).toNat < 2 ^ bits_required min max := by
  have h : (value - min).toNat ≤ (max - min).toNat := by omega
  unfold bits_required
  have hb := lt_two_pow_bitLength (max - min).toNat (max - min).toNat (le_refl _)
  omega

theorem run_serialize_bits_writing (value n : Nat) (bs : List Bool) (c : Nat) (mem : σ) :
    (serialize_bits StreamMode.writing value n).run (⟨bs, c⟩, mem) =
      (Except.ok value, (⟨bs ++ toBits n value, c⟩, mem)) := rfl

theorem run_serialize_bits_measuring (value n : Nat) (bs : List Bool) (c : Nat) (mem : σ) :
    (serialize_bits StreamMode.measuring value n).run (⟨bs, c⟩, mem) =
      (Except.ok value, (⟨bs, c + n⟩, mem)) := rfl

theorem run_serialize_bits_reading (v0 value n : Nat) (h : value < 2 ^ n) (rest : List Bool)
    (c : Nat) (mem : σ) :
    (serialize_bits StreamMode.reading v0 n).run (⟨toBits n value ++ rest, c⟩, mem) =
      (Except.ok value, (⟨rest, c⟩, mem)) := by
  simp [serialize_bits, StreamM.run, length_toBits, fromBits_toBits n value h,
    List.take_left' (length_toBits n value), List.drop_left' (length_toBits n value)]

theorem run_serialize_bool_writing (b : Bool) (bs : List Bool) (c : Nat) (mem : σ) :
    (serialize_bool StreamMode.writing b).run (⟨bs, c⟩, mem) =
      (Except.ok b, (⟨bs ++ [b], c⟩, mem)) := by
  cases b <;> rfl

theorem run_serialize_bool_measuring (b : Bool) (bs : List Bool) (c : Nat) (mem : σ) :
    (serialize_bool StreamMode.measuring b).run (⟨bs, c⟩, mem) =
      (Except.ok b, (⟨bs, c + 1⟩, mem)) := by
  cases b <;> rfl

theorem run_serialize_bool_reading (b0 b : Bool) (rest : List Bool) (c : Nat) (mem : σ) :
    (serialize_bool StreamMode.reading b0).run (⟨b :: rest, c⟩, mem) =
      (Except.ok b, (⟨rest, c⟩, mem)) := by
  cases b <;> cases b0 <;> rfl

theorem run_serialize_int_writing (value min max : Int) (h1 : min ≤ value) (h2 : value ≤ max)
    (bs : List Bool) (c : Nat) (mem : σ) :
    (serialize_int StreamMode.writing value min max).run (⟨bs, c⟩, mem) =
      (Except.ok value, (⟨bs ++ intBits min max value, c⟩, mem)) := by
  simp [serialize_int, StreamMode.IsWriting, h1, h2, run_bind, run_serialize_bits_writing,
    run_pure, intBits]

theorem run_serialize_int_measuring (value min max : Int) (h1 : min ≤ value) (h2 : value ≤ max)
    (bs : List Bool) (c : Nat) (mem : σ) :
    (serialize_int StreamMode.measuring value min max).run (⟨bs, c⟩, mem) =
      (Except.ok value, (⟨bs, c + bits_required min max⟩, mem)) := by
  simp [serialize_int, StreamMode.IsWriting, h1, h2, run_bind, run_serialize_bits_measuring,
    run_pure]

theorem run_serialize_int_reading (v0 value min max : Int) (h1 : min ≤ value)
    (h2 : value ≤ max) (rest : List Bool) (c : Nat) (mem : σ) :
    (serialize_int StreamMode.reading v0 min max).run (⟨intBits min max value ++ rest, c⟩, mem) =
      (Except.ok value, (⟨rest, c⟩, mem)) := by
  have hlt := toNat_lt_two_pow_bits_required min max value h1 h2
  have hv : min + ((value - min).toNat : Int) = value := by omega
  simp only [serialize_int, StreamMode.IsWriting, Bool.false_eq_true, if_false, run_bind,
    intBits, run_serialize_bits_reading 0 _ _ hlt, hv, h2, if_true, run_pure]

theorem run_quaternion_writing {Q : Nat} (q : CompressedQuaternion Q) (bs : List Bool)
    (c : Nat) (mem : σ) :
    (q.Serialize StreamMode.writing).run (⟨bs, c⟩, mem) =
      (Except.ok q, (⟨bs ++ quatBits q, c⟩, mem)) := by
  obtain ⟨⟨l, hl⟩, ⟨x, hx⟩, ⟨y, hy⟩, ⟨z, hz⟩⟩ := q
  simp only [CompressedQuaternion.Serialize, run_bind, run_serialize_bits_writing, run_pure,
    quatBits, List.append_assoc, Nat.mod_eq_of_lt hl, Nat.mod_eq_of_lt hx, Nat.mod_eq_of_lt hy,
    Nat.mod_eq_of_lt hz]

theorem run_quaternion_measuring {Q : Nat} (q : CompressedQuaternion Q) (bs : List Bool)
    (c : Nat) (mem : σ) :
    (q.Serialize StreamMode.measuring).run (⟨bs, c⟩, mem) =
      (Except.ok q, (⟨bs, c + (2 + 3 * Q)⟩, mem)) := by
  obtain ⟨⟨l, hl⟩, ⟨x, hx⟩, ⟨y, hy⟩, ⟨z, hz⟩⟩ := q
  simp only [CompressedQuaternion.Serialize, run_bind, run_serialize_bits_measuring, run_pure,
    Nat.mod_eq_of_lt hl, Nat.mod_eq_of_lt hx, Nat.mod_eq_of_lt hy, Nat.mod_eq_of_lt hz]
  have : c + 2 + Q + Q + Q = c + (2 + 3 * Q) := by omega
  rw [this]

theorem run_quaternion_reading {Q : Nat} (q0 q : CompressedQuaternion Q) (rest : List Bool)
    (c : Nat) (mem : σ) :
    (q0.Serialize StreamMode.reading).run (⟨quatBits q ++ rest, c⟩, mem) =
      (Except.ok q, (⟨rest, c⟩, mem)) := by
  obtain ⟨⟨l, hl⟩, ⟨x, hx⟩, ⟨y, hy⟩, ⟨z, hz⟩⟩ := q
  simp only [CompressedQuaternion.Serialize, run_bind, quatBits, List.append_assoc,
    run_serialize_bits_reading _ l 2 hl, run_serialize_bits_reading _ x Q hx,
    run_serialize_bits_reading _ y Q hy, run_serialize_bits_reading _ z Q hz, run_pure,
    Nat.mod_eq_of_lt hl, Nat.mod_eq_of_lt hx, Nat.mod_eq_of_lt hy, Nat.mod_eq_of_lt hz]

theorem quatBits_length {Q : Nat} (q : CompressedQuaternion Q) :
    (quatBits q).length = 2 + 3 * Q := by
  simp only [quatBits, List.length_append, length_toBits]
  omega

end Substrate

section CubeRoutines

variable {Q : Nat}

theorem run_cubeAt (i : Nat) (s : Stream × Cubes Q) :
    (cubeAt i).run s = (Except.ok (s.2 i), s) := rfl

theorem run_baseAt (base : BaseRef Q) (i : Nat) (s : Stream × Cubes Q) :
    (baseAt base i).run s = (Except.ok (base.get s.2 i), s) := rfl

theorem run_setCube (i : Nat) (f : QuantizedCubeState Q → QuantizedCubeState Q)
    (s : Stream × Cubes Q) :
    (setCube i f).run s = (Except.ok (), (s.1, Function.update s.2 i (f (s.2 i)))) := rfl

theorem run_copyBase (base : BaseRef Q) (i : Nat) (s : Stream × Cubes Q) :
    (copyBase base i).run s = (Except.ok (), (s.1, Function.update s.2 i (base.get s.2 i))) := rfl

theorem run_orientation_writing (i : Nat) (bs : List Bool) (c : Nat) (S : Cubes Q) :
    (serialize_orientation StreamMode.writing i).run (⟨bs, c⟩, S) =
      (Except.ok (), (⟨bs ++ quatBits (S i).orientation, c⟩, S)) := by
  simp only [serialize_orientation, run_bind, run_cubeAt, run_quaternion_writing, run_setCube,
    Function.update_eq_self]

theorem run_orientation_measuring (i : Nat) (bs : List Bool) (c : Nat) (S : Cubes Q) :
    (serialize_orientation StreamMode.measuring i).run (⟨bs, c⟩, S) =
      (Except.ok (), (⟨bs, c + (2 + 3 * Q)⟩, S)) := by
  simp only [serialize_orientation, run_bind, run_cubeAt, run_quaternion_measuring, run_setCube,
    Function.update_eq_self]

theorem run_orientation_reading (i : Nat) (q : CompressedQuaternion Q) (rest : List Bool)
    (c : Nat) (mem : Cubes Q) :
    (serialize_orientation StreamMode.reading i).run (⟨quatBits q ++ rest, c⟩, mem) =
      (Except.ok (), (⟨rest, c⟩, Function.update mem i { mem i with orientation := q })) := by
  simp only [serialize_orientation, run_bind, run_cubeAt, run_quaternion_reading _ q,
    run_setCube]

theorem run_cube_absolute_writing (K : Constants) (i : Nat) (bs : List Bool) (c : Nat)
    (S : Cubes Q) (h : InBounds K (S i)) :
    (serialize_cube_absolute K StreamMode.writing i).run (⟨bs, c⟩, S) =
      (Except.ok (), (⟨bs ++ absoluteBits K (S i), c⟩, S)) := by
  obtain ⟨h1, h2, h3, h4, h5, h6⟩ := h
  simp only [serialize_cube_absolute, run_bind, run_cubeAt, run_serialize_bool_writing,
    run_setCube, Function.update_eq_self, run_serialize_int_writing _ _ _ h1 h2,
    run_serialize_int_writing _ _ _ h3 h4, run_serialize_int_writing _ _ _ h5 h6,
    run_orientation_writing, absoluteBits, List.append_assoc, List.singleton_append,
    List.cons_append, List.nil_append]

theorem run_cube_absolute_reading (K : Constants) (i : Nat) (cube : QuantizedCubeState Q)
    (h : InBounds K cube) (rest : List Bool) (c : Nat) (mem : Cubes Q) :
    (serialize_cube_absolute K StreamMode.reading i).run (⟨absoluteBits K cube ++ rest, c⟩, mem) =
      (Except.ok (), (⟨rest, c⟩, Function.update mem i cube)) := by
  obtain ⟨h1, h2, h3, h4, h5, h6⟩ := h
  simp only [serialize_cube_absolute, run_bind, run_cubeAt, absoluteBits, List.cons_append,
    List.append_assoc, run_serialize_bool_reading, run_setCube, Function.update_same,
    Function.update_idem, run_serialize_int_reading _ _ _ _ h1 h2,
    run_serialize_int_reading _ _ _ _ h3 h4, run_serialize_int_reading _ _ _ _ h5 h6,
    run_orientation_reading]

theorem useRelative_bounds (c b : QuantizedCubeState Q) (h : useRelative c b = true) :
    (-RelativePositionBound ≤ c.position_x - b.position_x ∧
      c.position_x - b.position_x ≤ RelativePositionBound) ∧
    (-RelativePositionBound ≤ c.position_y - b.position_y ∧
      c.position_y - b.position_y ≤ RelativePositionBound) ∧
    (-RelativePositionBound ≤ c.position_z - b.position_z ∧
      c.position_z - b.position_z ≤ RelativePositionBound) := by
  simp only [useRelative, Bool.and_eq_true, decide_eq_true_eq, abs_le] at h
  exact ⟨h.1.1, h.1.2, h.2⟩

theorem run_cube_relative_position_writing (K : Constants) (base : BaseRef Q) (i : Nat)
    (bs : List Bool) (c : Nat) (S : Cubes Q)
    (h : useRelative (S i) (base.get S i) = false → InBounds K (S i)) :
    (serialize_cube_relative_position K StreamMode.writing base i).run (⟨bs, c⟩, S) =
      (Except.ok (), (⟨bs ++ relativeBits K (S i) (base.get S i), c⟩, S)) := by
  have hadd : ∀ a b : Int, b + (a - b) = a := by intro a b; omega
  cases hrel : useRelative (S i) (base.get S i) with
  | true =>
    obtain ⟨⟨h1, h2⟩, ⟨h3, h4⟩, ⟨h5, h6⟩⟩ := useRelative_bounds _ _ hrel
    have hrel' := hrel
    simp only [useRelative] at hrel'
    simp only [serialize_cube_relative_position, run_bind, run_cubeAt, run_baseAt,
      run_serialize_bool_writing, run_setCube, Function.update_eq_self, StreamMode.IsWriting,
      if_true, hrel', run_serialize_int_writing _ _ _ h1 h2,
      run_serialize_int_writing _ _ _ h3 h4, run_serialize_int_writing _ _ _ h5 h6, hadd,
      run_orientation_writing, relativeBits, hrel, List.append_assoc, List.cons_append,
      List.nil_append]
  | false =>
    obtain ⟨h1, h2, h3, h4, h5, h6⟩ := h hrel
    have hrel' := hrel
    simp only [useRelative] at hrel'
    simp only [serialize_cube_relative_position, run_bind, run_cubeAt, run_baseAt,
      run_serialize_bool_writing, run_setCube, Function.update_eq_self, StreamMode.IsWriting,
      StreamMode.IsReading, if_true, hrel', run_serialize_int_writing _ _ _ h1 h2,
      run_serialize_int_writing _ _ _ h3 h4, run_serialize_int_writing _ _ _ h5 h6,
      run_orientation_writing, relativeBits, hrel, List.append_assoc, List.cons_append,
      List.nil_append, Bool.false_eq_true, if_false, run_pure]

theorem run_cube_relative_position_reading (K : Constants) (base : BaseRef Q) (i : Nat)
    (cube b : QuantizedCubeState Q) (h : useRelative cube b = false → InBounds K cube)
    (rest : List Bool) (c : Nat) (mem : Cubes Q) (hb : base.get mem i = b) :
    (serialize_cube_relative_position K StreamMode.reading base i).run
        (⟨relativeBits K cube b ++ rest, c⟩, mem) =
      (Except.ok (), (⟨rest, c⟩, Function.update mem i (decodedRelative cube b))) := by
  have hadd : ∀ a b : Int, b + (a - b) = a := by intro a b; omega
  have key : ∀ b' : QuantizedCubeState Q, b' = b →
      (∀ m' : Cubes Q, (m' i).position_x = (mem i).position_x →
        (base.get m' i).position_x = b'.position_x) →
      (∀ m' : Cubes Q, (m' i).position_y = (mem i).position_y →
        (base.get m' i).position_y = b'.position_y) →
      (∀ m' : Cubes Q, (m' i).position_z = (mem i).position_z →
        (base.get m' i).position_z = b'.position_z) →
      (serialize_cube_relative_position K StreamMode.reading base i).run
        (⟨relativeBits K cube b ++ rest, c⟩, mem) =
      (Except.ok (), (⟨rest, c⟩, Function.update mem i (decodedRelative cube b))) := by
    intro b' hb' kx ky kz
    subst hb'
    cases hrel : useRelative cube b' with
    | true =>
      obtain ⟨⟨h1, h2⟩, ⟨h3, h4⟩, ⟨h5, h6⟩⟩ := useRelative_bounds _ _ hrel
      simp only [serialize_cube_relative_position, run_bind, run_cubeAt, run_baseAt,
        relativeBits, hrel, if_true, List.cons_append, List.append_assoc,
        run_serialize_bool_reading, run_setCube, Function.update_same, Function.update_idem,
        run_serialize_int_reading _ _ _ _ h1 h2, run_serialize_int_reading _ _ _ _ h3 h4,
        run_serialize_int_reading _ _ _ _ h5 h6]
      rw [kx _ (by simp), ky _ (by simp), kz _ (by simp)]
      simp only [hadd, run_orientation_reading, decodedRelative, hrel, if_true,
        Function.update_same, Function.update_idem]
    | false =>
      obtain ⟨h1, h2, h3, h4, h5, h6⟩ := h hrel
      simp only [serialize_cube_relative_position, run_bind, run_cubeAt, run_baseAt,
        relativeBits, hrel, if_true, List.cons_append, List.append_assoc,
        run_serialize_bool_reading, run_setCube, Function.update_same, Function.update_idem,
        run_serialize_int_reading _ _ _ _ h1 h2, run_serialize_int_reading _ _ _ _ h3 h4,
        run_serialize_int_reading _ _ _ _ h5 h6, run_orientation_reading, decodedRelative,
        Bool.false_eq_true, if_false, StreamMode.IsReading, run_ite, run_pure]
  cases base with
  | snapshot cubes =>
    exact key b rfl (fun _ _ => by rw [← hb]; rfl) (fun _ _ => by rw [← hb]; rfl)
      (fun _ _ => by rw [← hb]; rfl)
  | aliased =>
    exact key b rfl (fun _ hm => by rw [← hb]; exact hm) (fun _ hm => by rw [← hb]; exact hm)
      (fun _ hm => by rw [← hb]; exact hm)

theorem serialize_cube_relative_orientation_eq (K : Constants) (m : StreamMode)
    (base : BaseRef Q) (i : Nat) :
    serialize_cube_relative_orientation K m base i = serialize_cube_relative_position K m base i :=
  rfl

end CubeRoutines

section Loops

variable {Q : Nat}

theorem BaseRef.get_update_ne (base : BaseRef Q) (mem : Cubes Q) (j k : Nat)
    (v : QuantizedCubeState Q) (h : k ≠ j) :
    base.get (Function.update mem j v) k = base.get mem k := by
  cases base with
  | snapshot cubes => rfl
  | aliased => simp [BaseRef.get, Function.update_noteq h]

theorem run_changed_bits_loop_writing (base : BaseRef Q) (cube : Nat → StreamM (Cubes Q) Unit)
    (enc : Nat → List Bool) (chg : Nat → Bool) (S : Cubes Q)
    (hW : ∀ k bs c, chg k = true →
      (cube k).run (⟨bs, c⟩, S) = (Except.ok (), (⟨bs ++ enc k, c⟩, S)))
    (n i : Nat) (bs : List Bool) (c : Nat) :
    (changed_bits_loop StreamMode.writing base cube n i chg).run (⟨bs, c⟩, S) =
      (Except.ok chg, (⟨bs ++ changedBitsImage chg enc n i, c⟩, S)) := by
  induction n generalizing i bs with
  | zero => simp [changed_bits_loop, run_pure, changedBitsImage]
  | succ n ih =>
    simp only [changed_bits_loop, run_bind, run_serialize_bool_writing,
      Function.update_eq_self, changedBitsImage]
    cases h : chg i with
    | true =>
      simp only [if_true, run_bind, hW i _ _ h, ih, List.append_assoc, List.singleton_append,
        List.cons_append, List.nil_append]
    | false =>
      simp only [Bool.false_eq_true, if_false, StreamMode.IsReading, run_bind, run_pure, ih,
        List.append_assoc, List.singleton_append, List.nil_append]

theorem run_changed_bits_loop_reading (base : BaseRef Q) (cube : Nat → StreamM (Cubes Q) Unit)
    (enc : Nat → List Bool) (dec bw : Cubes Q) (chg : Nat → Bool)
    (hR : ∀ k rest c mem, chg k = true → base.get mem k = bw k →
      (cube k).run (⟨enc k ++ rest, c⟩, mem) =
        (Except.ok (), (⟨rest, c⟩, Function.update mem k (dec k))))
    (n i : Nat) (rest : List Bool) (c : Nat) (mem : Cubes Q) (chgR : Nat → Bool)
    (hb : ∀ k, i ≤ k → k < i + n → base.get mem k = bw k) :
    (changed_bits_loop StreamMode.reading base cube n i chgR).run
        (⟨changedBitsImage chg enc n i ++ rest, c⟩, mem) =
      (Except.ok (fun k => if i ≤ k ∧ k < i + n then chg k else chgR k),
        (⟨rest, c⟩,
          fun k => if i ≤ k ∧ k < i + n then (if chg k then dec k else bw k) else mem k)) := by
  induction n generalizing i mem chgR with
  | zero =>
    simp only [changed_bits_loop, run_pure, changedBitsImage, List.nil_append]
    have h1 : ∀ k, ¬ (i ≤ k ∧ k < i + 0) := by intro k; omega
    simp only [h1, if_false]
  | succ n ih =>
    simp only [changed_bits_loop, run_bind, changedBitsImage, List.cons_append,
      run_serialize_bool_reading]
    cases h : chg i with
    | true =>
      simp only [if_true, run_bind, List.append_assoc,
        hR i _ _ _ h (hb i (le_refl _) (by omega))]
      rw [ih]
      · congr 1
        · congr 1
          funext k
          by_cases hk : k = i
          · subst hk; simp [h]
          · have e1 : (i + 1 ≤ k ∧ k < i + 1 + n) ↔ (i ≤ k ∧ k < i + (n + 1)) := by omega
            simp only [e1, Function.update_noteq hk]
        · congr 1
          funext k
          by_cases hk : k = i
          · subst hk; simp [h]
          · have e1 : (i + 1 ≤ k ∧ k < i + 1 + n) ↔ (i ≤ k ∧ k < i + (n + 1)) := by omega
            simp only [e1, Function.update_noteq hk]
      · intro k hk1 hk2
        rw [BaseRef.get_update_ne _ _ _ _ _ (by omega)]
        exact hb k (by omega) (by omega)
    | false =>
      simp only [Bool.false_eq_true, if_false, StreamMode.IsReading, if_true, run_bind,
        run_copyBase, List.nil_append]
      rw [ih]
      · congr 1
        · congr 1
          funext k
          by_cases hk : k = i
          · subst hk; simp [h]
          · have e1 : (i + 1 ≤ k ∧ k < i + 1 + n) ↔ (i ≤ k ∧ k < i + (n + 1)) := by omega
            simp only [e1, Function.update_noteq hk]
        · congr 1
          funext k
          by_cases hk : k = i
          · subst hk; simp [h, hb k (le_refl _) (by omega)]
          · have e1 : (i + 1 ≤ k ∧ k < i + 1 + n) ↔ (i ≤ k ∧ k < i + (n + 1)) := by omega
            simp only [e1, Function.update_noteq hk]
      · intro k hk1 hk2
        rw [BaseRef.get_update_ne _ _ _ _ _ (by omega)]
        exact hb k (by omega) (by omega)

theorem serialize_bool_reading_irrelevant {σ : Type} (b0 b1 : Bool) :
    (serialize_bool StreamMode.reading b0 : StreamM σ Bool) =
      serialize_bool StreamMode.reading b1 := rfl

theorem serialize_int_reading_irrelevant {σ : Type} (v0 v1 min max : Int) :
    (serialize_int StreamMode.reading v0 min max : StreamM σ Int) =
      serialize_int StreamMode.reading v1 min max := rfl

theorem run_copy_unchanged_loop (base : BaseRef Q) (changed : Nat → Bool) (n i : Nat)
    (st : Stream) (mem : Cubes Q) :
    (copy_unchanged_loop base changed n i).run (st, mem) =
      (Except.ok (),
        (st, fun k => if i ≤ k ∧ k < i + n ∧ changed k = false then base.get mem k else mem k)) := by
  induction n generalizing i mem with
  | zero =>
    have h1 : ∀ k, ¬ (i ≤ k ∧ k < i + 0 ∧ changed k = false) := by intro k; omega
    simp only [copy_unchanged_loop, run_pure, h1, if_false]
  | succ n ih =>
    simp only [copy_unchanged_loop, run_bind]
    cases h : changed i with
    | true =>
      simp only [Bool.not_true, Bool.false_eq_true, if_false, run_bind, run_pure, ih]
      congr 2
      funext k
      by_cases hk : k = i
      · subst hk; simp [h]
      · have e1 : (i + 1 ≤ k ∧ k < i + 1 + n ∧ changed k = false) ↔
            (i ≤ k ∧ k < i + (n + 1) ∧ changed k = false) := by
          constructor <;> rintro ⟨a, b, c⟩ <;> exact ⟨by omega, by omega, c⟩
        simp only [e1]
    | false =>
      simp only [Bool.not_false, if_true, run_bind, run_copyBase, ih]
      congr 2
      funext k
      by_cases hk : k = i
      · subst hk; simp [h]
      · have e1 : (i + 1 ≤ k ∧ k < i + 1 + n ∧ changed k = false) ↔
            (i ≤ k ∧ k < i + (n + 1) ∧ changed k = false) := by
          constructor <;> rintro ⟨a, b, c⟩ <;> exact ⟨by omega, by omega, c⟩
        simp only [e1, Function.update_noteq hk, BaseRef.get_update_ne _ _ _ _ _ hk]

theorem compute_changed_eq (cubes : Cubes Q) (base : BaseRef Q) (n i : Nat)
    (acc : (Nat → Bool) × Nat) :
    compute_changed cubes base n i acc =
      (fun k => if i ≤ k ∧ k < i + n then decide (cubes k ≠ base.get cubes k) else acc.1 k,
        acc.2 + countChanged (fun k => decide (cubes k ≠ base.get cubes k)) n i) := by
  induction n generalizing i acc with
  | zero =>
    obtain ⟨a, b⟩ := acc
    simp only [compute_changed, countChanged]
    congr 1
    funext k
    have h1 : ¬ (i ≤ k ∧ k < i + 0) := by omega
    simp only [h1, if_false]
  | succ n ih =>
    simp only [compute_changed, ih, countChanged]
    congr 1
    · funext k
      by_cases hk : k = i
      · subst hk; simp
      · have e1 : (i + 1 ≤ k ∧ k < i + 1 + n) ↔ (i ≤ k ∧ k < i + (n + 1)) := by omega
        simp only [e1, Function.update_noteq hk]
    · split <;> omega

theorem countChanged_congr (f g : Nat → Bool) (n i : Nat)
    (h : ∀ k, i ≤ k → k < i + n → f k = g k) : countChanged f n i = countChanged g n i := by
  induction n generalizing i with
  | zero => rfl
  | succ n ih =>
    simp only [countChanged, h i (le_refl _) (by omega)]
    rw [ih (i + 1) (fun k h1 h2 => h k (by omega) (by omega))]

theorem countChanged_le (f : Nat → Bool) (n i : Nat) : countChanged f n i ≤ n := by
  induction n generalizing i with
  | zero => simp [countChanged]
  | succ n ih =>
    have := ih (i + 1)
    simp only [countChanged]
    split <;> omega

theorem changedBitsImage_congr (f g : Nat → Bool) (enc : Nat → List Bool) (n i : Nat)
    (h : ∀ k, i ≤ k → k < i + n → f k = g k) :
    changedBitsImage f enc n i = changedBitsImage g enc n i := by
  induction n generalizing i with
  | zero => rfl
  | succ n ih =>
    simp only [changedBitsImage, h i (le_refl _) (by omega)]
    rw [ih (i + 1) (fun k h1 h2 => h k (by omega) (by omega))]

theorem run_not_changed_loop_writing (K : Constants) (base : BaseRef Q) (chg : Nat → Bool)
    (S : Cubes Q) (n i : Nat) (log : Nat → Bool) (bs : List Bool) (c : Nat)
    (hchg : ∀ k, i ≤ k → k < i + n → chg k = decide (S k ≠ base.get S k))
    (hin : ∀ k, i ≤ k → k < i + n → chg k = true → InBounds K (S k)) :
    (not_changed_loop K StreamMode.writing base n i log).run (⟨bs, c⟩, S) =
      (Except.ok (fun k => if i ≤ k ∧ k < i + n then chg k else log k),
        (⟨bs ++ changedBitsImage chg (fun k => absoluteBits K (S k)) n i, c⟩, S)) := by
  induction n generalizing i log bs with
  | zero =>
    have h1 : ∀ k, ¬ (i ≤ k ∧ k < i + 0) := by intro k; omega
    simp only [not_changed_loop, run_pure, changedBitsImage, List.append_nil, h1, if_false]
  | succ n ih =>
    have hi := hchg i (le_refl _) (by omega)
    simp only [not_changed_loop, run_bind, run_cubeAt, run_baseAt, StreamMode.IsWriting,
      if_true, ← hi, run_serialize_bool_writing, changedBitsImage]
    have hrest : ∀ (log' : Nat → Bool) (hl : log' = Function.update log i (chg i)),
        (fun k => if i + 1 ≤ k ∧ k < i + 1 + n then chg k else log' k) =
          (fun k => if i ≤ k ∧ k < i + (n + 1) then chg k else log k) := by
      intro log' hl
      funext k
      by_cases hk : k = i
      · subst hk; simp [hl]
      · have e1 : (i + 1 ≤ k ∧ k < i + 1 + n) ↔ (i ≤ k ∧ k < i + (n + 1)) := by omega
        simp only [e1, hl, Function.update_noteq hk]
    cases h : chg i with
    | true =>
      simp only [if_true, run_bind,
        run_cube_absolute_writing K i _ _ S (hin i (le_refl _) (by omega) h)]
      rw [ih (i + 1) _ _ (fun k h1 h2 => hchg k (by omega) (by omega))
        (fun k h1 h2 => hin k (by omega) (by omega))]
      simp only [List.append_assoc, List.singleton_append, List.cons_append, List.nil_append,
        if_true]
      rw [hrest _ (by rw [h])]
    | false =>
      simp only [Bool.false_eq_true, if_false, StreamMode.IsReading, run_bind, run_pure]
      rw [ih (i + 1) _ _ (fun k h1 h2 => hchg k (by omega) (by omega))
        (fun k h1 h2 => hin k (by omega) (by omega))]
      simp only [List.append_assoc, List.singleton_append, List.cons_append, List.nil_append,
        if_false, Bool.false_eq_true]
      rw [hrest _ (by rw [h])]

theorem run_not_changed_loop_reading_eq (K : Constants) (base : BaseRef Q) (n i : Nat)
    (log : Nat → Bool) (s : Stream × Cubes Q) :
    (not_changed_loop K StreamMode.reading base n i log).run s =
      (changed_bits_loop StreamMode.reading base (serialize_cube_absolute K StreamMode.reading)
        n i log).run s := by
  induction n generalizing i log s with
  | zero => rfl
  | succ n ih =>
    simp only [not_changed_loop, changed_bits_loop, run_bind, run_cubeAt, run_baseAt,
      StreamMode.IsWriting, Bool.false_eq_true, if_false]
    rw [serialize_bool_reading_irrelevant false (log i)]
    rcases hres : (serialize_bool StreamMode.reading (log i) : StreamM (Cubes Q) Bool).run s
      with ⟨r, s'⟩
    cases r with
    | error e => rfl
    | ok b =>
      simp only []
      cases b with
      | true =>
        simp only [if_true]
        rcases hc : (serialize_cube_absolute K StreamMode.reading i).run s' with ⟨r2, s2⟩
        cases r2 with
        | error e => simp only [run_bind, hc]
        | ok u => simp only [run_bind, hc, ih]
      | false =>
        simp only [Bool.false_eq_true, if_false, StreamMode.IsReading, if_true, run_bind,
          run_copyBase, ih]

theorem run_index_relative_writing {σ : Type} (codec : IndexCodec) (N previous current : Nat)
    (hcodec : codec.Lawful N) (h1 : previous < current) (h2 : current < N) (bs : List Bool)
    (c : Nat) (mem : σ) :
    (serialize_index_relative codec StreamMode.writing previous current).run (⟨bs, c⟩, mem) =
      (Except.ok current, (⟨bs ++ codec.bits previous current, c⟩, mem)) := by
  obtain ⟨bits, hw, _, _⟩ := hcodec previous current h1 h2
  simp only [serialize_index_relative, StreamM.run, hw, IndexCodec.bits]

theorem run_index_relative_measuring {σ : Type} (codec : IndexCodec) (N previous current : Nat)
    (hcodec : codec.Lawful N) (h1 : previous < current) (h2 : current < N) (bs : List Bool)
    (c : Nat) (mem : σ) :
    (serialize_index_relative codec StreamMode.measuring previous current).run (⟨bs, c⟩, mem) =
      (Except.ok current, (⟨bs, c + (codec.bits previous current).length⟩, mem)) := by
  obtain ⟨bits, hw, hm, _⟩ := hcodec previous current h1 h2
  simp only [serialize_index_relative, StreamM.run, hw, hm, IndexCodec.bits]

theorem run_index_relative_reading {σ : Type} (codec : IndexCodec) (N previous current v0 : Nat)
    (hcodec : codec.Lawful N) (h1 : previous < current) (h2 : current < N) (rest : List Bool)
    (c : Nat) (mem : σ) :
    (serialize_index_relative codec StreamMode.reading previous v0).run
        (⟨codec.bits previous current ++ rest, c⟩, mem) =
      (Except.ok current, (⟨rest, c⟩, mem)) := by
  obtain ⟨bits, hw, _, hr⟩ := hcodec previous current h1 h2
  simp only [serialize_index_relative, StreamM.run, hw, IndexCodec.bits, hr]

theorem run_indices_write_loop_writing (K : Constants) (codec : IndexCodec)
    (relativeIndices : Bool) (cube : Nat → StreamM (Cubes Q) Unit) (enc : Nat → List Bool)
    (chg : Nat → Bool) (S : Cubes Q) (hcodec : codec.Lawful K.NumCubes)
    (hW : ∀ k bs c, chg k = true →
      (cube k).run (⟨bs, c⟩, S) = (Except.ok (), (⟨bs ++ enc k, c⟩, S)))
    (n i : Nat) (first : Bool) (previous num_written : Nat) (bs : List Bool) (c : Nat)
    (hN : i + n ≤ K.NumCubes) (hprev : first = false → previous < i) :
    (indices_write_loop K codec StreamMode.writing relativeIndices cube chg n i first previous
        num_written).run (⟨bs, c⟩, S) =
      (Except.ok (num_written + countChanged chg n i),
        (⟨bs ++ indicesImage K codec relativeIndices chg enc n i first previous, c⟩, S)) := by
  induction n generalizing i first previous num_written bs with
  | zero => simp [indices_write_loop, run_pure, countChanged, indicesImage]
  | succ n ih =>
    simp only [indices_write_loop, countChanged, indicesImage]
    cases h : chg i with
    | false =>
      simp only [Bool.false_eq_true, if_false, Nat.zero_add]
      exact ih (i + 1) first previous num_written bs (by omega)
        (fun hf => by have := hprev hf; omega)
    | true =>
      simp only [if_true]
      have hi1 : (0 : Int) ≤ (i : Int) := by omega
      have hi2 : (i : Int) ≤ (K.NumCubes : Int) - 1 := by omega
      have hnext := fun nw bs => ih (i + 1) false i nw bs (by omega) (fun _ => by omega)
      cases hf : (first || !relativeIndices) with
      | true =>
        simp only [if_true, run_bind, run_serialize_int_writing _ _ _ hi1 hi2, run_pure,
          hW i _ _ h, hnext, List.append_assoc]
        congr 2
        omega
      | false =>
        have hfirst : first = false := by
          cases first
          · rfl
          · simp at hf
        simp only [Bool.false_eq_true, if_false, run_bind,
          run_index_relative_writing codec K.NumCubes previous i hcodec (hprev hfirst)
            (by omega), run_pure, hW i _ _ h, hnext, List.append_assoc]
        congr 2
        omega

theorem run_indices_read_loop_reading (K : Constants) (codec : IndexCodec)
    (relativeIndices : Bool) (base : BaseRef Q) (cube : Nat → StreamM (Cubes Q) Unit)
    (enc : Nat → List Bool) (dec bw : Cubes Q) (chg : Nat → Bool)
    (hcodec : codec.Lawful K.NumCubes)
    (hR : ∀ k rest c mem, chg k = true → base.get mem k = bw k →
      (cube k).run (⟨enc k ++ rest, c⟩, mem) =
        (Except.ok (), (⟨rest, c⟩, Function.update mem k (dec k))))
    (n i : Nat) (first : Bool) (previous j : Nat) (rest : List Bool) (c : Nat)
    (mem : Cubes Q) (chgR : Nat → Bool)
    (hN : i + n ≤ K.NumCubes) (hprev : first = false → previous < i)
    (hj : decide (j = 0) = first)
    (hb : ∀ k, i ≤ k → k < i + n → base.get mem k = bw k) :
    (indices_read_loop K codec StreamMode.reading relativeIndices cube (countChanged chg n i) j
        previous chgR).run
        (⟨indicesImage K codec relativeIndices chg enc n i first previous ++ rest, c⟩, mem) =
      (Except.ok (fun k => if i ≤ k ∧ k < i + n ∧ chg k = true then true else chgR k),
        (⟨rest, c⟩, fun k => if i ≤ k ∧ k < i + n ∧ chg k = true then dec k else mem k)) := by
  induction n generalizing i first previous j mem chgR with
  | zero =>
    have h1 : ∀ k, ¬ (i ≤ k ∧ k < i + 0 ∧ chg k = true) := by intro k; omega
    simp only [indices_read_loop, run_pure, countChanged, indicesImage, List.nil_append, h1,
      if_false]
  | succ n ih =>
    have e1 : ∀ k, k ≠ i → ((i + 1 ≤ k ∧ k < i + 1 + n ∧ chg k = true) ↔
        (i ≤ k ∧ k < i + (n + 1) ∧ chg k = true)) := by
      intro k hk
      constructor <;> rintro ⟨a, b, c⟩ <;> exact ⟨by omega, by omega, c⟩
    simp only [countChanged, indicesImage]
    cases h : chg i with
    | false =>
      simp only [Bool.false_eq_true, if_false, Nat.zero_add]
      rw [ih (i + 1) first previous j mem chgR (by omega)
        (fun hf => by have := hprev hf; omega) hj
        (fun k h1 h2 => hb k (by omega) (by omega))]
      congr 1
      · congr 1
        funext k
        by_cases hk : k = i
        · subst hk; simp [h]
        · simp only [e1 k hk]
      · congr 1
        funext k
        by_cases hk : k = i
        · subst hk; simp [h]
        · simp only [e1 k hk]
    | true =>
      have hi1 : (0 : Int) ≤ (i : Int) := by omega
      have hi2 : (i : Int) ≤ (K.NumCubes : Int) - 1 := by omega
      have hiN : i < K.NumCubes := by omega
      have hnext := fun mem' chgR' hb' =>
        ih (i + 1) false i (j + 1) mem' chgR' (by omega) (fun _ => by omega) (by simp) hb'
      have hb' : ∀ k, i + 1 ≤ k → k < i + 1 + n →
          base.get (Function.update mem i (dec i)) k = bw k := by
        intro k hk1 hk2
        rw [BaseRef.get_update_ne _ _ _ _ _ (by omega)]
        exact hb k (by omega) (by omega)
      have hfinal :
          ((Except.ok (fun k => if i + 1 ≤ k ∧ k < i + 1 + n ∧ chg k = true then true
                else Function.update chgR i true k),
            ((⟨rest, c⟩ : Stream), fun k => if i + 1 ≤ k ∧ k < i + 1 + n ∧ chg k = true then dec k
                else Function.update mem i (dec i) k)) :
              Except Failure (Nat → Bool) × (Stream × Cubes Q)) =
          (Except.ok (fun k => if i ≤ k ∧ k < i + (n + 1) ∧ chg k = true then true else chgR k),
            (⟨rest, c⟩, fun k => if i ≤ k ∧ k < i + (n + 1) ∧ chg k = true then dec k
                else mem k)) := by
        congr 1
        · congr 1
          funext k
          by_cases hk : k = i
          · subst hk; simp [h]
          · simp only [e1 k hk, Function.update_noteq hk]
        · congr 1
          funext k
          by_cases hk : k = i
          · subst hk; simp [h]
          · simp only [e1 k hk, Function.update_noteq hk]
      simp only [if_true, Nat.add_comm 1, indices_read_loop, hj]
      cases hf : (first || !relativeIndices) with
      | true =>
        simp only [if_true, run_bind, List.append_assoc,
          run_serialize_int_reading _ _ _ _ hi1 hi2, run_pure, Int.toNat_ofNat, hiN,
          hR i _ _ _ h (hb i (le_refl _) (by omega)), hnext _ _ hb']
        exact hfinal
      | false =>
        have hfirst : first = false := by
          cases first
          · rfl
          · simp at hf
        simp only [Bool.false_eq_true, if_false, run_bind, List.append_assoc,
          run_index_relative_reading codec K.NumCubes previous i 0 hcodec (hprev hfirst) hiN,
          run_pure, hiN, if_true, hR i _ _ _ h (hb i (le_refl _) (by omega)), hnext _ _ hb']
        exact hfinal

theorem BaseRef.get_congr (base : BaseRef Q) (m1 m2 : Cubes Q) (k : Nat) (h : m1 k = m2 k) :
    base.get m1 k = base.get m2 k := by
  cases base with
  | snapshot cubes => rfl
  | aliased => exact h

theorem compute_changed_mask (K : Constants) (S : Cubes Q) (base : BaseRef Q) :
    compute_changed S base K.NumCubes 0 (fun _ => false, 0) =
      (changedMask K S (base.get S),
        countChanged (changedMask K S (base.get S)) K.NumCubes 0) := by
  rw [compute_changed_eq]
  congr 1
  · funext k
    by_cases hk : k < K.NumCubes
    · have : 0 ≤ k ∧ k < 0 + K.NumCubes := by omega
      simp [changedMask, hk]
    · have : ¬ (0 ≤ k ∧ k < 0 + K.NumCubes) := by omega
      simp [changedMask, hk]
  · rw [Nat.zero_add]
    apply countChanged_congr
    intro k _ hk
    have : k < K.NumCubes := by omega
    simp [changedMask, this]

theorem changedMask_of_ge (K : Constants) (S B : Cubes Q) (k : Nat) (h : K.NumCubes ≤ k) :
    changedMask K S B k = false := by
  have : ¬ k < K.NumCubes := by omega
  simp [changedMask, this]

theorem changedMask_eq_false (K : Constants) (S B : Cubes Q) (k : Nat) (h : k < K.NumCubes) :
    changedMask K S B k = false ↔ S k = B k := by
  simp [changedMask, h]

theorem changedMask_eq_true (K : Constants) (S B : Cubes Q) (k : Nat) :
    changedMask K S B k = true ↔ k < K.NumCubes ∧ S k ≠ B k := by
  simp [changedMask]

theorem run_serialize_indexed_writing (K : Constants) (codec : IndexCodec) (base : BaseRef Q)
    (useIndices : (Nat → Bool) → Nat → Bool) (maxCount : Int) (relativeIndices : Bool)
    (cube : Nat → StreamM (Cubes Q) Unit) (enc : Nat → List Bool) (S : Cubes Q)
    (hcodec : codec.Lawful K.NumCubes)
    (hW : ∀ k bs c, changedMask K S (base.get S) k = true →
      (cube k).run (⟨bs, c⟩, S) = (Except.ok (), (⟨bs ++ enc k, c⟩, S)))
    (hmax : useIndices (changedMask K S (base.get S))
        (countChanged (changedMask K S (base.get S)) K.NumCubes 0) = true →
      ((countChanged (changedMask K S (base.get S)) K.NumCubes 0 : Nat) : Int) ≤ maxCount)
    (bs : List Bool) (c : Nat) :
    (serialize_indexed K codec StreamMode.writing base useIndices maxCount relativeIndices
        cube).run (⟨bs, c⟩, S) =
      (Except.ok (changedMask K S (base.get S)),
        (⟨bs ++ indexedImage K codec relativeIndices
            (useIndices (changedMask K S (base.get S))
              (countChanged (changedMask K S (base.get S)) K.NumCubes 0))
            maxCount (changedMask K S (base.get S)) enc, c⟩, S)) := by
  simp only [serialize_indexed, serialize_indexed_rest, run_bind, run_getMem,
    StreamMode.IsWriting, if_true, compute_changed_mask, run_serialize_bool_writing,
    indexedImage]
  cases hu : useIndices (changedMask K S (base.get S))
      (countChanged (changedMask K S (base.get S)) K.NumCubes 0) with
  | true =>
    have h0 : (0 : Int) ≤ ((countChanged (changedMask K S (base.get S)) K.NumCubes 0 : Nat) : Int) :=
      by omega
    simp only [if_true, run_bind, run_serialize_int_writing _ _ _ h0 (hmax hu),
      run_indices_write_loop_writing K codec relativeIndices cube enc _ S hcodec hW
        K.NumCubes 0 true 0 0 _ _ (by omega) (by simp),
      Nat.zero_add, run_pure, List.append_assoc, List.singleton_append, List.cons_append,
      List.nil_append]
  | false =>
    simp only [Bool.false_eq_true, if_false,
      run_changed_bits_loop_writing base cube enc _ S hW, List.append_assoc,
      List.singleton_append, List.cons_append, List.nil_append]

theorem run_serialize_indexed_reading (K : Constants) (codec : IndexCodec) (base : BaseRef Q)
    (useIndices : (Nat → Bool) → Nat → Bool) (maxCount : Int) (relativeIndices : Bool)
    (cube : Nat → StreamM (Cubes Q) Unit) (enc : Nat → List Bool) (dec bw : Cubes Q)
    (chg : Nat → Bool) (use_indices : Bool)
    (hcodec : codec.Lawful K.NumCubes)
    (hR : ∀ k rest c mem, chg k = true → base.get mem k = bw k →
      (cube k).run (⟨enc k ++ rest, c⟩, mem) =
        (Except.ok (), (⟨rest, c⟩, Function.update mem k (dec k))))
    (hmax : use_indices = true → ((countChanged chg K.NumCubes 0 : Nat) : Int) ≤ maxCount)
    (hge : ∀ k, K.NumCubes ≤ k → chg k = false)
    (rest : List Bool) (c : Nat) (mem : Cubes Q)
    (hb : ∀ k, k < K.NumCubes → base.get mem k = bw k) :
    (serialize_indexed K codec StreamMode.reading base useIndices maxCount relativeIndices
        cube).run
        (⟨indexedImage K codec relativeIndices use_indices maxCount chg enc ++ rest, c⟩, mem) =
      (Except.ok chg,
        (⟨rest, c⟩,
          fun k => if k < K.NumCubes then (if chg k then dec k else bw k) else mem k)) := by
  simp only [serialize_indexed, serialize_indexed_rest, run_bind, run_getMem,
    StreamMode.IsWriting, Bool.false_eq_true, if_false, indexedImage]
  cases hu : use_indices with
  | true =>
    have h0 : (0 : Int) ≤ ((countChanged chg K.NumCubes 0 : Nat) : Int) := by omega
    simp only [if_true, List.cons_append, run_serialize_bool_reading, run_bind,
      List.append_assoc, run_serialize_int_reading _ _ _ _ h0 (hmax hu), Int.toNat_ofNat,
      run_indices_read_loop_reading K codec relativeIndices base cube enc dec bw chg hcodec hR
        K.NumCubes 0 true 0 0 rest c mem (fun _ => false) (by omega) (by simp) (by simp)
        (fun k _ hk => hb k (by omega)),
      run_copy_unchanged_loop, run_pure]
    congr 1
    · congr 1
      funext k
      by_cases hk : k < K.NumCubes
      · have : (0 ≤ k ∧ k < 0 + K.NumCubes ∧ chg k = true) ↔ chg k = true := by
          constructor
          · exact fun h => h.2.2
          · exact fun h => ⟨by omega, by omega, h⟩
        simp only [this]
        cases chg k <;> simp
      · have : ¬ (0 ≤ k ∧ k < 0 + K.NumCubes ∧ chg k = true) := by
          rintro ⟨_, h, _⟩
          omega
        rw [if_neg this, hge k (by omega)]
    · congr 1
      funext k
      by_cases hk : k < K.NumCubes
      · have e0 : ∀ p : Prop, (0 ≤ k ∧ k < 0 + K.NumCubes ∧ p) ↔ p := by
          intro p
          constructor
          · exact fun h => h.2.2
          · exact fun h => ⟨by omega, by omega, h⟩
        simp only [e0, hk, if_true]
        cases hc : chg k with
        | true => simp
        | false =>
          simp only [Bool.false_eq_true, if_false, if_true]
          rw [BaseRef.get_congr base _ mem k (by simp [e0, hc])]
          exact hb k hk
      · have e0 : ∀ p : Prop, ¬ (0 ≤ k ∧ k < 0 + K.NumCubes ∧ p) := by
          rintro p ⟨_, h, _⟩
          omega
        simp only [e0, hk, if_false]
  | false =>
    simp only [Bool.false_eq_true, if_false, List.cons_append, run_serialize_bool_reading,
      run_changed_bits_loop_reading base cube enc dec bw chg hR K.NumCubes 0 rest c mem _
        (fun k _ hk => hb k (by omega))]
    congr 1
    · congr 1
      funext k
      by_cases hk : k < K.NumCubes
      · have : 0 ≤ k ∧ k < 0 + K.NumCubes := by omega
        simp only [this, and_self, if_true]
      · have : ¬ (0 ≤ k ∧ k < 0 + K.NumCubes) := by omega
        simp only [this, if_false, hge k (by omega)]
    · congr 1
      funext k
      by_cases hk : k < K.NumCubes
      · have : 0 ≤ k ∧ k < 0 + K.NumCubes := by omega
        simp only [this, and_self, if_true, hk]
      · have : ¬ (0 ≤ k ∧ k < 0 + K.NumCubes) := by omega
        simp only [this, if_false, hk]

end Loops

section Body

variable {Q : Nat}

theorem decodedRelative_self (c : QuantizedCubeState Q) : decodedRelative c c = c := by
  simp [decodedRelative, useRelative, RelativePositionBound]

theorem run_serialize_body_writing (K : Constants) (codec : IndexCodec)
    (crib : (Nat → Bool) → Int) (delta_mode : Int) (base : BaseRef Q) (S : Cubes Q)
    (hcodec : codec.Lawful K.NumCubes) (hin : ∀ k, k < K.NumCubes → InBounds K (S k))
    (bs : List Bool) (c : Nat) :
    (serialize_body K codec crib StreamMode.writing delta_mode base).run (⟨bs, c⟩, S) =
      (Except.ok (if 0 ≤ delta_mode ∧ delta_mode < DELTA_NUM_MODES
          then changedMask K S (base.get S) else fun _ => false),
        (⟨bs ++ bodyImage K codec crib delta_mode S (base.get S), c⟩, S)) := by
  have hWabs : ∀ k bs c, changedMask K S (base.get S) k = true →
      (serialize_cube_absolute K StreamMode.writing k).run (⟨bs, c⟩, S) =
        (Except.ok (), (⟨bs ++ absoluteBits K (S k), c⟩, S)) := by
    intro k bs c hk
    exact run_cube_absolute_writing K k bs c S (hin k ((changedMask_eq_true K S _ k).1 hk).1)
  have hWrel : ∀ k bs c, changedMask K S (base.get S) k = true →
      (serialize_cube_relative_position K StreamMode.writing base k).run (⟨bs, c⟩, S) =
        (Except.ok (), (⟨bs ++ relativeBits K (S k) (base.get S k), c⟩, S)) := by
    intro k bs c hk
    exact run_cube_relative_position_writing K base k bs c S
      (fun _ => hin k ((changedMask_eq_true K S _ k).1 hk).1)
  unfold serialize_body bodyImage
  by_cases h0 : delta_mode = DELTA_MODE_NOT_CHANGED
  · have hr : 0 ≤ delta_mode ∧ delta_mode < DELTA_NUM_MODES := by
      simp [h0, DELTA_MODE_NOT_CHANGED, DELTA_NUM_MODES]
    simp only [h0, if_true, serialize_not_changed]
    rw [run_not_changed_loop_writing K base (changedMask K S (base.get S)) S K.NumCubes 0 _ bs c
      (fun k _ hk => by
        have : k < K.NumCubes := by omega
        simp [changedMask, this])
      (fun k _ _ hk => hin k ((changedMask_eq_true K S _ k).1 hk).1)]
    rw [← h0, if_pos hr]
    congr 2
    funext k
    by_cases hk : k < K.NumCubes
    · have : 0 ≤ k ∧ k < 0 + K.NumCubes := by omega
      simp only [this, and_self, if_true]
    · have : ¬ (0 ≤ k ∧ k < 0 + K.NumCubes) := by omega
      rw [if_neg this, changedMask_of_ge K S _ k (by omega)]
  · by_cases h1 : delta_mode = DELTA_MODE_CHANGED_INDEX
    · have hr : 0 ≤ delta_mode ∧ delta_mode < DELTA_NUM_MODES := by
        simp [h1, DELTA_MODE_CHANGED_INDEX, DELTA_NUM_MODES]
      rw [if_neg h0, if_pos h1, if_neg h0, if_pos h1, if_pos hr]
      unfold serialize_changed_index
      rw [run_serialize_indexed_writing K codec base _ _ _ _ _ S hcodec hWabs
        (fun h => by
          have := of_decide_eq_true h
          omega)]
    · by_cases h2 : delta_mode = DELTA_MODE_RELATIVE_INDEX
      · have hr : 0 ≤ delta_mode ∧ delta_mode < DELTA_NUM_MODES := by
          simp [h2, DELTA_MODE_RELATIVE_INDEX, DELTA_NUM_MODES]
        rw [if_neg h0, if_neg h1, if_pos h2, if_neg h0, if_neg h1, if_pos h2, if_pos hr]
        unfold serialize_relative_index
        rw [run_serialize_indexed_writing K codec base _ _ _ _ _ S hcodec hWabs
          (fun h => by
            simp only [Bool.and_eq_true, decide_eq_true_eq] at h
            omega)]
      · by_cases h3 : delta_mode = DELTA_MODE_RELATIVE_POSITION
        · have hr : 0 ≤ delta_mode ∧ delta_mode < DELTA_NUM_MODES := by
            simp [h3, DELTA_MODE_RELATIVE_POSITION, DELTA_NUM_MODES]
          rw [if_neg h0, if_neg h1, if_neg h2, if_pos h3, if_neg h0, if_neg h1, if_neg h2,
            if_pos (Or.inl h3), if_pos hr]
          unfold serialize_relative_position
          rw [run_serialize_indexed_writing K codec base _ _ _ _ _ S hcodec hWrel
            (fun h => by
              have := of_decide_eq_true h
              omega)]
        · by_cases h4 : delta_mode = DELTA_MODE_RELATIVE_ORIENTATION
          · have hr : 0 ≤ delta_mode ∧ delta_mode < DELTA_NUM_MODES := by
              simp [h4, DELTA_MODE_RELATIVE_ORIENTATION, DELTA_NUM_MODES]
            rw [if_neg h0, if_neg h1, if_neg h2, if_neg h3, if_pos h4, if_neg h0, if_neg h1,
              if_neg h2, if_pos (Or.inr h4), if_pos hr]
            unfold serialize_relative_orientation
            have hfun : serialize_cube_relative_orientation K StreamMode.writing base =
                serialize_cube_relative_position K StreamMode.writing base := rfl
            rw [hfun, run_serialize_indexed_writing K codec base _ _ _ _ _ S hcodec hWrel
              (fun h => by
                have := of_decide_eq_true h
                omega)]
          · have hr : ¬ (0 ≤ delta_mode ∧ delta_mode < DELTA_NUM_MODES) := by
              simp only [DELTA_MODE_NOT_CHANGED, DELTA_MODE_CHANGED_INDEX,
                DELTA_MODE_RELATIVE_INDEX, DELTA_MODE_RELATIVE_POSITION,
                DELTA_MODE_RELATIVE_ORIENTATION, DELTA_NUM_MODES] at *
              omega
            simp only [h0, h1, h2, h3, h4, hr, if_false, or_self, run_pure, List.append_nil]

theorem decoded_of_mask (K : Constants) (S B dec : Cubes Q) (mem : Cubes Q)
    (target : Cubes Q)
    (h1 : ∀ k, k < K.NumCubes → S k ≠ B k → dec k = target k)
    (h2 : ∀ k, k < K.NumCubes → S k = B k → B k = target k) :
    (fun k => if k < K.NumCubes then (if changedMask K S B k then dec k else B k) else mem k) =
      (fun k => if k < K.NumCubes then target k else mem k) := by
  funext k
  by_cases hk : k < K.NumCubes
  · simp only [hk, if_true]
    by_cases hc : S k = B k
    · have : changedMask K S B k = false := (changedMask_eq_false K S B k hk).2 hc
      simp only [this, Bool.false_eq_true, if_false]
      exact h2 k hk hc
    · have : changedMask K S B k = true := (changedMask_eq_true K S B k).2 ⟨hk, hc⟩
      simp only [this, if_true]
      exact h1 k hk hc
  · simp only [hk, if_false]

theorem run_serialize_body_reading (K : Constants) (codec : IndexCodec)
    (crib cribR : (Nat → Bool) → Int) (delta_mode : Int) (base : BaseRef Q) (S B mem : Cubes Q)
    (hmode : 0 ≤ delta_mode ∧ delta_mode < DELTA_NUM_MODES)
    (hcodec : codec.Lawful K.NumCubes) (hin : ∀ k, k < K.NumCubes → InBounds K (S k))
    (hb : ∀ k, k < K.NumCubes → base.get mem k = B k)
    (rest : List Bool) (c : Nat) :
    (serialize_body K codec cribR StreamMode.reading delta_mode base).run
        (⟨bodyImage K codec crib delta_mode S B ++ rest, c⟩, mem) =
      (Except.ok (changedMask K S B),
        (⟨rest, c⟩,
          fun k => if k < K.NumCubes then decodedCube delta_mode (S k) (B k) else mem k)) := by
  have hRabs : ∀ k rest c mem, changedMask K S B k = true → base.get mem k = B k →
      (serialize_cube_absolute K StreamMode.reading k).run
          (⟨absoluteBits K (S k) ++ rest, c⟩, mem) =
        (Except.ok (), (⟨rest, c⟩, Function.update mem k (S k))) := by
    intro k rest c mem hk _
    exact run_cube_absolute_reading K k (S k) (hin k ((changedMask_eq_true K S _ k).1 hk).1)
      rest c mem
  have hRrel : ∀ k rest c mem, changedMask K S B k = true → base.get mem k = B k →
      (serialize_cube_relative_position K StreamMode.reading base k).run
          (⟨relativeBits K (S k) (B k) ++ rest, c⟩, mem) =
        (Except.ok (), (⟨rest, c⟩, Function.update mem k (decodedRelative (S k) (B k)))) := by
    intro k rest c mem hk hbk
    exact run_cube_relative_position_reading K base k (S k) (B k)
      (fun _ => hin k ((changedMask_eq_true K S _ k).1 hk).1) rest c mem hbk
  have hge : ∀ k, K.NumCubes ≤ k → changedMask K S B k = false :=
    fun k hk => changedMask_of_ge K S B k hk
  unfold serialize_body bodyImage
  by_cases h0 : delta_mode = DELTA_MODE_NOT_CHANGED
  · rw [if_pos h0, if_pos h0]
    unfold serialize_not_changed
    rw [run_not_changed_loop_reading_eq,
      run_changed_bits_loop_reading base _ _ S B (changedMask K S B) hRabs K.NumCubes 0 rest c
        mem _ (fun k _ hk => hb k (by omega))]
    congr 1
    · congr 1
      funext k
      by_cases hk : k < K.NumCubes
      · have : 0 ≤ k ∧ k < 0 + K.NumCubes := by omega
        simp only [this, and_self, if_true]
      · have : ¬ (0 ≤ k ∧ k < 0 + K.NumCubes) := by omega
        rw [if_neg this, hge k (by omega)]
    · congr 1
      have e : ∀ k, (0 ≤ k ∧ k < 0 + K.NumCubes) ↔ k < K.NumCubes := by intro k; omega
      simp only [e]
      apply decoded_of_mask
      · intro k _ _
        simp [decodedCube, h0, DELTA_MODE_NOT_CHANGED, DELTA_MODE_RELATIVE_POSITION,
          DELTA_MODE_RELATIVE_ORIENTATION]
      · intro k _ hk
        simp [decodedCube, h0, DELTA_MODE_NOT_CHANGED, DELTA_MODE_RELATIVE_POSITION,
          DELTA_MODE_RELATIVE_ORIENTATION, hk]
  · by_cases h1 : delta_mode = DELTA_MODE_CHANGED_INDEX
    · rw [if_neg h0, if_pos h1, if_neg h0, if_pos h1]
      unfold serialize_changed_index
      rw [run_serialize_indexed_reading K codec base _ _ _ _ _ S B (changedMask K S B) _ hcodec
        hRabs (fun h => by
          have := of_decide_eq_true h
          omega) hge rest c mem hb]
      congr 2
      apply decoded_of_mask
      · intro k _ _
        simp [decodedCube, h1, DELTA_MODE_CHANGED_INDEX, DELTA_MODE_RELATIVE_POSITION,
          DELTA_MODE_RELATIVE_ORIENTATION]
      · intro k _ hk
        simp [decodedCube, h1, DELTA_MODE_CHANGED_INDEX, DELTA_MODE_RELATIVE_POSITION,
          DELTA_MODE_RELATIVE_ORIENTATION, hk]
    · by_cases h2 : delta_mode = DELTA_MODE_RELATIVE_INDEX
      · rw [if_neg h0, if_neg h1, if_pos h2, if_neg h0, if_neg h1, if_pos h2]
        unfold serialize_relative_index
        rw [run_serialize_indexed_reading K codec base _ _ _ _ _ S B (changedMask K S B) _ hcodec
          hRabs (fun h => by
            simp only [Bool.and_eq_true, decide_eq_true_eq] at h
            omega) hge rest c mem hb]
        congr 2
        apply decoded_of_mask
        · intro k _ _
          simp [decodedCube, h2, DELTA_MODE_RELATIVE_INDEX, DELTA_MODE_RELATIVE_POSITION,
            DELTA_MODE_RELATIVE_ORIENTATION]
        · intro k _ hk
          simp [decodedCube, h2, DELTA_MODE_RELATIVE_INDEX, DELTA_MODE_RELATIVE_POSITION,
            DELTA_MODE_RELATIVE_ORIENTATION, hk]
      · by_cases h3 : delta_mode = DELTA_MODE_RELATIVE_POSITION
        · rw [if_neg h0, if_neg h1, if_neg h2, if_pos h3, if_neg h0, if_neg h1, if_neg h2,
            if_pos (Or.inl h3)]
          unfold serialize_relative_position
          rw [run_serialize_indexed_reading K codec base _ _ _ _ _
            (fun k => decodedRelative (S k) (B k)) B (changedMask K S B) _ hcodec
            hRrel (fun h => by
              have := of_decide_eq_true h
              omega) hge rest c mem hb]
          congr 2
          apply decoded_of_mask
          · intro k _ _
            simp [decodedCube, h3]
          · intro k _ hk
            simp [decodedCube, h3, hk, decodedRelative_self]
        · have h4 : delta_mode = DELTA_MODE_RELATIVE_ORIENTATION := by
            simp only [DELTA_MODE_NOT_CHANGED, DELTA_MODE_CHANGED_INDEX,
              DELTA_MODE_RELATIVE_INDEX, DELTA_MODE_RELATIVE_POSITION,
              DELTA_MODE_RELATIVE_ORIENTATION, DELTA_NUM_MODES] at *
            omega
          rw [if_neg h0, if_neg h1, if_neg h2, if_neg h3, if_pos h4, if_neg h0, if_neg h1,
            if_neg h2, if_pos (Or.inr h4)]
          unfold serialize_relative_orientation
          have hfun : serialize_cube_relative_orientation K StreamMode.reading base =
              serialize_cube_relative_position K StreamMode.reading base := rfl
          rw [hfun, run_serialize_indexed_reading K codec base _ _ _ _ _
            (fun k => decodedRelative (S k) (B k)) B (changedMask K S B) _ hcodec
            hRrel (fun h => by
              have := of_decide_eq_true h
              omega) hge rest c mem hb]
          congr 2
          apply decoded_of_mask
          · intro k _ _
            simp [decodedCube, h4]
          · intro k _ hk
            simp [decodedCube, h4, hk, decodedRelative_self]

end Body

section Packet

variable {Q : Nat}

theorem run_header_writing (p : DeltaSnapshotPacket)
    (hmode : 0 ≤ p.delta_mode ∧ p.delta_mode ≤ DELTA_NUM_MODES - 1) (bs : List Bool) (c : Nat) :
    (DeltaSnapshotPacket.serialize_header StreamMode.writing).run (⟨bs, c⟩, p) =
      (Except.ok (), (⟨bs ++ headerImage p, c⟩, p)) := by
  obtain ⟨sequence, base_sequence, initial, delta_mode⟩ := p
  cases initial <;>
  simp only [DeltaSnapshotPacket.serialize_header, run_bind, run_getMem, serialize_uint16,
    run_serialize_bits_writing, run_modifyMem, run_serialize_int_writing _ _ _ hmode.1 hmode.2,
    run_serialize_bool_writing, Bool.not_true, Bool.not_false, Bool.false_eq_true, if_false,
    if_true, run_pure, headerImage, List.append_assoc, List.singleton_append, List.cons_append,
    List.nil_append, List.append_nil]

theorem run_header_reading (p p0 : DeltaSnapshotPacket) (hp : p.WellTyped)
    (hmode : 0 ≤ p.delta_mode ∧ p.delta_mode ≤ DELTA_NUM_MODES - 1) (rest : List Bool)
    (c : Nat) :
    (DeltaSnapshotPacket.serialize_header StreamMode.reading).run
        (⟨headerImage p ++ rest, c⟩, p0) =
      (Except.ok (), (⟨rest, c⟩,
        { sequence := p.sequence
          base_sequence := if p.initial then p0.base_sequence else p.base_sequence
          initial := p.initial
          delta_mode := p.delta_mode })) := by
  obtain ⟨sequence, base_sequence, initial, delta_mode⟩ := p
  obtain ⟨h1, h2⟩ := hp
  have h1' : sequence < 2 ^ 16 := h1
  have h2' : base_sequence < 2 ^ 16 := h2
  cases initial <;>
  simp only [DeltaSnapshotPacket.serialize_header, run_bind, run_getMem, serialize_uint16,
    headerImage, List.append_assoc, List.cons_append, List.nil_append,
    run_serialize_bits_reading _ _ 16 h1', run_serialize_bits_reading _ _ 16 h2',
    run_modifyMem, run_serialize_int_reading _ _ _ _ hmode.1 hmode.2,
    run_serialize_bool_reading, Bool.not_true, Bool.not_false, Bool.false_eq_true, if_false,
    if_true, run_pure]

theorem headerImage_length (p : DeltaSnapshotPacket) :
    (headerImage p).length = if p.initial then 20 else 36 := by
  have h3 : bits_required 0 (DELTA_NUM_MODES - 1) = 3 := by decide
  cases hi : p.initial <;>
  simp [headerImage, length_toBits, intBits_length, h3, hi]

theorem resolve_base_writing (m : StreamMode) (hm : m.IsWriting = true) (ctx : Context Q)
    (p : DeltaSnapshotPacket) :
    ∃ base : BaseRef Q, resolve_base m ctx p = Except.ok base ∧
      base.get (ctx.sliding_window.Get p.sequence) = senderBase ctx p := by
  unfold resolve_base senderBase
  cases hi : p.initial with
  | true => exact ⟨BaseRef.snapshot ctx.initial_snapshot, by simp, by simp; rfl⟩
  | false =>
    simp only [Bool.false_eq_true, if_false, hm, if_true]
    by_cases hs : p.base_sequence % ctx.sliding_window.size =
        p.sequence % ctx.sliding_window.size
    · refine ⟨BaseRef.aliased, by simp [hs], ?_⟩
      funext k
      simp [BaseRef.get, SlidingWindow.Get, hs]
    · exact ⟨BaseRef.snapshot (ctx.sliding_window.Get p.base_sequence), by simp [hs], rfl⟩

theorem SlidingWindow.store_Get (w : SlidingWindow Q) (sequence : Nat) :
    w.store sequence (w.Get sequence) = w := by
  simp [SlidingWindow.store, SlidingWindow.Get]

theorem Serialize_writing (K : Constants) (codec : IndexCodec) (crib : (Nat → Bool) → Int)
    (ctx : Context Q) (p : DeltaSnapshotPacket)
    (hmode : 0 ≤ p.delta_mode ∧ p.delta_mode < DELTA_NUM_MODES)
    (hcodec : codec.Lawful K.NumCubes)
    (hin : ∀ k, k < K.NumCubes → InBounds K (ctx.sliding_window.Get p.sequence k))
    (bs : List Bool) (c : Nat) :
    DeltaSnapshotPacket.Serialize K codec crib StreamMode.writing ctx p ⟨bs, c⟩ =
      { status := Except.ok ()
        packet := p
        stream := ⟨bs ++ packetImage K codec crib ctx p, c⟩
        context := ctx
        changed := changedMask K (ctx.sliding_window.Get p.sequence) (senderBase ctx p) } := by
  obtain ⟨base, hbase, hget⟩ := resolve_base_writing StreamMode.writing rfl ctx p
  have hm : 0 ≤ p.delta_mode ∧ p.delta_mode ≤ DELTA_NUM_MODES - 1 := by
    simp only [DELTA_NUM_MODES] at *
    omega
  simp only [DeltaSnapshotPacket.Serialize, run_header_writing p hm, StreamMode.IsWriting,
    if_true, serialize_cubes, hmode, and_self, hbase,
    run_serialize_body_writing K codec crib p.delta_mode base _ hcodec hin, hget,
    SlidingWindow.store_Get, packetImage, List.append_assoc]

theorem SequenceBuffer.Insert_some (b buf : SequenceBuffer Q) (sequence : Nat)
    (h : b.Insert sequence = some buf) :
    buf.size = b.size ∧
    buf.slots (sequence % b.size) =
      { sequence := sequence, valid := true,
        snapshot := (b.slots (sequence % b.size)).snapshot } ∧
    ∀ idx, idx ≠ sequence % b.size → buf.slots idx = b.slots idx := by
  unfold SequenceBuffer.Insert at h
  cases hn : b.newest with
  | none =>
    simp only [hn, Option.some.injEq] at h
    subst h
    refine ⟨rfl, by simp, fun idx hidx => by simp [Function.update_noteq hidx]⟩
  | some newest =>
    simp only [hn] at h
    split at h
    · exact absurd h (by simp)
    · simp only [Option.some.injEq] at h
      subst h
      refine ⟨rfl, by simp, fun idx hidx => by simp [Function.update_noteq hidx]⟩

theorem SequenceBuffer.Find_store (buf : SequenceBuffer Q) (sequence : Nat) (cubes : Cubes Q)
    (hv : (buf.slots (sequence % buf.size)).valid = true)
    (hs : (buf.slots (sequence % buf.size)).sequence = sequence) :
    (buf.store sequence cubes).Find sequence = some cubes := by
  simp [SequenceBuffer.store, SequenceBuffer.Find, hv, hs]

theorem resolve_base_reading (ctx : Context Q) (p : DeltaSnapshotPacket) (B : Cubes Q)
    (N : Nat)
    (hbase : if p.initial then ∀ k, k < N → ctx.initial_snapshot k = B k
      else ∃ cubes, ctx.sequence_buffer.Find p.base_sequence = some cubes ∧
        ∀ k, k < N → cubes k = B k) :
    ∃ base : BaseRef Q, resolve_base StreamMode.reading ctx p = Except.ok base ∧
      ∀ k, k < N →
        base.get (ctx.sequence_buffer.slots (p.sequence % ctx.sequence_buffer.size)).snapshot k =
          B k := by
  unfold resolve_base
  cases hi : p.initial with
  | true =>
    simp only [hi, if_true] at hbase
    exact ⟨BaseRef.snapshot ctx.initial_snapshot, by simp, fun k hk => hbase k hk⟩
  | false =>
    simp only [hi, Bool.false_eq_true, if_false] at hbase
    obtain ⟨cubes, hfind, hcubes⟩ := hbase
    simp only [Bool.false_eq_true, if_false, StreamMode.IsWriting, hfind]
    by_cases hs : p.base_sequence % ctx.sequence_buffer.size =
        p.sequence % ctx.sequence_buffer.size
    · refine ⟨BaseRef.aliased, by simp [hs], ?_⟩
      intro k hk
      unfold SequenceBuffer.Find at hfind
      split at hfind
      · simp only [Option.some.injEq] at hfind
        rw [← hcubes k hk, ← hfind, hs]
        rfl
      · exact absurd hfind (by simp)
    · exact ⟨BaseRef.snapshot cubes, by simp [hs], fun k hk => hcubes k hk⟩

theorem Serialize_reading (K : Constants) (codec : IndexCodec) (crib cribR : (Nat → Bool) → Int)
    (ctx : Context Q) (p p0 : DeltaSnapshotPacket) (S B : Cubes Q) (buf : SequenceBuffer Q)
    (hp : p.WellTyped) (hmode : 0 ≤ p.delta_mode ∧ p.delta_mode < DELTA_NUM_MODES)
    (hcodec : codec.Lawful K.NumCubes) (hin : ∀ k, k < K.NumCubes → InBounds K (S k))
    (hins : ctx.sequence_buffer.Insert p.sequence = some buf)
    (hbase : if p.initial then ∀ k, k < K.NumCubes → ctx.initial_snapshot k = B k
      else ∃ cubes, buf.Find p.base_sequence = some cubes ∧
        ∀ k, k < K.NumCubes → cubes k = B k)
    (rest : List Bool) (c : Nat) :
    DeltaSnapshotPacket.Serialize K codec cribR StreamMode.reading ctx p0
        ⟨headerImage p ++ (bodyImage K codec crib p.delta_mode S B ++ rest), c⟩ =
      { status := Except.ok ()
        packet :=
          { sequence := p.sequence
            base_sequence := if p.initial then p0.base_sequence else p.base_sequence
            initial := p.initial
            delta_mode := p.delta_mode }
        stream := ⟨rest, c⟩
        context :=
          { ctx with sequence_buffer := (buf.store p.sequence
              (fun k => if k < K.NumCubes then decodedCube p.delta_mode (S k) (B k)
                else (buf.slots (p.sequence % buf.size)).snapshot k)) }
        changed := changedMask K S B } := by
  have hm : 0 ≤ p.delta_mode ∧ p.delta_mode ≤ DELTA_NUM_MODES - 1 := by
    simp only [DELTA_NUM_MODES] at *
    omega
  obtain ⟨base, hres, hget⟩ := resolve_base_reading
    { ctx with sequence_buffer := buf }
    { sequence := p.sequence
      base_sequence := if p.initial then p0.base_sequence else p.base_sequence
      initial := p.initial
      delta_mode := p.delta_mode } B K.NumCubes
    (by
      cases hi : p.initial with
      | true => simpa [hi] using hbase
      | false => simpa [hi] using hbase)
  simp only [DeltaSnapshotPacket.Serialize, run_header_reading p p0 hp hm,
    StreamMode.IsWriting, Bool.false_eq_true, if_false, hins, serialize_cubes, hmode, and_self,
    if_true, hres]
  rw [run_serialize_body_reading K codec crib cribR p.delta_mode base S B _ hmode hcodec hin
    hget]

theorem run_serialize_bits_mem {σ : Type} (m : StreamMode) (value n : Nat) (s : Stream × σ) :
    ((serialize_bits m value n).run s).2.2 = s.2 := by
  cases m with
  | writing => rfl
  | measuring => rfl
  | reading =>
    simp only [serialize_bits, StreamM.run]
    split <;> rfl

theorem serialize_int_reading_inv {σ : Type} (v0 lo hi v : Int) (s s' : Stream × σ)
    (h : (serialize_int StreamMode.reading v0 lo hi).run s = (Except.ok v, s')) :
    lo ≤ v ∧ v ≤ hi ∧ s'.2 = s.2 := by
  simp only [serialize_int, StreamMode.IsWriting, Bool.false_eq_true, if_false, run_bind] at h
  have hmem := run_serialize_bits_mem (σ := σ) StreamMode.reading 0 (bits_required lo hi) s
  rcases h1 : (serialize_bits StreamMode.reading 0 (bits_required lo hi) : StreamM σ Nat).run s
    with ⟨r1, s1⟩
  rw [h1] at h hmem
  cases r1 with
  | error e => simp at h
  | ok u =>
    simp only [] at h hmem
    by_cases hle : lo + (u : Int) ≤ hi
    · simp only [hle, if_true, run_pure, Prod.mk.injEq, Except.ok.injEq] at h
      obtain ⟨hv, hs⟩ := h
      subst hv hs
      exact ⟨by omega, hle, hmem⟩
    · simp only [hle, if_false, run_fail, Prod.mk.injEq] at h
      exact absurd h.1 (by simp)

theorem header_reading_inv (stream st' : Stream) (p0 p : DeltaSnapshotPacket)
    (h : (DeltaSnapshotPacket.serialize_header StreamMode.reading).run (stream, p0) =
      (Except.ok (), (st', p))) :
    0 ≤ p.delta_mode ∧ p.delta_mode < DELTA_NUM_MODES := by
  simp only [DeltaSnapshotPacket.serialize_header, run_bind, run_getMem, run_modifyMem,
    serialize_uint16] at h
  rcases h1 : (serialize_bits StreamMode.reading p0.sequence 16 :
    StreamM DeltaSnapshotPacket Nat).run (stream, p0) with ⟨r1, s1⟩
  rw [h1] at h
  cases r1 with
  | error e => simp at h
  | ok v1 =>
    simp only [] at h
    rcases h2 : (serialize_int StreamMode.reading s1.2.delta_mode 0 (DELTA_NUM_MODES - 1) :
      StreamM DeltaSnapshotPacket Int).run
        (s1.1, { s1.2 with sequence := v1 }) with ⟨r2, s2⟩
    rw [h2] at h
    cases r2 with
    | error e => simp at h
    | ok v2 =>
      obtain ⟨hlo, hhi, _⟩ := serialize_int_reading_inv _ _ _ _ _ _ h2
      simp only [] at h
      rcases h3 : (serialize_bool StreamMode.reading s2.2.initial :
        StreamM DeltaSnapshotPacket Bool).run
          (s2.1, { s2.2 with delta_mode := v2 }) with ⟨r3, s3⟩
      rw [h3] at h
      cases r3 with
      | error e => simp at h
      | ok v3 =>
        have hmem3 : s3.2 = { s2.2 with delta_mode := v2 } := by
          have := run_serialize_bits_mem (σ := DeltaSnapshotPacket) StreamMode.reading
            (if s2.2.initial then 1 else 0) 1 (s2.1, { s2.2 with delta_mode := v2 })
          simp only [serialize_bool, run_bind] at h3
          rcases h4 : (serialize_bits StreamMode.reading (if s2.2.initial then 1 else 0) 1 :
            StreamM DeltaSnapshotPacket Nat).run
              (s2.1, { s2.2 with delta_mode := v2 }) with ⟨r4, s4⟩
          rw [h4] at h3 this
          cases r4 with
          | error e => simp at h3
          | ok u =>
            simp only [run_pure, Prod.mk.injEq] at h3
            rw [← h3.2]
            exact this
        simp only [] at h
        have hfinal : p.delta_mode = v2 := by
          cases v3 with
          | true =>
            simp only [Bool.not_true, Bool.false_eq_true, if_false, run_pure, Prod.mk.injEq,
              true_and] at h
            rw [← h.2, hmem3]
          | false =>
            simp only [Bool.not_false, if_true, run_bind, run_getMem, run_modifyMem] at h
            rcases h5 : (serialize_bits StreamMode.reading s3.2.base_sequence 16 :
              StreamM DeltaSnapshotPacket Nat).run
                (s3.1, { s3.2 with initial := false }) with ⟨r5, s5⟩
            have hmem5 := run_serialize_bits_mem (σ := DeltaSnapshotPacket) StreamMode.reading
              s3.2.base_sequence 16 (s3.1, { s3.2 with initial := false })
            rw [h5] at h hmem5
            cases r5 with
            | error e => simp at h
            | ok v5 =>
              simp only [Prod.mk.injEq, true_and] at h hmem5
              rw [← h.2, hmem5, hmem3]
        rw [hfinal]
        simp only [DELTA_NUM_MODES] at *
        omega

theorem SequenceBuffer.Find_after_Insert (b buf : SequenceBuffer Q) (sequence base : Nat)
    (hins : b.Insert sequence = some buf) (hne : base ≠ sequence)
    (hfind : b.Find base = none) : buf.Find base = none := by
  obtain ⟨hsize, hslot, hother⟩ := SequenceBuffer.Insert_some _ _ _ hins
  unfold SequenceBuffer.Find at hfind ⊢
  rw [hsize]
  by_cases hidx : base % b.size = sequence % b.size
  · rw [hidx, hslot]
    have : ¬ sequence = base := fun h => hne h.symm
    simp [this]
  · rw [hother _ hidx]
    exact hfind

theorem missing_base_core (K : Constants) (codec : IndexCodec) (crib : (Nat → Bool) → Int)
    (ctx : Context Q) (p0 p : DeltaSnapshotPacket) (stream st' : Stream)
    (hheader : (DeltaSnapshotPacket.serialize_header StreamMode.reading).run (stream, p0) =
      (Except.ok (), (st', p)))
    (hinitial : p.initial = false) (hne : p.base_sequence ≠ p.sequence)
    (hfind : ctx.sequence_buffer.Find p.base_sequence = none) :
    DeltaSnapshotPacket.Serialize K codec crib StreamMode.reading ctx p0 stream =
      { status := Except.error Failure.assertion
        packet := p
        stream := st'
        context :=
          { ctx with sequence_buffer :=
              ((ctx.sequence_buffer.Insert p.sequence).getD ctx.sequence_buffer) }
        changed := fun _ => false } := by
  have hmode := header_reading_inv stream st' p0 p hheader
  simp only [DeltaSnapshotPacket.Serialize, hheader, StreamMode.IsWriting, Bool.false_eq_true,
    if_false]
  cases hins : ctx.sequence_buffer.Insert p.sequence with
  | none => simp
  | some buf =>
    have hf := SequenceBuffer.Find_after_Insert _ _ _ _ hins hne hfind
    simp only [serialize_cubes, hmode, and_self, if_true, resolve_base, hinitial,
      Bool.false_eq_true, if_false, StreamMode.IsWriting, hf, Option.getD_some]

end Packet

section Instances

theorem take_toBits_append (n v : Nat) (rest : List Bool) :
    (toBits n v ++ rest).take n = toBits n v :=
  List.take_left' (length_toBits n v)

theorem drop_toBits_append (n v : Nat) (rest : List Bool) :
    (toBits n v ++ rest).drop n = rest :=
  List.drop_left' (length_toBits n v)

theorem spec_index_codec_lawful (K : Constants) : (spec_index_codec K).Lawful K.NumCubes := by
  intro previous current h1 h2
  by_cases hd7 : current - previous - 1 ≤ 7
  · refine ⟨false :: toBits 3 (current - previous - 1), ?_, ?_, ?_⟩
    · simp only [spec_index_codec, h1, hd7, if_true]
    · simp only [spec_index_codec, h1, hd7, if_true, List.length_cons, length_toBits]
    · intro rest
      have hlt : current - previous - 1 < 2 ^ 3 := by omega
      have hlen : ¬ (toBits 3 (current - previous - 1) ++ rest).length < 3 := by
        simp [length_toBits]
      simp only [spec_index_codec, List.cons_append, hlen, if_false, take_toBits_append,
        drop_toBits_append, fromBits_toBits _ _ hlt]
      congr 2
      omega
  · by_cases hd39 : current - previous - 1 ≤ 39
    · refine ⟨true :: false :: toBits 5 (current - previous - 1 - 8), ?_, ?_, ?_⟩
      · simp only [spec_index_codec, h1, hd7, hd39, if_true, if_false]
      · simp only [spec_index_codec, h1, hd7, hd39, if_true, if_false, List.length_cons,
          length_toBits]
      · intro rest
        have hlt : current - previous - 1 - 8 < 2 ^ 5 := by omega
        have hlen : ¬ (toBits 5 (current - previous - 1 - 8) ++ rest).length < 5 := by
          simp [length_toBits]
        simp only [spec_index_codec, List.cons_append, hlen, if_false, take_toBits_append,
          drop_toBits_append, fromBits_toBits _ _ hlt]
        congr 2
        omega
    · have hc1 : (0 : Int) ≤ (current : Int) := by omega
      have hc2 : (current : Int) ≤ (K.NumCubes : Int) - 1 := by omega
      have hlt := toNat_lt_two_pow_bits_required 0 ((K.NumCubes : Int) - 1) (current : Int)
        hc1 hc2
      have hnat : ((current : Int) - 0).toNat = current := by omega
      rw [hnat] at hlt
      refine ⟨true :: true :: true :: true ::
        intBits 0 ((K.NumCubes : Int) - 1) (current : Int), ?_, ?_, ?_⟩
      · simp only [spec_index_codec, h1, hd7, hd39, h2, if_true, if_false]
      · simp only [spec_index_codec, h1, hd7, hd39, h2, if_true, if_false, List.length_cons,
          intBits_length]
        congr 1
        omega
      · intro rest
        have hlen : ¬ (toBits (bits_required 0 ((K.NumCubes : Int) - 1)) current ++ rest).length <
            bits_required 0 ((K.NumCubes : Int) - 1) := by
          simp [length_toBits]
        simp only [spec_index_codec, List.cons_append, intBits, hnat, hlen, if_false,
          take_toBits_append, drop_toBits_append, fromBits_toBits _ _ hlt, h2, if_true]

end Instances

section RoundTrip

variable {Q : Nat}

theorem round_trip_core (K : Constants) (codec : IndexCodec) (crib cribR : (Nat → Bool) → Int)
    (sender receiver : Context Q) (p p0 : DeltaSnapshotPacket) (rest : List Bool)
    (hp : p.WellTyped) (hmode : 0 ≤ p.delta_mode ∧ p.delta_mode < DELTA_NUM_MODES)
    (hcodec : codec.Lawful K.NumCubes)
    (hin : ∀ k, k < K.NumCubes → InBounds K (sender.sliding_window.Get p.sequence k))
    (hbase : ReceiverHasBase K sender receiver p) :
    (DeltaSnapshotPacket.Serialize K codec crib StreamMode.writing sender p ⟨[], 0⟩).status =
      Except.ok () ∧
    (DeltaSnapshotPacket.Serialize K codec crib StreamMode.writing sender p ⟨[], 0⟩).stream.bits =
      packetImage K codec crib sender p ∧
    ∃ out : Cubes Q,
      (DeltaSnapshotPacket.Serialize K codec cribR StreamMode.reading receiver p0
        ⟨(DeltaSnapshotPacket.Serialize K codec crib StreamMode.writing sender p
          ⟨[], 0⟩).stream.bits ++ rest, 0⟩).status = Except.ok () ∧
      (DeltaSnapshotPacket.Serialize K codec cribR StreamMode.reading receiver p0
        ⟨(DeltaSnapshotPacket.Serialize K codec crib StreamMode.writing sender p
          ⟨[], 0⟩).stream.bits ++ rest, 0⟩).stream.bits = rest ∧
      (DeltaSnapshotPacket.Serialize K codec cribR StreamMode.reading receiver p0
        ⟨(DeltaSnapshotPacket.Serialize K codec crib StreamMode.writing sender p
          ⟨[], 0⟩).stream.bits ++ rest, 0⟩).context.sequence_buffer.Find p.sequence =
        some out ∧
      ∀ k, k < K.NumCubes →
        out k = decodedCube p.delta_mode (sender.sliding_window.Get p.sequence k)
          (senderBase sender p k) := by
  rw [Serialize_writing K codec crib sender p hmode hcodec hin]
  refine ⟨rfl, by simp, ?_⟩
  unfold ReceiverHasBase at hbase
  split at hbase
  · exact absurd hbase id
  · next buf hins =>
    obtain ⟨hsize, hslot, _⟩ := SequenceBuffer.Insert_some _ _ _ hins
    simp only [List.nil_append, packetImage, List.append_assoc]
    rw [Serialize_reading K codec crib cribR receiver p p0
      (sender.sliding_window.Get p.sequence) (senderBase sender p) buf hp hmode hcodec hin hins
      hbase rest 0]
    refine ⟨_, rfl, rfl, SequenceBuffer.Find_store _ _ _ ?_ ?_, ?_⟩
    · rw [hsize, hslot]
    · rw [hsize, hslot]
    · intro k hk
      simp only [hk, if_true]

end RoundTrip

section Measure

variable {σ α β : Type}

theorem sim_pure (a : α) : Sim (pure a : StreamM σ α) (pure a) := by
  intro bs bm cw cm mem
  exact ⟨[], Except.ok a, mem, by simp [run_pure], by simp [run_pure]⟩

theorem sim_fail (e : Failure) : Sim (StreamM.fail e : StreamM σ α) (StreamM.fail e) := by
  intro bs bm cw cm mem
  exact ⟨[], Except.error e, mem, by simp [run_fail], by simp [run_fail]⟩

theorem sim_bind {xw xm : StreamM σ α} {fw fm : α → StreamM σ β} (h : Sim xw xm)
    (hf : ∀ a, Sim (fw a) (fm a)) : Sim (xw >>= fw) (xm >>= fm) := by
  intro bs bm cw cm mem
  obtain ⟨W1, r, mem', h1, h2⟩ := h bs bm cw cm mem
  cases r with
  | error e =>
    exact ⟨W1, Except.error e, mem', by rw [run_bind, h1], by rw [run_bind, h2]⟩
  | ok a =>
    obtain ⟨W2, r2, mem'', h3, h4⟩ := hf a (bs ++ W1) bm cw (cm + W1.length) mem'
    refine ⟨W1 ++ W2, r2, mem'', ?_, ?_⟩
    · rw [run_bind, h1]
      simp only [h3, List.append_assoc]
    · rw [run_bind, h2]
      simp only [h4, List.length_append, Nat.add_assoc]

theorem sim_ite (c : Prop) [Decidable c] {xw xm yw ym : StreamM σ α} (hx : Sim xw xm)
    (hy : Sim yw ym) : Sim (if c then xw else yw) (if c then xm else ym) := by
  split
  · exact hx
  · exact hy

theorem sim_getMem : Sim (StreamM.getMem : StreamM σ σ) StreamM.getMem := by
  intro bs bm cw cm mem
  exact ⟨[], Except.ok mem, mem, by simp [run_getMem], by simp [run_getMem]⟩

theorem sim_modifyMem (f : σ → σ) : Sim (StreamM.modifyMem f) (StreamM.modifyMem f) := by
  intro bs bm cw cm mem
  exact ⟨[], Except.ok (), f mem, by simp [run_modifyMem], by simp [run_modifyMem]⟩

theorem sim_serialize_bits (value n : Nat) :
    Sim (serialize_bits StreamMode.writing value n : StreamM σ Nat)
      (serialize_bits StreamMode.measuring value n) := by
  intro bs bm cw cm mem
  exact ⟨toBits n value, Except.ok value, mem, rfl, by
    rw [run_serialize_bits_measuring, length_toBits]⟩

theorem sim_serialize_bool (value : Bool) :
    Sim (serialize_bool StreamMode.writing value : StreamM σ Bool)
      (serialize_bool StreamMode.measuring value) := by
  unfold serialize_bool
  exact sim_bind (sim_serialize_bits _ _) (fun _ => sim_pure _)

theorem sim_serialize_uint16 (value : Nat) :
    Sim (serialize_uint16 StreamMode.writing value : StreamM σ Nat)
      (serialize_uint16 StreamMode.measuring value) :=
  sim_serialize_bits _ _

theorem sim_serialize_int (value min max : Int) :
    Sim (serialize_int StreamMode.writing value min max : StreamM σ Int)
      (serialize_int StreamMode.measuring value min max) := by
  unfold serialize_int
  simp only [StreamMode.IsWriting, if_true]
  exact sim_ite _ (sim_bind (sim_serialize_bits _ _) (fun _ => sim_pure _)) (sim_fail _)

theorem sim_quaternion {Q : Nat} (q : CompressedQuaternion Q) :
    Sim (q.Serialize StreamMode.writing : StreamM σ (CompressedQuaternion Q))
      (q.Serialize StreamMode.measuring) := by
  unfold CompressedQuaternion.Serialize
  exact sim_bind (sim_serialize_bits _ _) (fun _ =>
    sim_bind (sim_serialize_bits _ _) (fun _ =>
      sim_bind (sim_serialize_bits _ _) (fun _ =>
        sim_bind (sim_serialize_bits _ _) (fun _ => sim_pure _))))

variable {Q : Nat}

theorem sim_cubeAt (i : Nat) : Sim (cubeAt i : StreamM (Cubes Q) _) (cubeAt i) := by
  intro bs bm cw cm mem
  exact ⟨[], Except.ok (mem i), mem, by simp [run_cubeAt], by simp [run_cubeAt]⟩

theorem sim_baseAt (base : BaseRef Q) (i : Nat) : Sim (baseAt base i) (baseAt base i) := by
  intro bs bm cw cm mem
  exact ⟨[], Except.ok (base.get mem i), mem, by simp [run_baseAt], by simp [run_baseAt]⟩

theorem sim_setCube (i : Nat) (f : QuantizedCubeState Q → QuantizedCubeState Q) :
    Sim (setCube i f) (setCube i f) :=
  sim_modifyMem _

theorem sim_copyBase (base : BaseRef Q) (i : Nat) : Sim (copyBase base i) (copyBase base i) :=
  sim_modifyMem _

theorem sim_orientation (i : Nat) :
    Sim (serialize_orientation StreamMode.writing i : StreamM (Cubes Q) Unit)
      (serialize_orientation StreamMode.measuring i) := by
  unfold serialize_orientation
  exact sim_bind (sim_cubeAt i) (fun _ => sim_bind (sim_quaternion _) (fun _ => sim_setCube _ _))

theorem sim_cube_absolute (K : Constants) (i : Nat) :
    Sim (serialize_cube_absolute K StreamMode.writing i : StreamM (Cubes Q) Unit)
      (serialize_cube_absolute K StreamMode.measuring i) := by
  unfold serialize_cube_absolute
  exact sim_bind (sim_cubeAt i) (fun _ =>
    sim_bind (sim_serialize_bool _) (fun _ =>
    sim_bind (sim_setCube _ _) (fun _ =>
    sim_bind (sim_cubeAt i) (fun _ =>
    sim_bind (sim_serialize_int _ _ _) (fun _ =>
    sim_bind (sim_setCube _ _) (fun _ =>
    sim_bind (sim_cubeAt i) (fun _ =>
    sim_bind (sim_serialize_int _ _ _) (fun _ =>
    sim_bind (sim_setCube _ _) (fun _ =>
    sim_bind (sim_cubeAt i) (fun _ =>
    sim_bind (sim_serialize_int _ _ _) (fun _ =>
    sim_bind (sim_setCube _ _) (fun _ => sim_orientation i))))))))))))

theorem sim_cube_relative_position (K : Constants) (base : BaseRef Q) (i : Nat) :
    Sim (serialize_cube_relative_position K StreamMode.writing base i)
      (serialize_cube_relative_position K StreamMode.measuring base i) := by
  unfold serialize_cube_relative_position
  simp only [StreamMode.IsWriting, StreamMode.IsReading, if_true, Bool.false_eq_true, if_false]
  refine sim_bind (sim_cubeAt i) (fun _ =>
    sim_bind (sim_serialize_bool _) (fun _ =>
    sim_bind (sim_setCube _ _) (fun _ =>
    sim_bind (sim_cubeAt i) (fun _ =>
    sim_bind (sim_baseAt base i) (fun _ =>
    sim_bind (sim_serialize_bool _) (fun rel => ?_))))))
  cases rel with
  | true =>
    simp only [if_true]
    exact sim_bind (sim_cubeAt i) (fun _ =>
      sim_bind (sim_baseAt base i) (fun _ =>
      sim_bind (sim_serialize_int _ _ _) (fun _ =>
      sim_bind (sim_serialize_int _ _ _) (fun _ =>
      sim_bind (sim_serialize_int _ _ _) (fun _ =>
      sim_bind (sim_baseAt base i) (fun _ =>
      sim_bind (sim_setCube _ _) (fun _ =>
      sim_bind (sim_baseAt base i) (fun _ =>
      sim_bind (sim_setCube _ _) (fun _ =>
      sim_bind (sim_baseAt base i) (fun _ =>
      sim_bind (sim_setCube _ _) (fun _ => sim_orientation i)))))))))))
  | false =>
    simp only [Bool.false_eq_true, if_false]
    exact sim_bind (sim_cubeAt i) (fun _ =>
      sim_bind (sim_serialize_int _ _ _) (fun _ =>
      sim_bind (sim_setCube _ _) (fun _ =>
      sim_bind (sim_cubeAt i) (fun _ =>
      sim_bind (sim_serialize_int _ _ _) (fun _ =>
      sim_bind (sim_setCube _ _) (fun _ =>
      sim_bind (sim_cubeAt i) (fun _ =>
      sim_bind (sim_serialize_int _ _ _) (fun _ =>
      sim_bind (sim_setCube _ _) (fun _ =>
      sim_bind (sim_pure _) (fun _ => sim_orientation i))))))))))

theorem sim_index_relative {σ : Type} (codec : IndexCodec) (N previous current : Nat)
    (hcodec : codec.Lawful N) (h1 : previous < current) (h2 : current < N) :
    Sim (serialize_index_relative codec StreamMode.writing previous current : StreamM σ Nat)
      (serialize_index_relative codec StreamMode.measuring previous current) := by
  intro bs bm cw cm mem
  exact ⟨codec.bits previous current, Except.ok current, mem,
    run_index_relative_writing codec N previous current hcodec h1 h2 bs cw mem,
    run_index_relative_measuring codec N previous current hcodec h1 h2 bm cm mem⟩

theorem sim_not_changed_loop (K : Constants) (base : BaseRef Q) (n i : Nat)
    (log : Nat → Bool) :
    Sim (not_changed_loop K StreamMode.writing base n i log)
      (not_changed_loop K StreamMode.measuring base n i log) := by
  induction n generalizing i log with
  | zero => exact sim_pure _
  | succ n ih =>
    unfold not_changed_loop
    simp only [StreamMode.IsWriting, StreamMode.IsReading, if_true, Bool.false_eq_true,
      if_false]
    refine sim_bind (sim_cubeAt i) (fun _ =>
      sim_bind (sim_baseAt base i) (fun _ =>
      sim_bind (sim_serialize_bool _) (fun changed => ?_)))
    cases changed with
    | true =>
      simp only [if_true]
      exact sim_bind (sim_cube_absolute K i) (fun _ => ih _ _)
    | false =>
      simp only [Bool.false_eq_true, if_false]
      exact sim_bind (sim_pure _) (fun _ => ih _ _)

theorem sim_changed_bits_loop (base : BaseRef Q) (cubeW cubeM : Nat → StreamM (Cubes Q) Unit)
    (hcube : ∀ i, Sim (cubeW i) (cubeM i)) (n i : Nat) (changed : Nat → Bool) :
    Sim (changed_bits_loop StreamMode.writing base cubeW n i changed)
      (changed_bits_loop StreamMode.measuring base cubeM n i changed) := by
  induction n generalizing i changed with
  | zero => exact sim_pure _
  | succ n ih =>
    unfold changed_bits_loop
    simp only [StreamMode.IsReading, Bool.false_eq_true, if_false]
    refine sim_bind (sim_serialize_bool _) (fun c => ?_)
    cases c with
    | true =>
      simp only [if_true]
      exact sim_bind (hcube i) (fun _ => ih _ _)
    | false =>
      simp only [Bool.false_eq_true, if_false]
      exact sim_bind (sim_pure _) (fun _ => ih _ _)

theorem sim_indices_write_loop (K : Constants) (codec : IndexCodec) (relativeIndices : Bool)
    (cubeW cubeM : Nat → StreamM (Cubes Q) Unit) (hcodec : codec.Lawful K.NumCubes)
    (hcube : ∀ i, Sim (cubeW i) (cubeM i)) (changed : Nat → Bool) (n i : Nat) (first : Bool)
    (previous num_written : Nat) (hN : i + n ≤ K.NumCubes)
    (hprev : first = false → previous < i) :
    Sim (indices_write_loop K codec StreamMode.writing relativeIndices cubeW changed n i first
        previous num_written)
      (indices_write_loop K codec StreamMode.measuring relativeIndices cubeM changed n i first
        previous num_written) := by
  induction n generalizing i first previous num_written with
  | zero => exact sim_pure _
  | succ n ih =>
    unfold indices_write_loop
    cases hc : changed i with
    | false =>
      simp only [Bool.false_eq_true, if_false]
      exact ih _ _ _ _ (by omega) (fun hf => by have := hprev hf; omega)
    | true =>
      simp only [if_true]
      cases hf : (first || !relativeIndices) with
      | true =>
        simp only [if_true]
        exact sim_bind (sim_serialize_int _ _ _) (fun _ => sim_bind (sim_pure _) (fun _ =>
          sim_bind (hcube i) (fun _ => ih _ _ _ _ (by omega) (fun _ => by omega))))
      | false =>
        have hfirst : first = false := by
          cases first
          · rfl
          · simp at hf
        simp only [Bool.false_eq_true, if_false]
        exact sim_bind
          (sim_index_relative codec K.NumCubes previous i hcodec (hprev hfirst) (by omega))
          (fun _ => sim_bind (sim_pure _) (fun _ =>
          sim_bind (hcube i) (fun _ => ih _ _ _ _ (by omega) (fun _ => by omega))))

theorem sim_serialize_indexed_rest (K : Constants) (codec : IndexCodec) (base : BaseRef Q)
    (maxCount : Int) (relativeIndices : Bool)
    (cubeW cubeM : Nat → StreamM (Cubes Q) Unit) (hcodec : codec.Lawful K.NumCubes)
    (hcube : ∀ i, Sim (cubeW i) (cubeM i)) (changed : Nat → Bool) (counted : Nat)
    (use_indices : Bool) :
    Sim (serialize_indexed_rest K codec StreamMode.writing base maxCount relativeIndices cubeW
        changed counted use_indices)
      (serialize_indexed_rest K codec StreamMode.measuring base maxCount relativeIndices cubeM
        changed counted use_indices) := by
  unfold serialize_indexed_rest
  simp only [StreamMode.IsWriting, if_true]
  cases use_indices with
  | true =>
    simp only [if_true]
    refine sim_bind (sim_serialize_int _ _ _) (fun _ =>
      sim_bind (sim_indices_write_loop K codec relativeIndices cubeW cubeM hcodec hcube _
        K.NumCubes 0 true 0 0 (by omega) (by simp)) (fun _ => ?_))
    exact sim_ite _ (sim_pure _) (sim_fail _)
  | false =>
    simp only [Bool.false_eq_true, if_false]
    exact sim_changed_bits_loop base cubeW cubeM hcube _ _ _

theorem sim_serialize_indexed (K : Constants) (codec : IndexCodec) (base : BaseRef Q)
    (useIndices : (Nat → Bool) → Nat → Bool) (maxCount : Int) (relativeIndices : Bool)
    (cubeW cubeM : Nat → StreamM (Cubes Q) Unit) (hcodec : codec.Lawful K.NumCubes)
    (hcube : ∀ i, Sim (cubeW i) (cubeM i)) :
    Sim (serialize_indexed K codec StreamMode.writing base useIndices maxCount relativeIndices
        cubeW)
      (serialize_indexed K codec StreamMode.measuring base useIndices maxCount relativeIndices
        cubeM) := by
  unfold serialize_indexed
  simp only [StreamMode.IsWriting, if_true]
  exact sim_bind sim_getMem (fun cubes => sim_bind (sim_serialize_bool _) (fun u =>
    sim_serialize_indexed_rest K codec base maxCount relativeIndices cubeW cubeM hcodec hcube
      _ _ u))

theorem sim_serialize_body (K : Constants) (codec : IndexCodec) (crib : (Nat → Bool) → Int)
    (delta_mode : Int) (base : BaseRef Q) (hcodec : codec.Lawful K.NumCubes) :
    Sim (serialize_body K codec crib StreamMode.writing delta_mode base)
      (serialize_body K codec crib StreamMode.measuring delta_mode base) := by
  unfold serialize_body
  refine sim_ite _ (sim_not_changed_loop K base _ _ _) (sim_ite _ ?_ (sim_ite _ ?_
    (sim_ite _ ?_ (sim_ite _ ?_ (sim_pure _)))))
  · exact sim_serialize_indexed K codec base _ _ _ _ _ hcodec (sim_cube_absolute K)
  · exact sim_serialize_indexed K codec base _ _ _ _ _ hcodec (sim_cube_absolute K)
  · exact sim_serialize_indexed K codec base _ _ _ _ _ hcodec
      (sim_cube_relative_position K base)
  · exact sim_serialize_indexed K codec base _ _ _ _ _ hcodec
      (sim_cube_relative_position K base)

theorem sim_header :
    Sim (DeltaSnapshotPacket.serialize_header StreamMode.writing)
      (DeltaSnapshotPacket.serialize_header StreamMode.measuring) := by
  unfold DeltaSnapshotPacket.serialize_header
  refine sim_bind sim_getMem (fun _ =>
    sim_bind (sim_serialize_uint16 _) (fun _ =>
    sim_bind (sim_modifyMem _) (fun _ =>
    sim_bind sim_getMem (fun _ =>
    sim_bind (sim_serialize_int _ _ _) (fun _ =>
    sim_bind (sim_modifyMem _) (fun _ =>
    sim_bind sim_getMem (fun _ =>
    sim_bind (sim_serialize_bool _) (fun _ =>
    sim_bind (sim_modifyMem _) (fun _ => ?_)))))))))
  exact sim_ite _ (sim_bind sim_getMem (fun _ =>
    sim_bind (sim_serialize_uint16 _) (fun _ => sim_modifyMem _))) (sim_pure _)

theorem sim_ack :
    Sim (DeltaAckPacket.Serialize StreamMode.writing)
      (DeltaAckPacket.Serialize StreamMode.measuring) := by
  unfold DeltaAckPacket.Serialize
  exact sim_bind sim_getMem (fun _ =>
    sim_bind (sim_serialize_uint16 _) (fun _ => sim_modifyMem _))

theorem measure_core (K : Constants) (codec : IndexCodec) (crib : (Nat → Bool) → Int)
    (ctx : Context Q) (p : DeltaSnapshotPacket) (hcodec : codec.Lawful K.NumCubes) :
    (DeltaSnapshotPacket.Serialize K codec crib StreamMode.measuring ctx p
        ⟨[], 0⟩).stream.measured =
      (DeltaSnapshotPacket.Serialize K codec crib StreamMode.writing ctx p
        ⟨[], 0⟩).stream.bits.length ∧
    (DeltaSnapshotPacket.Serialize K codec crib StreamMode.measuring ctx p ⟨[], 0⟩).status =
      (DeltaSnapshotPacket.Serialize K codec crib StreamMode.writing ctx p ⟨[], 0⟩).status ∧
    (DeltaSnapshotPacket.Serialize K codec crib StreamMode.measuring ctx p ⟨[], 0⟩).context =
      (DeltaSnapshotPacket.Serialize K codec crib StreamMode.writing ctx p ⟨[], 0⟩).context := by
  obtain ⟨W1, r1, p', hw1, hm1⟩ := sim_header [] [] 0 0 p
  unfold DeltaSnapshotPacket.Serialize
  rw [hw1, hm1]
  cases r1 with
  | error e => simp
  | ok u =>
    simp only [StreamMode.IsWriting, if_true, serialize_cubes]
    by_cases hmode : 0 ≤ p'.delta_mode ∧ p'.delta_mode < DELTA_NUM_MODES
    · rw [if_pos hmode, if_pos hmode]
      have hres : resolve_base (Q := Q) StreamMode.measuring ctx p' =
          resolve_base StreamMode.writing ctx p' := rfl
      rw [hres]
      cases resolve_base (Q := Q) StreamMode.writing ctx p' with
      | error e => simp
      | ok base =>
        obtain ⟨W2, r2, mem', hw2, hm2⟩ := sim_serialize_body K codec crib p'.delta_mode base
          hcodec ([] ++ W1) [] 0 (0 + W1.length) (ctx.sliding_window.Get p'.sequence)
        simp only []
        rw [hw2, hm2]
        cases r2 <;> simp [Nat.add_comm]
    · rw [if_neg hmode, if_neg hmode]
      simp

end Measure

section Frame

variable {Q : Nat} {α β : Type}

theorem run_bind_ok_inv {σ : Type} (x : StreamM σ α) (f : α → StreamM σ β) (s s'' : Stream × σ)
    (b : β) (h : (x >>= f).run s = (Except.ok b, s'')) :
    ∃ a s', x.run s = (Except.ok a, s') ∧ (f a).run s' = (Except.ok b, s'') := by
  rw [run_bind] at h
  rcases hx : x.run s with ⟨r, s'⟩
  rw [hx] at h
  cases r with
  | error e => simp at h
  | ok a => exact ⟨a, s', rfl, h⟩

theorem onlyAt_pure (i : Nat) (a : α) : OnlyAt i (pure a : StreamM (Cubes Q) α) :=
  fun _ _ _ => rfl

theorem onlyAt_fail (i : Nat) (e : Failure) : OnlyAt i (StreamM.fail e : StreamM (Cubes Q) α) :=
  fun _ _ _ => rfl

theorem onlyAt_bind (i : Nat) {x : StreamM (Cubes Q) α} {f : α → StreamM (Cubes Q) β}
    (hx : OnlyAt i x) (hf : ∀ a, OnlyAt i (f a)) : OnlyAt i (x >>= f) := by
  intro s k hk
  have h1 := hx s k hk
  rw [run_bind]
  rcases hr : x.run s with ⟨r, s'⟩
  rw [hr] at h1
  cases r with
  | error e => exact h1
  | ok a =>
    simp only []
    rw [hf a s' k hk]
    exact h1

theorem onlyAt_ite (i : Nat) (c : Prop) [Decidable c] {x y : StreamM (Cubes Q) α}
    (hx : OnlyAt i x) (hy : OnlyAt i y) : OnlyAt i (if c then x else y) := by
  split
  · exact hx
  · exact hy

theorem onlyAt_serialize_bits (i : Nat) (m : StreamMode) (value n : Nat) :
    OnlyAt i (serialize_bits m value n : StreamM (Cubes Q) Nat) := by
  intro s k _
  rw [run_serialize_bits_mem]

theorem onlyAt_serialize_bool (i : Nat) (m : StreamMode) (value : Bool) :
    OnlyAt i (serialize_bool m value : StreamM (Cubes Q) Bool) :=
  onlyAt_bind i (onlyAt_serialize_bits i m _ _) (fun _ => onlyAt_pure i _)

theorem onlyAt_serialize_int (i : Nat) (m : StreamMode) (value min max : Int) :
    OnlyAt i (serialize_int m value min max : StreamM (Cubes Q) Int) := by
  unfold serialize_int
  exact onlyAt_ite i _
    (onlyAt_ite i _ (onlyAt_bind i (onlyAt_serialize_bits i m _ _) (fun _ => onlyAt_pure i _))
      (onlyAt_fail i _))
    (onlyAt_bind i (onlyAt_serialize_bits i m _ _)
      (fun _ => onlyAt_ite i _ (onlyAt_pure i _) (onlyAt_fail i _)))

theorem onlyAt_quaternion (i : Nat) (m : StreamMode) (q : CompressedQuaternion Q) :
    OnlyAt i (q.Serialize m : StreamM (Cubes Q) (CompressedQuaternion Q)) := by
  unfold CompressedQuaternion.Serialize
  exact onlyAt_bind i (onlyAt_serialize_bits i m _ _) (fun _ =>
    onlyAt_bind i (onlyAt_serialize_bits i m _ _) (fun _ =>
      onlyAt_bind i (onlyAt_serialize_bits i m _ _) (fun _ =>
        onlyAt_bind i (onlyAt_serialize_bits i m _ _) (fun _ => onlyAt_pure i _))))

theorem onlyAt_cubeAt (i j : Nat) : OnlyAt i (cubeAt j : StreamM (Cubes Q) _) :=
  fun _ _ _ => rfl

theorem onlyAt_baseAt (i j : Nat) (base : BaseRef Q) : OnlyAt i (baseAt base j) :=
  fun _ _ _ => rfl

theorem onlyAt_setCube (i : Nat) (f : QuantizedCubeState Q → QuantizedCubeState Q) :
    OnlyAt i (setCube i f) := by
  intro s k hk
  simp [run_setCube, Function.update_noteq hk]

theorem onlyAt_orientation (i : Nat) (m : StreamMode) :
    OnlyAt i (serialize_orientation m i : StreamM (Cubes Q) Unit) := by
  unfold serialize_orientation
  exact onlyAt_bind i (onlyAt_cubeAt i i) (fun _ =>
    onlyAt_bind i (onlyAt_quaternion i m _) (fun _ => onlyAt_setCube i _))

theorem onlyAt_cube_absolute (K : Constants) (m : StreamMode) (i : Nat) :
    OnlyAt i (serialize_cube_absolute K m i : StreamM (Cubes Q) Unit) := by
  unfold serialize_cube_absolute
  exact onlyAt_bind i (onlyAt_cubeAt i i) (fun _ =>
    onlyAt_bind i (onlyAt_serialize_bool i m _) (fun _ =>
    onlyAt_bind i (onlyAt_setCube i _) (fun _ =>
    onlyAt_bind i (onlyAt_cubeAt i i) (fun _ =>
    onlyAt_bind i (onlyAt_serialize_int i m _ _ _) (fun _ =>
    onlyAt_bind i (onlyAt_setCube i _) (fun _ =>
    onlyAt_bind i (onlyAt_cubeAt i i) (fun _ =>
    onlyAt_bind i (onlyAt_serialize_int i m _ _ _) (fun _ =>
    onlyAt_bind i (onlyAt_setCube i _) (fun _ =>
    onlyAt_bind i (onlyAt_cubeAt i i) (fun _ =>
    onlyAt_bind i (onlyAt_serialize_int i m _ _ _) (fun _ =>
    onlyAt_bind i (onlyAt_setCube i _) (fun _ => onlyAt_orientation i m))))))))))))

theorem onlyAt_cube_relative_position (K : Constants) (m : StreamMode) (base : BaseRef Q)
    (i : Nat) : OnlyAt i (serialize_cube_relative_position K m base i) := by
  unfold serialize_cube_relative_position
  refine onlyAt_bind i (onlyAt_cubeAt i i) (fun _ =>
    onlyAt_bind i (onlyAt_serialize_bool i m _) (fun _ =>
    onlyAt_bind i (onlyAt_setCube i _) (fun _ =>
    onlyAt_bind i (onlyAt_cubeAt i i) (fun _ =>
    onlyAt_bind i (onlyAt_baseAt i i base) (fun _ =>
    onlyAt_bind i (onlyAt_serialize_bool i m _) (fun rel => ?_))))))
  cases rel with
  | true =>
    simp only [if_true]
    exact onlyAt_bind i (onlyAt_cubeAt i i) (fun _ =>
      onlyAt_bind i (onlyAt_baseAt i i base) (fun _ =>
      onlyAt_bind i (onlyAt_serialize_int i m _ _ _) (fun _ =>
      onlyAt_bind i (onlyAt_serialize_int i m _ _ _) (fun _ =>
      onlyAt_bind i (onlyAt_serialize_int i m _ _ _) (fun _ =>
      onlyAt_bind i (onlyAt_baseAt i i base) (fun _ =>
      onlyAt_bind i (onlyAt_setCube i _) (fun _ =>
      onlyAt_bind i (onlyAt_baseAt i i base) (fun _ =>
      onlyAt_bind i (onlyAt_setCube i _) (fun _ =>
      onlyAt_bind i (onlyAt_baseAt i i base) (fun _ =>
      onlyAt_bind i (onlyAt_setCube i _) (fun _ => onlyAt_orientation i m)))))))))))
  | false =>
    simp only [Bool.false_eq_true, if_false]
    exact onlyAt_bind i (onlyAt_cubeAt i i) (fun _ =>
      onlyAt_bind i (onlyAt_serialize_int i m _ _ _) (fun _ =>
      onlyAt_bind i (onlyAt_setCube i _) (fun _ =>
      onlyAt_bind i (onlyAt_cubeAt i i) (fun _ =>
      onlyAt_bind i (onlyAt_serialize_int i m _ _ _) (fun _ =>
      onlyAt_bind i (onlyAt_setCube i _) (fun _ =>
      onlyAt_bind i (onlyAt_cubeAt i i) (fun _ =>
      onlyAt_bind i (onlyAt_serialize_int i m _ _ _) (fun _ =>
      onlyAt_bind i (onlyAt_setCube i _) (fun _ =>
      onlyAt_ite i _
        (onlyAt_bind i (onlyAt_setCube i _) (fun _ => onlyAt_orientation i m))
        (onlyAt_bind i (onlyAt_pure i _) (fun _ => onlyAt_orientation i m)))))))))))

theorem run_serialize_bool_mem {σ : Type} (m : StreamMode) (value : Bool) (s : Stream × σ) :
    ((serialize_bool m value).run s).2.2 = s.2 := by
  unfold serialize_bool
  rw [run_bind]
  have h := run_serialize_bits_mem (σ := σ) m (if value then 1 else 0) 1 s
  rcases hr : (serialize_bits m (if value then 1 else 0) 1 : StreamM σ Nat).run s with ⟨r, s'⟩
  rw [hr] at h
  cases r with
  | error e => exact h
  | ok v => exact h

theorem changed_bits_loop_reading_frame (base : BaseRef Q)
    (cube : Nat → StreamM (Cubes Q) Unit) (hcube : ∀ i, OnlyAt i (cube i)) (n i : Nat)
    (chgR chg' : Nat → Bool) (s s' : Stream × Cubes Q)
    (h : (changed_bits_loop StreamMode.reading base cube n i chgR).run s = (Except.ok chg', s')) :
    (∀ k, (k < i ∨ i + n ≤ k) → s'.2 k = s.2 k ∧ chg' k = chgR k) ∧
    (∀ k, i ≤ k → k < i + n → chg' k = false → s'.2 k = base.get s.2 k) := by
  induction n generalizing i chgR s with
  | zero =>
    simp only [changed_bits_loop, run_pure, Prod.mk.injEq, Except.ok.injEq] at h
    obtain ⟨h1, h2⟩ := h
    subst h1 h2
    exact ⟨fun _ _ => ⟨rfl, rfl⟩, fun k hk1 hk2 => by omega⟩
  | succ n ih =>
    unfold changed_bits_loop at h
    obtain ⟨c, s1, hc, hrest⟩ := run_bind_ok_inv _ _ _ _ _ h
    have hs1 : s1.2 = s.2 := by
      have := run_serialize_bool_mem (σ := Cubes Q) StreamMode.reading (chgR i) s
      rw [hc] at this
      exact this
    cases c with
    | true =>
      simp only [if_true] at hrest
      obtain ⟨u, s2, hcu, hloop⟩ := run_bind_ok_inv _ _ _ _ _ hrest
      have hs2 : ∀ k, k ≠ i → s2.2 k = s.2 k := by
        intro k hk
        have := hcube i s1 k hk
        rw [hcu] at this
        rw [← hs1]
        exact this
      obtain ⟨ih1, ih2⟩ := ih (i + 1) _ s2 hloop
      constructor
      · intro k hk
        have hki : k ≠ i := by omega
        obtain ⟨a, b⟩ := ih1 k (by omega)
        exact ⟨by rw [a, hs2 k hki], by rw [b, Function.update_noteq hki]⟩
      · intro k hk1 hk2 hfalse
        by_cases hki : k = i
        · subst hki
          obtain ⟨_, b⟩ := ih1 k (by omega)
          rw [b, Function.update_same] at hfalse
          exact absurd hfalse (by simp)
        · rw [ih2 k (by omega) (by omega) hfalse]
          exact BaseRef.get_congr base _ _ k (hs2 k hki)
    | false =>
      simp only [Bool.false_eq_true, if_false, StreamMode.IsReading, if_true] at hrest
      obtain ⟨u, s2, hcu, hloop⟩ := run_bind_ok_inv _ _ _ _ _ hrest
      simp only [run_copyBase, Prod.mk.injEq, true_and] at hcu
      have hs2 : s2.2 = Function.update s.2 i (base.get s.2 i) := by
        rw [← hcu, hs1]
      obtain ⟨ih1, ih2⟩ := ih (i + 1) _ s2 hloop
      constructor
      · intro k hk
        have hki : k ≠ i := by omega
        obtain ⟨a, b⟩ := ih1 k (by omega)
        exact ⟨by rw [a, hs2, Function.update_noteq hki], by rw [b, Function.update_noteq hki]⟩
      · intro k hk1 hk2 hfalse
        by_cases hki : k = i
        · subst hki
          obtain ⟨a, _⟩ := ih1 k (by omega)
          rw [a, hs2, Function.update_same]
        · rw [ih2 k (by omega) (by omega) hfalse, hs2]
          exact BaseRef.get_update_ne base _ _ _ _ hki

theorem index_relative_reading_mem {σ : Type} (codec : IndexCodec) (previous v0 i : Nat)
    (s s' : Stream × σ)
    (h : (serialize_index_relative codec StreamMode.reading previous v0).run s =
      (Except.ok i, s')) : s'.2 = s.2 := by
  simp only [serialize_index_relative, StreamM.run] at h
  split at h
  · simp only [Prod.mk.injEq] at h
    rw [← h.2]
  · simp at h

theorem indices_read_loop_reading_frame (K : Constants) (codec : IndexCodec)
    (relativeIndices : Bool) (cube : Nat → StreamM (Cubes Q) Unit)
    (hcube : ∀ i, OnlyAt i (cube i)) (r j previous : Nat) (chgR chg' : Nat → Bool)
    (s s' : Stream × Cubes Q)
    (h : (indices_read_loop K codec StreamMode.reading relativeIndices cube r j previous
      chgR).run s = (Except.ok chg', s')) :
    ∀ k, chg' k = false → chgR k = false ∧ s'.2 k = s.2 k := by
  induction r generalizing j previous chgR s with
  | zero =>
    simp only [indices_read_loop, run_pure, Prod.mk.injEq, Except.ok.injEq] at h
    obtain ⟨h1, h2⟩ := h
    subst h1 h2
    exact fun k hk => ⟨hk, rfl⟩
  | succ r ih =>
    have key : ∀ (i : Nat) (s1 : Stream × Cubes Q), s1.2 = s.2 →
        ((if i < K.NumCubes then (pure () : StreamM (Cubes Q) Unit)
            else StreamM.fail Failure.bounds) >>= fun _ =>
          cube i >>= fun _ =>
          indices_read_loop K codec StreamMode.reading relativeIndices cube r (j + 1) i
            (Function.update chgR i true)).run s1 = (Except.ok chg', s') →
        ∀ k, chg' k = false → chgR k = false ∧ s'.2 k = s.2 k := by
      intro i s1 hs1 hrest
      obtain ⟨u, s2, hb, hrest2⟩ := run_bind_ok_inv _ _ _ _ _ hrest
      have hs2 : s2 = s1 := by
        by_cases hi : i < K.NumCubes
        · simp only [hi, if_true, run_pure, Prod.mk.injEq, true_and] at hb
          exact hb.symm
        · simp only [hi, if_false, run_fail, Prod.mk.injEq] at hb
          exact absurd hb.1 (by simp)
      subst hs2
      obtain ⟨u2, s3, hcu, hloop⟩ := run_bind_ok_inv _ _ _ _ _ hrest2
      have hs3 : ∀ k, k ≠ i → s3.2 k = s.2 k := by
        intro k hk
        have := hcube i s2 k hk
        rw [hcu] at this
        rw [← hs1]
        exact this
      intro k hk
      obtain ⟨a, b⟩ := ih _ _ _ s3 hloop k hk
      have hki : k ≠ i := by
        intro hki
        subst hki
        rw [Function.update_same] at a
        exact absurd a (by simp)
      rw [Function.update_noteq hki] at a
      exact ⟨a, by rw [b, hs3 k hki]⟩
    have norm : ∀ (i : Nat) (s1 : Stream × Cubes Q),
        (if i < K.NumCubes then (pure () : StreamM (Cubes Q) Unit) >>= fun _ =>
            cube i >>= fun _ =>
            indices_read_loop K codec StreamMode.reading relativeIndices cube r (j + 1) i
              (Function.update chgR i true)
          else (StreamM.fail Failure.bounds : StreamM (Cubes Q) Unit) >>= fun _ =>
            cube i >>= fun _ =>
            indices_read_loop K codec StreamMode.reading relativeIndices cube r (j + 1) i
              (Function.update chgR i true)).run s1 =
        ((if i < K.NumCubes then (pure () : StreamM (Cubes Q) Unit)
            else StreamM.fail Failure.bounds) >>= fun _ =>
          cube i >>= fun _ =>
          indices_read_loop K codec StreamMode.reading relativeIndices cube r (j + 1) i
            (Function.update chgR i true)).run s1 := by
      intro i s1
      by_cases hi : i < K.NumCubes
      · simp only [hi, if_true]
      · simp only [hi, if_false]
    by_cases hc : (decide (j = 0) || !relativeIndices) = true
    · simp only [indices_read_loop, hc, if_true] at h
      obtain ⟨v, s0, hv, hp⟩ := run_bind_ok_inv _ _ _ _ _ h
      obtain ⟨_, _, hm⟩ := serialize_int_reading_inv _ _ _ _ _ _ hv
      rw [run_bind, run_pure] at hp
      simp only [] at hp
      rw [norm] at hp
      exact key _ s0 hm hp
    · simp only [indices_read_loop, hc, if_false] at h
      obtain ⟨i, s0, hv, hp⟩ := run_bind_ok_inv _ _ _ _ _ h
      have hm := index_relative_reading_mem codec _ _ _ _ _ hv
      rw [norm] at hp
      exact key _ s0 hm hp

theorem serialize_indexed_reading_frame (K : Constants) (codec : IndexCodec) (base : BaseRef Q)
    (useIndices : (Nat → Bool) → Nat → Bool) (maxCount : Int) (relativeIndices : Bool)
    (cube : Nat → StreamM (Cubes Q) Unit) (hcube : ∀ i, OnlyAt i (cube i))
    (chg' : Nat → Bool) (s s' : Stream × Cubes Q)
    (h : (serialize_indexed K codec StreamMode.reading base useIndices maxCount relativeIndices
      cube).run s = (Except.ok chg', s')) :
    ∀ k, k < K.NumCubes → chg' k = false → s'.2 k = base.get s.2 k := by
  unfold serialize_indexed at h
  simp only [run_bind, run_getMem, StreamMode.IsWriting, Bool.false_eq_true, if_false] at h
  have hmem := run_serialize_bool_mem (σ := Cubes Q) StreamMode.reading false s
  rcases hu : (serialize_bool StreamMode.reading false : StreamM (Cubes Q) Bool).run s
    with ⟨ru, s1⟩
  rw [hu] at h hmem
  cases ru with
  | error e => simp at h
  | ok u =>
    simp only [] at h hmem
    unfold serialize_indexed_rest at h
    cases u with
    | false =>
      simp only [Bool.false_eq_true, if_false] at h
      intro k hk hf
      rw [(changed_bits_loop_reading_frame base cube hcube _ _ _ _ _ _ h).2 k (by omega)
        (by omega) hf]
      exact BaseRef.get_congr base _ _ k (by rw [hmem])
    | true =>
      simp only [if_true, StreamMode.IsWriting, Bool.false_eq_true, if_false] at h
      obtain ⟨v, s2, hv, hrest⟩ := run_bind_ok_inv _ _ _ _ _ h
      obtain ⟨_, _, hm2⟩ := serialize_int_reading_inv _ _ _ _ _ _ hv
      obtain ⟨chg1, s3, hloop, hrest2⟩ := run_bind_ok_inv _ _ _ _ _ hrest
      have hframe := indices_read_loop_reading_frame K codec relativeIndices cube hcube _ _ _ _
        _ _ _ hloop
      rw [run_bind] at hrest2
      have hcopy := run_copy_unchanged_loop base chg1 K.NumCubes 0 s3.1 s3.2
      rw [show (s3.1, s3.2) = s3 from rfl] at hcopy
      rw [hcopy] at hrest2
      simp only [run_pure, Prod.mk.injEq, Except.ok.injEq] at hrest2
      obtain ⟨hc1, hc2⟩ := hrest2
      subst hc1
      intro k hk hf
      rw [← hc2]
      have hcond : 0 ≤ k ∧ k < 0 + K.NumCubes ∧ chg1 k = false := ⟨by omega, by omega, hf⟩
      simp only [hcond, and_self, if_true]
      apply BaseRef.get_congr
      rw [(hframe k hf).2, hm2, hmem]

theorem serialize_body_reading_frame (K : Constants) (codec : IndexCodec)
    (crib : (Nat → Bool) → Int) (delta_mode : Int) (base : BaseRef Q)
    (hmode : 0 ≤ delta_mode ∧ delta_mode < DELTA_NUM_MODES)
    (chg' : Nat → Bool) (s s' : Stream × Cubes Q)
    (h : (serialize_body K codec crib StreamMode.reading delta_mode base).run s =
      (Except.ok chg', s')) :
    ∀ k, k < K.NumCubes → chg' k = false → s'.2 k = base.get s.2 k := by
  unfold serialize_body at h
  by_cases h0 : delta_mode = DELTA_MODE_NOT_CHANGED
  · rw [if_pos h0] at h
    unfold serialize_not_changed at h
    rw [run_not_changed_loop_reading_eq] at h
    intro k hk hf
    exact (changed_bits_loop_reading_frame base _ (onlyAt_cube_absolute K StreamMode.reading)
      _ _ _ _ _ _ h).2 k (by omega) (by omega) hf
  · rw [if_neg h0] at h
    by_cases h1 : delta_mode = DELTA_MODE_CHANGED_INDEX
    · rw [if_pos h1] at h
      exact serialize_indexed_reading_frame K codec base _ _ _ _
        (onlyAt_cube_absolute K StreamMode.reading) _ _ _ h
    · rw [if_neg h1] at h
      by_cases h2 : delta_mode = DELTA_MODE_RELATIVE_INDEX
      · rw [if_pos h2] at h
        exact serialize_indexed_reading_frame K codec base _ _ _ _
          (onlyAt_cube_absolute K StreamMode.reading) _ _ _ h
      · rw [if_neg h2] at h
        by_cases h3 : delta_mode = DELTA_MODE_RELATIVE_POSITION
        · rw [if_pos h3] at h
          exact serialize_indexed_reading_frame K codec base _ _ _ _
            (onlyAt_cube_relative_position K StreamMode.reading base) _ _ _ h
        · rw [if_neg h3] at h
          have h4 : delta_mode = DELTA_MODE_RELATIVE_ORIENTATION := by
            simp only [DELTA_MODE_NOT_CHANGED, DELTA_MODE_CHANGED_INDEX,
              DELTA_MODE_RELATIVE_INDEX, DELTA_MODE_RELATIVE_POSITION,
              DELTA_MODE_RELATIVE_ORIENTATION, DELTA_NUM_MODES] at *
            omega
          rw [if_pos h4] at h
          exact serialize_indexed_reading_frame K codec base _ _ _ _
            (onlyAt_cube_relative_position K StreamMode.reading base) _ _ _ h


theorem serialize_cubes_reading_frame (K : Constants) (codec : IndexCodec)
    (crib : (Nat → Bool) → Int) (c : Context Q) (p : DeltaSnapshotPacket) (stream : Stream)
    (cubes : Cubes Q) (store : Cubes Q → Context Q)
    (hmode : 0 ≤ p.delta_mode ∧ p.delta_mode < DELTA_NUM_MODES)
    (hok : (serialize_cubes K codec crib StreamMode.reading c p stream cubes store).status =
      Except.ok ()) :
    ∃ (base : BaseRef Q) (out : Cubes Q),
      resolve_base StreamMode.reading c p = Except.ok base ∧
      (serialize_cubes K codec crib StreamMode.reading c p stream cubes store).context =
        store out ∧
      (serialize_cubes K codec crib StreamMode.reading c p stream cubes store).packet = p ∧
      ∀ k, k < K.NumCubes →
        (serialize_cubes K codec crib StreamMode.reading c p stream cubes store).changed k =
          false →
        out k = base.get cubes k := by
  unfold serialize_cubes at hok ⊢
  rw [if_pos hmode] at hok ⊢
  cases hb : resolve_base StreamMode.reading c p with
  | error e =>
    rw [hb] at hok
    simp at hok
  | ok base =>
    rw [hb] at hok
    simp only [] at hok ⊢
    rcases hr : (serialize_body K codec crib StreamMode.reading p.delta_mode base).run
      (stream, cubes) with ⟨r, o⟩
    rw [hr] at hok
    cases r with
    | error e => simp at hok
    | ok ch =>
      refine ⟨base, o.2, rfl, rfl, rfl, ?_⟩
      intro k hk hf
      exact serialize_body_reading_frame K codec crib p.delta_mode base hmode ch
        (stream, cubes) o hr k hk hf

end Frame

section Bounds

variable {Q : Nat}

end Bounds

section Layout

variable {Q : Nat}

theorem indicesImage_eq_entries (K : Constants) (codec : IndexCodec) (relativeIndices : Bool)
    (changed : Nat → Bool) (enc : Nat → List Bool) (n i : Nat) (first : Bool)
    (previous_index : Nat) :
    indicesImage K codec relativeIndices changed enc n i first previous_index =
      entriesImage K codec relativeIndices enc (changedIndices changed n i) first
        previous_index := by
  induction n generalizing i first previous_index with
  | zero => rfl
  | succ n ih =>
    cases hc : changed i with
    | true => simp only [indicesImage, changedIndices, hc, if_true, entriesImage, ih]
    | false =>
      simp only [indicesImage, changedIndices, hc, Bool.false_eq_true, if_false, ih]

theorem changedIndices_length (changed : Nat → Bool) (n i : Nat) :
    (changedIndices changed n i).length = countChanged changed n i := by
  induction n generalizing i with
  | zero => rfl
  | succ n ih =>
    cases hc : changed i with
    | true =>
      simp only [changedIndices, countChanged, hc, if_true, List.length_cons, ih]
      omega
    | false =>
      simp only [changedIndices, countChanged, hc, Bool.false_eq_true, if_false, ih]
      omega

theorem changedIndices_mem (changed : Nat → Bool) (n i k : Nat) :
    k ∈ changedIndices changed n i ↔ i ≤ k ∧ k < i + n ∧ changed k = true := by
  induction n generalizing i with
  | zero =>
    simp only [changedIndices, List.not_mem_nil, false_iff]
    omega
  | succ n ih =>
    cases hc : changed i with
    | true =>
      simp only [changedIndices, hc, if_true, List.mem_cons, ih]
      constructor
      · rintro (h | ⟨a, b, c⟩)
        · subst h
          exact ⟨le_refl _, by omega, hc⟩
        · exact ⟨by omega, by omega, c⟩
      · rintro ⟨a, b, c⟩
        by_cases hk : k = i
        · exact Or.inl hk
        · exact Or.inr ⟨by omega, by omega, c⟩
    | false =>
      simp only [changedIndices, hc, Bool.false_eq_true, if_false, ih]
      constructor
      · rintro ⟨a, b, c⟩
        exact ⟨by omega, by omega, c⟩
      · rintro ⟨a, b, c⟩
        have hk : k ≠ i := by
          intro hk
          subst hk
          rw [hc] at c
          exact absurd c (by simp)
        exact ⟨by omega, by omega, c⟩

theorem changedIndices_ascending (changed : Nat → Bool) (n i : Nat) :
    List.Pairwise (fun a b => a < b) (changedIndices changed n i) := by
  induction n generalizing i with
  | zero => exact List.Pairwise.nil
  | succ n ih =>
    cases hc : changed i with
    | true =>
      simp only [changedIndices, hc, if_true]
      refine List.Pairwise.cons ?_ (ih (i + 1))
      intro k hk
      have := (changedIndices_mem changed n (i + 1) k).1 hk
      omega
    | false =>
      simp only [changedIndices, hc, Bool.false_eq_true, if_false]
      exact ih (i + 1)

theorem indices_write_loop_codec (K : Constants) (codec codec' : IndexCodec) (m : StreamMode)
    (cube : Nat → StreamM (Cubes Q) Unit) (changed : Nat → Bool) (n i : Nat) (first : Bool)
    (previous_index num_written : Nat) :
    indices_write_loop K codec m false cube changed n i first previous_index num_written =
      indices_write_loop K codec' m false cube changed n i first previous_index
        num_written := by
  induction n generalizing i first previous_index num_written with
  | zero => rfl
  | succ n ih =>
    simp only [indices_write_loop, Bool.not_false, Bool.or_true, if_true, ih]

theorem indices_read_loop_codec (K : Constants) (codec codec' : IndexCodec) (m : StreamMode)
    (cube : Nat → StreamM (Cubes Q) Unit) (r j previous_index : Nat) (changed : Nat → Bool) :
    indices_read_loop K codec m false cube r j previous_index changed =
      indices_read_loop K codec' m false cube r j previous_index changed := by
  induction r generalizing j previous_index changed with
  | zero => rfl
  | succ r ih =>
    simp only [indices_read_loop, Bool.not_false, Bool.or_true, if_true, ih]

theorem serialize_changed_index_codec (K : Constants) (codec codec' : IndexCodec)
    (m : StreamMode) (base : BaseRef Q) :
    serialize_changed_index K codec m base = serialize_changed_index K codec' m base := by
  simp only [serialize_changed_index, serialize_indexed, serialize_indexed_rest,
    indices_write_loop_codec K codec codec', indices_read_loop_codec K codec codec']

theorem entriesImage_codec (K : Constants) (codec codec' : IndexCodec)
    (enc : Nat → List Bool) (l : List Nat) (first : Bool) (previous_index : Nat) :
    entriesImage K codec false enc l first previous_index =
      entriesImage K codec' false enc l first previous_index := by
  induction l generalizing first previous_index with
  | nil => rfl
  | cons i rest ih =>
    simp only [entriesImage, Bool.not_false, Bool.or_true, if_true, ih]


theorem bitLength_le_iff (fuel r y : Nat) (h : r ≤ fuel) :
    bitLength fuel r ≤ y ↔ r < 2 ^ y := by
  induction fuel generalizing r y with
  | zero =>
    have : r = 0 := by omega
    subst this
    simp [bitLength]
  | succ fuel ih =>
    by_cases hr : r = 0
    · subst hr
      simp [bitLength]
    · simp only [bitLength, hr, if_false]
      cases y with
      | zero =>
        simp only [pow_zero, Nat.lt_one_iff]
        constructor
        · intro h1
          omega
        · intro h1
          exact absurd h1 hr
      | succ y =>
        have := ih (r / 2) y (by omega)
        rw [pow_succ]
        omega

theorem bits_required_index (N : Nat) (hN : 0 < N) :
    bits_required 0 ((N : Int) - 1) = Nat.clog 2 N := by
  have h1 : ((N : Int) - 1 - 0).toNat = N - 1 := by omega
  unfold bits_required
  rw [h1]
  apply eq_of_forall_ge_iff
  intro y
  rw [bitLength_le_iff _ _ _ (le_refl _), ← Nat.le_pow_iff_clog_le (by decide)]
  omega

theorem changedIndices_single (i n s : Nat) :
    changedIndices (fun k => decide (k = i)) n s = if s ≤ i ∧ i < s + n then [i] else [] := by
  induction n generalizing s with
  | zero =>
    have : ¬ (s ≤ i ∧ i < s + 0) := by omega
    simp only [changedIndices, this, if_false]
  | succ n ih =>
    by_cases hs : s = i
    · subst hs
      have h1 : ¬ (s + 1 ≤ s ∧ s < s + 1 + n) := by omega
      have h2 : s ≤ s ∧ s < s + (n + 1) := by omega
      simp only [changedIndices, decide_True, if_true, ih, h1, if_false, h2, and_self]
    · have h1 : (s + 1 ≤ i ∧ i < s + 1 + n) ↔ (s ≤ i ∧ i < s + (n + 1)) := by omega
      simp only [changedIndices, hs, decide_False, Bool.false_eq_true, if_false, ih, h1]

theorem indices_write_loop_single (K : Constants) (codec codec' : IndexCodec) (m : StreamMode)
    (cube : Nat → StreamM (Cubes Q) Unit) (changed : Nat → Bool) (i n s : Nat) (first : Bool)
    (previous_index num_written : Nat)
    (h : ∀ k, s ≤ k → k < s + n → changed k = true → first = true ∧ k = i) :
    indices_write_loop K codec m true cube changed n s first previous_index num_written =
      indices_write_loop K codec' m true cube changed n s first previous_index
        num_written := by
  induction n generalizing s first previous_index num_written with
  | zero => rfl
  | succ n ih =>
    cases hc : changed s with
    | true =>
      obtain ⟨hf, hsi⟩ := h s (le_refl _) (by omega) hc
      subst hf
      have hrest := ih (s + 1) false s (num_written + 1) (fun k hk1 hk2 hk => by
        have := (h k (by omega) (by omega) hk).2
        omega)
      simp only [indices_write_loop, hc, if_true, Bool.true_or, hrest]
    | false =>
      have hrest := ih (s + 1) first previous_index num_written (fun k hk1 hk2 hk =>
        h k (by omega) (by omega) hk)
      simp only [indices_write_loop, hc, Bool.false_eq_true, if_false, hrest]

theorem indices_read_loop_one (K : Constants) (codec codec' : IndexCodec) (m : StreamMode)
    (relativeIndices : Bool) (cube : Nat → StreamM (Cubes Q) Unit) (previous_index : Nat)
    (changed : Nat → Bool) :
    indices_read_loop K codec m relativeIndices cube 1 0 previous_index changed =
      indices_read_loop K codec' m relativeIndices cube 1 0 previous_index changed := by
  simp only [indices_read_loop, decide_True, Bool.true_or, if_true]

theorem serialize_indexed_writing_single (K : Constants) (codec codec' : IndexCodec)
    (base : BaseRef Q) (useIndices : (Nat → Bool) → Nat → Bool) (maxCount : Int)
    (cube : Nat → StreamM (Cubes Q) Unit) (S : Cubes Q) (i : Nat)
    (hmask : ∀ k, changedMask K S (base.get S) k = true → k = i) (s : Stream) :
    (serialize_indexed K codec StreamMode.writing base useIndices maxCount true cube).run
        (s, S) =
      (serialize_indexed K codec' StreamMode.writing base useIndices maxCount true cube).run
        (s, S) := by
  simp only [serialize_indexed, serialize_indexed_rest, run_bind, run_getMem,
    StreamMode.IsWriting, if_true, compute_changed_mask,
    indices_write_loop_single K codec codec' StreamMode.writing cube
      (changedMask K S (base.get S)) i K.NumCubes 0 true 0 0
      (fun k _ _ hk => ⟨rfl, hmask k hk⟩)]

theorem serialize_indexed_reading_single (K : Constants) (codec codec' : IndexCodec)
    (base : BaseRef Q) (useIndices : (Nat → Bool) → Nat → Bool) (maxCount : Int)
    (hmax : 1 ≤ maxCount) (cube : Nat → StreamM (Cubes Q) Unit) (rest : List Bool) (c : Nat)
    (mem : Cubes Q) :
    (serialize_indexed K codec StreamMode.reading base useIndices maxCount true cube).run
        (⟨true :: (intBits 0 maxCount 1 ++ rest), c⟩, mem) =
      (serialize_indexed K codec' StreamMode.reading base useIndices maxCount true cube).run
        (⟨true :: (intBits 0 maxCount 1 ++ rest), c⟩, mem) := by
  simp only [serialize_indexed, serialize_indexed_rest, run_bind, run_getMem,
    StreamMode.IsWriting, Bool.false_eq_true, if_false, run_serialize_bool_reading, if_true,
    run_serialize_int_reading _ 1 0 maxCount (by decide) hmax, Int.toNat_one,
    indices_read_loop_one K codec codec']


theorem intBits_relative (v : Int) :
    intBits (-RelativePositionBound) RelativePositionBound v = toBits 11 (v + 1023).toNat := by
  have h11 : bits_required (-RelativePositionBound) RelativePositionBound = 11 := by decide
  have hv : (v - -RelativePositionBound).toNat = (v + 1023).toNat := by
    simp [RelativePositionBound]
  simp only [intBits, h11, hv]

theorem changedMask_single {Q : Nat} (K : Constants) (B S : Cubes Q) (i : Nat)
    (hi : i < K.NumCubes) (hdiff : ∀ k, k < K.NumCubes → (S k ≠ B k ↔ k = i)) :
    changedMask K S B = fun k => decide (k = i) := by
  funext k
  unfold changedMask
  rw [Bool.eq_iff_iff]
  simp only [Bool.and_eq_true, decide_eq_true_eq]
  constructor
  · rintro ⟨hk, h⟩
    exact (hdiff k hk).1 h
  · intro h
    subst h
    exact ⟨hi, (hdiff k hi).2 rfl⟩

theorem single_image_eq {Q : Nat} (K : Constants) (codec : IndexCodec) (B S : Cubes Q)
    (i : Nat) (hi : i < K.NumCubes) (hdiff : ∀ k, k < K.NumCubes → (S k ≠ B k ↔ k = i))
    (hrel : useRelative (S i) (B i) = true) :
    indexedImage K codec true
        (decide (countChanged (changedMask K S B) K.NumCubes 0 < 126)) (126 + 1)
        (changedMask K S B) (fun k => relativeBits K (S k) (B k)) =
      singleRelativeImage K (S i) (B i) i := by
  have hl : changedIndices (changedMask K S B) K.NumCubes 0 = [i] := by
    rw [changedMask_single K B S i hi hdiff, changedIndices_single]
    have : 0 ≤ i ∧ i < 0 + K.NumCubes := by omega
    simp only [this, and_self, if_true]
  have hc : countChanged (changedMask K S B) K.NumCubes 0 = 1 := by
    rw [← changedIndices_length, hl]
    rfl
  have h7 : intBits 0 (126 + 1) ((1 : Nat) : Int) = toBits 7 1 := by decide
  have hidx : intBits 0 ((K.NumCubes : Int) - 1) (i : Int) = toBits (Nat.clog 2 K.NumCubes) i := by
    unfold intBits
    rw [bits_required_index K.NumCubes (by omega)]
    simp
  simp only [indexedImage, hc, indicesImage_eq_entries, hl, entriesImage, Bool.true_or, if_true,
    h7, hidx, relativeBits, hrel, intBits_relative, singleRelativeImage, List.append_nil,
    List.append_assoc, List.cons_append, List.nil_append]
  rfl

theorem bits_required_changed_index : bits_required 0 (89 + 1) = 7 := by decide

theorem changed_index_write_core {Q : Nat} (K : Constants) (codec : IndexCodec)
    (base : BaseRef Q) (S : Cubes Q)
    (hin : ∀ k, k < K.NumCubes → InBounds K (S k)) (bs : List Bool) (c : Nat) :
    (serialize_changed_index K codec StreamMode.writing base).run (⟨bs, c⟩, S) =
      (Except.ok (changedMask K S (base.get S)),
        (⟨bs ++ indexedImage K codec false
            (decide (countChanged (changedMask K S (base.get S)) K.NumCubes 0 < 89)) (89 + 1)
            (changedMask K S (base.get S)) (fun k => absoluteBits K (S k)), c⟩, S)) := by
  rw [serialize_changed_index_codec K codec (spec_index_codec K)]
  have h := run_serialize_indexed_writing K (spec_index_codec K) base
    (fun _ num_changed => decide (num_changed < 89)) (89 + 1) false
    (serialize_cube_absolute K StreamMode.writing) (fun k => absoluteBits K (S k)) S
    (spec_index_codec_lawful K)
    (fun k bs c hk => run_cube_absolute_writing K k bs c S
      (hin k ((changedMask_eq_true K S _ k).1 hk).1))
    (fun hlt => by
      have := of_decide_eq_true hlt
      omega) bs c
  unfold serialize_changed_index
  rw [h]
  simp only [indexedImage, indicesImage_eq_entries,
    entriesImage_codec K (spec_index_codec K) codec]

theorem changedBitsImage_length (changed : Nat → Bool) (enc : Nat → List Bool) (n i : Nat) :
    (changedBitsImage changed enc n i).length =
      n + ((changedIndices changed n i).map (fun k => (enc k).length)).sum := by
  induction n generalizing i with
  | zero => rfl
  | succ n ih =>
    cases hc : changed i with
    | true =>
      simp only [changedBitsImage, changedIndices, hc, if_true, List.length_cons,
        List.length_append, ih, List.map_cons, List.sum_cons]
      omega
    | false =>
      simp only [changedBitsImage, changedIndices, hc, Bool.false_eq_true, if_false,
        List.length_cons, List.nil_append, ih]
      omega

theorem entriesImage_length (K : Constants) (codec : IndexCodec) (enc : Nat → List Bool)
    (l : List Nat) (first : Bool) (previous_index : Nat) :
    (entriesImage K codec false enc l first previous_index).length =
      l.length * bits_required 0 ((K.NumCubes : Int) - 1) +
        (l.map (fun k => (enc k).length)).sum := by
  induction l generalizing first previous_index with
  | nil => simp [entriesImage]
  | cons i rest ih =>
    simp only [entriesImage, Bool.not_false, Bool.or_true, if_true, List.length_append,
      intBits_length, ih, List.length_cons, List.map_cons, List.sum_cons, Nat.add_mul,
      Nat.one_mul]
    omega

theorem not_changed_write_core {Q : Nat} (K : Constants) (base : BaseRef Q) (S : Cubes Q)
    (hin : ∀ k, k < K.NumCubes → InBounds K (S k)) (bs : List Bool) (c : Nat) :
    ((serialize_not_changed K StreamMode.writing base).run (⟨bs, c⟩, S)).2.1.bits =
      bs ++ changedBitsImage (changedMask K S (base.get S)) (fun k => absoluteBits K (S k))
        K.NumCubes 0 := by
  unfold serialize_not_changed
  rw [run_not_changed_loop_writing K base (changedMask K S (base.get S)) S K.NumCubes 0
    (fun _ => false) bs c
    (fun k _ hk => by
      have hk' : k < K.NumCubes := by omega
      simp [changedMask, hk'])
    (fun k _ hk _ => hin k (by omega))]

end Layout

section Cost

variable {Q : Nat}

theorem changed_index_cost_core (K : Constants) (codec : IndexCodec) (base : BaseRef Q)
    (S : Cubes Q) (hin : ∀ k, k < K.NumCubes → InBounds K (S k))
    (hlt : countChanged (changedMask K S (base.get S)) K.NumCubes 0 < 89) :
    ((serialize_changed_index K codec StreamMode.writing base).run
        (⟨[], 0⟩, S)).2.1.bits.length + K.NumCubes =
      ((serialize_not_changed K StreamMode.writing base).run (⟨[], 0⟩, S)).2.1.bits.length +
        (8 + countChanged (changedMask K S (base.get S)) K.NumCubes 0 *
          bits_required 0 ((K.NumCubes : Int) - 1)) := by
  rw [changed_index_write_core K codec base S hin [] 0, not_changed_write_core K base S hin [] 0]
  simp only [List.nil_append, indexedImage, hlt, decide_True, if_true, List.length_cons,
    List.length_append, intBits_length, bits_required_changed_index, indicesImage_eq_entries,
    entriesImage_length, changedBitsImage_length, changedIndices_length]
  omega

theorem index_cost_pow (y : Nat) (hy : 10 ≤ y) : 8 + 88 * (y + 1) ≤ 2 ^ y := by
  induction y, hy using Nat.le_induction with
  | base => decide
  | succ y hy ih =>
    rw [Nat.pow_succ]
    omega

theorem index_cost_le (N : Nat) (hN : 888 ≤ N) : 8 + 88 * Nat.clog 2 N ≤ N := by
  by_cases h : N ≤ 2 ^ 10
  · have hb : Nat.clog 2 N ≤ 10 := (Nat.le_pow_iff_clog_le (by decide)).1 h
    omega
  · have hb : ¬ Nat.clog 2 N ≤ 10 := fun hc => h ((Nat.le_pow_iff_clog_le (by decide)).2 hc)
    have hpred : ¬ N ≤ 2 ^ (Nat.clog 2 N - 1) := by
      intro hle
      have := (Nat.le_pow_iff_clog_le (by decide)).1 hle
      omega
    have hpow := index_cost_pow (Nat.clog 2 N - 1) (by omega)
    have heq : Nat.clog 2 N - 1 + 1 = Nat.clog 2 N := by omega
    rw [heq] at hpow
    omega

theorem changed_index_order_core (K : Constants) (codec : IndexCodec) (base : BaseRef Q)
    (S : Cubes Q) (hN : 888 ≤ K.NumCubes) (hin : ∀ k, k < K.NumCubes → InBounds K (S k))
    (hlt : countChanged (changedMask K S (base.get S)) K.NumCubes 0 < 89) :
    ((serialize_changed_index K codec StreamMode.writing base).run
        (⟨[], 0⟩, S)).2.1.bits.length ≤
      ((serialize_not_changed K StreamMode.writing base).run (⟨[], 0⟩, S)).2.1.bits.length := by
  have h := changed_index_cost_core K codec base S hin hlt
  have hb := bits_required_index K.NumCubes (by omega)
  have hle := index_cost_le K.NumCubes hN
  rw [hb] at h
  have hmul : countChanged (changedMask K S (base.get S)) K.NumCubes 0 *
      Nat.clog 2 K.NumCubes ≤ 88 * Nat.clog 2 K.NumCubes :=
    Nat.mul_le_mul_right _ (by omega)
  omega

theorem countChanged_single {Q : Nat} (K : Constants) (B S : Cubes Q) (i : Nat)
    (hi : i < K.NumCubes) (hdiff : ∀ k, k < K.NumCubes → (S k ≠ B k ↔ k = i)) :
    countChanged (changedMask K S B) K.NumCubes 0 = 1 := by
  rw [← changedIndices_length, changedMask_single K B S i hi hdiff, changedIndices_single]
  have : 0 ≤ i ∧ i < 0 + K.NumCubes := by omega
  simp only [this, and_self, if_true, List.length_singleton]

end Cost

section Session

variable {Q : Nat}

theorem SlidingWindow.Ack_sequence (w : SlidingWindow Q) (sequence : Nat) :
    (w.Ack sequence).sequence = w.sequence := by
  unfold SlidingWindow.Ack
  cases w.ack with
  | none => rfl
  | some current =>
    simp only []
    split <;> rfl

theorem receive_loop_fields (l : List (Received Q)) (d d' : DeltaInternal Q) (r r' : Bool)
    (a a' : Nat) (h : receive_loop l d r a = Except.ok (d', r', a')) :
    d'.send_sequence = d.send_sequence ∧
    d'.quantized_snapshot_sliding_window.sequence = d.quantized_snapshot_sliding_window.sequence ∧
    d'.received_ack = (d.received_ack || l.any Received.isAck) := by
  induction l generalizing d r a with
  | nil =>
    simp only [receive_loop, Except.ok.injEq, Prod.mk.injEq] at h
    obtain ⟨h1, _, _⟩ := h
    subst h1
    simp
  | cons x rest ih =>
    unfold receive_loop at h
    cases hp : x.packet with
    | snapshot p =>
      have hx : x.isAck = false := by simp [Received.isAck, hp]
      rw [hp] at h
      simp only [] at h
      by_cases hport : x.port = RightPort
      · rw [if_pos hport] at h
        cases hf : x.sequence_buffer.Find p.sequence with
        | none =>
          rw [hf] at h
          simp at h
        | some c =>
          rw [hf] at h
          simp only [] at h
          split at h
          · obtain ⟨h1, h2, h3⟩ := ih _ _ _ h
            exact ⟨h1, h2, by rw [h3]; simp [hx]⟩
          · obtain ⟨h1, h2, h3⟩ := ih _ _ _ h
            exact ⟨h1, h2, by rw [h3]; simp [hx]⟩
      · rw [if_neg hport] at h
        obtain ⟨h1, h2, h3⟩ := ih _ _ _ h
        exact ⟨h1, h2, by rw [h3]; simp [hx]⟩
    | ack p =>
      rw [hp] at h
      simp only [] at h
      by_cases hport : x.port = LeftPort
      · have hx : x.isAck = true := by simp [Received.isAck, hp, hport]
        rw [if_pos hport] at h
        obtain ⟨h1, h2, h3⟩ := ih _ _ _ h
        refine ⟨h1, ?_, by rw [h3]; simp [hx]⟩
        rw [h2]
        exact SlidingWindow.Ack_sequence _ _
      · have hx : x.isAck = false := by simp [Received.isAck, hp, hport]
        rw [if_neg hport] at h
        obtain ⟨h1, h2, h3⟩ := ih _ _ _ h
        exact ⟨h1, h2, by rw [h3]; simp [hx]⟩

theorem send_snapshot_fields (d : DeltaInternal Q) (mode : Int) (sample : Option (Cubes Q)) :
    (send_snapshot d mode sample).1.send_sequence = (d.send_sequence + 1) % 65536 ∧
    (send_snapshot d mode sample).1.quantized_snapshot_sliding_window.sequence =
      (d.quantized_snapshot_sliding_window.sequence + 1) % 65536 ∧
    (send_snapshot d mode sample).1.received_ack = d.received_ack ∧
    (send_snapshot d mode sample).1.quantized_snapshot_sliding_window.ack =
      d.quantized_snapshot_sliding_window.ack ∧
    ∀ x, x ∈ (send_snapshot d mode sample).2 →
      x = { port := RightPort, packet := Packet.snapshot (build_snapshot_packet d mode) } := by
  cases sample with
  | none => exact ⟨rfl, rfl, rfl, rfl, fun x hx => absurd hx (by simp [send_snapshot])⟩
  | some cubes =>
    refine ⟨rfl, rfl, rfl, rfl, fun x hx => ?_⟩
    simpa [send_snapshot] using hx

theorem Update_inv (d d' : DeltaInternal Q) ( input : UpdateInput Q) (sent : List Sent)
    (h : Update d input = Except.ok (d', sent)) :
    ∃ (r : Bool) (a : Nat),
      receive_loop input.received
        (if input.send_due then send_snapshot d input.mode input.sample else (d, [])).1 false 0 =
        Except.ok (d', r, a) ∧
      sent = (if input.send_due then send_snapshot d input.mode input.sample else (d, [])).2 ++
        (if r then [{ port := LeftPort, packet := Packet.ack { ack := a } }] else []) := by
  unfold Update at h
  simp only [] at h
  cases hl : receive_loop input.received
      (if input.send_due then send_snapshot d input.mode input.sample else (d, [])).1 false 0 with
  | error e =>
    rw [hl] at h
    simp at h
  | ok res =>
    obtain ⟨d1, r, a⟩ := res
    rw [hl] at h
    simp only [Except.ok.injEq, Prod.mk.injEq] at h
    exact ⟨r, a, by rw [h.1], h.2.symm⟩


theorem Update_fields (d d' : DeltaInternal Q) ( input : UpdateInput Q) (sent : List Sent)
    (h : Update d input = Except.ok (d', sent)) :
    d'.received_ack = (d.received_ack || input.hasAck) ∧
    (d.send_sequence = d.quantized_snapshot_sliding_window.sequence →
      d'.send_sequence = d'.quantized_snapshot_sliding_window.sequence) ∧
    ∀ p, { port := RightPort, packet := Packet.snapshot p } ∈ sent →
      p = build_snapshot_packet d input.mode := by
  obtain ⟨r, a, hloop, hsent⟩ := Update_inv d d' input sent h
  obtain ⟨h1, h2, h3⟩ := receive_loop_fields _ _ _ _ _ _ _ hloop
  obtain ⟨s1, s2, s3, _, s5⟩ := send_snapshot_fields d input.mode input.sample
  cases hdue : input.send_due with
  | true =>
    rw [hdue] at h1 h2 h3 hsent
    simp only [if_true] at h1 h2 h3 hsent
    refine ⟨by rw [h3, s3]; rfl, fun heq => by rw [h1, h2, s1, s2, heq], fun p hp => ?_⟩
    rw [hsent, List.mem_append] at hp
    rcases hp with hp | hp
    · have := s5 _ hp
      simp only [Sent.mk.injEq, Packet.snapshot.injEq, true_and] at this
      exact this
    · cases r with
      | true => simp [LeftPort, RightPort] at hp
      | false => simp at hp
  | false =>
    rw [hdue] at h1 h2 h3 hsent
    simp only [Bool.false_eq_true, if_false] at h1 h2 h3 hsent
    refine ⟨by rw [h3]; rfl, fun heq => by rw [h1, h2, heq], fun p hp => ?_⟩
    rw [hsent] at hp
    cases r with
    | true => simp [LeftPort, RightPort] at hp
    | false => simp at hp

theorem runUpdates_fields (l : List (UpdateInput Q)) (d d' : DeltaInternal Q)
    (out : List (List Sent)) (h : runUpdates d l = Except.ok (d', out)) :
    d'.received_ack = (d.received_ack || l.any UpdateInput.hasAck) ∧
    (d.send_sequence = d.quantized_snapshot_sliding_window.sequence →
      d'.send_sequence = d'.quantized_snapshot_sliding_window.sequence) := by
  induction l generalizing d out with
  | nil =>
    simp only [runUpdates, Except.ok.injEq, Prod.mk.injEq] at h
    obtain ⟨h1, _⟩ := h
    subst h1
    simp
  | cons x rest ih =>
    unfold runUpdates at h
    cases hu : Update d x with
    | error e =>
      rw [hu] at h
      simp at h
    | ok res =>
      obtain ⟨d1, sent⟩ := res
      rw [hu] at h
      simp only [] at h
      cases hr : runUpdates d1 rest with
      | error e =>
        rw [hr] at h
        simp at h
      | ok res2 =>
        obtain ⟨d2, more⟩ := res2
        rw [hr] at h
        simp only [Except.ok.injEq, Prod.mk.injEq] at h
        obtain ⟨h1, _⟩ := h
        subst h1
        obtain ⟨u1, u2, _⟩ := Update_fields d d1 x sent hu
        obtain ⟨r1, r2⟩ := ih d1 more hr
        refine ⟨?_, fun heq => r2 (u2 heq)⟩
        rw [r1, u1, List.any_cons, Bool.or_assoc]


theorem receive_loop_no_ack (l : List (Received Q)) (d d' : DeltaInternal Q) (r r' : Bool)
    (a a' : Nat) (h : receive_loop l d r a = Except.ok (d', r', a'))
    (hno : l.any Received.isAck = false) :
    d'.quantized_snapshot_sliding_window.ack = d.quantized_snapshot_sliding_window.ack := by
  induction l generalizing d r a with
  | nil =>
    simp only [receive_loop, Except.ok.injEq, Prod.mk.injEq] at h
    obtain ⟨h1, _, _⟩ := h
    subst h1
    rfl
  | cons x rest ih =>
    rw [List.any_cons, Bool.or_eq_false_iff] at hno
    obtain ⟨hx, hrest⟩ := hno
    unfold receive_loop at h
    cases hp : x.packet with
    | snapshot p =>
      rw [hp] at h
      simp only [] at h
      by_cases hport : x.port = RightPort
      · rw [if_pos hport] at h
        cases hf : x.sequence_buffer.Find p.sequence with
        | none =>
          rw [hf] at h
          simp at h
        | some c =>
          rw [hf] at h
          simp only [] at h
          split at h
          · exact (ih _ _ _ h hrest :)
          · exact (ih _ _ _ h hrest :)
      · rw [if_neg hport] at h
        exact (ih _ _ _ h hrest :)
    | ack p =>
      rw [hp] at h
      simp only [] at h
      by_cases hport : x.port = LeftPort
      · simp [Received.isAck, hp, hport] at hx
      · rw [if_neg hport] at h
        exact (ih _ _ _ h hrest :)

theorem Update_no_ack (d d' : DeltaInternal Q) ( input : UpdateInput Q) (sent : List Sent)
    (h : Update d input = Except.ok (d', sent)) (hno : input.hasAck = false) :
    d'.quantized_snapshot_sliding_window.ack = d.quantized_snapshot_sliding_window.ack := by
  obtain ⟨r, a, hloop, _⟩ := Update_inv d d' input sent h
  rw [receive_loop_no_ack _ _ _ _ _ _ _ hloop hno]
  cases hdue : input.send_due with
  | true =>
    simp only [if_true]
    exact (send_snapshot_fields d input.mode input.sample).2.2.2.1
  | false => simp

theorem runUpdates_no_ack (l : List (UpdateInput Q)) (d d' : DeltaInternal Q)
    (out : List (List Sent)) (h : runUpdates d l = Except.ok (d', out))
    (hno : l.any UpdateInput.hasAck = false) :
    d'.quantized_snapshot_sliding_window.ack = d.quantized_snapshot_sliding_window.ack := by
  induction l generalizing d out with
  | nil =>
    simp only [runUpdates, Except.ok.injEq, Prod.mk.injEq] at h
    obtain ⟨h1, _⟩ := h
    subst h1
    rfl
  | cons x rest ih =>
    rw [List.any_cons, Bool.or_eq_false_iff] at hno
    unfold runUpdates at h
    cases hu : Update d x with
    | error e =>
      rw [hu] at h
      simp at h
    | ok res =>
      obtain ⟨d1, sent⟩ := res
      rw [hu] at h
      simp only [] at h
      cases hr : runUpdates d1 rest with
      | error e =>
        rw [hr] at h
        simp at h
      | ok res2 =>
        obtain ⟨d2, more⟩ := res2
        rw [hr] at h
        simp only [Except.ok.injEq, Prod.mk.injEq] at h
        obtain ⟨h1, _⟩ := h
        subst h1
        rw [ih d1 more hr hno.2, Update_no_ack d d1 x sent hu hno.1]

theorem first_ack_core (d d' : DeltaInternal Q) ( input : UpdateInput Q) (sent : List Sent)
    (x : Received Q) (a : Nat) (mode : Int)
    (hnone : d.quantized_snapshot_sliding_window.ack = none) (ha : a < 65536)
    (hx : input.received = [x]) (hport : x.port = LeftPort)
    (hpkt : x.packet = Packet.ack { ack := a })
    (hstep : Update d input = Except.ok (d', sent)) :
    (build_snapshot_packet d' mode).initial = false ∧
    (build_snapshot_packet d' mode).base_sequence = a := by
  obtain ⟨r, a', hloop, _⟩ := Update_inv d d' input sent hstep
  have hnone' : (if input.send_due then send_snapshot d input.mode input.sample
      else (d, [])).1.quantized_snapshot_sliding_window.ack = none := by
    cases hdue : input.send_due with
    | true =>
      simp only [if_true]
      rw [(send_snapshot_fields d input.mode input.sample).2.2.2.1, hnone]
    | false =>
      simp only [Bool.false_eq_true, if_false]
      exact hnone
  rw [hx] at hloop
  simp only [receive_loop, hpkt, hport, if_true, Except.ok.injEq, Prod.mk.injEq] at hloop
  obtain ⟨h1, _, _⟩ := hloop
  subst h1
  simp only [build_snapshot_packet, SlidingWindow.Ack, hnone', SlidingWindow.GetAck,
    Bool.not_true, true_and]
  omega


theorem receive_loop_ok (l : List (Received Q)) (d : DeltaInternal Q) (r : Bool) (a : Nat)
    (hfound : ∀ x, x ∈ l → ∀ p, x.packet = Packet.snapshot p → x.port = RightPort →
      x.sequence_buffer.Find p.sequence ≠ none) :
    ∃ d', receive_loop l d r a =
      Except.ok (d', (ackFold (snapshotSequences l) r a).1,
        (ackFold (snapshotSequences l) r a).2) := by
  induction l generalizing d r a with
  | nil => exact ⟨d, rfl⟩
  | cons x rest ih =>
    have hrest : ∀ y, y ∈ rest → ∀ p, y.packet = Packet.snapshot p → y.port = RightPort →
        y.sequence_buffer.Find p.sequence ≠ none :=
      fun y hy => hfound y (List.mem_cons_of_mem _ hy)
    unfold receive_loop snapshotSequences
    cases hp : x.packet with
    | snapshot p =>
      simp only []
      by_cases hport : x.port = RightPort
      · rw [if_pos hport, if_pos hport]
        cases hf : x.sequence_buffer.Find p.sequence with
        | none => exact absurd hf (hfound x (List.mem_cons_self _ _) p hp hport)
        | some c =>
          simp only [ackFold]
          split
          · exact ih _ _ _ hrest
          · exact ih _ _ _ hrest
      · rw [if_neg hport, if_neg hport]
        exact ih _ _ _ hrest
    | ack p =>
      simp only []
      by_cases hport : x.port = LeftPort
      · rw [if_pos hport]
        exact ih _ _ _ hrest
      · rw [if_neg hport]
        exact ih _ _ _ hrest

theorem ackFold_fst (l : List Nat) (r : Bool) (a : Nat) :
    (ackFold l r a).1 = (r || !l.isEmpty) ∧
    ((ackFold l r a).2 ∈ l ∨ (ackFold l r a) = (r, a)) := by
  induction l generalizing r a with
  | nil => simp [ackFold]
  | cons s rest ih =>
    unfold ackFold
    split
    · obtain ⟨h1, h2⟩ := ih true s
      refine ⟨by rw [h1]; simp, ?_⟩
      rcases h2 with h2 | h2
      · exact Or.inl (List.mem_cons_of_mem _ h2)
      · exact Or.inl (by rw [h2]; exact List.mem_cons_self _ _)
    · next hc =>
      obtain ⟨h1, h2⟩ := ih r a
      have hr : r = true := by
        cases r with
        | true => rfl
        | false => simp at hc
      refine ⟨by rw [h1, hr]; simp, ?_⟩
      rcases h2 with h2 | h2
      · exact Or.inl (List.mem_cons_of_mem _ h2)
      · exact Or.inr h2

theorem sequence_greater_than_iff (w s t : Nat) (hw : w < 65536) (hs : s < 65536)
    (ht : t < 65536) (hos : (s + 65536 - w) % 65536 < 32768)
    (hot : (t + 65536 - w) % 65536 < 32768) :
    sequence_greater_than s t = true ↔ (t + 65536 - w) % 65536 < (s + 65536 - w) % 65536 := by
  simp only [sequence_greater_than, Bool.or_eq_true, Bool.and_eq_true, decide_eq_true_eq]
  omega

theorem ackFold_greatest (w : Nat) (hw : w < 65536) (l : List Nat) (r : Bool) (a : Nat)
    (hl : ∀ s, s ∈ l → s < 65536 ∧ (s + 65536 - w) % 65536 < 32768)
    (ha : r = true → a < 65536 ∧ (a + 65536 - w) % 65536 < 32768) :
    (∀ s, s ∈ l → (s + 65536 - w) % 65536 ≤ ((ackFold l r a).2 + 65536 - w) % 65536) ∧
    (r = true → (a + 65536 - w) % 65536 ≤ ((ackFold l r a).2 + 65536 - w) % 65536) := by
  induction l generalizing r a with
  | nil => exact ⟨fun s hs => absurd hs (by simp), fun _ => le_refl _⟩
  | cons s rest ih =>
    obtain ⟨hs1, hs2⟩ := hl s (List.mem_cons_self _ _)
    have hrest : ∀ t, t ∈ rest → t < 65536 ∧ (t + 65536 - w) % 65536 < 32768 :=
      fun t ht => hl t (List.mem_cons_of_mem _ ht)
    unfold ackFold
    split
    · next hc =>
      obtain ⟨i1, i2⟩ := ih true s hrest (fun _ => ⟨hs1, hs2⟩)
      refine ⟨fun t ht => ?_, fun hr => ?_⟩
      · rcases List.mem_cons.1 ht with h | h
        · rw [h]
          exact i2 rfl
        · exact i1 t h
      · obtain ⟨ha1, ha2⟩ := ha hr
        subst hr
        simp only [Bool.not_true, Bool.false_or, Bool.true_and] at hc
        have := (sequence_greater_than_iff w s a hw hs1 ha1 hs2 ha2).1 hc
        have := i2 rfl
        omega
    · next hc =>
      have hr : r = true := by
        cases r with
        | true => rfl
        | false => simp at hc
      subst hr
      obtain ⟨ha1, ha2⟩ := ha rfl
      simp only [Bool.not_true, Bool.false_or, Bool.true_and] at hc
      have hng : ¬ ((a + 65536 - w) % 65536 < (s + 65536 - w) % 65536) :=
        fun h => hc ((sequence_greater_than_iff w s a hw hs1 ha1 hs2 ha2).2 h)
      obtain ⟨i1, i2⟩ := ih true a hrest (fun _ => ⟨ha1, ha2⟩)
      refine ⟨fun t ht => ?_, fun _ => i2 rfl⟩
      rcases List.mem_cons.1 ht with h | h
      · rw [h]
        have := i2 rfl
        omega
      · exact i1 t h

theorem send_snapshot_no_acks (d : DeltaInternal Q) (mode : Int) (sample : Option (Cubes Q)) :
    sentAcks (send_snapshot d mode sample).2 = [] := by
  cases sample <;> rfl

theorem sentAcks_append (l1 l2 : List Sent) : sentAcks (l1 ++ l2) = sentAcks l1 ++ sentAcks l2 := by
  induction l1 with
  | nil => rfl
  | cons x rest ih =>
    cases hp : x.packet with
    | snapshot p =>
      rw [List.cons_append]
      simp only [sentAcks, hp]
      exact ih
    | ack p =>
      rw [List.cons_append]
      simp only [sentAcks, hp, List.cons_append]
      exact congrArg _ ih


theorem arrivals_of_sequence (l : List (Received Q)) (g : Nat)
    (h : g ∈ snapshotSequences l) : ∃ b, (g, b) ∈ arrivals l := by
  induction l with
  | nil => simp [snapshotSequences] at h
  | cons x rest ih =>
    unfold snapshotSequences at h
    unfold arrivals
    cases hp : x.packet with
    | snapshot p =>
      rw [hp] at h
      simp only [] at h ⊢
      by_cases hport : x.port = RightPort
      · rw [if_pos hport] at h ⊢
        rcases List.mem_cons.1 h with h | h
        · exact ⟨x.sequence_buffer, by rw [h]; exact List.mem_cons_self _ _⟩
        · obtain ⟨b, hb⟩ := ih h
          exact ⟨b, List.mem_cons_of_mem _ hb⟩
      · rw [if_neg hport] at h ⊢
        exact ih h
    | ack p =>
      rw [hp] at h
      simp only [] at h ⊢
      exact ih h

end Session

section TestPackets

theorem run_connect_writing (p : ConnectPacket) (ha : -10 ≤ p.a ∧ p.a ≤ 10)
    (hb : -10 ≤ p.b ∧ p.b ≤ 10) (hc : -10 ≤ p.c ∧ p.c ≤ 10) (bs : List Bool) (n : Nat) :
    (ConnectPacket.Serialize StreamMode.writing).run (⟨bs, n⟩, p) =
      (Except.ok (), (⟨bs ++ (intBits (-10) 10 p.a ++ (intBits (-10) 10 p.b ++
        intBits (-10) 10 p.c)), n⟩, p)) := by
  obtain ⟨a, b, c⟩ := p
  simp only [ConnectPacket.Serialize, run_bind, run_getMem, run_modifyMem,
    run_serialize_int_writing _ _ _ ha.1 ha.2, run_serialize_int_writing _ _ _ hb.1 hb.2,
    run_serialize_int_writing _ _ _ hc.1 hc.2, List.append_assoc]

theorem run_connect_reading (p p0 : ConnectPacket) (ha : -10 ≤ p.a ∧ p.a ≤ 10)
    (hb : -10 ≤ p.b ∧ p.b ≤ 10) (hc : -10 ≤ p.c ∧ p.c ≤ 10) (rest : List Bool) (n : Nat) :
    (ConnectPacket.Serialize StreamMode.reading).run
        (⟨(intBits (-10) 10 p.a ++ (intBits (-10) 10 p.b ++ intBits (-10) 10 p.c)) ++ rest, n⟩,
          p0) =
      (Except.ok (), (⟨rest, n⟩, p)) := by
  obtain ⟨a, b, c⟩ := p
  simp only [ConnectPacket.Serialize, run_bind, run_getMem, run_modifyMem, List.append_assoc,
    run_serialize_int_reading _ _ _ _ ha.1 ha.2, run_serialize_int_reading _ _ _ _ hb.1 hb.2,
    run_serialize_int_reading _ _ _ _ hc.1 hc.2]

theorem run_update_writing (p : UpdatePacket) (bs : List Bool) (n : Nat) :
    (UpdatePacket.Serialize StreamMode.writing).run (⟨bs, n⟩, p) =
      (Except.ok (), (⟨bs ++ toBits 16 p.timestamp, n⟩, p)) := by
  obtain ⟨t⟩ := p
  simp only [UpdatePacket.Serialize, run_bind, run_getMem, run_modifyMem,
    run_serialize_bits_writing]

theorem run_update_reading (p p0 : UpdatePacket) (ht : p.timestamp < 65536)
    (rest : List Bool) (n : Nat) :
    (UpdatePacket.Serialize StreamMode.reading).run (⟨toBits 16 p.timestamp ++ rest, n⟩, p0) =
      (Except.ok (), (⟨rest, n⟩, p)) := by
  obtain ⟨t⟩ := p
  have ht' : t < 2 ^ 16 := ht
  simp only [UpdatePacket.Serialize, run_bind, run_getMem, run_modifyMem,
    run_serialize_bits_reading _ _ _ ht']

theorem run_disconnect_writing (p : DisconnectPacket) (hx : -100 ≤ p.x ∧ p.x ≤ 100)
    (bs : List Bool) (n : Nat) :
    (DisconnectPacket.Serialize StreamMode.writing).run (⟨bs, n⟩, p) =
      (Except.ok (), (⟨bs ++ intBits (-100) 100 p.x, n⟩, p)) := by
  obtain ⟨x⟩ := p
  simp only [DisconnectPacket.Serialize, run_bind, run_getMem, run_modifyMem,
    run_serialize_int_writing _ _ _ hx.1 hx.2]

theorem run_disconnect_reading (p p0 : DisconnectPacket) (hx : -100 ≤ p.x ∧ p.x ≤ 100)
    (rest : List Bool) (n : Nat) :
    (DisconnectPacket.Serialize StreamMode.reading).run
        (⟨intBits (-100) 100 p.x ++ rest, n⟩, p0) =
      (Except.ok (), (⟨rest, n⟩, p)) := by
  obtain ⟨x⟩ := p
  simp only [DisconnectPacket.Serialize, run_bind, run_getMem, run_modifyMem,
    run_serialize_int_reading _ _ _ _ hx.1 hx.2]

end TestPackets

section Simulator

variable {A P T : Type} [LinearOrderedAddCommGroup T]

theorem oldestPacketLoop_none (l : List (PacketData A P T)) (i : Nat)
    (acc : Option (Nat × PacketData A P T)) (h : oldestPacketLoop l i acc = none) :
    acc = none ∧ ∀ x, x ∈ l → x.packet = none := by
  induction l generalizing i acc with
  | nil => exact ⟨h, fun x hx => absurd hx (by simp)⟩
  | cons x rest ih =>
    unfold oldestPacketLoop at h
    cases hp : x.packet with
    | none =>
      rw [hp] at h
      obtain ⟨h1, h2⟩ := ih _ _ h
      refine ⟨h1, fun y hy => ?_⟩
      rcases List.mem_cons.1 hy with hy | hy
      · rw [hy]
        exact hp
      · exact h2 y hy
    | some q =>
      rw [hp] at h
      cases acc with
      | none =>
        simp only [] at h
        exact absurd (ih _ _ h).1 (by simp)
      | some oldest =>
        simp only [] at h
        split at h
        · exact absurd (ih _ _ h).1 (by simp)
        · exact absurd (ih _ _ h).1 (by simp)

theorem oldestPacketLoop_some (l : List (PacketData A P T)) (i : Nat)
    (acc : Option (Nat × PacketData A P T)) (r : Nat × PacketData A P T)
    (h : oldestPacketLoop l i acc = some r) :
    (acc = some r ∨ (i ≤ r.1 ∧ l[r.1 - i]? = some r.2 ∧ r.2.packet ≠ none)) ∧
    (∀ x, x ∈ l → x.packet ≠ none → r.2.dequeueTime ≤ x.dequeueTime) ∧
    (∀ a, acc = some a → r.2.dequeueTime ≤ a.2.dequeueTime) := by
  induction l generalizing i acc with
  | nil =>
    simp only [oldestPacketLoop] at h
    subst h
    refine ⟨Or.inl rfl, fun x hx => absurd hx (by simp), fun a ha => ?_⟩
    simp only [Option.some.injEq] at ha
    rw [ha]
  | cons x rest ih =>
    have shift : ∀ j, i + 1 ≤ j → rest[j - (i + 1)]? = (x :: rest)[j - i]? := by
      intro j hj
      have : j - i = (j - (i + 1)) + 1 := by omega
      rw [this, List.getElem?_cons_succ]
    unfold oldestPacketLoop at h
    cases hp : x.packet with
    | none =>
      rw [hp] at h
      obtain ⟨h1, h2, h3⟩ := ih _ _ h
      refine ⟨?_, fun y hy hne => ?_, h3⟩
      · rcases h1 with h1 | ⟨a, b, c⟩
        · exact Or.inl h1
        · exact Or.inr ⟨by omega, by rw [← shift _ a]; exact b, c⟩
      · rcases List.mem_cons.1 hy with hy | hy
        · rw [hy] at hne
          exact absurd hp hne
        · exact h2 y hy hne
    | some q =>
      rw [hp] at h
      have hxne : x.packet ≠ none := by
        rw [hp]
        simp
      have here : (x :: rest)[i - i]? = some x := by
        rw [Nat.sub_self]
        exact List.getElem?_cons_zero
      cases acc with
      | none =>
        simp only [] at h
        obtain ⟨h1, h2, h3⟩ := ih _ _ h
        refine ⟨Or.inr ?_, fun y hy hne => ?_, fun a ha => absurd ha (by simp)⟩
        · rcases h1 with h1 | ⟨a, b, c⟩
          · simp only [Option.some.injEq] at h1
            rw [← h1]
            exact ⟨le_refl _, here, hxne⟩
          · exact ⟨by omega, by rw [← shift _ a]; exact b, c⟩
        · rcases List.mem_cons.1 hy with hy | hy
          · rw [hy]
            exact h3 (i, x) rfl
          · exact h2 y hy hne
      | some oldest =>
        simp only [] at h
        by_cases hlt : x.dequeueTime < oldest.2.dequeueTime
        · rw [if_pos hlt] at h
          obtain ⟨h1, h2, h3⟩ := ih _ _ h
          have hx := h3 (i, x) rfl
          refine ⟨Or.inr ?_, fun y hy hne => ?_, fun a ha => ?_⟩
          · rcases h1 with h1 | ⟨a, b, c⟩
            · simp only [Option.some.injEq] at h1
              rw [← h1]
              exact ⟨le_refl _, here, hxne⟩
            · exact ⟨by omega, by rw [← shift _ a]; exact b, c⟩
          · rcases List.mem_cons.1 hy with hy | hy
            · rw [hy]
              exact hx
            · exact h2 y hy hne
          · simp only [Option.some.injEq] at ha
            rw [← ha]
            exact le_of_lt (lt_of_le_of_lt hx hlt)
        · rw [if_neg hlt] at h
          obtain ⟨h1, h2, h3⟩ := ih _ _ h
          have ho := h3 oldest rfl
          refine ⟨?_, fun y hy hne => ?_, fun a ha => ?_⟩
          · rcases h1 with h1 | ⟨a, b, c⟩
            · exact Or.inl h1
            · exact Or.inr ⟨by omega, by rw [← shift _ a]; exact b, c⟩
          · rcases List.mem_cons.1 hy with hy | hy
            · rw [hy]
              exact le_trans ho (not_lt.1 hlt)
            · exact h2 y hy hne
          · simp only [Option.some.injEq] at ha
            rw [← ha]
            exact ho

theorem chosen_some (sim : NetworkSimulator A P T) (r : Nat × PacketData A P T)
    (h : sim.chosen = some r) :
    sim.m_packets[r.1]? = some r.2 ∧ r.2.packet ≠ none ∧
    r.2.dequeueTime ≤ sim.m_timeBase.time ∧
    ∀ x, x ∈ sim.m_packets → x.packet ≠ none → r.2.dequeueTime ≤ x.dequeueTime := by
  unfold NetworkSimulator.chosen at h
  cases hl : oldestPacketLoop sim.m_packets 0 none with
  | none =>
    rw [hl] at h
    simp at h
  | some o =>
    rw [hl] at h
    simp only [] at h
    by_cases hle : o.2.dequeueTime ≤ sim.m_timeBase.time
    · rw [if_pos hle] at h
      simp only [Option.some.injEq] at h
      subst h
      obtain ⟨h1, h2, _⟩ := oldestPacketLoop_some _ _ _ _ hl
      rcases h1 with h1 | ⟨_, b, c⟩
      · exact absurd h1 (by simp)
      · exact ⟨by simpa using b, c, hle, h2⟩
    · rw [if_neg hle] at h
      simp at h

theorem chosen_none (sim : NetworkSimulator A P T) (h : sim.chosen = none) :
    ∀ x, x ∈ sim.m_packets → x.packet ≠ none → sim.m_timeBase.time < x.dequeueTime := by
  unfold NetworkSimulator.chosen at h
  cases hl : oldestPacketLoop sim.m_packets 0 none with
  | none =>
    intro x hx hne
    exact absurd ((oldestPacketLoop_none _ _ _ hl).2 x hx) hne
  | some o =>
    rw [hl] at h
    simp only [] at h
    by_cases hle : o.2.dequeueTime ≤ sim.m_timeBase.time
    · rw [if_pos hle] at h
      simp at h
    · intro x hx hne
      exact lt_of_lt_of_le (not_le.1 hle) ((oldestPacketLoop_some _ _ _ _ hl).2.1 x hx hne)

theorem receive_core (sim : NetworkSimulator A P T) :
    ((∃ x, x ∈ sim.m_packets ∧ x.packet ≠ none ∧ x.dequeueTime ≤ sim.m_timeBase.time) →
      ∃ (j : Nat) (o : PacketData A P T) (p : A × P),
        sim.m_packets[j]? = some o ∧ o.packet = some p ∧
        o.dequeueTime ≤ sim.m_timeBase.time ∧
        (∀ x, x ∈ sim.m_packets → x.packet ≠ none → o.dequeueTime ≤ x.dequeueTime) ∧
        sim.chosen = some (j, o) ∧
        sim.ReceivePacket =
          (some p, { sim with m_packets := sim.m_packets.set j { o with packet := none } })) ∧
    ((¬ ∃ x, x ∈ sim.m_packets ∧ x.packet ≠ none ∧ x.dequeueTime ≤ sim.m_timeBase.time) →
      sim.chosen = none ∧ sim.ReceivePacket = (none, sim)) := by
  cases hc : sim.chosen with
  | none =>
    have hn := chosen_none sim hc
    constructor
    · rintro ⟨x, hx, hne, hle⟩
      exact absurd hle (not_le.2 (hn x hx hne))
    · intro _
      refine ⟨rfl, ?_⟩
      unfold NetworkSimulator.ReceivePacket
      rw [hc]
  | some r =>
    obtain ⟨h1, h2, h3, h4⟩ := chosen_some sim r hc
    constructor
    · intro _
      cases hp : r.2.packet with
      | none => exact absurd hp h2
      | some p =>
        refine ⟨r.1, r.2, p, h1, hp, h3, h4, rfl, ?_⟩
        unfold NetworkSimulator.ReceivePacket
        rw [hc]
        simp only [hp]
    · intro hno
      exact absurd ⟨r.2, List.getElem?_mem h1, h2, h3⟩ hno

theorem Update_no_states (sim : NetworkSimulator A P T) (timeBase : TimeBase T)
    (rand1 rand2 : Nat) (h : sim.m_states = []) :
    sim.Update timeBase rand1 rand2 = { sim with m_timeBase := timeBase } := by
  unfold NetworkSimulator.Update
  simp [h]

theorem updates_no_states (us : List (TimeBase T × Nat × Nat)) (sim : NetworkSimulator A P T)
    (h : sim.m_states = []) :
    (sim.calls (us.map (fun u => SimulatorCall.update u.1 u.2.1 u.2.2))).m_state = sim.m_state ∧
    (sim.calls (us.map (fun u => SimulatorCall.update u.1 u.2.1 u.2.2))).m_packets =
      sim.m_packets ∧
    (sim.calls (us.map (fun u => SimulatorCall.update u.1 u.2.1 u.2.2))).m_states = [] ∧
    (sim.calls (us.map (fun u => SimulatorCall.update u.1 u.2.1 u.2.2))).m_packetNumber =
      sim.m_packetNumber ∧
    (sim.calls (us.map (fun u => SimulatorCall.update u.1 u.2.1 u.2.2))).m_config =
      sim.m_config := by
  induction us generalizing sim with
  | nil => exact ⟨rfl, rfl, h, rfl, rfl⟩
  | cons u rest ih =>
    simp only [List.map_cons, NetworkSimulator.calls, NetworkSimulator.call]
    rw [Update_no_states sim u.1 u.2.1 u.2.2 h]
    exact ih { sim with m_timeBase := u.1 } h

theorem SendPacket_slot (sim : NetworkSimulator A P T) (address : A) (packet : P) (random : T)
    (h : sim.m_packetNumber % sim.m_config.numPackets < sim.m_packets.length) :
    (sim.SendPacket address packet random).m_packets[
        sim.m_packetNumber % sim.m_config.numPackets]? =
      some { packet := some (address, packet)
             packetNumber := sim.m_packetNumber
             dequeueTime := sim.m_timeBase.time + (sim.m_state.latency + random) } := by
  unfold NetworkSimulator.SendPacket
  simp only []
  rw [List.getElem?_set_self h]

theorem ReceivePacket_keeps (sim : NetworkSimulator A P T) :
    sim.ReceivePacket.2.m_timeBase = sim.m_timeBase ∧
    ∀ x, x ∈ sim.ReceivePacket.2.m_packets → x.packet ≠ none → x ∈ sim.m_packets := by
  unfold NetworkSimulator.ReceivePacket
  cases hc : sim.chosen with
  | none => exact ⟨rfl, fun x hx _ => hx⟩
  | some r =>
    refine ⟨rfl, fun x hx hne => ?_⟩
    simp only [] at hx
    rcases List.mem_or_eq_of_mem_set hx with h | h
    · exact h
    · rw [h] at hne
      exact absurd rfl hne

theorem ReceivePacket_not_due (sim : NetworkSimulator A P T) (idx : Nat)
    (e : PacketData A P T) (hslot : sim.m_packets[idx]? = some e)
    (hearly : sim.m_timeBase.time < e.dequeueTime) :
    sim.ReceivePacket.2.m_packets[idx]? = some e := by
  unfold NetworkSimulator.ReceivePacket
  cases hc : sim.chosen with
  | none => exact hslot
  | some r =>
    obtain ⟨h1, _, h3, _⟩ := chosen_some sim r hc
    simp only []
    have hne : r.1 ≠ idx := by
      intro heq
      rw [heq, hslot] at h1
      simp only [Option.some.injEq] at h1
      rw [h1] at hearly
      exact absurd h3 (not_le.2 hearly)
    rw [List.getElem?_set_ne hne]
    exact hslot

theorem receiveLog_mem (n : Nat) (sim : NetworkSimulator A P T) :
    ∀ e, e ∈ (sim.receiveLog n).1 → e ∈ sim.m_packets ∧ e.packet ≠ none := by
  induction n generalizing sim with
  | zero =>
    intro e he
    simp [NetworkSimulator.receiveLog] at he
  | succ n ih =>
    intro e he
    unfold NetworkSimulator.receiveLog at he
    cases hc : sim.chosen with
    | none =>
      rw [hc] at he
      simp at he
    | some r =>
      rw [hc] at he
      simp only [List.mem_cons] at he
      obtain ⟨h1, h2, _, _⟩ := chosen_some sim r hc
      rcases he with he | he
      · rw [he]
        exact ⟨List.getElem?_mem h1, h2⟩
      · obtain ⟨i1, i2⟩ := ih sim.ReceivePacket.2 e he
        exact ⟨(ReceivePacket_keeps sim).2 e i1 i2, i2⟩

theorem receiveLog_sorted (n : Nat) (sim : NetworkSimulator A P T) :
    List.Pairwise (fun a b => a.dequeueTime ≤ b.dequeueTime) (sim.receiveLog n).1 := by
  induction n generalizing sim with
  | zero => exact List.Pairwise.nil
  | succ n ih =>
    unfold NetworkSimulator.receiveLog
    cases hc : sim.chosen with
    | none => exact List.Pairwise.nil
    | some r =>
      simp only []
      obtain ⟨_, _, _, h4⟩ := chosen_some sim r hc
      refine List.Pairwise.cons (fun e he => ?_) (ih _)
      obtain ⟨i1, i2⟩ := receiveLog_mem n sim.ReceivePacket.2 e he
      exact h4 e ((ReceivePacket_keeps sim).2 e i1 i2) i2

theorem receiveMany_eq_log (n : Nat) (sim : NetworkSimulator A P T) :
    sim.receiveMany n =
      ((sim.receiveLog n).1.filterMap PacketData.packet, (sim.receiveLog n).2) := by
  induction n generalizing sim with
  | zero => rfl
  | succ n ih =>
    unfold NetworkSimulator.receiveMany NetworkSimulator.receiveLog
    cases hc : sim.chosen with
    | none =>
      have : sim.ReceivePacket = (none, sim) := by
        unfold NetworkSimulator.ReceivePacket
        rw [hc]
      rw [this]
      rfl
    | some r =>
      obtain ⟨_, h2, _, _⟩ := chosen_some sim r hc
      cases hp : r.2.packet with
      | none => exact absurd hp h2
      | some p =>
        have hr : sim.ReceivePacket = (some p,
            { sim with m_packets := sim.m_packets.set r.1 { r.2 with packet := none } }) := by
          unfold NetworkSimulator.ReceivePacket
          rw [hc]
          simp only [hp]
        rw [hr]
        simp only [ih, List.filterMap_cons, hp]

theorem simulator_Update_fields (sim : NetworkSimulator A P T) (timeBase : TimeBase T)
    (rand1 rand2 : Nat) :
    (sim.Update timeBase rand1 rand2).m_packets = sim.m_packets ∧
    (sim.Update timeBase rand1 rand2).m_packetNumber = sim.m_packetNumber ∧
    (sim.Update timeBase rand1 rand2).m_config = sim.m_config ∧
    (sim.Update timeBase rand1 rand2).m_timeBase = timeBase := by
  unfold NetworkSimulator.Update
  simp only []
  split
  · split
    · exact ⟨rfl, rfl, rfl, rfl⟩
    · exact ⟨rfl, rfl, rfl, rfl⟩
  · exact ⟨rfl, rfl, rfl, rfl⟩

theorem calls_append (l1 l2 : List (SimulatorCall A P T)) (sim : NetworkSimulator A P T) :
    sim.calls (l1 ++ l2) = (sim.calls l1).calls l2 := by
  induction l1 generalizing sim with
  | nil => rfl
  | cons c rest ih =>
    rw [List.cons_append]
    exact ih (sim.call c)

theorem sentPackets_append (l1 l2 : List (SimulatorCall A P T)) :
    sentPackets (l1 ++ l2) = sentPackets l1 ++ sentPackets l2 := by
  induction l1 with
  | nil => rfl
  | cons c rest ih =>
    rw [List.cons_append]
    cases c with
    | send address packet random =>
      simp only [sentPackets, ih, List.cons_append]
    | update timeBase rand1 rand2 =>
      simp only [sentPackets, ih]
    | addState state =>
      simp only [sentPackets, ih]

theorem filterMap_set_taken (l : List (PacketData A P T)) (j : Nat) (o : PacketData A P T)
    (p : A × P) (h : l[j]? = some o) (hp : o.packet = some p) :
    List.Perm (p :: (l.set j { o with packet := none }).filterMap PacketData.packet)
      (l.filterMap PacketData.packet) := by
  induction l generalizing j with
  | nil => simp at h
  | cons x rest ih =>
    cases j with
    | zero =>
      rw [List.getElem?_cons_zero] at h
      simp only [Option.some.injEq] at h
      rw [h]
      simp only [List.set_cons_zero, List.filterMap_cons, hp]
      exact List.Perm.refl _
    | succ j =>
      rw [List.getElem?_cons_succ] at h
      simp only [List.set_cons_succ, List.filterMap_cons]
      cases hx : x.packet with
      | none => exact ih j h
      | some q =>
        simp only []
        exact (List.Perm.swap q p _).trans (List.Perm.cons q (ih j h))

theorem receiveMany_drains (n : Nat) (sim : NetworkSimulator A P T)
    (hdue : ∀ x, x ∈ sim.m_packets → x.packet ≠ none →
      x.dequeueTime ≤ sim.m_timeBase.time)
    (hn : (sim.m_packets.filterMap PacketData.packet).length ≤ n) :
    List.Perm (sim.receiveMany n).1 (sim.m_packets.filterMap PacketData.packet) ∧
    (sim.receiveMany n).2.ReceivePacket.1 = none := by
  induction n generalizing sim with
  | zero =>
    have hnil : sim.m_packets.filterMap PacketData.packet = [] :=
      List.eq_nil_of_length_eq_zero (Nat.le_zero.1 hn)
    have hall := List.filterMap_eq_nil_iff.1 hnil
    have hno : ¬ ∃ x, x ∈ sim.m_packets ∧ x.packet ≠ none ∧
        x.dequeueTime ≤ sim.m_timeBase.time := by
      rintro ⟨x, hx, hne, _⟩
      exact hne (hall x hx)
    obtain ⟨_, hr⟩ := (receive_core sim).2 hno
    rw [hnil]
    refine ⟨List.Perm.refl _, ?_⟩
    show sim.ReceivePacket.1 = none
    rw [hr]
  | succ n ih =>
    by_cases hex : ∃ x, x ∈ sim.m_packets ∧ x.packet ≠ none ∧
        x.dequeueTime ≤ sim.m_timeBase.time
    · obtain ⟨j, o, p, hj, hp, _, _, _, hr⟩ := (receive_core sim).1 hex
      have hperm := filterMap_set_taken sim.m_packets j o p hj hp
      have hdue' : ∀ x, x ∈ (sim.m_packets.set j { o with packet := none }) →
          x.packet ≠ none → x.dequeueTime ≤ sim.m_timeBase.time := by
        intro x hx hne
        rcases List.mem_or_eq_of_mem_set hx with h | h
        · exact hdue x h hne
        · rw [h] at hne
          exact absurd rfl hne
      have hlen : ((sim.m_packets.set j { o with packet := none }).filterMap
          PacketData.packet).length ≤ n := by
        have := hperm.length_eq
        simp only [List.length_cons] at this
        omega
      obtain ⟨i1, i2⟩ :=
        ih { sim with m_packets := sim.m_packets.set j { o with packet := none } } hdue' hlen
      unfold NetworkSimulator.receiveMany
      rw [hr]
      exact ⟨(List.Perm.cons p i1).trans hperm, i2⟩
    · obtain ⟨_, hr⟩ := (receive_core sim).2 hex
      have hnil : sim.m_packets.filterMap PacketData.packet = [] := by
        rw [List.filterMap_eq_nil_iff]
        intro x hx
        by_contra hne
        exact hex ⟨x, hx, hne, hdue x hx hne⟩
      unfold NetworkSimulator.receiveMany
      rw [hr, hnil]
      refine ⟨List.Perm.refl _, ?_⟩
      show sim.ReceivePacket.1 = none
      rw [hr]

theorem set_at_length {α : Type} (xs ys : List α) (y v : α) :
    (xs ++ y :: ys).set xs.length v = xs ++ v :: ys := by
  induction xs with
  | nil => rfl
  | cons x rest ih =>
    simp only [List.cons_append, List.length_cons, List.set_cons_succ, ih]

theorem filterMap_filled {α : Type} (xs : List α) (m : Nat) :
    (xs.map some ++ List.replicate m none).filterMap id = xs := by
  induction xs with
  | nil =>
    simp only [List.map_nil, List.nil_append]
    rw [List.filterMap_eq_nil_iff]
    intro a ha
    rw [List.eq_of_mem_replicate ha]
    rfl
  | cons x rest ih =>
    simp only [List.map_cons, List.cons_append, List.filterMap_cons, id]
    rw [ih]

theorem calls_fill (N : Nat) (hN : N < 4294967296) (ops : List (SimulatorCall A P T))
    (sim : NetworkSimulator A P T) (sent : List (A × P))
    (hc : sim.m_config.numPackets = N) (hk : sim.m_packetNumber = sent.length)
    (hm : sim.m_packets.map PacketData.packet =
      sent.map some ++ List.replicate (N - sent.length) none)
    (hlen : sent.length + (sentPackets ops).length ≤ N) :
    (sim.calls ops).m_packets.map PacketData.packet =
      (sent ++ sentPackets ops).map some ++
        List.replicate (N - (sent.length + (sentPackets ops).length)) none := by
  induction ops generalizing sim sent with
  | nil =>
    simp only [NetworkSimulator.calls, sentPackets, List.append_nil, List.length_nil,
      Nat.add_zero]
    exact hm
  | cons c rest ih =>
    cases c with
    | send address packet random =>
      simp only [sentPackets, List.length_cons] at hlen
      have hlt : sent.length < N := by omega
      have hstep := ih (sim.SendPacket address packet random) (sent ++ [(address, packet)])
        hc
        (by
          show (sim.m_packetNumber + 1) % 4294967296 = _
          rw [hk, List.length_append, List.length_singleton]
          exact Nat.mod_eq_of_lt (by omega))
        (by
          show (sim.m_packets.set (sim.m_packetNumber % sim.m_config.numPackets) _).map
            PacketData.packet = _
          rw [List.map_set, hm, hc, hk, Nat.mod_eq_of_lt hlt]
          have h1 : N - sent.length = (N - (sent ++ [(address, packet)]).length) + 1 := by
            rw [List.length_append, List.length_singleton]
            omega
          rw [h1, List.replicate_succ]
          have h2 := set_at_length (sent.map some)
            (List.replicate (N - (sent ++ [(address, packet)]).length) none) none
            (some (address, packet))
          rw [List.length_map] at h2
          rw [h2, List.map_append, List.append_assoc]
          rfl)
        (by
          rw [List.length_append, List.length_singleton]
          omega)
      simp only [NetworkSimulator.calls, NetworkSimulator.call, sentPackets, List.length_cons]
      rw [hstep, List.append_assoc, List.length_append, List.length_singleton]
      simp only [List.singleton_append]
      rw [Nat.add_assoc, Nat.add_comm 1]
    | update timeBase rand1 rand2 =>
      obtain ⟨u1, u2, u3, _⟩ := simulator_Update_fields sim timeBase rand1 rand2
      have hstep := ih (sim.Update timeBase rand1 rand2) sent
        (by rw [u3]; exact hc) (by rw [u2]; exact hk) (by rw [u1]; exact hm) hlen
      exact hstep
    | addState state =>
      exact ih (sim.AddState state) sent hc hk hm hlen

theorem create_then_calls (config : NetworkSimulatorConfig)
    (hN : config.numPackets < 4294967296) (ops : List (SimulatorCall A P T))
    (hlen : (sentPackets ops).length ≤ config.numPackets) :
    (((NetworkSimulator.create config : NetworkSimulator A P T).calls ops).m_packets.filterMap
      PacketData.packet) = sentPackets ops := by
  have h := calls_fill config.numPackets hN ops
    (NetworkSimulator.create config : NetworkSimulator A P T) [] rfl rfl
    (by
      show (List.replicate _ _).map _ = _
      rw [List.map_replicate]
      rfl)
    (by
      rw [List.length_nil, Nat.zero_add]
      exact hlen)
  have h2 := List.filterMap_map PacketData.packet id
    ((NetworkSimulator.create config : NetworkSimulator A P T).calls ops).m_packets
  rw [h, List.nil_append, filterMap_filled] at h2
  exact h2.symm

theorem receiveRun_mem (steps : List (Option (TimeBase T × Nat × Nat)))
    (sim : NetworkSimulator A P T) :
    ∀ e, e ∈ sim.receiveRun steps → e ∈ sim.m_packets ∧ e.packet ≠ none := by
  induction steps generalizing sim with
  | nil =>
    intro e he
    simp [NetworkSimulator.receiveRun] at he
  | cons s rest ih =>
    intro e he
    cases s with
    | some u =>
      simp only [NetworkSimulator.receiveRun] at he
      obtain ⟨i1, i2⟩ := ih _ e he
      rw [(simulator_Update_fields sim u.1 u.2.1 u.2.2).1] at i1
      exact ⟨i1, i2⟩
    | none =>
      unfold NetworkSimulator.receiveRun at he
      cases hc : sim.chosen with
      | none =>
        rw [hc] at he
        obtain ⟨i1, i2⟩ := ih _ e he
        exact ⟨(ReceivePacket_keeps sim).2 e i1 i2, i2⟩
      | some r =>
        rw [hc] at he
        simp only [List.mem_cons] at he
        obtain ⟨h1, h2, _, _⟩ := chosen_some sim r hc
        rcases he with he | he
        · rw [he]
          exact ⟨List.getElem?_mem h1, h2⟩
        · obtain ⟨i1, i2⟩ := ih _ e he
          exact ⟨(ReceivePacket_keeps sim).2 e i1 i2, i2⟩

theorem ring_create (config : NetworkSimulatorConfig) :
    RingHolds config.numPackets (NetworkSimulator.create config : NetworkSimulator A P T) [] := by
  refine ⟨rfl, ?_, rfl, fun i hi => ?_⟩
  · show (List.replicate _ _).length = _
    exact List.length_replicate _ _
  · refine ⟨{ packet := none, dequeueTime := 0, packetNumber := 0 }, ?_, Or.inl ⟨rfl, ?_⟩⟩
    · show (List.replicate _ _)[i]? = _
      exact List.getElem?_replicate_of_lt hi
    · intro m hm
      simp at hm

theorem ring_send (N : Nat) (hN : 0 < N) (sim : NetworkSimulator A P T) (sent : List (A × P))
    (address : A) (packet : P) (random : T) (h : RingHolds N sim sent)
    (hlen : sent.length + 1 < 4294967296) :
    RingHolds N (sim.SendPacket address packet random) (sent ++ [(address, packet)]) := by
  obtain ⟨hc, hl, hk, hinv⟩ := h
  have hidx : sim.m_packetNumber % sim.m_config.numPackets = sent.length % N := by
    rw [hc, hk]
  have hidxlt : sent.length % N < N := Nat.mod_lt _ hN
  refine ⟨hc, ?_, ?_, fun i hi => ?_⟩
  · show (sim.m_packets.set _ _).length = N
    rw [List.length_set]
    exact hl
  · show (sim.m_packetNumber + 1) % 4294967296 = _
    rw [hk, List.length_append, List.length_singleton]
    exact Nat.mod_eq_of_lt hlen
  · show ∃ e, (sim.m_packets.set (sim.m_packetNumber % sim.m_config.numPackets) _)[i]? =
      some e ∧ _
    rw [hidx]
    by_cases hi' : sent.length % N = i
    · refine ⟨{ packet := some (address, packet)
                dequeueTime := sim.m_timeBase.time + (sim.m_state.latency + random)
                packetNumber := sim.m_packetNumber }, ?_, Or.inr ⟨?_, ?_, ?_, ?_⟩⟩
      · rw [hi']
        exact List.getElem?_set_self (by rw [hl]; exact hi)
      · show sim.m_packetNumber < _
        rw [hk, List.length_append, List.length_singleton]
        exact Nat.lt_succ_self _
      · show sim.m_packetNumber % N = i
        rw [hk]
        exact hi'
      · show some (address, packet) = (sent ++ [(address, packet)])[sim.m_packetNumber]?
        rw [hk, List.getElem?_append_right (Nat.le_refl _), Nat.sub_self]
        rfl
      · intro m hm _
        show m ≤ sim.m_packetNumber
        rw [List.length_append, List.length_singleton] at hm
        rw [hk]
        omega
    · obtain ⟨e, he, hcase⟩ := hinv i hi
      refine ⟨e, ?_, ?_⟩
      · rw [List.getElem?_set_ne hi']
        exact he
      · rcases hcase with ⟨h1, h2⟩ | ⟨h1, h2, h3, h4⟩
        · refine Or.inl ⟨h1, fun m hm => ?_⟩
          rw [List.length_append, List.length_singleton] at hm
          by_cases hmk : m < sent.length
          · exact h2 m hmk
          · have : m = sent.length := by omega
            rw [this]
            exact hi'
        · refine Or.inr ⟨?_, h2, ?_, fun m hm hmi => ?_⟩
          · rw [List.length_append, List.length_singleton]
            omega
          · rw [List.getElem?_append_left h1]
            exact h3
          · rw [List.length_append, List.length_singleton] at hm
            by_cases hmk : m < sent.length
            · exact h4 m hmk hmi
            · have : m = sent.length := by omega
              rw [this] at hmi
              exact absurd hmi hi'

theorem ring_calls (N : Nat) (hN : 0 < N) (ops : List (SimulatorCall A P T))
    (sim : NetworkSimulator A P T) (sent : List (A × P)) (h : RingHolds N sim sent)
    (hlen : sent.length + (sentPackets ops).length < 4294967296) :
    RingHolds N (sim.calls ops) (sent ++ sentPackets ops) := by
  induction ops generalizing sim sent with
  | nil =>
    simp only [NetworkSimulator.calls, sentPackets, List.append_nil]
    exact h
  | cons c rest ih =>
    cases c with
    | send address packet random =>
      simp only [sentPackets, List.length_cons] at hlen
      have hstep := ih (sim.SendPacket address packet random) (sent ++ [(address, packet)])
        (ring_send N hN sim sent address packet random h (by omega))
        (by
          rw [List.length_append, List.length_singleton]
          omega)
      rw [List.append_assoc] at hstep
      exact hstep
    | update timeBase rand1 rand2 =>
      obtain ⟨u1, u2, u3, _⟩ := simulator_Update_fields sim timeBase rand1 rand2
      refine ih (sim.Update timeBase rand1 rand2) sent ?_ hlen
      obtain ⟨hc, hl, hk, hinv⟩ := h
      refine ⟨by rw [u3]; exact hc, by rw [u1]; exact hl, by rw [u2]; exact hk, ?_⟩
      rw [u1]
      exact hinv
    | addState state =>
      exact ih (sim.AddState state) sent h hlen

theorem eq_of_mod_eq_of_near (N a b : Nat) (hab : a ≤ b) (hb : b < a + N)
    (hmod : b % N = a % N) : b = a := by
  have h0 := Nat.sub_mod_eq_zero_of_mod_eq hmod
  rw [Nat.mod_eq_of_lt (by omega)] at h0
  omega

theorem ring_last (N k : Nat) (hN : 0 < N) (hkN : k ≤ N) (sim : NetworkSimulator A P T)
    (sent : List (A × P)) (h : RingHolds N sim sent) (hsent : sent.length = N + k) :
    (∀ m, k ≤ m → m < N + k → ∃ e, sim.m_packets[m % N]? = some e ∧
      e.packetNumber = m ∧ e.packet = sent[m]?) ∧
    (∀ e, e ∈ sim.m_packets → e.packet ≠ none →
      k ≤ e.packetNumber ∧ e.packetNumber < N + k ∧ e.packet = sent[e.packetNumber]?) := by
  obtain ⟨hc, hl, hk, hinv⟩ := h
  constructor
  · intro m hkm hm
    obtain ⟨e, he, hcase⟩ := hinv (m % N) (Nat.mod_lt _ hN)
    rcases hcase with ⟨_, h2⟩ | ⟨h1, h2, h3, h4⟩
    · exact absurd rfl (h2 m (by omega))
    · have hle := h4 m (by omega) rfl
      have heq : e.packetNumber = m :=
        eq_of_mod_eq_of_near N m e.packetNumber hle (by omega) h2
      refine ⟨e, he, heq, ?_⟩
      rw [h3, heq]
  · intro e he hne
    obtain ⟨i, hi⟩ := List.mem_iff_getElem?.1 he
    have hilt : i < N := by
      rw [← hl]
      exact (List.getElem?_eq_some.1 hi).1
    obtain ⟨e', he', hcase⟩ := hinv i hilt
    rw [hi] at he'
    simp only [Option.some.injEq] at he'
    rw [← he'] at hcase
    rcases hcase with ⟨h1, _⟩ | ⟨h1, h2, h3, h4⟩
    · exact absurd h1 hne
    · refine ⟨?_, by omega, h3⟩
      by_contra hlt
      have := h4 (e.packetNumber + N) (by omega) (by rw [Nat.add_mod_right]; exact h2)
      omega

theorem calls_without_selection (ops : List (SimulatorCall A P T))
    (sim : NetworkSimulator A P T)
    (h : ops.all (fun c => !c.selects sim.m_config.stateChance) = true) :
    (sim.calls ops).m_state = sim.m_state ∧ (sim.calls ops).m_config = sim.m_config := by
  induction ops generalizing sim with
  | nil => exact ⟨rfl, rfl⟩
  | cons c rest ih =>
    simp only [List.all_cons, Bool.and_eq_true, Bool.not_eq_true'] at h
    obtain ⟨hc, hrest⟩ := h
    have hstep : (sim.call c).m_state = sim.m_state ∧ (sim.call c).m_config = sim.m_config := by
      cases c with
      | send address packet random => exact ⟨rfl, rfl⟩
      | update timeBase rand1 rand2 =>
        simp only [SimulatorCall.selects, decide_eq_false_iff_not] at hc
        simp only [NetworkSimulator.call, NetworkSimulator.Update, hc, and_false, if_false]
        exact ⟨trivial, trivial⟩
      | addState state => exact ⟨rfl, rfl⟩
    have := ih (sim.call c) (by
      rw [hstep.2]
      simpa using hrest)
    exact ⟨this.1.trans hstep.1, this.2.trans hstep.2⟩

theorem filterMap_set_filled (l : List (PacketData A P T)) (j : Nat) (o v : PacketData A P T)
    (p : A × P) (h : l[j]? = some o) (ho : o.packet = none) (hv : v.packet = some p) :
    List.Perm ((l.set j v).filterMap PacketData.packet)
      (p :: l.filterMap PacketData.packet) := by
  induction l generalizing j with
  | nil => simp at h
  | cons x rest ih =>
    cases j with
    | zero =>
      rw [List.getElem?_cons_zero] at h
      simp only [Option.some.injEq] at h
      rw [h]
      simp only [List.set_cons_zero, List.filterMap_cons, hv, ho]
      exact List.Perm.refl _
    | succ j =>
      rw [List.getElem?_cons_succ] at h
      simp only [List.set_cons_succ, List.filterMap_cons]
      cases hx : x.packet with
      | none => exact ih j h
      | some q =>
        simp only []
        exact (List.Perm.cons q (ih j h)).trans (List.Perm.swap p q _)

theorem calls_fill_from (N p0 : Nat) (ops : List (SimulatorCall A P T))
    (sim : NetworkSimulator A P T) (sent : List (A × P))
    (hc : sim.m_config.numPackets = N) (hl : sim.m_packets.length = N)
    (hk : sim.m_packetNumber = p0 + sent.length)
    (hperm : List.Perm (sim.m_packets.filterMap PacketData.packet) sent)
    (hfree : ∀ i, i < N → (∀ m, m < sent.length → (p0 + m) % N ≠ i) →
      ∃ e, sim.m_packets[i]? = some e ∧ e.packet = none)
    (hlen : sent.length + (sentPackets ops).length ≤ N)
    (hint : p0 + sent.length + (sentPackets ops).length < 4294967296) :
    List.Perm ((sim.calls ops).m_packets.filterMap PacketData.packet)
      (sent ++ sentPackets ops) := by
  induction ops generalizing sim sent with
  | nil =>
    simp only [NetworkSimulator.calls, sentPackets, List.append_nil]
    exact hperm
  | cons c rest ih =>
    cases c with
    | send address packet random =>
      simp only [sentPackets, List.length_cons] at hlen hint
      have hlt : sent.length < N := by omega
      have hNpos : 0 < N := by omega
      have hslot : ∀ m, m < sent.length → (p0 + m) % N ≠ (p0 + sent.length) % N := by
        intro m hm heq
        have := eq_of_mod_eq_of_near N (p0 + m) (p0 + sent.length) (by omega) (by omega)
          heq.symm
        omega
      obtain ⟨o, ho, hnone⟩ := hfree ((p0 + sent.length) % N) (Nat.mod_lt _ hNpos) hslot
      have hstep := ih (sim.SendPacket address packet random) (sent ++ [(address, packet)])
        hc
        (by
          show (sim.m_packets.set _ _).length = N
          rw [List.length_set]
          exact hl)
        (by
          show (sim.m_packetNumber + 1) % 4294967296 = _
          rw [hk, List.length_append, List.length_singleton]
          exact Nat.mod_eq_of_lt (by omega))
        (by
          show List.Perm ((sim.m_packets.set (sim.m_packetNumber % sim.m_config.numPackets)
            _).filterMap PacketData.packet) _
          rw [hc, hk]
          have h1 := filterMap_set_filled sim.m_packets ((p0 + sent.length) % N) o
            { packet := some (address, packet)
              packetNumber := p0 + sent.length
              dequeueTime := sim.m_timeBase.time + (sim.m_state.latency + random) }
            (address, packet) ho hnone rfl
          exact h1.trans ((List.Perm.cons _ hperm).trans
            (List.perm_append_singleton (address, packet) sent).symm))
        (by
          intro i hi hne
          show ∃ e, (sim.m_packets.set (sim.m_packetNumber % sim.m_config.numPackets)
            _)[i]? = some e ∧ e.packet = none
          rw [hc, hk]
          rw [List.length_append, List.length_singleton] at hne
          have hij : (p0 + sent.length) % N ≠ i := hne sent.length (by omega)
          rw [List.getElem?_set_ne hij]
          exact hfree i hi (fun m hm => hne m (by omega)))
        (by
          rw [List.length_append, List.length_singleton]
          omega)
        (by
          rw [List.length_append, List.length_singleton]
          omega)
      simp only [NetworkSimulator.calls, NetworkSimulator.call, sentPackets]
      rw [List.append_assoc] at hstep
      exact hstep
    | update timeBase rand1 rand2 =>
      obtain ⟨u1, u2, u3, _⟩ := simulator_Update_fields sim timeBase rand1 rand2
      exact ih (sim.Update timeBase rand1 rand2) sent
        (by rw [u3]; exact hc) (by rw [u1]; exact hl) (by rw [u2]; exact hk)
        (by rw [u1]; exact hperm) (by rw [u1]; exact hfree) hlen hint
    | addState state =>
      exact ih (sim.AddState state) sent hc hl hk hperm hfree hlen hint

theorem empty_then_calls (sim : NetworkSimulator A P T) (ops : List (SimulatorCall A P T))
    (hslots : sim.m_packets.length = sim.m_config.numPackets)
    (hempty : ∀ x, x ∈ sim.m_packets → x.packet = none)
    (hint : sim.m_packetNumber + (sentPackets ops).length < 4294967296)
    (hlen : (sentPackets ops).length ≤ sim.m_config.numPackets) :
    List.Perm ((sim.calls ops).m_packets.filterMap PacketData.packet) (sentPackets ops) := by
  have h := calls_fill_from sim.m_config.numPackets sim.m_packetNumber ops sim [] rfl hslots
    rfl
    (by
      rw [List.filterMap_eq_nil_iff.2 hempty])
    (by
      intro i hi _
      rw [← hslots] at hi
      exact ⟨sim.m_packets[i], List.getElem?_eq_getElem hi,
        hempty _ (List.getElem_mem hi)⟩)
    (by rw [List.length_nil, Nat.zero_add]; exact hlen)
    (by rw [List.length_nil, Nat.add_zero]; exact hint)
  rw [List.nil_append] at h
  exact h

end Simulator

section Fragment

variable {σ : Type}

theorem bytesBits_length (l : List Nat) : (bytesBits l).length = 8 * l.length := by
  induction l with
  | nil => rfl
  | cons b rest ih =>
    simp only [bytesBits, List.length_append, length_toBits, ih, List.length_cons]
    omega

theorem run_align_writing (bs : List Bool) (c : Nat) (mem : σ) (h : bs.length % 8 = 0) :
    (serialize_align StreamMode.writing).run (⟨bs, c⟩, mem) = (Except.ok (), (⟨bs, c⟩, mem)) := by
  simp [serialize_align, StreamM.run, h]

theorem run_align_reading (bs : List Bool) (c : Nat) (mem : σ) (h : bs.length % 8 = 0) :
    (serialize_align StreamMode.reading).run (⟨bs, c⟩, mem) = (Except.ok (), (⟨bs, c⟩, mem)) := by
  simp [serialize_align, StreamM.run, h]

theorem run_bytes_loop_writing (data : List Nat) (bs : List Bool) (c : Nat) (mem : σ) :
    (serialize_bytes_loop StreamMode.writing data data.length).run (⟨bs, c⟩, mem) =
      (Except.ok data, (⟨bs ++ bytesBits data, c⟩, mem)) := by
  induction data generalizing bs with
  | nil => simp [serialize_bytes_loop, run_pure, bytesBits]
  | cons b rest ih =>
    simp only [List.length_cons, serialize_bytes_loop, run_bind, List.headD_cons,
      run_serialize_bits_writing, List.tail_cons, ih, run_pure, bytesBits, List.append_assoc]

theorem run_bytes_loop_reading (src d0 : List Nat) (h : ∀ b, b ∈ src → b < 256)
    (rest : List Bool) (c : Nat) (mem : σ) :
    (serialize_bytes_loop StreamMode.reading d0 src.length).run
        (⟨bytesBits src ++ rest, c⟩, mem) =
      (Except.ok src, (⟨rest, c⟩, mem)) := by
  induction src generalizing d0 with
  | nil => simp [serialize_bytes_loop, run_pure, bytesBits]
  | cons b tail ih =>
    have hb : b < 2 ^ 8 := h b (List.mem_cons_self _ _)
    simp only [List.length_cons, serialize_bytes_loop, run_bind, bytesBits, List.append_assoc,
      run_serialize_bits_reading _ b 8 hb,
      ih d0.tail (fun x hx => h x (List.mem_cons_of_mem _ hx)), run_pure]

theorem run_fragment_writing (MaxFragmentSize : Nat) (p : DataBlockFragmentPacket)
    (data : List Nat) (hsize : p.fragmentSize ≤ MaxFragmentSize)
    (hdata : p.fragmentData = some data) (hlen : data.length = p.fragmentBytes) :
    (DataBlockFragmentPacket.Serialize MaxFragmentSize StreamMode.writing).run (⟨[], 0⟩, p) =
      (Except.ok (), (⟨fragmentImage p data, 0⟩, p)) := by
  obtain ⟨a1, a2, a3, a4, a5, a6, a7, a8⟩ := p
  simp only at hsize hdata hlen
  subst hdata
  subst hlen
  have hal : (toBits 16 a1 ++ (toBits 16 a2 ++ (toBits 32 a3 ++ (toBits 16 a5 ++
      (toBits 16 a4 ++ (toBits 16 a6 ++ toBits 16 data.length)))))).length % 8 = 0 := by
    simp [length_toBits]
  simp only [DataBlockFragmentPacket.Serialize, run_bind, run_getMem, run_modifyMem,
    StreamMode.IsWriting, StreamMode.IsReading, hsize, not_true_eq_false, and_false, if_false,
    run_pure, serialize_uint16, serialize_uint32, run_serialize_bits_writing, List.nil_append,
    List.append_assoc, Bool.false_eq_true, serialize_bytes, run_align_writing _ _ _ hal,
    run_bytes_loop_writing, List.drop_length, List.append_nil, fragmentImage]

theorem run_fragment_reading (MaxFragmentSize : Nat) (p p0 : DataBlockFragmentPacket)
    (data : List Nat) (hsize : p.fragmentSize ≤ MaxFragmentSize)
    (h1 : p.clientId < 65536) (h2 : p.serverId < 65536) (h3 : p.blockSize < 4294967296)
    (h4 : p.numFragments < 65536) (h5 : p.fragmentSize < 65536) (h6 : p.fragmentId < 65536)
    (h7 : p.fragmentBytes < 65536)
    (hdata : p.fragmentData = some data) (hlen : data.length = p.fragmentBytes)
    (hbytes : ∀ b, b ∈ data → b < 256) :
    (DataBlockFragmentPacket.Serialize MaxFragmentSize StreamMode.reading).run
        (⟨fragmentImage p data, 0⟩, p0) =
      (Except.ok (), (⟨[], 0⟩, p)) := by
  obtain ⟨a1, a2, a3, a4, a5, a6, a7, a8⟩ := p
  simp only at hsize h1 h2 h3 h4 h5 h6 h7 hdata hlen
  subst hdata
  subst hlen
  have hal : (bytesBits data).length % 8 = 0 := by
    rw [bytesBits_length]
    omega
  have hread := run_bytes_loop_reading data (List.replicate data.length 0) hbytes []
    0 ({ clientId := a1, serverId := a2, blockSize := a3, fragmentSize := a4,
         numFragments := a5, fragmentId := a6, fragmentBytes := data.length,
         fragmentData := some (List.replicate data.length 0) } : DataBlockFragmentPacket)
  rw [List.append_nil] at hread
  simp only [DataBlockFragmentPacket.Serialize, run_bind, run_getMem, run_modifyMem,
    StreamMode.IsWriting, StreamMode.IsReading, Bool.false_eq_true, false_and, if_false,
    run_pure, serialize_uint16, serialize_uint32, fragmentImage,
    run_serialize_bits_reading _ a1 16 h1, run_serialize_bits_reading _ a2 16 h2,
    run_serialize_bits_reading _ a3 32 h3, run_serialize_bits_reading _ a5 16 h4,
    run_serialize_bits_reading _ a4 16 h5, run_serialize_bits_reading _ a6 16 h6]
  have h7' := run_serialize_bits_reading (σ := DataBlockFragmentPacket) p0.fragmentBytes
    data.length 16 h7 (bytesBits data) 0
  simp only [h7', hsize, if_true, serialize_bytes, run_bind, run_modifyMem, run_getMem,
    run_pure, run_align_reading _ _ _ hal, hread, List.drop_replicate, Nat.sub_self,
    List.replicate_zero, List.append_nil]

theorem bytes_loop_length {σ : Type} (m : StreamMode) (n : Nat) (data bytes : List Nat)
    (s s' : Stream × σ)
    (h : (serialize_bytes_loop m data n).run s = (Except.ok bytes, s')) :
    bytes.length = n ∧ s'.2 = s.2 := by
  induction n generalizing data bytes s s' with
  | zero =>
    simp only [serialize_bytes_loop, run_pure, Prod.mk.injEq, Except.ok.injEq] at h
    rw [← h.1, ← h.2]
    exact ⟨rfl, rfl⟩
  | succ n ih =>
    simp only [serialize_bytes_loop] at h
    obtain ⟨b, s1, hb, h⟩ := run_bind_ok_inv _ _ _ _ _ h
    obtain ⟨r, s2, hr, h⟩ := run_bind_ok_inv _ _ _ _ _ h
    simp only [run_pure, Prod.mk.injEq, Except.ok.injEq] at h
    obtain ⟨i1, i2⟩ := ih _ _ _ _ hr
    have hm := run_serialize_bits_mem m (data.headD 0) 8 s
    rw [hb] at hm
    refine ⟨?_, ?_⟩
    · rw [← h.1, List.length_cons, i1]
    · rw [← h.2, i2]
      exact hm

theorem serialize_bytes_length {σ : Type} (m : StreamMode) (n : Nat) (data bytes : List Nat)
    (s s' : Stream × σ)
    (h : (serialize_bytes m data n).run s = (Except.ok bytes, s')) :
    bytes.length = n ∧ s'.2 = s.2 := by
  unfold serialize_bytes at h
  obtain ⟨_, s1, h1, h⟩ := run_bind_ok_inv _ _ _ _ _ h
  obtain ⟨i1, i2⟩ := bytes_loop_length m n data bytes s1 s' h
  refine ⟨i1, i2.trans ?_⟩
  cases m with
  | writing =>
    simp only [serialize_align, StreamM.run, Prod.mk.injEq, true_and] at h1
    rw [← h1]
  | measuring =>
    simp only [serialize_align, StreamM.run, Prod.mk.injEq, true_and] at h1
    rw [← h1]
  | reading =>
    simp only [serialize_align, StreamM.run] at h1
    split at h1
    · simp only [Prod.mk.injEq, true_and] at h1
      rw [← h1]
    · simp at h1

theorem fragment_read_inv (MaxFragmentSize : Nat) (s s' : Stream × DataBlockFragmentPacket)
    (h : (DataBlockFragmentPacket.Serialize MaxFragmentSize StreamMode.reading).run s =
      (Except.ok (), s')) :
    s'.2.fragmentSize ≤ MaxFragmentSize ∧
    ∃ data, s'.2.fragmentData = some data ∧ data.length = s'.2.fragmentBytes := by
  simp only [DataBlockFragmentPacket.Serialize, StreamMode.IsWriting, StreamMode.IsReading,
    Bool.false_eq_true, false_and, if_false, if_true, serialize_uint16, serialize_uint32] at h
  simp only [run_bind, run_getMem, run_modifyMem, run_pure] at h
  split at h; swap
  · simp at h
  split at h; swap
  · simp at h
  split at h; swap
  · simp at h
  split at h; swap
  · simp at h
  split at h; swap
  · simp at h
  split at h; swap
  · simp at h
  split at h; swap
  · simp at h
  rename_i x7 fragmentBytes s7 h7
  clear * - h
  by_cases hsz : s7.2.fragmentSize ≤ MaxFragmentSize
  · simp only [hsz, if_true, run_bind, run_modifyMem, run_getMem] at h
    split at h; swap
    · simp at h
    rename_i x8 bytes s8 h8
    have hlen := serialize_bytes_length _ _ _ _ _ _ h8
    simp only [Prod.mk.injEq, true_and] at h
    rw [← h]
    refine ⟨?_, bytes ++ List.drop s8.2.fragmentBytes (List.replicate fragmentBytes 0),
      rfl, ?_⟩
    · show s8.2.fragmentSize ≤ MaxFragmentSize
      rw [hlen.2]
      exact hsz
    · show _ = s8.2.fragmentBytes
      rw [hlen.2]
      simp [hlen.1]
  · simp only [hsz, if_false, run_bind, run_fail] at h
    simp at h

end Fragment

section WriteFrame

variable {σ α β : Type}

theorem keeps_pure (a : α) : Keeps (pure a : StreamM σ α) := fun _ => rfl

theorem keeps_fail (e : Failure) : Keeps (StreamM.fail e : StreamM σ α) := fun _ => rfl

theorem keeps_bind {x : StreamM σ α} {f : α → StreamM σ β} (hx : Keeps x)
    (hf : ∀ a, Keeps (f a)) : Keeps (x >>= f) := by
  intro s
  rw [run_bind]
  have h1 := hx s
  rcases hr : x.run s with ⟨r, s'⟩
  rw [hr] at h1
  cases r with
  | error e => exact h1
  | ok a => exact (hf a s').trans h1

theorem keeps_ite (c : Prop) [Decidable c] {x y : StreamM σ α} (hx : Keeps x) (hy : Keeps y) :
    Keeps (if c then x else y) := by
  split
  · exact hx
  · exact hy

theorem keeps_getMem : Keeps (StreamM.getMem : StreamM σ σ) := fun _ => rfl

theorem keeps_serialize_bits (m : StreamMode) (value n : Nat) :
    Keeps (serialize_bits m value n : StreamM σ Nat) :=
  fun s => run_serialize_bits_mem m value n s

theorem keeps_serialize_bool (m : StreamMode) (value : Bool) :
    Keeps (serialize_bool m value : StreamM σ Bool) := by
  unfold serialize_bool
  exact keeps_bind (keeps_serialize_bits _ _ _) (fun _ => keeps_pure _)

theorem keeps_serialize_int (m : StreamMode) (value min max : Int) :
    Keeps (serialize_int m value min max : StreamM σ Int) := by
  unfold serialize_int
  refine keeps_ite _ (keeps_ite _ (keeps_bind (keeps_serialize_bits _ _ _)
    (fun _ => keeps_pure _)) (keeps_fail _)) (keeps_bind (keeps_serialize_bits _ _ _)
    (fun _ => keeps_ite _ (keeps_pure _) (keeps_fail _)))

theorem keeps_index_relative (codec : IndexCodec) (m : StreamMode) (previous current : Nat) :
    Keeps (serialize_index_relative codec m previous current : StreamM σ Nat) := by
  intro s
  cases m <;> simp only [serialize_index_relative, StreamM.run] <;> split <;> rfl

theorem serialize_bool_echo (m : StreamMode) (hm : m.IsWriting = true) (b : Bool)
    (st : Stream) (mem : σ) :
    ∃ st', (serialize_bool m b).run (st, mem) = (Except.ok b, (st', mem)) := by
  cases m with
  | writing => exact ⟨_, run_serialize_bool_writing b st.bits st.measured mem⟩
  | measuring => exact ⟨_, run_serialize_bool_measuring b st.bits st.measured mem⟩
  | reading => simp [StreamMode.IsWriting] at hm

theorem serialize_int_echo (m : StreamMode) (hm : m.IsWriting = true) (value min max : Int)
    (st : Stream) (mem : σ) :
    (∃ st', (serialize_int m value min max).run (st, mem) = (Except.ok value, (st', mem))) ∨
    (serialize_int m value min max).run (st, mem) = (Except.error Failure.range, (st, mem)) := by
  by_cases h : min ≤ value ∧ value ≤ max
  · left
    cases m with
    | writing => exact ⟨_, run_serialize_int_writing value min max h.1 h.2 st.bits st.measured mem⟩
    | measuring =>
      exact ⟨_, run_serialize_int_measuring value min max h.1 h.2 st.bits st.measured mem⟩
    | reading => simp [StreamMode.IsWriting] at hm
  · right
    simp only [serialize_int, hm, if_true, h, if_false, run_fail]

theorem quaternion_echo {Q : Nat} (m : StreamMode) (hm : m.IsWriting = true)
    (q : CompressedQuaternion Q) (st : Stream) (mem : σ) :
    ∃ st', (q.Serialize m).run (st, mem) = (Except.ok q, (st', mem)) := by
  cases m with
  | writing => exact ⟨_, run_quaternion_writing q st.bits st.measured mem⟩
  | measuring => exact ⟨_, run_quaternion_measuring q st.bits st.measured mem⟩
  | reading => simp [StreamMode.IsWriting] at hm

variable {Q : Nat}

theorem keeps_cubeAt (i : Nat) : Keeps (cubeAt i : StreamM (Cubes Q) _) := fun _ => rfl

theorem keeps_baseAt (base : BaseRef Q) (i : Nat) : Keeps (baseAt base i) := fun _ => rfl

theorem orientation_echo (m : StreamMode) (hm : m.IsWriting = true) (i : Nat) (st : Stream)
    (S : Cubes Q) :
    ∃ st', (serialize_orientation m i).run (st, S) = (Except.ok (), (st', S)) := by
  obtain ⟨st', h⟩ := quaternion_echo m hm (S i).orientation st S
  refine ⟨st', ?_⟩
  simp only [serialize_orientation, run_bind, run_cubeAt, h, run_setCube,
    Function.update_eq_self]

theorem keeps_cube_absolute (K : Constants) (m : StreamMode) (hm : m.IsWriting = true)
    (i : Nat) : Keeps (serialize_cube_absolute K m i : StreamM (Cubes Q) Unit) := by
  rintro ⟨st, S⟩
  obtain ⟨st1, e1⟩ := serialize_bool_echo m hm (S i).interacting st S
  rcases serialize_int_echo m hm (S i).position_x (-K.QuantizedPositionBoundXY)
    K.QuantizedPositionBoundXY st1 S with ⟨st2, e2⟩ | e2
  · rcases serialize_int_echo m hm (S i).position_y (-K.QuantizedPositionBoundXY)
      K.QuantizedPositionBoundXY st2 S with ⟨st3, e3⟩ | e3
    · rcases serialize_int_echo m hm (S i).position_z 0 K.QuantizedPositionBoundZ st3 S
        with ⟨st4, e4⟩ | e4
      · obtain ⟨st5, e5⟩ := orientation_echo m hm i st4 S
        simp only [serialize_cube_absolute, run_bind, run_cubeAt, e1, run_setCube,
          Function.update_eq_self, e2, e3, e4, e5]
      · simp only [serialize_cube_absolute, run_bind, run_cubeAt, e1, run_setCube,
          Function.update_eq_self, e2, e3, e4]
    · simp only [serialize_cube_absolute, run_bind, run_cubeAt, e1, run_setCube,
        Function.update_eq_self, e2, e3]
  · simp only [serialize_cube_absolute, run_bind, run_cubeAt, e1, run_setCube,
      Function.update_eq_self, e2]

theorem isReading_of_isWriting (m : StreamMode) (hm : m.IsWriting = true) :
    m.IsReading = false := by
  cases m with
  | writing => rfl
  | measuring => rfl
  | reading => simp [StreamMode.IsWriting] at hm

theorem keeps_cube_relative_position (K : Constants) (m : StreamMode)
    (hm : m.IsWriting = true) (base : BaseRef Q) (i : Nat) :
    Keeps (serialize_cube_relative_position K m base i) := by
  rintro ⟨st, S⟩
  have hr := isReading_of_isWriting m hm
  have hadd : ∀ a b : Int, b + (a - b) = a := by intro a b; omega
  obtain ⟨st1, e1⟩ := serialize_bool_echo m hm (S i).interacting st S
  obtain ⟨st2, e2⟩ := serialize_bool_echo m hm
    (decide (|(S i).position_x - (base.get S i).position_x| ≤ RelativePositionBound) &&
      decide (|(S i).position_y - (base.get S i).position_y| ≤ RelativePositionBound) &&
      decide (|(S i).position_z - (base.get S i).position_z| ≤ RelativePositionBound)) st1 S
  cases hrel : (decide (|(S i).position_x - (base.get S i).position_x| ≤
        RelativePositionBound) &&
      decide (|(S i).position_y - (base.get S i).position_y| ≤ RelativePositionBound) &&
      decide (|(S i).position_z - (base.get S i).position_z| ≤ RelativePositionBound)) with
  | true =>
    rw [hrel] at e2
    rcases serialize_int_echo m hm ((S i).position_x - (base.get S i).position_x)
      (-RelativePositionBound) RelativePositionBound st2 S with ⟨st3, e3⟩ | e3
    · rcases serialize_int_echo m hm ((S i).position_y - (base.get S i).position_y)
        (-RelativePositionBound) RelativePositionBound st3 S with ⟨st4, e4⟩ | e4
      · rcases serialize_int_echo m hm ((S i).position_z - (base.get S i).position_z)
          (-RelativePositionBound) RelativePositionBound st4 S with ⟨st5, e5⟩ | e5
        · obtain ⟨st6, e6⟩ := orientation_echo m hm i st5 S
          simp only [serialize_cube_relative_position, run_bind, run_cubeAt, run_baseAt, e1,
            run_setCube, Function.update_eq_self, hm, if_true, hrel, e2, e3, e4, e5, hadd, e6]
        · simp only [serialize_cube_relative_position, run_bind, run_cubeAt, run_baseAt, e1,
            run_setCube, Function.update_eq_self, hm, if_true, hrel, e2, e3, e4, e5]
      · simp only [serialize_cube_relative_position, run_bind, run_cubeAt, run_baseAt, e1,
          run_setCube, Function.update_eq_self, hm, if_true, hrel, e2, e3, e4]
    · simp only [serialize_cube_relative_position, run_bind, run_cubeAt, run_baseAt, e1,
        run_setCube, Function.update_eq_self, hm, if_true, hrel, e2, e3]
  | false =>
    rw [hrel] at e2
    rcases serialize_int_echo m hm (S i).position_x (-K.QuantizedPositionBoundXY)
      K.QuantizedPositionBoundXY st2 S with ⟨st3, e3⟩ | e3
    · rcases serialize_int_echo m hm (S i).position_y (-K.QuantizedPositionBoundXY)
        K.QuantizedPositionBoundXY st3 S with ⟨st4, e4⟩ | e4
      · rcases serialize_int_echo m hm (S i).position_z 0 K.QuantizedPositionBoundZ st4 S
          with ⟨st5, e5⟩ | e5
        · obtain ⟨st6, e6⟩ := orientation_echo m hm i st5 S
          simp only [serialize_cube_relative_position, run_bind, run_cubeAt, run_baseAt, e1,
            run_setCube, Function.update_eq_self, hm, hr, if_true, hrel, e2, e3, e4, e5, e6,
            Bool.false_eq_true, if_false, run_pure]
        · simp only [serialize_cube_relative_position, run_bind, run_cubeAt, run_baseAt, e1,
            run_setCube, Function.update_eq_self, hm, hr, if_true, hrel, e2, e3, e4, e5,
            Bool.false_eq_true, if_false]
      · simp only [serialize_cube_relative_position, run_bind, run_cubeAt, run_baseAt, e1,
          run_setCube, Function.update_eq_self, hm, hr, if_true, hrel, e2, e3, e4,
          Bool.false_eq_true, if_false]
    · simp only [serialize_cube_relative_position, run_bind, run_cubeAt, run_baseAt, e1,
        run_setCube, Function.update_eq_self, hm, hr, if_true, hrel, e2, e3,
        Bool.false_eq_true, if_false]

theorem keeps_not_changed_loop (K : Constants) (m : StreamMode) (hm : m.IsWriting = true)
    (base : BaseRef Q) (n i : Nat) (log : Nat → Bool) :
    Keeps (not_changed_loop K m base n i log) := by
  have hr := isReading_of_isWriting m hm
  induction n generalizing i log with
  | zero => exact keeps_pure _
  | succ n ih =>
    unfold not_changed_loop
    simp only [hm, hr, if_true, Bool.false_eq_true, if_false]
    refine keeps_bind (keeps_cubeAt i) (fun _ =>
      keeps_bind (keeps_baseAt base i) (fun _ =>
      keeps_bind (keeps_serialize_bool _ _) (fun changed => ?_)))
    cases changed with
    | true =>
      simp only [if_true]
      exact keeps_bind (keeps_cube_absolute K m hm i) (fun _ => ih _ _)
    | false =>
      simp only [Bool.false_eq_true, if_false]
      exact keeps_bind (keeps_pure _) (fun _ => ih _ _)

theorem keeps_changed_bits_loop (m : StreamMode) (hm : m.IsWriting = true) (base : BaseRef Q)
    (cube : Nat → StreamM (Cubes Q) Unit) (hcube : ∀ i, Keeps (cube i)) (n i : Nat)
    (changed : Nat → Bool) :
    Keeps (changed_bits_loop m base cube n i changed) := by
  have hr := isReading_of_isWriting m hm
  induction n generalizing i changed with
  | zero => exact keeps_pure _
  | succ n ih =>
    unfold changed_bits_loop
    simp only [hr, Bool.false_eq_true, if_false]
    refine keeps_bind (keeps_serialize_bool _ _) (fun c => ?_)
    cases c with
    | true =>
      simp only [if_true]
      exact keeps_bind (hcube i) (fun _ => ih _ _)
    | false =>
      simp only [Bool.false_eq_true, if_false]
      exact keeps_bind (keeps_pure _) (fun _ => ih _ _)

theorem keeps_indices_write_loop (K : Constants) (codec : IndexCodec) (m : StreamMode)
    (relativeIndices : Bool) (cube : Nat → StreamM (Cubes Q) Unit)
    (hcube : ∀ i, Keeps (cube i)) (changed : Nat → Bool) (n i : Nat) (first : Bool)
    (previous num_written : Nat) :
    Keeps (indices_write_loop K codec m relativeIndices cube changed n i first previous
      num_written) := by
  induction n generalizing i first previous num_written with
  | zero => exact keeps_pure _
  | succ n ih =>
    unfold indices_write_loop
    cases hc : changed i with
    | false =>
      simp only [Bool.false_eq_true, if_false]
      exact ih _ _ _ _
    | true =>
      simp only [if_true]
      cases hf : (first || !relativeIndices) with
      | true =>
        simp only [if_true]
        exact keeps_bind (keeps_serialize_int _ _ _ _) (fun _ => keeps_bind (keeps_pure _)
          (fun _ => keeps_bind (hcube i) (fun _ => ih _ _ _ _)))
      | false =>
        simp only [Bool.false_eq_true, if_false]
        exact keeps_bind (keeps_index_relative codec m previous i) (fun _ =>
          keeps_bind (keeps_pure _) (fun _ => keeps_bind (hcube i) (fun _ => ih _ _ _ _)))

theorem keeps_serialize_indexed (K : Constants) (codec : IndexCodec) (m : StreamMode)
    (hm : m.IsWriting = true) (base : BaseRef Q) (useIndices : (Nat → Bool) → Nat → Bool)
    (maxCount : Int) (relativeIndices : Bool) (cube : Nat → StreamM (Cubes Q) Unit)
    (hcube : ∀ i, Keeps (cube i)) :
    Keeps (serialize_indexed K codec m base useIndices maxCount relativeIndices cube) := by
  unfold serialize_indexed
  simp only [hm, if_true]
  refine keeps_bind keeps_getMem (fun cubes => keeps_bind (keeps_serialize_bool _ _)
    (fun u => ?_))
  unfold serialize_indexed_rest
  simp only [hm, if_true]
  cases u with
  | true =>
    simp only [if_true]
    exact keeps_bind (keeps_serialize_int _ _ _ _) (fun _ =>
      keeps_bind (keeps_indices_write_loop K codec m relativeIndices cube hcube _ _ _ _ _ _)
        (fun _ => keeps_ite _ (keeps_pure _) (keeps_fail _)))
  | false =>
    simp only [Bool.false_eq_true, if_false]
    exact keeps_changed_bits_loop m hm base cube hcube _ _ _

theorem keeps_serialize_body (K : Constants) (codec : IndexCodec)
    (crib : (Nat → Bool) → Int) (m : StreamMode) (hm : m.IsWriting = true) (delta_mode : Int)
    (base : BaseRef Q) : Keeps (serialize_body K codec crib m delta_mode base) := by
  unfold serialize_body
  refine keeps_ite _ (keeps_not_changed_loop K m hm base _ _ _) (keeps_ite _ ?_ (keeps_ite _ ?_
    (keeps_ite _ ?_ (keeps_ite _ ?_ (keeps_pure _)))))
  · exact keeps_serialize_indexed K codec m hm base _ _ _ _ (keeps_cube_absolute K m hm)
  · exact keeps_serialize_indexed K codec m hm base _ _ _ _ (keeps_cube_absolute K m hm)
  · exact keeps_serialize_indexed K codec m hm base _ _ _ _
      (keeps_cube_relative_position K m hm base)
  · exact keeps_serialize_indexed K codec m hm base _ _ _ _ (fun i => by
      rw [serialize_cube_relative_orientation_eq]
      exact keeps_cube_relative_position K m hm base i)

theorem store_Get_self (ctx : Context Q) (sequence : Nat) :
    ({ ctx with sliding_window :=
        ctx.sliding_window.store sequence (ctx.sliding_window.Get sequence) } : Context Q) =
      ctx := by
  obtain ⟨⟨size, next, ack, tags, entries⟩, buffer, initial⟩ := ctx
  simp only [SlidingWindow.store, SlidingWindow.Get, Function.update_eq_self]

theorem writing_context_core (K : Constants) (codec : IndexCodec) (crib : (Nat → Bool) → Int)
    (m : StreamMode) (hm : m.IsWriting = true) (ctx : Context Q) (p : DeltaSnapshotPacket)
    (stream : Stream) :
    (DeltaSnapshotPacket.Serialize K codec crib m ctx p stream).context = ctx := by
  unfold DeltaSnapshotPacket.Serialize
  rcases hh : (DeltaSnapshotPacket.serialize_header m).run (stream, p) with ⟨r, out⟩
  cases r with
  | error e => rfl
  | ok u =>
    simp only [hm, if_true, serialize_cubes]
    split
    · cases hb : resolve_base m ctx out.2 with
      | error e => rfl
      | ok base =>
        simp only []
        have hk := keeps_serialize_body K codec crib m hm out.2.delta_mode base
          (out.1, ctx.sliding_window.Get out.2.sequence)
        rcases hr : (serialize_body K codec crib m out.2.delta_mode base).run
          (out.1, ctx.sliding_window.Get out.2.sequence) with ⟨r2, out2⟩
        rw [hr] at hk
        simp only [] at hk
        cases r2 with
        | error e =>
          simp only [hk]
          exact store_Get_self ctx _
        | ok changed =>
          simp only [hk]
          exact store_Get_self ctx _
    · rfl

end WriteFrame

section Console

theorem strlenFrom_spec (string : Int → Nat) (n : Nat) (i : Int) :
    i ≤ strlenFrom string n i ∧ strlenFrom string n i ≤ i + n ∧
    (∀ k, i ≤ k → k < strlenFrom string n i → string k ≠ 0) ∧
    (strlenFrom string n i < i + n → string (strlenFrom string n i) = 0) := by
  induction n generalizing i with
  | zero =>
    simp only [strlenFrom]
    refine ⟨le_refl _, by omega, fun k h1 h2 => by omega, fun h => by omega⟩
  | succ n ih =>
    simp only [strlenFrom]
    by_cases h0 : string i = 0
    · rw [if_pos h0]
      refine ⟨le_refl _, by omega, fun k h1 h2 => by omega, fun _ => h0⟩
    · rw [if_neg h0]
      obtain ⟨i1, i2, i3, i4⟩ := ih (i + 1)
      refine ⟨by omega, by push_cast; omega, fun k h1 h2 => ?_, fun h => ?_⟩
      · by_cases hk : k = i
        · rw [hk]
          exact h0
        · exact i3 k (by omega) h2
      · exact i4 (by push_cast at h; omega)

theorem strlenFrom_eq (string : Int → Nat) (n : Nat) (i L : Int) (h1 : i ≤ L)
    (h2 : L ≤ i + n) (h3 : ∀ k, i ≤ k → k < L → string k ≠ 0)
    (h4 : L < i + n → string L = 0) : strlenFrom string n i = L := by
  obtain ⟨s1, s2, s3, s4⟩ := strlenFrom_spec string n i
  by_contra hne
  rcases lt_or_gt_of_ne hne with h | h
  · exact h3 _ s1 h (s4 (by omega))
  · exact s3 L h1 h (h4 (by omega))

theorem strcmpEqFrom_of_agree (a b : Int → Nat) (n : Nat) (i L : Int) (h1 : i ≤ L)
    (h2 : ∀ k, i ≤ k → k ≤ L → a k = b k) (h3 : a L = 0) :
    strcmpEqFrom a b n i = true := by
  induction n generalizing i with
  | zero => rfl
  | succ n ih =>
    simp only [strcmpEqFrom, h2 i (le_refl _) h1, ne_eq, not_true_eq_false, if_false]
    by_cases h0 : b i = 0
    · simp only [h0, if_true]
    · simp only [h0, if_false]
      have hi : i ≠ L := by
        intro h
        rw [h, ← h2 L (by omega) (le_refl _)] at h0
        exact h0 h3
      exact ih (i + 1) (by omega) (fun k hk1 hk2 => h2 k (by omega) hk2)

theorem strcmpEqFrom_agree (a b : Int → Nat) (n : Nat) (i L : Int)
    (h : strcmpEqFrom a b n i = true) (h1 : i ≤ L) (h2 : L < i + n)
    (h3 : ∀ k, i ≤ k → k < L → a k ≠ 0) :
    ∀ k, i ≤ k → k ≤ L → b k = a k := by
  induction n generalizing i with
  | zero => omega
  | succ n ih =>
    simp only [strcmpEqFrom] at h
    by_cases hab : a i = b i
    · simp only [hab, ne_eq, not_true_eq_false, if_false] at h
      intro k hk1 hk2
      by_cases hki : k = i
      · rw [hki]
        exact hab.symm
      · have hiL : i < L := by omega
        have hb : b i ≠ 0 := by
          rw [← hab]
          exact h3 i (le_refl _) hiL
        simp only [hb, if_false] at h
        exact ih (i + 1) h (by omega) (by push_cast at h2; omega)
          (fun j hj1 hj2 => h3 j (by omega) hj2) k (by omega) hk2
    · simp [hab] at h

theorem shiftRightLoop_spec (cursor : Int) (n : Nat) (i : Int) (string : Int → Nat)
    (h : i - cursor = n) (k : Int) :
    shiftRightLoop cursor n i string k =
      if cursor < k ∧ k ≤ i then string (k - 1) else string k := by
  induction n generalizing i string with
  | zero =>
    simp only [shiftRightLoop]
    have : ¬ (cursor < k ∧ k ≤ i) := by
      simp only [Nat.cast_zero] at h
      omega
    rw [if_neg this]
  | succ n ih =>
    have hi : i > cursor := by
      push_cast at h
      omega
    simp only [shiftRightLoop, hi, if_true]
    rw [ih (i - 1) _ (by push_cast at h; omega)]
    by_cases hk : cursor < k ∧ k ≤ i - 1
    · rw [if_pos hk, if_pos ⟨hk.1, by omega⟩, Function.update_noteq (by omega)]
    · rw [if_neg hk]
      by_cases hki : k = i
      · rw [hki, Function.update_same, if_pos ⟨hi, le_refl _⟩]
      · rw [Function.update_noteq hki, if_neg (by omega)]

theorem shiftLeftLoop_spec (length : Int) (n : Nat) (i : Int) (string : Int → Nat)
    (h : length - i = n) (k : Int) :
    shiftLeftLoop length n i string k =
      if i - 1 ≤ k ∧ k < length - 1 then string (k + 1) else string k := by
  induction n generalizing i string with
  | zero =>
    simp only [shiftLeftLoop]
    have : ¬ (i - 1 ≤ k ∧ k < length - 1) := by
      simp only [Nat.cast_zero] at h
      omega
    rw [if_neg this]
  | succ n ih =>
    have hi : i < length := by
      push_cast at h
      omega
    simp only [shiftLeftLoop, hi, if_true]
    rw [ih (i + 1) _ (by push_cast at h; omega)]
    by_cases hk : i + 1 - 1 ≤ k ∧ k < length - 1
    · rw [if_pos hk, if_pos ⟨by omega, hk.2⟩, Function.update_noteq (by omega)]
    · rw [if_neg hk]
      by_cases hki : k = i - 1
      · rw [hki, Function.update_same, if_pos ⟨le_refl _, by omega⟩]
        congr 1
        omega
      · rw [Function.update_noteq hki, if_neg (by omega)]

theorem CharacterTyped_spec (c : ConsoleInternal) (character : Nat)
    (h0 : 0 ≤ c.commandLength) (h1 : c.commandLength < MaxLine - 1)
    (h2 : c.commandCursorPosition ≤ c.commandLength) :
    (c.CharacterTyped character).commandLength = c.commandLength + 1 ∧
    (c.CharacterTyped character).commandCursorPosition = c.commandCursorPosition + 1 ∧
    (∀ k, (c.CharacterTyped character).commandString k =
      if k = c.commandCursorPosition then character
      else if c.commandCursorPosition < k ∧ k ≤ c.commandLength then c.commandString (k - 1)
      else c.commandString k) ∧
    (c.CharacterTyped character).commandHistory = c.commandHistory ∧
    (c.CharacterTyped character).commandHistoryIndex = c.commandHistoryIndex ∧
    (c.CharacterTyped character).commandHistoryIsEmpty = c.commandHistoryIsEmpty ∧
    (c.CharacterTyped character).commandHistorySelection = c.commandHistorySelection := by
  unfold ConsoleInternal.CharacterTyped
  rw [if_pos ⟨h0, h1⟩]
  refine ⟨rfl, rfl, fun k => ?_, rfl, rfl, rfl, rfl⟩
  show Function.update _ _ _ k = _
  by_cases hk : k = c.commandCursorPosition
  · rw [hk, Function.update_same, if_pos rfl]
  · rw [Function.update_noteq hk, if_neg hk]
    by_cases hlt : c.commandCursorPosition < c.commandLength
    · rw [if_pos hlt, shiftRightLoop_spec _ _ _ _ (by omega)]
    · rw [if_neg hlt, if_neg (by omega)]

theorem Backspace_spec (c : ConsoleInternal) (h0 : c.commandLength ≠ 0)
    (h1 : c.commandCursorPosition ≠ 0) (h2 : c.commandCursorPosition ≤ c.commandLength) :
    c.Backspace.commandLength = c.commandLength - 1 ∧
    c.Backspace.commandCursorPosition = c.commandCursorPosition - 1 ∧
    (∀ k, c.Backspace.commandString k =
      if k = c.commandLength - 1 then 0
      else if c.commandCursorPosition - 1 ≤ k ∧ k < c.commandLength - 1 then
        c.commandString (k + 1)
      else c.commandString k) ∧
    c.Backspace.commandHistory = c.commandHistory ∧
    c.Backspace.commandHistoryIndex = c.commandHistoryIndex ∧
    c.Backspace.commandHistoryIsEmpty = c.commandHistoryIsEmpty ∧
    c.Backspace.commandHistorySelection = c.commandHistorySelection := by
  unfold ConsoleInternal.Backspace
  rw [if_neg h0, if_neg h1]
  refine ⟨rfl, rfl, fun k => ?_, rfl, rfl, rfl, rfl⟩
  show Function.update _ _ _ k = _
  by_cases hk : k = c.commandLength - 1
  · rw [hk, Function.update_same, if_pos rfl]
  · rw [Function.update_noteq hk, if_neg hk]
    by_cases hlt : c.commandCursorPosition < c.commandLength
    · rw [if_pos hlt, shiftLeftLoop_spec _ _ _ _ (by omega)]
    · rw [if_neg hlt, if_neg (by omega)]

theorem loadSelection_spec (c : ConsoleInternal) :
    0 ≤ c.loadSelection.commandLength ∧ c.loadSelection.commandLength ≤ MaxLine - 1 ∧
    c.loadSelection.commandLength =
      strlenFrom (c.commandHistory c.commandHistorySelection) 255 0 ∧
    c.loadSelection.commandCursorPosition = c.loadSelection.commandLength ∧
    (∀ k, 0 ≤ k → k < MaxLine → c.loadSelection.commandString k =
      if k < c.loadSelection.commandLength then
        c.commandHistory c.commandHistorySelection k
      else 0) ∧
    (∀ k, 0 ≤ k → k < c.loadSelection.commandLength → c.loadSelection.commandString k ≠ 0) ∧
    c.loadSelection.commandHistory = c.commandHistory ∧
    c.loadSelection.commandHistoryIndex = c.commandHistoryIndex ∧
    c.loadSelection.commandHistoryIsEmpty = c.commandHistoryIsEmpty := by
  obtain ⟨s1, s2, s3, s4⟩ :=
    strlenFrom_spec (c.commandHistory c.commandHistorySelection) 255 0
  have hstr : ∀ k, 0 ≤ k → k < 256 →
      strncpy_safe (memsetZero c.commandString MaxLine)
        (c.commandHistory c.commandHistorySelection) MaxLine k =
      if k < strlenFrom (c.commandHistory c.commandHistorySelection) 255 0 then
        c.commandHistory c.commandHistorySelection k
      else 0 := by
    intro k hk0 hk1
    simp only [strncpy_safe, MaxLine]
    rw [if_pos ⟨hk0, hk1⟩]
    rfl
  have hlen : strlen (strncpy_safe (memsetZero c.commandString MaxLine)
        (c.commandHistory c.commandHistorySelection) MaxLine) =
      strlenFrom (c.commandHistory c.commandHistorySelection) 255 0 := by
    unfold strlen
    have h256 : MaxLine.toNat = 256 := rfl
    rw [h256]
    apply strlenFrom_eq
    · exact s1
    · push_cast at s2 ⊢
      omega
    · intro k hk0 hk1
      rw [hstr k hk0 (by push_cast at s2; omega), if_pos hk1]
      exact s3 k hk0 hk1
    · intro h
      rw [hstr _ s1 (by push_cast at h; omega), if_neg (lt_irrefl _)]
  have hL : c.loadSelection.commandLength =
      strlenFrom (c.commandHistory c.commandHistorySelection) 255 0 := hlen
  refine ⟨by rw [hL]; exact s1, ?_, hL, rfl, ?_, ?_, rfl, rfl, rfl⟩
  · rw [hL]
    simp only [MaxLine]
    push_cast at s2
    omega
  · intro k hk0 hk1
    rw [hL]
    exact hstr k hk0 hk1
  · intro k hk0 hk1
    rw [hL] at hk1
    have : c.loadSelection.commandString k =
        c.commandHistory c.commandHistorySelection k := by
      show strncpy_safe _ _ _ k = _
      rw [hstr k hk0 (by push_cast at s2; omega), if_pos hk1]
    rw [this]
    exact s3 k hk0 hk1

theorem invariant_create : ConsoleInternal.create.Invariant := by
  refine ⟨le_refl _, le_refl _, by decide, fun k h1 h2 => ?_, fun _ _ _ => rfl, le_refl _,
    by decide, fun _ _ => rfl⟩
  exact absurd h2 (not_lt.2 h1)

theorem invariant_ClearCommandString (c : ConsoleInternal) (h : c.Invariant) :
    c.ClearCommandString.Invariant := by
  obtain ⟨_, _, _, _, _, h6, h7, h8⟩ := h
  refine ⟨le_refl _, le_refl _, ?_, fun k h1 h2 => ?_, fun k h1 h2 => ?_, h6, h7, h8⟩
  · show (0 : Int) ≤ MaxLine - 1
    decide
  · exact absurd h2 (not_lt.2 h1)
  · show memsetZero _ _ k = 0
    simp only [memsetZero]
    rw [if_pos ⟨h1, h2⟩]

theorem invariant_CharacterTyped (c : ConsoleInternal) (character : Nat)
    (hch : character ≠ 0) (h : c.Invariant) : (c.CharacterTyped character).Invariant := by
  by_cases hg : 0 ≤ c.commandLength ∧ c.commandLength < MaxLine - 1
  · obtain ⟨h1, h2, h3, h4, h5, h6, h7, h8⟩ := h
    obtain ⟨e1, e2, e3, e4, e5, e6, _⟩ := CharacterTyped_spec c character hg.1 hg.2 h2
    have hg2 := hg.2
    simp only [MaxLine] at hg2 h3 h5
    refine ⟨by rw [e2]; omega, by rw [e1, e2]; omega, by rw [e1]; simp only [MaxLine]; omega,
      fun k hk0 hk1 => ?_, fun k hk0 hk1 => ?_, by rw [e5]; exact h6, by rw [e5]; exact h7,
      by rw [e4, e6]; exact h8⟩
    · rw [e1] at hk1
      rw [e3 k]
      by_cases hk : k = c.commandCursorPosition
      · rw [if_pos hk]
        exact hch
      · rw [if_neg hk]
        by_cases hk2 : c.commandCursorPosition < k ∧ k ≤ c.commandLength
        · rw [if_pos hk2]
          exact h4 (k - 1) (by omega) (by omega)
        · rw [if_neg hk2]
          exact h4 k hk0 (by omega)
    · rw [e1] at hk0
      simp only [MaxLine] at hk1
      rw [e3 k, if_neg (by omega), if_neg (by omega)]
      exact h5 k (by omega) hk1
  · unfold ConsoleInternal.CharacterTyped
    rw [if_neg hg]
    exact h

theorem invariant_Backspace (c : ConsoleInternal) (h : c.Invariant) : c.Backspace.Invariant := by
  by_cases hl : c.commandLength = 0
  · unfold ConsoleInternal.Backspace
    rw [if_pos hl]
    exact h
  · by_cases hc : c.commandCursorPosition = 0
    · unfold ConsoleInternal.Backspace
      rw [if_neg hl, if_pos hc]
      exact h
    · obtain ⟨h1, h2, h3, h4, h5, h6, h7, h8⟩ := h
      obtain ⟨e1, e2, e3, e4, e5, e6, _⟩ := Backspace_spec c hl hc h2
      simp only [MaxLine] at h3 h5
      refine ⟨by rw [e2]; omega, by rw [e1, e2]; omega, by rw [e1]; simp only [MaxLine]; omega,
        fun k hk0 hk1 => ?_, fun k hk0 hk1 => ?_, by rw [e5]; exact h6, by rw [e5]; exact h7,
        by rw [e4, e6]; exact h8⟩
      · rw [e1] at hk1
        rw [e3 k, if_neg (by omega)]
        by_cases hk2 : c.commandCursorPosition - 1 ≤ k ∧ k < c.commandLength - 1
        · rw [if_pos hk2]
          exact h4 (k + 1) (by omega) (by omega)
        · rw [if_neg hk2]
          exact h4 k hk0 (by omega)
      · rw [e1] at hk0
        simp only [MaxLine] at hk1
        rw [e3 k]
        by_cases hk : k = c.commandLength - 1
        · rw [if_pos hk]
        · rw [if_neg hk, if_neg (by omega)]
          exact h5 k (by omega) hk1

theorem invariant_CursorLeft (c : ConsoleInternal) (h : c.Invariant) :
    c.CursorLeft.Invariant := by
  unfold ConsoleInternal.CursorLeft
  split
  · obtain ⟨h1, h2, h3⟩ := h
    exact ⟨by show 0 ≤ c.commandCursorPosition - 1; omega,
      by show c.commandCursorPosition - 1 ≤ c.commandLength; omega, h3⟩
  · exact h

theorem invariant_CursorRight (c : ConsoleInternal) (h : c.Invariant) :
    c.CursorRight.Invariant := by
  unfold ConsoleInternal.CursorRight
  split
  · next hlt =>
    obtain ⟨h1, h2, h3⟩ := h
    exact ⟨by show 0 ≤ c.commandCursorPosition + 1; omega,
      by show c.commandCursorPosition + 1 ≤ c.commandLength; omega, h3⟩
  · exact h

theorem invariant_CursorBegin (c : ConsoleInternal) (h : c.Invariant) :
    c.CursorBegin.Invariant := by
  obtain ⟨h1, h2, h3⟩ := h
  exact ⟨le_refl _, by show (0 : Int) ≤ c.commandLength; omega, h3⟩

theorem invariant_CursorEnd (c : ConsoleInternal) (h : c.Invariant) :
    c.CursorEnd.Invariant := by
  obtain ⟨h1, h2, h3⟩ := h
  exact ⟨by show 0 ≤ c.commandLength; omega, le_refl _, h3⟩

theorem next_index_range (index : Int) (h1 : 0 ≤ index) (h2 : index < CommandHistorySize) :
    (index + 1).tmod CommandHistorySize = (if index = 255 then 0 else index + 1) ∧
    0 ≤ (index + 1).tmod CommandHistorySize ∧
    (index + 1).tmod CommandHistorySize < CommandHistorySize := by
  simp only [CommandHistorySize] at h2 ⊢
  rw [Int.tmod_eq_emod (by omega) (by omega)]
  split <;> omega

theorem invariant_AddToCommandHistory (c : ConsoleInternal) (string : Int → Nat)
    (h : c.Invariant) : (c.AddToCommandHistory string).Invariant := by
  unfold ConsoleInternal.AddToCommandHistory
  split
  · exact h
  · obtain ⟨h1, h2, h3, h4, h5, h6, h7, h8⟩ := h
    obtain ⟨_, r1, r2⟩ := next_index_range c.commandHistoryIndex h6 h7
    exact ⟨h1, h2, h3, h4, h5, r1, r2, fun hf => by simp at hf⟩

theorem invariant_selection (c : ConsoleInternal) (selection : Int) (h : c.Invariant) :
    ConsoleInternal.Invariant { c with commandHistorySelection := selection } := h

theorem invariant_loadSelection (c : ConsoleInternal) (h : c.Invariant) :
    c.loadSelection.Invariant := by
  obtain ⟨_, _, _, _, _, h6, h7, h8⟩ := h
  obtain ⟨e1, e2, _, e4, e5, e6, e7, e8, e9⟩ := loadSelection_spec c
  refine ⟨by rw [e4]; exact e1, by rw [e4], e2, e6, fun k hk0 hk1 => ?_, by rw [e8]; exact h6,
    by rw [e8]; exact h7, by rw [e7, e9]; exact h8⟩
  rw [e5 k (by omega) hk1, if_neg (by omega)]

theorem invariant_nextLoop (n : Nat) (c : ConsoleInternal) (h : c.Invariant) :
    (ConsoleInternal.nextLoop n c).Invariant := by
  induction n generalizing c with
  | zero => exact h
  | succ n ih =>
    unfold ConsoleInternal.nextLoop
    split
    · exact invariant_loadSelection _ (invariant_selection c _ h)
    · exact ih _ (invariant_selection c _ h)

theorem invariant_prevLoop (n : Nat) (c : ConsoleInternal) (h : c.Invariant) :
    (ConsoleInternal.prevLoop n c).Invariant := by
  induction n generalizing c with
  | zero => exact h
  | succ n ih =>
    unfold ConsoleInternal.prevLoop
    split
    · exact invariant_loadSelection _ (invariant_selection c _ h)
    · exact ih _ (invariant_selection c _ h)

theorem invariant_enterHistory (c : ConsoleInternal) (h : c.Invariant) :
    c.enterHistory.Invariant := by
  unfold ConsoleInternal.enterHistory
  split
  · exact invariant_AddToCommandHistory _ _ (invariant_selection c _ h)
  · exact h

theorem invariant_call (c : ConsoleInternal) (call : ConsoleCall) (hv : call.valid = true)
    (h : c.Invariant) : (c.call call).Invariant := by
  cases call with
  | characterTyped character =>
    simp only [ConsoleCall.valid, decide_eq_true_eq] at hv
    exact invariant_CharacterTyped c character hv h
  | backspace => exact invariant_Backspace c h
  | cursorLeft => exact invariant_CursorLeft c h
  | cursorRight => exact invariant_CursorRight c h
  | cursorBegin => exact invariant_CursorBegin c h
  | cursorEnd => exact invariant_CursorEnd c h
  | clearCommandString => exact invariant_ClearCommandString c h
  | prevCommandInHistory =>
    show c.PrevCommandInHistory.Invariant
    unfold ConsoleInternal.PrevCommandInHistory
    split
    · exact h
    · exact invariant_prevLoop _ _ (invariant_enterHistory c h)
  | nextCommandInHistory =>
    show c.NextCommandInHistory.Invariant
    unfold ConsoleInternal.NextCommandInHistory
    split
    · exact h
    · exact invariant_nextLoop _ _ (invariant_enterHistory c h)
  | addToCommandHistory string => exact invariant_AddToCommandHistory c string h
  | enter =>
    exact invariant_ClearCommandString _ (invariant_AddToCommandHistory c _ h)

theorem invariant_calls (calls : List ConsoleCall) (c : ConsoleInternal)
    (hv : calls.all ConsoleCall.valid = true) (h : c.Invariant) : (c.calls calls).Invariant := by
  induction calls generalizing c with
  | nil => exact h
  | cons call rest ih =>
    simp only [List.all_cons, Bool.and_eq_true] at hv
    exact ih (c.call call) hv.2 (invariant_call c call hv.1 h)

theorem invariant_string (c : ConsoleInternal) (h : c.Invariant) :
    c.commandString c.commandLength = 0 ∧ strlen c.commandString = c.commandLength := by
  obtain ⟨h1, h2, h3, h4, h5, _⟩ := h
  simp only [MaxLine] at h3
  have hz : c.commandString c.commandLength = 0 :=
    h5 _ (le_refl _) (by simp only [MaxLine]; omega)
  refine ⟨hz, ?_⟩
  unfold strlen
  have h256 : MaxLine.toNat = 256 := rfl
  rw [h256]
  exact strlenFrom_eq _ _ _ _ (by omega) (by push_cast; omega) h4 (fun _ => hz)

theorem ConsoleInternal.eq_of_fields (a b : ConsoleInternal)
    (h1 : a.commandHistoryIsEmpty = b.commandHistoryIsEmpty)
    (h2 : a.commandCursorPosition = b.commandCursorPosition)
    (h3 : a.commandLength = b.commandLength)
    (h4 : a.commandHistoryIndex = b.commandHistoryIndex)
    (h5 : a.commandHistorySelection = b.commandHistorySelection)
    (h6 : ∀ k, a.commandString k = b.commandString k)
    (h7 : a.commandHistory = b.commandHistory) : a = b := by
  obtain ⟨a1, a2, a3, a4, a5, a6, a7⟩ := a
  obtain ⟨b1, b2, b3, b4, b5, b6, b7⟩ := b
  simp only at h1 h2 h3 h4 h5 h6 h7
  have h6' : a6 = b6 := funext h6
  subst h1 h2 h3 h4 h5 h6' h7
  rfl

theorem typed_then_backspace_core (c : ConsoleInternal) (character : Nat)
    (h0 : 0 ≤ c.commandCursorPosition) (h1 : c.commandCursorPosition ≤ c.commandLength)
    (h2 : c.commandLength < MaxLine - 1) (h3 : c.commandString c.commandLength = 0) :
    (c.CharacterTyped character).Backspace = c := by
  obtain ⟨e1, e2, e3, e4, e5, e6, e7⟩ :=
    CharacterTyped_spec c character (by omega) h2 h1
  obtain ⟨f1, f2, f3, f4, f5, f6, f7⟩ := Backspace_spec (c.CharacterTyped character)
    (by rw [e1]; omega) (by rw [e2]; omega) (by rw [e1, e2]; omega)
  refine ConsoleInternal.eq_of_fields _ _ (f6.trans e6) (by rw [f2, e2]; omega)
    (by rw [f1, e1]; omega) (f5.trans e5) (f7.trans e7) (fun k => ?_) (f4.trans e4)
  rw [f3 k, e1, e2]
  by_cases hk : k = c.commandLength + 1 - 1
  · rw [if_pos hk, hk]
    have : c.commandLength + 1 - 1 = c.commandLength := by omega
    rw [this, h3]
  · rw [if_neg hk]
    by_cases hk2 : c.commandCursorPosition + 1 - 1 ≤ k ∧ k < c.commandLength + 1 - 1
    · rw [if_pos hk2, e3 (k + 1), if_neg (by omega), if_pos (by omega)]
      congr 1
      omega
    · rw [if_neg hk2, e3 k, if_neg (by omega), if_neg (by omega)]

theorem strlenFrom_of_isString (string : Int → Nat) (length : Int) (n : Nat)
    (hs : IsString string length) (hl : length ≤ n) : strlenFrom string n 0 = length :=
  strlenFrom_eq string n 0 length hs.1 (by omega) hs.2.1 (fun _ => hs.2.2)

theorem strncpy_safe_string (dst string : Int → Nat) (length : Int)
    (hs : IsString string length) (hl : length < MaxLine) :
    ∀ k, 0 ≤ k → k ≤ length → strncpy_safe dst string MaxLine k = string k := by
  intro k hk0 hk1
  simp only [MaxLine] at hl
  have hlen : strlenFrom string ((MaxLine - 1).toNat) 0 = length :=
    strlenFrom_of_isString string length _ hs (by
      have : ((MaxLine - 1).toNat : Int) = 255 := rfl
      omega)
  unfold strncpy_safe
  have hk2 : k < MaxLine := by
    unfold MaxLine
    omega
  rw [if_pos ⟨hk0, hk2⟩, hlen]
  by_cases hk : k < length
  · rw [if_pos hk]
  · have : k = length := by omega
    rw [if_neg hk, this, hs.2.2]

theorem strcmpEq_false_of_head (a b : Int → Nat) (h : a 0 ≠ b 0) : strcmpEq a b = false := by
  unfold strcmpEq
  have h256 : MaxLine.toNat = 255 + 1 := rfl
  rw [h256, strcmpEqFrom, if_pos h]

theorem add_twice_core (c : ConsoleInternal) (string : Int → Nat) (length : Int)
    (h6 : 0 ≤ c.commandHistoryIndex) (h7 : c.commandHistoryIndex < CommandHistorySize)
    (hs : IsString string length) (hl : length < MaxLine) :
    (c.AddToCommandHistory string).AddToCommandHistory string = c.AddToCommandHistory string := by
  cases hcmp : strcmpEq string (c.commandHistory c.previousIndex) with
  | true =>
    have h1 : c.AddToCommandHistory string = c := by
      unfold ConsoleInternal.AddToCommandHistory
      rw [if_pos hcmp]
    rw [h1, h1]
  | false =>
    have h1 : c.AddToCommandHistory string =
        { c with
          commandHistory := Function.update c.commandHistory c.commandHistoryIndex
            (strncpy_safe (c.commandHistory c.commandHistoryIndex) string MaxLine)
          commandHistoryIndex := (c.commandHistoryIndex + 1).tmod CommandHistorySize
          commandHistoryIsEmpty := false } := by
      unfold ConsoleInternal.AddToCommandHistory
      rw [if_neg (by rw [hcmp]; simp)]
    rw [h1]
    obtain ⟨r0, _, _⟩ := next_index_range c.commandHistoryIndex h6 h7
    have hprev : ConsoleInternal.previousIndex
        { c with
          commandHistory := Function.update c.commandHistory c.commandHistoryIndex
            (strncpy_safe (c.commandHistory c.commandHistoryIndex) string MaxLine)
          commandHistoryIndex := (c.commandHistoryIndex + 1).tmod CommandHistorySize
          commandHistoryIsEmpty := false } = c.commandHistoryIndex := by
      simp only [ConsoleInternal.previousIndex, r0]
      simp only [CommandHistorySize] at h7 ⊢
      split <;> split <;> omega
    unfold ConsoleInternal.AddToCommandHistory
    rw [hprev]
    simp only [Function.update_same]
    rw [if_pos]
    unfold strcmpEq
    exact strcmpEqFrom_of_agree _ _ _ 0 length hs.1
      (fun k hk0 hk1 => (strncpy_safe_string _ string length hs hl k hk0 hk1).symm) hs.2.2

theorem previous_after_empty_command (d : ConsoleInternal) (command : Int → Nat)
    (length : Int) (hs : IsString command length) (h0 : 0 < length) (hl : length < MaxLine)
    (hempty : d.commandHistoryIsEmpty = false) (hsel : d.commandHistorySelection = -1)
    (hcmd : d.commandString 0 = 0)
    (hrow : ∀ k, 0 ≤ k → k ≤ length → d.commandHistory d.previousIndex k = command k) :
    d.PrevCommandInHistory.commandLength = length ∧
    d.PrevCommandInHistory.commandCursorPosition = length ∧
    (∀ k, 0 ≤ k → k < MaxLine → d.PrevCommandInHistory.commandString k =
      if k < length then command k else 0) := by
  have hhead : d.commandHistory d.previousIndex 0 ≠ 0 := by
    rw [hrow 0 (le_refl _) (by omega)]
    exact hs.2.1 0 (le_refl _) h0
  have hne : d.previousIndex ≠ d.commandHistoryIndex := by
    simp only [ConsoleInternal.previousIndex, CommandHistorySize]
    split <;> omega
  have henter : d.enterHistory =
      { d with
        commandHistorySelection := d.commandHistoryIndex
        commandHistory := Function.update d.commandHistory d.commandHistoryIndex
          (strncpy_safe (d.commandHistory d.commandHistoryIndex) d.commandString MaxLine)
        commandHistoryIndex := (d.commandHistoryIndex + 1).tmod CommandHistorySize
        commandHistoryIsEmpty := false } := by
    unfold ConsoleInternal.enterHistory
    rw [if_pos hsel]
    unfold ConsoleInternal.AddToCommandHistory
    have hcmp : strcmpEq d.commandString (d.commandHistory d.previousIndex) = false :=
      strcmpEq_false_of_head _ _ (by rw [hcmd]; exact Ne.symm hhead)
    have hp : ConsoleInternal.previousIndex
        { d with commandHistorySelection := d.commandHistoryIndex } = d.previousIndex := rfl
    rw [hp]
    simp only [hcmp, Bool.false_eq_true, if_false]
  have hprev : d.PrevCommandInHistory =
      ConsoleInternal.loadSelection (ConsoleInternal.selectPrevious d.enterHistory) := by
    unfold ConsoleInternal.PrevCommandInHistory
    rw [if_neg (by rw [hempty]; simp)]
    have h256 : CommandHistorySize.toNat = 255 + 1 := rfl
    rw [h256, ConsoleInternal.prevLoop, if_pos]
    rw [henter]
    show Function.update d.commandHistory d.commandHistoryIndex _ d.previousIndex 0 ≠ 0
    rw [Function.update_noteq hne]
    exact hhead
  have hsel' : (ConsoleInternal.selectPrevious d.enterHistory).commandHistory
      (ConsoleInternal.selectPrevious d.enterHistory).commandHistorySelection =
      d.commandHistory d.previousIndex := by
    rw [henter]
    show Function.update d.commandHistory d.commandHistoryIndex _ d.previousIndex = _
    rw [Function.update_noteq hne]
  obtain ⟨_, _, e3, e4, e5, _⟩ :=
    loadSelection_spec (ConsoleInternal.selectPrevious d.enterHistory)
  rw [hsel'] at e3 e5
  simp only [MaxLine] at hl
  have hlen : strlenFrom (d.commandHistory d.previousIndex) 255 0 = length :=
    strlenFrom_eq _ _ _ _ hs.1 (by push_cast; omega)
      (fun k hk0 hk1 => by rw [hrow k hk0 (by omega)]; exact hs.2.1 k hk0 hk1)
      (fun _ => by rw [hrow length hs.1 (le_refl _)]; exact hs.2.2)
  rw [hprev]
  rw [hlen] at e3
  refine ⟨e3, e4.trans e3, fun k hk0 hk1 => ?_⟩
  rw [e5 k hk0 hk1, e3]
  by_cases hk : k < length
  · rw [if_pos hk, if_pos hk, hrow k hk0 (by omega)]
  · rw [if_neg hk, if_neg hk]

theorem add_command_row (c : ConsoleInternal) (command : Int → Nat) (length : Int)
    (h : c.Invariant) (hs : IsString command length) (h0 : 0 < length)
    (hl : length < MaxLine) :
    (c.AddToCommandHistory command).commandHistoryIsEmpty = false ∧
    (∀ k, 0 ≤ k → k ≤ length →
      (c.AddToCommandHistory command).commandHistory
        (c.AddToCommandHistory command).previousIndex k = command k) := by
  obtain ⟨_, _, _, _, _, h6, h7, h8⟩ := h
  cases hcmp : strcmpEq command (c.commandHistory c.previousIndex) with
  | true =>
    have h1 : c.AddToCommandHistory command = c := by
      unfold ConsoleInternal.AddToCommandHistory
      rw [if_pos hcmp]
    rw [h1]
    have hagree := strcmpEqFrom_agree command (c.commandHistory c.previousIndex) _ 0 length
      hcmp hs.1 (by
        have : (MaxLine.toNat : Int) = 256 := rfl
        simp only [MaxLine] at hl
        omega) hs.2.1
    refine ⟨?_, hagree⟩
    cases hb : c.commandHistoryIsEmpty with
    | false => rfl
    | true =>
      have := hagree 0 (le_refl _) (by omega)
      rw [h8 hb c.previousIndex] at this
      exact absurd this.symm (hs.2.1 0 (le_refl _) h0)
  | false =>
    have h1 : c.AddToCommandHistory command =
        { c with
          commandHistory := Function.update c.commandHistory c.commandHistoryIndex
            (strncpy_safe (c.commandHistory c.commandHistoryIndex) command MaxLine)
          commandHistoryIndex := (c.commandHistoryIndex + 1).tmod CommandHistorySize
          commandHistoryIsEmpty := false } := by
      unfold ConsoleInternal.AddToCommandHistory
      rw [if_neg (by rw [hcmp]; simp)]
    rw [h1]
    obtain ⟨r0, _, _⟩ := next_index_range c.commandHistoryIndex h6 h7
    have hprev : ConsoleInternal.previousIndex
        { c with
          commandHistory := Function.update c.commandHistory c.commandHistoryIndex
            (strncpy_safe (c.commandHistory c.commandHistoryIndex) command MaxLine)
          commandHistoryIndex := (c.commandHistoryIndex + 1).tmod CommandHistorySize
          commandHistoryIsEmpty := false } = c.commandHistoryIndex := by
      simp only [ConsoleInternal.previousIndex, r0]
      simp only [CommandHistorySize] at h7 ⊢
      split <;> split <;> omega
    refine ⟨rfl, fun k hk0 hk1 => ?_⟩
    rw [hprev]
    show Function.update c.commandHistory c.commandHistoryIndex _ c.commandHistoryIndex k = _
    rw [Function.update_same]
    exact strncpy_safe_string _ command length hs hl k hk0 hk1

theorem quitCommand_isString : IsString quitCommand 4 := by
  refine ⟨by decide, fun k h0 h1 => ?_, by decide⟩
  interval_cases k <;> decide

theorem exampleConsole_invariant : exampleConsole.Invariant :=
  invariant_calls exampleKeys ConsoleInternal.create rfl invariant_create

end Console

section WireTrace

variable {Q : Nat}

end WireTrace

section Claims

theorem decodedCube_eq {Q : Nat} (delta_mode : Int) (c b : QuantizedCubeState Q) :
    decodedCube delta_mode c b =
      if (delta_mode = DELTA_MODE_RELATIVE_POSITION ∨
          delta_mode = DELTA_MODE_RELATIVE_ORIENTATION) ∧ useRelative c b = false
      then { c with interacting := false } else c := by
  unfold decodedCube decodedRelative
  by_cases hm : delta_mode = DELTA_MODE_RELATIVE_POSITION ∨
      delta_mode = DELTA_MODE_RELATIVE_ORIENTATION
  · cases hu : useRelative c b <;> simp [hm]
  · simp [hm]

theorem exampleReceiver_has_base (delta_mode : Int) (sequence : Nat)
    (h : sequence = 8 ∨ sequence = 9) :
    ReceiverHasBase fourCubes exampleSender exampleReceiver
      { sequence := sequence, base_sequence := 7, initial := false, delta_mode := delta_mode } := by
  rcases h with h | h <;> subst h <;>
  exact ⟨restSnapshot, rfl, fun k _ => rfl⟩

/-- C1, counterexample. In mode `RELATIVE_POSITION` the snapshot `farSnapshot` lies within
the position bounds and is written and read against the same base, yet cube 1 comes back
with `interacting = false` where the snapshot has `interacting = true`. -/
theorem round_trip_relative_position_counterexample :
    (∀ k, k < fourCubes.NumCubes →
      InBounds fourCubes (exampleSender.sliding_window.Get 9 k)) ∧
    ReceiverHasBase fourCubes exampleSender exampleReceiver
      (farPacket DELTA_MODE_RELATIVE_POSITION) ∧
    ∃ out : Cubes 9,
      (DeltaSnapshotPacket.Serialize fourCubes (spec_index_codec fourCubes)
        (spec_count_relative_index_bits fourCubes) StreamMode.reading exampleReceiver blankPacket
        ⟨(DeltaSnapshotPacket.Serialize fourCubes (spec_index_codec fourCubes)
          (spec_count_relative_index_bits fourCubes) StreamMode.writing exampleSender
          (farPacket DELTA_MODE_RELATIVE_POSITION) ⟨[], 0⟩).stream.bits ++ [], 0⟩
        ).context.sequence_buffer.Find 9 = some out ∧
      (exampleSender.sliding_window.Get 9 1).interacting = true ∧
      (out 1).interacting = false := by
  have hin : ∀ k, k < fourCubes.NumCubes →
      InBounds fourCubes (exampleSender.sliding_window.Get 9 k) := by decide
  have hb := exampleReceiver_has_base DELTA_MODE_RELATIVE_POSITION 9 (Or.inr rfl)
  refine ⟨hin, hb, ?_⟩
  obtain ⟨_, _, out, _, _, hfind, hout⟩ := round_trip_core fourCubes (spec_index_codec fourCubes)
    (spec_count_relative_index_bits fourCubes) (spec_count_relative_index_bits fourCubes)
    exampleSender exampleReceiver (farPacket DELTA_MODE_RELATIVE_POSITION) blankPacket []
    (by decide) (by decide) (spec_index_codec_lawful fourCubes) hin hb
  refine ⟨out, hfind, by decide, ?_⟩
  rw [hout 1 (by decide)]
  decide

/-- C1 (as amended). For every delta mode, every base and every snapshot `S` whose cubes
lie within the quantized position bounds, writing the packet succeeds and reading the
written bits against the same base succeeds, consumes exactly those bits and leaves in
the sequence buffer, under the packet's sequence, a snapshot equal to `S` in every field
of every cube, except that in the modes `RELATIVE_POSITION` and `RELATIVE_ORIENTATION`
a cube with a position offset beyond `±1023` comes back with `interacting = false`. The
absent `serialize_index_relative` is assumed to read back what it writes. -/
theorem delta_snapshot_round_trip {Q : Nat} (K : Constants) (codec : IndexCodec)
    (crib cribR : (Nat → Bool) → Int) (sender receiver : Context Q)
    (p p0 : DeltaSnapshotPacket) (rest : List Bool)
    (hp : p.WellTyped) (hmode : 0 ≤ p.delta_mode ∧ p.delta_mode < DELTA_NUM_MODES)
    (hcodec : codec.Lawful K.NumCubes)
    (hin : ∀ k, k < K.NumCubes → InBounds K (sender.sliding_window.Get p.sequence k))
    (hbase : ReceiverHasBase K sender receiver p) :
    (DeltaSnapshotPacket.Serialize K codec crib StreamMode.writing sender p ⟨[], 0⟩).status =
      Except.ok () ∧
    ∃ out : Cubes Q,
      (DeltaSnapshotPacket.Serialize K codec cribR StreamMode.reading receiver p0
        ⟨(DeltaSnapshotPacket.Serialize K codec crib StreamMode.writing sender p
          ⟨[], 0⟩).stream.bits ++ rest, 0⟩).status = Except.ok () ∧
      (DeltaSnapshotPacket.Serialize K codec cribR StreamMode.reading receiver p0
        ⟨(DeltaSnapshotPacket.Serialize K codec crib StreamMode.writing sender p
          ⟨[], 0⟩).stream.bits ++ rest, 0⟩).stream.bits = rest ∧
      (DeltaSnapshotPacket.Serialize K codec cribR StreamMode.reading receiver p0
        ⟨(DeltaSnapshotPacket.Serialize K codec crib StreamMode.writing sender p
          ⟨[], 0⟩).stream.bits ++ rest, 0⟩).context.sequence_buffer.Find p.sequence =
        some out ∧
      ∀ k, k < K.NumCubes →
        out k =
          if (p.delta_mode = DELTA_MODE_RELATIVE_POSITION ∨
              p.delta_mode = DELTA_MODE_RELATIVE_ORIENTATION) ∧
            useRelative (sender.sliding_window.Get p.sequence k) (senderBase sender p k) = false
          then { sender.sliding_window.Get p.sequence k with interacting := false }
          else sender.sliding_window.Get p.sequence k := by
  obtain ⟨hw, _, out, h1, h2, h3, h4⟩ :=
    round_trip_core K codec crib cribR sender receiver p p0 rest hp hmode hcodec hin hbase
  refine ⟨hw, out, h1, h2, h3, fun k hk => ?_⟩
  rw [h4 k hk, decodedCube_eq]

/-- Witness of C1 (as amended): the far cube of `farSnapshot`, sent in mode
`RELATIVE_POSITION`, comes back in place with `interacting` cleared, the other cubes
come back as they are. -/
theorem delta_snapshot_round_trip_witness :
    ∃ out : Cubes 9,
      (DeltaSnapshotPacket.Serialize fourCubes (spec_index_codec fourCubes)
        (spec_count_relative_index_bits fourCubes) StreamMode.reading exampleReceiver blankPacket
        ⟨(DeltaSnapshotPacket.Serialize fourCubes (spec_index_codec fourCubes)
          (spec_count_relative_index_bits fourCubes) StreamMode.writing exampleSender
          (farPacket DELTA_MODE_RELATIVE_POSITION) ⟨[], 0⟩).stream.bits ++ [], 0⟩
        ).context.sequence_buffer.Find 9 = some out ∧
      out 0 = farSnapshot 0 ∧ out 1 = { farSnapshot 1 with interacting := false } ∧
      out 2 = farSnapshot 2 ∧ out 3 = farSnapshot 3 := by
  obtain ⟨_, out, _, _, hfind, hout⟩ := delta_snapshot_round_trip fourCubes
    (spec_index_codec fourCubes) (spec_count_relative_index_bits fourCubes)
    (spec_count_relative_index_bits fourCubes) exampleSender exampleReceiver
    (farPacket DELTA_MODE_RELATIVE_POSITION) blankPacket [] (by decide) (by decide)
    (spec_index_codec_lawful fourCubes) (by decide)
    (exampleReceiver_has_base DELTA_MODE_RELATIVE_POSITION 9 (Or.inr rfl))
  refine ⟨out, hfind, ?_, ?_, ?_, ?_⟩
  · rw [hout 0 (by decide)]; decide
  · rw [hout 1 (by decide)]; decide
  · rw [hout 2 (by decide)]; decide
  · rw [hout 3 (by decide)]; decide

/-- C2. For the modes `NOT_CHANGED` and `CHANGED_INDEX` (whichever branch the writer
takes: the theorem holds for every number of changed cubes), for every base and every
snapshot `S` whose cubes lie within the quantized position bounds, decoding the encoded
packet against the same base succeeds and returns exactly `S`. -/
theorem not_changed_and_changed_index_round_trip {Q : Nat} (K : Constants)
    (codec : IndexCodec) (crib cribR : (Nat → Bool) → Int) (sender receiver : Context Q)
    (p p0 : DeltaSnapshotPacket) (rest : List Bool)
    (hp : p.WellTyped)
    (hmode : p.delta_mode = DELTA_MODE_NOT_CHANGED ∨ p.delta_mode = DELTA_MODE_CHANGED_INDEX)
    (hcodec : codec.Lawful K.NumCubes)
    (hin : ∀ k, k < K.NumCubes → InBounds K (sender.sliding_window.Get p.sequence k))
    (hbase : ReceiverHasBase K sender receiver p) :
    (DeltaSnapshotPacket.Serialize K codec crib StreamMode.writing sender p ⟨[], 0⟩).status =
      Except.ok () ∧
    ∃ out : Cubes Q,
      (DeltaSnapshotPacket.Serialize K codec cribR StreamMode.reading receiver p0
        ⟨(DeltaSnapshotPacket.Serialize K codec crib StreamMode.writing sender p
          ⟨[], 0⟩).stream.bits ++ rest, 0⟩).status = Except.ok () ∧
      (DeltaSnapshotPacket.Serialize K codec cribR StreamMode.reading receiver p0
        ⟨(DeltaSnapshotPacket.Serialize K codec crib StreamMode.writing sender p
          ⟨[], 0⟩).stream.bits ++ rest, 0⟩).context.sequence_buffer.Find p.sequence =
        some out ∧
      ∀ k, k < K.NumCubes → out k = sender.sliding_window.Get p.sequence k := by
  have hm : 0 ≤ p.delta_mode ∧ p.delta_mode < DELTA_NUM_MODES := by
    rcases hmode with h | h <;> rw [h] <;> decide
  obtain ⟨hw, _, out, h1, _, h3, h4⟩ :=
    round_trip_core K codec crib cribR sender receiver p p0 rest hp hm hcodec hin hbase
  refine ⟨hw, out, h1, h3, fun k hk => ?_⟩
  rw [h4 k hk]
  rcases hmode with h | h <;> rw [h] <;> rfl

/-- Witness of C2: the moved snapshot of scenario S2, sent in mode `CHANGED_INDEX`. -/
theorem not_changed_and_changed_index_round_trip_witness :
    ∃ out : Cubes 9,
      (DeltaSnapshotPacket.Serialize fourCubes (spec_index_codec fourCubes)
        (spec_count_relative_index_bits fourCubes) StreamMode.reading exampleReceiver blankPacket
        ⟨(DeltaSnapshotPacket.Serialize fourCubes (spec_index_codec fourCubes)
          (spec_count_relative_index_bits fourCubes) StreamMode.writing exampleSender
          (movedPacket DELTA_MODE_CHANGED_INDEX) ⟨[], 0⟩).stream.bits ++ [], 0⟩
        ).context.sequence_buffer.Find 8 = some out ∧
      ∀ k, k < 4 → out k = movedSnapshot k := by
  obtain ⟨_, out, _, hfind, hout⟩ := not_changed_and_changed_index_round_trip fourCubes
    (spec_index_codec fourCubes) (spec_count_relative_index_bits fourCubes)
    (spec_count_relative_index_bits fourCubes) exampleSender exampleReceiver
    (movedPacket DELTA_MODE_CHANGED_INDEX) blankPacket [] (by decide) (Or.inr rfl)
    (spec_index_codec_lawful fourCubes) (by decide)
    (exampleReceiver_has_base DELTA_MODE_CHANGED_INDEX 8 (Or.inl rfl))
  exact ⟨out, hfind, fun k hk => hout k hk⟩

theorem intBits_delta_mode (v : Int) :
    intBits 0 (DELTA_NUM_MODES - 1) v = toBits 3 v.toNat := by
  have h3 : bits_required 0 (DELTA_NUM_MODES - 1) = 3 := by decide
  simp [intBits, h3]

/-- C6. For every `DeltaSnapshotPacket` (16-bit sequence numbers, `delta_mode` in `0..4`)
the header is written as `sequence` in 16 bits, `delta_mode` in 3 bits, `initial` in 1 bit
and, only when `initial` is false, `base_sequence` in 16 bits: 20 bits when initial, 36
otherwise; reading these bits back returns the same `sequence`, `delta_mode`, `initial`
and, when present, `base_sequence` (a `base_sequence` that is absent is left as it was). -/
theorem header_wire_format (p : DeltaSnapshotPacket) (hp : p.WellTyped)
    (hmode : 0 ≤ p.delta_mode ∧ p.delta_mode ≤ 4) :
    (DeltaSnapshotPacket.serialize_header StreamMode.writing).run (⟨[], 0⟩, p) =
      (Except.ok (),
        (⟨toBits 16 p.sequence ++ (toBits 3 p.delta_mode.toNat ++
            (p.initial :: (if p.initial then [] else toBits 16 p.base_sequence))), 0⟩, p)) ∧
    (toBits 16 p.sequence ++ (toBits 3 p.delta_mode.toNat ++
        (p.initial :: (if p.initial then [] else toBits 16 p.base_sequence)))).length =
      (if p.initial then 20 else 36) ∧
    ∀ (p0 : DeltaSnapshotPacket) (rest : List Bool),
      (DeltaSnapshotPacket.serialize_header StreamMode.reading).run
          (⟨(toBits 16 p.sequence ++ (toBits 3 p.delta_mode.toNat ++
            (p.initial :: (if p.initial then [] else toBits 16 p.base_sequence)))) ++ rest, 0⟩,
            p0) =
        (Except.ok (), (⟨rest, 0⟩,
          { sequence := p.sequence
            base_sequence := if p.initial then p0.base_sequence else p.base_sequence
            initial := p.initial
            delta_mode := p.delta_mode })) := by
  have hm : 0 ≤ p.delta_mode ∧ p.delta_mode ≤ DELTA_NUM_MODES - 1 := hmode
  have himg : headerImage p = toBits 16 p.sequence ++ (toBits 3 p.delta_mode.toNat ++
      (p.initial :: (if p.initial then [] else toBits 16 p.base_sequence))) := by
    simp only [headerImage, intBits_delta_mode]
  refine ⟨?_, ?_, ?_⟩
  · rw [run_header_writing p hm, List.nil_append, himg]
  · rw [← himg, headerImage_length]
  · intro p0 rest
    rw [← himg, run_header_reading p p0 hp hm]

/-- Witness of C6: the packet of sequence 8 against base 7 in mode `RELATIVE_POSITION`. -/
theorem header_wire_format_witness :
    (DeltaSnapshotPacket.serialize_header StreamMode.writing).run
        (⟨[], 0⟩, movedPacket DELTA_MODE_RELATIVE_POSITION) =
      (Except.ok (),
        (⟨toBits 16 8 ++ (toBits 3 3 ++ (false :: toBits 16 7)), 0⟩,
          movedPacket DELTA_MODE_RELATIVE_POSITION)) ∧
    (toBits 16 8 ++ (toBits 3 3 ++ (false :: toBits 16 7))).length = 36 := by
  have h := header_wire_format (movedPacket DELTA_MODE_RELATIVE_POSITION) (by decide)
    (by decide)
  exact ⟨h.1, h.2.1⟩

/-- C8. In `serialize_cube_relative_position`, for every cube and base cube the writer
sets `use_relative` exactly when `|dx|`, `|dy|` and `|dz|` are all at most `1023`: when they
are, it writes `interacting`, a set `use_relative` bit and the three offsets, each within
`[-1023, +1023]` and in 11 bits, and the reader reconstructs `base + offset`, the original
cube on all three axes; when they are not (and the cube is within the position bounds),
it writes a clear `use_relative` bit. -/
theorem relative_position_use_relative {Q : Nat} (K : Constants) (base : BaseRef Q) (i : Nat)
    (S : Cubes Q) (bs : List Bool) (c : Nat) :
    ((|(S i).position_x - (base.get S i).position_x| ≤ 1023 ∧
        |(S i).position_y - (base.get S i).position_y| ≤ 1023 ∧
        |(S i).position_z - (base.get S i).position_z| ≤ 1023) →
      (serialize_cube_relative_position K StreamMode.writing base i).run (⟨bs, c⟩, S) =
        (Except.ok (),
          (⟨bs ++ ((S i).interacting :: true ::
            (toBits 11 ((S i).position_x - (base.get S i).position_x + 1023).toNat ++
              (toBits 11 ((S i).position_y - (base.get S i).position_y + 1023).toNat ++
                (toBits 11 ((S i).position_z - (base.get S i).position_z + 1023).toNat ++
                  quatBits (S i).orientation)))), c⟩, S)) ∧
      ∀ (reader : BaseRef Q) (mem : Cubes Q) (rest : List Bool),
        reader.get mem i = base.get S i →
        (serialize_cube_relative_position K StreamMode.reading reader i).run
            (⟨((S i).interacting :: true ::
              (toBits 11 ((S i).position_x - (base.get S i).position_x + 1023).toNat ++
                (toBits 11 ((S i).position_y - (base.get S i).position_y + 1023).toNat ++
                  (toBits 11 ((S i).position_z - (base.get S i).position_z + 1023).toNat ++
                    quatBits (S i).orientation)))) ++ rest, c⟩, mem) =
          (Except.ok (), (⟨rest, c⟩, Function.update mem i (S i)))) ∧
    (¬ (|(S i).position_x - (base.get S i).position_x| ≤ 1023 ∧
        |(S i).position_y - (base.get S i).position_y| ≤ 1023 ∧
        |(S i).position_z - (base.get S i).position_z| ≤ 1023) →
      InBounds K (S i) →
      ∃ tail : List Bool,
        (serialize_cube_relative_position K StreamMode.writing base i).run (⟨bs, c⟩, S) =
          (Except.ok (), (⟨bs ++ ((S i).interacting :: false :: tail), c⟩, S))) := by
  have huse : useRelative (S i) (base.get S i) = true ↔
      (|(S i).position_x - (base.get S i).position_x| ≤ 1023 ∧
        |(S i).position_y - (base.get S i).position_y| ≤ 1023 ∧
        |(S i).position_z - (base.get S i).position_z| ≤ 1023) := by
    simp only [useRelative, RelativePositionBound, Bool.and_eq_true, decide_eq_true_eq,
      and_assoc]
  constructor
  · intro h
    have hu := huse.2 h
    have himg : relativeBits K (S i) (base.get S i) =
        (S i).interacting :: true ::
          (toBits 11 ((S i).position_x - (base.get S i).position_x + 1023).toNat ++
            (toBits 11 ((S i).position_y - (base.get S i).position_y + 1023).toNat ++
              (toBits 11 ((S i).position_z - (base.get S i).position_z + 1023).toNat ++
                quatBits (S i).orientation))) := by
      simp only [relativeBits, hu, if_true, intBits_relative, List.append_assoc]
    constructor
    · rw [run_cube_relative_position_writing K base i bs c S (fun hf => by simp [hu] at hf),
        himg]
    · intro reader mem rest hb
      rw [← himg, run_cube_relative_position_reading K reader i (S i) (base.get S i)
        (fun hf => by simp [hu] at hf) rest c mem hb]
      simp [decodedRelative, hu]
  · intro h hin
    have hu : useRelative (S i) (base.get S i) = false := by
      cases hx : useRelative (S i) (base.get S i) with
      | false => rfl
      | true => exact absurd (huse.1 hx) h
    rw [run_cube_relative_position_writing K base i bs c S (fun _ => hin)]
    simp only [relativeBits, hu]
    exact ⟨_, rfl⟩

/-- Witness of C8: cube 2 of scenario S2, offsets `(+5, -3, +1)` against the cube at
rest. -/
theorem relative_position_use_relative_witness :
    (serialize_cube_relative_position fourCubes StreamMode.writing
        (BaseRef.snapshot restSnapshot) 2).run (⟨[], 0⟩, movedSnapshot) =
      (Except.ok (),
        (⟨[] ++ (false :: true ::
          (toBits 11 1028 ++ (toBits 11 1020 ++ (toBits 11 1024 ++
            quatBits restCube.orientation)))), 0⟩, movedSnapshot)) :=
  ((relative_position_use_relative fourCubes (BaseRef.snapshot restSnapshot) 2 movedSnapshot
    [] 0).1 (by decide)).1

/-- C9. For every stream mode, cube and base, `serialize_cube_relative_orientation` is the
same routine as `serialize_cube_relative_position` (same bits emitted or consumed, same
resulting cube); hence from the same stream position the body of a `RELATIVE_ORIENTATION`
packet is serialized exactly as that of the `RELATIVE_POSITION` packet with the same
fields, and the two headers differ only in the 3 bits of `delta_mode`. -/
theorem relative_orientation_is_relative_position {Q : Nat} (K : Constants)
    (codec : IndexCodec) (crib : (Nat → Bool) → Int) (m : StreamMode) :
    (∀ (base : BaseRef Q) (i : Nat),
      serialize_cube_relative_orientation K m base i =
        serialize_cube_relative_position K m base i) ∧
    (∀ (base : BaseRef Q),
      serialize_body K codec crib m DELTA_MODE_RELATIVE_ORIENTATION base =
        serialize_body K codec crib m DELTA_MODE_RELATIVE_POSITION base) ∧
    (∀ (ctx : Context Q) (p : DeltaSnapshotPacket) (stream : Stream) (cubes : Cubes Q)
        (store : Cubes Q → Context Q),
      serialize_cubes K codec crib m ctx
          { p with delta_mode := DELTA_MODE_RELATIVE_ORIENTATION } stream cubes store =
        { serialize_cubes K codec crib m ctx
            { p with delta_mode := DELTA_MODE_RELATIVE_POSITION } stream cubes store with
          packet := { p with delta_mode := DELTA_MODE_RELATIVE_ORIENTATION } }) ∧
    (∀ p : DeltaSnapshotPacket,
      headerImage { p with delta_mode := DELTA_MODE_RELATIVE_ORIENTATION } =
        toBits 16 p.sequence ++ (toBits 3 4 ++
          (p.initial :: (if p.initial then [] else toBits 16 p.base_sequence))) ∧
      headerImage { p with delta_mode := DELTA_MODE_RELATIVE_POSITION } =
        toBits 16 p.sequence ++ (toBits 3 3 ++
          (p.initial :: (if p.initial then [] else toBits 16 p.base_sequence)))) := by
  have hbody : ∀ (base : BaseRef Q),
      serialize_body K codec crib m DELTA_MODE_RELATIVE_ORIENTATION base =
        serialize_body K codec crib m DELTA_MODE_RELATIVE_POSITION base := by
    intro base
    have e4 : serialize_body K codec crib m DELTA_MODE_RELATIVE_ORIENTATION base =
        serialize_relative_orientation K codec m base := by
      simp [serialize_body, DELTA_MODE_NOT_CHANGED, DELTA_MODE_CHANGED_INDEX,
        DELTA_MODE_RELATIVE_INDEX, DELTA_MODE_RELATIVE_POSITION,
        DELTA_MODE_RELATIVE_ORIENTATION]
    have e3 : serialize_body K codec crib m DELTA_MODE_RELATIVE_POSITION base =
        serialize_relative_position K codec m base := by
      simp [serialize_body, DELTA_MODE_NOT_CHANGED, DELTA_MODE_CHANGED_INDEX,
        DELTA_MODE_RELATIVE_INDEX, DELTA_MODE_RELATIVE_POSITION]
    rw [e4, e3]
    rfl
  refine ⟨fun _ _ => rfl, hbody, ?_, ?_⟩
  · intro ctx p stream cubes store
    have h4 : (0 : Int) ≤ DELTA_MODE_RELATIVE_ORIENTATION ∧
        DELTA_MODE_RELATIVE_ORIENTATION < DELTA_NUM_MODES := by decide
    have h3 : (0 : Int) ≤ DELTA_MODE_RELATIVE_POSITION ∧
        DELTA_MODE_RELATIVE_POSITION < DELTA_NUM_MODES := by decide
    have hres : resolve_base m ctx { p with delta_mode := DELTA_MODE_RELATIVE_ORIENTATION } =
        resolve_base m ctx { p with delta_mode := DELTA_MODE_RELATIVE_POSITION } := rfl
    simp only [serialize_cubes, h4, h3, and_self, if_true, hres, hbody]
    cases resolve_base (Q := Q) m ctx { p with delta_mode := DELTA_MODE_RELATIVE_POSITION } with
    | error e => rfl
    | ok base =>
      simp only []
      rcases (serialize_body K codec crib m DELTA_MODE_RELATIVE_POSITION base).run
        (stream, cubes) with ⟨r, out⟩
      cases r <;> rfl
  · intro p
    constructor
    · simp only [headerImage, intBits_delta_mode]
      rfl
    · simp only [headerImage, intBits_delta_mode]
      rfl

theorem header_of_written (delta_mode : Int)
    (hmode : 0 ≤ delta_mode ∧ delta_mode ≤ DELTA_NUM_MODES - 1) (rest : List Bool) :
    (DeltaSnapshotPacket.serialize_header StreamMode.reading).run
        (⟨headerImage (movedPacket delta_mode) ++ rest, 0⟩, blankPacket) =
      (Except.ok (), (⟨rest, 0⟩, movedPacket delta_mode)) :=
  run_header_reading (movedPacket delta_mode) blankPacket
    ⟨(by decide : (8 : Nat) < 65536), (by decide : (7 : Nat) < 65536)⟩ hmode rest 0

/-- C4, counterexample. A receiver whose buffer is empty reads the non-initial packet of
sequence 8 against base 7: `Find( 7 )` returns none and the read stops on the assertion
`CORE_ASSERT( entry )`, it does not report a stream failure. -/
theorem read_without_base_counterexample :
    freshReceiver.sequence_buffer.Find 7 = none ∧
    (DeltaSnapshotPacket.Serialize fourCubes (spec_index_codec fourCubes)
      (spec_count_relative_index_bits fourCubes) StreamMode.reading freshReceiver blankPacket
      ⟨(DeltaSnapshotPacket.Serialize fourCubes (spec_index_codec fourCubes)
        (spec_count_relative_index_bits fourCubes) StreamMode.writing exampleSender
        (movedPacket DELTA_MODE_NOT_CHANGED) ⟨[], 0⟩).stream.bits, 0⟩).status =
      Except.error Failure.assertion := by
  refine ⟨rfl, ?_⟩
  rw [Serialize_writing fourCubes _ _ exampleSender (movedPacket DELTA_MODE_NOT_CHANGED)
    (by decide) (spec_index_codec_lawful fourCubes) (by decide)]
  simp only [List.nil_append, packetImage]
  rw [missing_base_core fourCubes _ _ freshReceiver blankPacket
    (movedPacket DELTA_MODE_NOT_CHANGED) _ _
    (header_of_written DELTA_MODE_NOT_CHANGED (by decide) _) rfl (by decide) rfl]

/-- C4 (as amended). For every non-initial `DeltaSnapshotPacket` read while the receiver's
sequence buffer has no entry for `base_sequence` (`Find` returns none, `base_sequence`
being another sequence than the packet's own), the read stops on an assertion
(`CORE_ASSERT( entry )`, on the entry `Insert` or `Find` returned): nothing of the body
is consumed, no failure is reported through the stream, and the buffer keeps the insert of
the packet's sequence when that was accepted. -/
theorem read_without_base_asserts {Q : Nat} (K : Constants) (codec : IndexCodec)
    (crib : (Nat → Bool) → Int) (ctx : Context Q) (p0 p : DeltaSnapshotPacket)
    (stream st' : Stream)
    (hheader : (DeltaSnapshotPacket.serialize_header StreamMode.reading).run (stream, p0) =
      (Except.ok (), (st', p)))
    (hinitial : p.initial = false) (hne : p.base_sequence ≠ p.sequence)
    (hfind : ctx.sequence_buffer.Find p.base_sequence = none) :
    (DeltaSnapshotPacket.Serialize K codec crib StreamMode.reading ctx p0 stream).status =
      Except.error Failure.assertion ∧
    (DeltaSnapshotPacket.Serialize K codec crib StreamMode.reading ctx p0 stream).stream = st' ∧
    (DeltaSnapshotPacket.Serialize K codec crib StreamMode.reading ctx p0 stream).packet = p ∧
    (DeltaSnapshotPacket.Serialize K codec crib StreamMode.reading ctx p0
        stream).context.sequence_buffer =
      (ctx.sequence_buffer.Insert p.sequence).getD ctx.sequence_buffer := by
  rw [missing_base_core K codec crib ctx p0 p stream st' hheader hinitial hne hfind]
  exact ⟨rfl, rfl, rfl, rfl⟩

/-- Witness of C4 (as amended): the empty receiver and the header of the packet of
sequence 8 against base 7. -/
theorem read_without_base_asserts_witness :
    (DeltaSnapshotPacket.Serialize fourCubes (spec_index_codec fourCubes)
      (spec_count_relative_index_bits fourCubes) StreamMode.reading freshReceiver blankPacket
      ⟨headerImage (movedPacket DELTA_MODE_CHANGED_INDEX) ++ [], 0⟩).status =
      Except.error Failure.assertion :=
  (read_without_base_asserts fourCubes (spec_index_codec fourCubes)
    (spec_count_relative_index_bits fourCubes) freshReceiver blankPacket
    (movedPacket DELTA_MODE_CHANGED_INDEX) _ _
    (header_of_written DELTA_MODE_CHANGED_INDEX (by decide) [])
    rfl (by decide) rfl).1

set_option maxRecDepth 100000

theorem shifted_counts :
    countChanged (changedMask manyCubes shiftedSnapshot restSnapshot) 126 0 = 126 ∧
    spec_count_relative_index_bits manyCubes
      (changedMask manyCubes shiftedSnapshot restSnapshot) = 515 := by
  constructor <;> decide

theorem relative_position_decision_core {Q : Nat} (K : Constants) (codec : IndexCodec)
    (base : BaseRef Q) (S : Cubes Q) (bs : List Bool) (c : Nat)
    (hcodec : codec.Lawful K.NumCubes) :
    ∃ (W : List Bool) (r : Except Failure (Nat → Bool)) (mem' : Cubes Q),
      (serialize_relative_position K codec StreamMode.writing base).run (⟨bs, c⟩, S) =
        (r, (⟨bs ++ decide (countChanged (changedMask K S (base.get S)) K.NumCubes 0 < 126) ::
          W, c⟩, mem')) := by
  obtain ⟨W, r, mem', hw, _⟩ := sim_serialize_indexed_rest K codec base (126 + 1) true
    (serialize_cube_relative_position K StreamMode.writing base)
    (serialize_cube_relative_position K StreamMode.measuring base) hcodec
    (sim_cube_relative_position K base) (changedMask K S (base.get S))
    (countChanged (changedMask K S (base.get S)) K.NumCubes 0)
    (decide (countChanged (changedMask K S (base.get S)) K.NumCubes 0 < 126))
    (bs ++ [decide (countChanged (changedMask K S (base.get S)) K.NumCubes 0 < 126)]) [] c 0 S
  refine ⟨W, r, mem', ?_⟩
  simp only [serialize_relative_position, serialize_indexed, run_bind, run_getMem,
    StreamMode.IsWriting, if_true, compute_changed_mask, run_serialize_bool_writing, hw,
    List.append_assoc, List.singleton_append]

/-- C7. For every `DeltaSnapshotPacket` (any mode, snapshot and base) and every
`DeltaAckPacket`, running the packet's serialize routine in measure mode counts exactly
the number of bits the same routine emits in write mode for the same packet and context,
and both runs end alike (both succeed, or both stop on the same failure). The absent
`serialize_index_relative` is assumed to measure what it writes. -/
theorem measure_equals_written_bits {Q : Nat} (K : Constants) (codec : IndexCodec)
    (crib : (Nat → Bool) → Int) (ctx : Context Q) (p : DeltaSnapshotPacket)
    (ack : DeltaAckPacket) (hcodec : codec.Lawful K.NumCubes) :
    (DeltaSnapshotPacket.Serialize K codec crib StreamMode.measuring ctx p
        ⟨[], 0⟩).stream.measured =
      (DeltaSnapshotPacket.Serialize K codec crib StreamMode.writing ctx p
        ⟨[], 0⟩).stream.bits.length ∧
    (DeltaSnapshotPacket.Serialize K codec crib StreamMode.measuring ctx p ⟨[], 0⟩).status =
      (DeltaSnapshotPacket.Serialize K codec crib StreamMode.writing ctx p ⟨[], 0⟩).status ∧
    ((DeltaAckPacket.Serialize StreamMode.measuring).run (⟨[], 0⟩, ack)).2.1.measured =
      ((DeltaAckPacket.Serialize StreamMode.writing).run (⟨[], 0⟩, ack)).2.1.bits.length ∧
    ((DeltaAckPacket.Serialize StreamMode.measuring).run (⟨[], 0⟩, ack)).1 =
      ((DeltaAckPacket.Serialize StreamMode.writing).run (⟨[], 0⟩, ack)).1 := by
  obtain ⟨h1, h2, _⟩ := measure_core K codec crib ctx p hcodec
  obtain ⟨W, r, mem', hw, hm⟩ := sim_ack [] [] 0 0 ack
  refine ⟨h1, h2, ?_, ?_⟩
  · rw [hw, hm]
    simp
  · rw [hw, hm]

/-- Witness of C7: the packet of scenario S2 in mode `RELATIVE_POSITION` and an ack of
sequence 8. -/
theorem measure_equals_written_bits_witness :
    (DeltaSnapshotPacket.Serialize fourCubes (spec_index_codec fourCubes)
      (spec_count_relative_index_bits fourCubes) StreamMode.measuring exampleSender
      (movedPacket DELTA_MODE_RELATIVE_POSITION) ⟨[], 0⟩).stream.measured =
    (DeltaSnapshotPacket.Serialize fourCubes (spec_index_codec fourCubes)
      (spec_count_relative_index_bits fourCubes) StreamMode.writing exampleSender
      (movedPacket DELTA_MODE_RELATIVE_POSITION) ⟨[], 0⟩).stream.bits.length :=
  (measure_equals_written_bits fourCubes (spec_index_codec fourCubes)
    (spec_count_relative_index_bits fourCubes) exampleSender
    (movedPacket DELTA_MODE_RELATIVE_POSITION) { ack := 8 }
    (spec_index_codec_lawful fourCubes)).1

/-- C10, counterexample. With 126 cubes that all differ from the base, `num_changed` is
126 (so `<= 126`) and the estimate of `count_relative_index_bits` is 515 (so `< 900`): by
Mode 2's rule `use_indices` would be set, yet the `RELATIVE_POSITION` writer emits a clear
`use_indices` bit. -/
theorem relative_position_decision_counterexample :
    countChanged (changedMask manyCubes shiftedSnapshot restSnapshot) manyCubes.NumCubes 0 ≤
      126 ∧
    spec_count_relative_index_bits manyCubes
      (changedMask manyCubes shiftedSnapshot restSnapshot) < 900 ∧
    ∃ (W : List Bool) (r : Except Failure (Nat → Bool)) (mem' : Cubes 9),
      (serialize_relative_position manyCubes (spec_index_codec manyCubes) StreamMode.writing
        (BaseRef.snapshot restSnapshot)).run (⟨[], 0⟩, shiftedSnapshot) =
        (r, (⟨false :: W, 0⟩, mem')) := by
  obtain ⟨h1, h2⟩ := shifted_counts
  refine ⟨by rw [show manyCubes.NumCubes = 126 from rfl, h1], by rw [h2]; decide, ?_⟩
  obtain ⟨W, r, mem', h⟩ := relative_position_decision_core manyCubes
    (spec_index_codec manyCubes) (BaseRef.snapshot restSnapshot) shiftedSnapshot [] 0
    (spec_index_codec_lawful manyCubes)
  have hget : (BaseRef.snapshot restSnapshot).get shiftedSnapshot = restSnapshot := rfl
  rw [hget, show manyCubes.NumCubes = 126 from rfl, h1] at h
  exact ⟨W, r, mem', h⟩

/-- C10 (as amended). In `RELATIVE_POSITION` mode the writer's index-layer decision is
Mode 1's rule with `MaxIndex = 126`: for every snapshot and base, the `use_indices` bit it
writes first is set exactly when the number of changed cubes is `< 126`;
`count_relative_index_bits` is not consulted. The absent `serialize_index_relative` is
assumed to measure what it writes. -/
theorem relative_position_index_decision {Q : Nat} (K : Constants) (codec : IndexCodec)
    (base : BaseRef Q) (S : Cubes Q) (bs : List Bool) (c : Nat)
    (hcodec : codec.Lawful K.NumCubes) :
    ∃ (W : List Bool) (r : Except Failure (Nat → Bool)) (mem' : Cubes Q),
      (serialize_relative_position K codec StreamMode.writing base).run (⟨bs, c⟩, S) =
        (r, (⟨bs ++ decide (countChanged (changedMask K S (base.get S)) K.NumCubes 0 < 126) ::
          W, c⟩, mem')) :=
  relative_position_decision_core K codec base S bs c hcodec

/-- Witness of C10 (as amended): scenario S2, one changed cube, `use_indices` set. -/
theorem relative_position_index_decision_witness :
    ∃ (W : List Bool) (r : Except Failure (Nat → Bool)) (mem' : Cubes 9),
      (serialize_relative_position fourCubes (spec_index_codec fourCubes) StreamMode.writing
        (BaseRef.snapshot restSnapshot)).run (⟨[], 0⟩, movedSnapshot) =
        (r, (⟨[] ++ true :: W, 0⟩, mem')) :=
  relative_position_index_decision fourCubes (spec_index_codec fourCubes)
    (BaseRef.snapshot restSnapshot) movedSnapshot [] 0 (spec_index_codec_lawful fourCubes)


/-- C11. In `CHANGED_INDEX` mode, for every base and every snapshot within the position
bounds, the writer runs to its end (the assertion `num_written == num_changed` holds) and
the first bit it writes is `use_indices`, set exactly when the number `|C|` of changed
cubes is below 89. When it is set, `|C|` follows in 7 bits and then one `(index, cube)`
entry per element of the list of changed indices, in the order of that list; the list is
strictly ascending, has `|C|` elements, and holds exactly the indices `k < NumCubes` with
`snapshot[k] != base[k]`. -/
theorem changed_index_write_layout {Q : Nat} (K : Constants) (codec : IndexCodec)
    (base : BaseRef Q) (S : Cubes Q)
    (hin : ∀ k, k < K.NumCubes → InBounds K (S k)) (bs : List Bool) (c : Nat) :
    (∀ k, k ∈ changedIndices (changedMask K S (base.get S)) K.NumCubes 0 ↔
      k < K.NumCubes ∧ S k ≠ base.get S k) ∧
    List.Pairwise (fun a b => a < b)
      (changedIndices (changedMask K S (base.get S)) K.NumCubes 0) ∧
    ∃ tail : List Bool,
      (serialize_changed_index K codec StreamMode.writing base).run (⟨bs, c⟩, S) =
        (Except.ok (changedMask K S (base.get S)),
          (⟨bs ++ decide ((changedIndices (changedMask K S (base.get S))
              K.NumCubes 0).length < 89) :: tail, c⟩, S)) ∧
      ((changedIndices (changedMask K S (base.get S)) K.NumCubes 0).length < 89 →
        tail = toBits 7 (changedIndices (changedMask K S (base.get S)) K.NumCubes 0).length ++
          entriesImage K codec false (fun k => absoluteBits K (S k))
            (changedIndices (changedMask K S (base.get S)) K.NumCubes 0) true 0) := by
  refine ⟨fun k => ?_, changedIndices_ascending _ _ _, ?_⟩
  · rw [changedIndices_mem, ← changedMask_eq_true]
    constructor
    · rintro ⟨_, _, h⟩
      exact h
    · intro h
      exact ⟨Nat.zero_le _, by
        have := ((changedMask_eq_true K S _ k).1 h).1
        omega, h⟩
  · rw [changed_index_write_core K codec base S hin bs c, changedIndices_length]
    by_cases hlt : countChanged (changedMask K S (base.get S)) K.NumCubes 0 < 89
    · refine ⟨_, ?_, fun _ => rfl⟩
      simp only [indexedImage, hlt, decide_True, if_true, intBits, bits_required_changed_index,
        sub_zero, Int.toNat_ofNat, indicesImage_eq_entries]
    · refine ⟨changedBitsImage (changedMask K S (base.get S)) (fun k => absoluteBits K (S k))
        K.NumCubes 0, ?_, fun h => absurd h hlt⟩
      simp only [indexedImage, hlt, decide_False, Bool.false_eq_true, if_false]

/-- Witness of C11: the snapshot of scenario S2 against the cubes at rest; one changed
cube, index 2, sent as `use_indices = 1`, the count 1 in 7 bits, the index 2 in 2 bits
and the cube. -/
theorem changed_index_write_layout_witness :
    (∀ k, k < fourCubes.NumCubes → InBounds fourCubes (movedSnapshot k)) ∧
    (serialize_changed_index fourCubes (spec_index_codec fourCubes) StreamMode.writing
        (BaseRef.snapshot restSnapshot)).run (⟨[], 0⟩, movedSnapshot) =
      (Except.ok (changedMask fourCubes movedSnapshot restSnapshot),
        (⟨true :: (toBits 7 1 ++ (toBits 2 2 ++ absoluteBits fourCubes (movedSnapshot 2))), 0⟩,
          movedSnapshot)) := by
  have hin : ∀ k, k < fourCubes.NumCubes → InBounds fourCubes (movedSnapshot k) := by decide
  have hl : changedIndices (changedMask fourCubes movedSnapshot
      ((BaseRef.snapshot restSnapshot).get movedSnapshot)) fourCubes.NumCubes 0 = [2] := by
    decide
  obtain ⟨_, _, tail, hrun, htail⟩ := changed_index_write_layout fourCubes
    (spec_index_codec fourCubes) (BaseRef.snapshot restSnapshot) movedSnapshot hin [] 0
  rw [hl] at hrun htail
  rw [htail (by decide)] at hrun
  refine ⟨hin, ?_⟩
  rw [hrun]
  rfl


theorem changedBitsImage_none (enc : Nat → List Bool) (n i : Nat) :
    changedBitsImage (fun _ => false) enc n i = List.replicate n false := by
  induction n generalizing i with
  | zero => rfl
  | succ n ih =>
    simp only [changedBitsImage, Bool.false_eq_true, if_false, List.nil_append, ih,
      List.replicate_succ]

/-- C12. For every `NumCubes` and every base: writing, in mode `NOT_CHANGED`, a snapshot
whose cubes equal the base cubes produces exactly `NumCubes` bits, all 0 (no position is
written, so no bound is asked of the cubes), and reading these bits, whatever follows them
and whatever the output slot held, consumes exactly them and leaves every cube below
`NumCubes` equal to the base cube. -/
theorem not_changed_identity {Q : Nat} (K : Constants) (base : BaseRef Q) (S : Cubes Q)
    (hS : ∀ k, k < K.NumCubes → S k = base.get S k) (bs rest : List Bool) (c : Nat)
    (mem : Cubes Q) :
    (serialize_not_changed K StreamMode.writing base).run (⟨bs, c⟩, S) =
      (Except.ok (fun _ => false), (⟨bs ++ List.replicate K.NumCubes false, c⟩, S)) ∧
    ∃ out : Cubes Q,
      (serialize_not_changed K StreamMode.reading base).run
          (⟨List.replicate K.NumCubes false ++ rest, c⟩, mem) =
        (Except.ok (fun _ => false), (⟨rest, c⟩, out)) ∧
      ∀ k, k < K.NumCubes → out k = base.get mem k := by
  constructor
  · unfold serialize_not_changed
    rw [run_not_changed_loop_writing K base (fun _ => false) S K.NumCubes 0 (fun _ => false) bs c
      (fun k _ hk => by
        have := hS k (by omega)
        simp [← this])
      (fun k _ _ h => absurd h (by simp)),
      changedBitsImage_none]
    simp
  · refine ⟨fun k => if 0 ≤ k ∧ k < 0 + K.NumCubes then base.get mem k else mem k, ?_, ?_⟩
    · unfold serialize_not_changed
      rw [run_not_changed_loop_reading_eq,
        ← changedBitsImage_none (fun _ => ([] : List Bool)) K.NumCubes 0,
        run_changed_bits_loop_reading base (serialize_cube_absolute K StreamMode.reading)
          (fun _ => []) (fun k => base.get mem k) (fun k => base.get mem k) (fun _ => false)
          (fun k rest c mem h _ => absurd h (by simp)) K.NumCubes 0 rest c mem (fun _ => false)
          (fun k _ _ => rfl)]
      simp
    · intro k hk
      simp [hk]

/-- Witness of C12, scenario S1: a single cube at rest against itself; the body is the
single bit 0. -/
theorem not_changed_identity_witness :
    (∀ k, k < oneCube.NumCubes →
      restSnapshot k = (BaseRef.snapshot restSnapshot).get restSnapshot k) ∧
    (serialize_not_changed oneCube StreamMode.writing (BaseRef.snapshot restSnapshot)).run
        (⟨[], 0⟩, restSnapshot) =
      (Except.ok (fun _ => false), (⟨[false], 0⟩, restSnapshot)) ∧
    ∃ out : Cubes 9,
      (serialize_not_changed oneCube StreamMode.reading (BaseRef.snapshot restSnapshot)).run
          (⟨[false], 0⟩, movedSnapshot) =
        (Except.ok (fun _ => false), (⟨[], 0⟩, out)) ∧
      ∀ k, k < oneCube.NumCubes → out k = restSnapshot k := by
  have hS : ∀ k, k < oneCube.NumCubes →
      restSnapshot k = (BaseRef.snapshot restSnapshot).get restSnapshot k := fun _ _ => rfl
  exact ⟨hS, not_changed_identity oneCube (BaseRef.snapshot restSnapshot) restSnapshot hS [] []
    0 movedSnapshot⟩


theorem relative_position_single_core {Q : Nat} (K : Constants) (codec : IndexCodec)
    (B S : Cubes Q) (i : Nat) (hi : i < K.NumCubes)
    (hdiff : ∀ k, k < K.NumCubes → (S k ≠ B k ↔ k = i))
    (hx : |(S i).position_x - (B i).position_x| ≤ 1023)
    (hy : |(S i).position_y - (B i).position_y| ≤ 1023)
    (hz : |(S i).position_z - (B i).position_z| ≤ 1023)
    (bs rest : List Bool) (c : Nat) (mem : Cubes Q) :
    (serialize_relative_position K codec StreamMode.writing (BaseRef.snapshot B)).run
        (⟨bs, c⟩, S) =
      (Except.ok (changedMask K S B),
        (⟨bs ++ singleRelativeImage K (S i) (B i) i, c⟩, S)) ∧
    ∃ out : Cubes Q,
      (serialize_relative_position K codec StreamMode.reading (BaseRef.snapshot B)).run
          (⟨singleRelativeImage K (S i) (B i) i ++ rest, c⟩, mem) =
        (Except.ok (changedMask K S B), (⟨rest, c⟩, out)) ∧
      ∀ k, k < K.NumCubes → out k = S k := by
  have hrel : useRelative (S i) (B i) = true := by
    simp [useRelative, RelativePositionBound, hx, hy, hz]
  have hmask : ∀ k, changedMask K S B k = true → k = i := by
    intro k hk
    rw [changedMask_single K B S i hi hdiff] at hk
    exact of_decide_eq_true hk
  have hcount : countChanged (changedMask K S B) K.NumCubes 0 = 1 := by
    rw [← changedIndices_length, changedMask_single K B S i hi hdiff, changedIndices_single]
    have : 0 ≤ i ∧ i < 0 + K.NumCubes := by omega
    simp only [this, and_self, if_true, List.length_singleton]
  constructor
  · unfold serialize_relative_position
    rw [serialize_indexed_writing_single K codec (spec_index_codec K) (BaseRef.snapshot B) _ _ _
      S i hmask,
      run_serialize_indexed_writing K (spec_index_codec K) (BaseRef.snapshot B)
        (fun _ num_changed => decide (num_changed < 126)) (126 + 1) true
        (serialize_cube_relative_position K StreamMode.writing (BaseRef.snapshot B))
        (fun k => relativeBits K (S k) (B k)) S (spec_index_codec_lawful K)
        (fun k bs c hk => by
          have hki := hmask k hk
          subst hki
          exact run_cube_relative_position_writing K (BaseRef.snapshot B) k bs c S
            (fun h => absurd hrel (by rw [show (BaseRef.snapshot B).get S k = B k from rfl] at h
                                      rw [h]
                                      simp)))
        (fun _ => by
          rw [show (BaseRef.snapshot B).get S = B from rfl, hcount]
          decide) bs c]
    rw [show (BaseRef.snapshot B).get S = B from rfl,
      single_image_eq K (spec_index_codec K) B S i hi hdiff hrel]
  · have himg : singleRelativeImage K (S i) (B i) i ++ rest =
        true :: (intBits 0 (126 + 1) 1 ++
          (toBits (Nat.clog 2 K.NumCubes) i ++
            ((S i).interacting :: true ::
              (toBits 11 ((S i).position_x - (B i).position_x + 1023).toNat ++
                (toBits 11 ((S i).position_y - (B i).position_y + 1023).toNat ++
                  (toBits 11 ((S i).position_z - (B i).position_z + 1023).toNat ++
                    quatBits (S i).orientation)))) ++ rest)) := by
      have h7 : intBits 0 (126 + 1) 1 = toBits 7 1 := by decide
      simp only [singleRelativeImage, h7, List.cons_append, List.append_assoc]
    refine ⟨fun k => if k < K.NumCubes then
        (if changedMask K S B k then decodedRelative (S k) (B k) else B k) else mem k, ?_, ?_⟩
    · unfold serialize_relative_position
      have hswitch := serialize_indexed_reading_single K codec (spec_index_codec K)
        (BaseRef.snapshot B) (fun _ num_changed => decide (num_changed < 126)) (126 + 1)
        (by decide)
        (serialize_cube_relative_position K StreamMode.reading (BaseRef.snapshot B))
        (toBits (Nat.clog 2 K.NumCubes) i ++
            ((S i).interacting :: true ::
              (toBits 11 ((S i).position_x - (B i).position_x + 1023).toNat ++
                (toBits 11 ((S i).position_y - (B i).position_y + 1023).toNat ++
                  (toBits 11 ((S i).position_z - (B i).position_z + 1023).toNat ++
                    quatBits (S i).orientation)))) ++ rest) c mem
      rw [← himg] at hswitch
      rw [hswitch, ← single_image_eq K (spec_index_codec K) B S i hi hdiff hrel]
      exact run_serialize_indexed_reading K (spec_index_codec K) (BaseRef.snapshot B)
        (fun _ num_changed => decide (num_changed < 126)) (126 + 1) true
        (serialize_cube_relative_position K StreamMode.reading (BaseRef.snapshot B))
        (fun k => relativeBits K (S k) (B k)) (fun k => decodedRelative (S k) (B k)) B
        (changedMask K S B) (decide (countChanged (changedMask K S B) K.NumCubes 0 < 126))
        (spec_index_codec_lawful K)
        (fun k rest c mem hk _ => by
          have hki := hmask k hk
          subst hki
          exact run_cube_relative_position_reading K (BaseRef.snapshot B) k (S k) (B k)
            (fun h => absurd hrel (by rw [h]; simp)) rest c mem rfl)
        (fun _ => by
          rw [hcount]
          decide)
        (fun k hk => changedMask_of_ge K S B k hk) rest c mem (fun _ _ => rfl)
    · intro k hk
      simp only [hk, if_true]
      by_cases hki : k = i
      · subst hki
        have : changedMask K S B k = true := by
          rw [changedMask_single K B S k hi hdiff]
          simp
        simp only [this, if_true, decodedRelative, hrel]
      · have : changedMask K S B k = false := by
          rw [changedMask_single K B S i hi hdiff]
          simp [hki]
        simp only [this, Bool.false_eq_true, if_false]
        by_contra hne
        exact hki ((hdiff k hk).1 (fun h => hne h.symm))


/-- C13. In mode `RELATIVE_POSITION`, for every snapshot that differs from the base at
exactly one index `i` with the three position offsets within `±1023`, the writer emits,
in order: `use_indices = 1`, `num_changed = 1` in 7 bits, the absolute index `i` in
`⌈log₂ NumCubes⌉` bits, the `interacting` bit, `use_relative = 1`, the three offsets in
11 bits each (shifted by 1023) and the orientation; and reading these bits against the
same base, whatever follows them and whatever the output slot held, consumes exactly them
and returns the input snapshot. -/
theorem relative_position_single_cube {Q : Nat} (K : Constants) (codec : IndexCodec)
    (B S : Cubes Q) (i : Nat) (hi : i < K.NumCubes)
    (hdiff : ∀ k, k < K.NumCubes → (S k ≠ B k ↔ k = i))
    (hx : |(S i).position_x - (B i).position_x| ≤ 1023)
    (hy : |(S i).position_y - (B i).position_y| ≤ 1023)
    (hz : |(S i).position_z - (B i).position_z| ≤ 1023)
    (bs rest : List Bool) (c : Nat) (mem : Cubes Q) :
    (serialize_relative_position K codec StreamMode.writing (BaseRef.snapshot B)).run
        (⟨bs, c⟩, S) =
      (Except.ok (changedMask K S B),
        (⟨bs ++ singleRelativeImage K (S i) (B i) i, c⟩, S)) ∧
    ∃ out : Cubes Q,
      (serialize_relative_position K codec StreamMode.reading (BaseRef.snapshot B)).run
          (⟨singleRelativeImage K (S i) (B i) i ++ rest, c⟩, mem) =
        (Except.ok (changedMask K S B), (⟨rest, c⟩, out)) ∧
      ∀ k, k < K.NumCubes → out k = S k :=
  relative_position_single_core K codec B S i hi hdiff hx hy hz bs rest c mem

/-- Witness of C13, scenario S2: four cubes at rest, cube 2 moved by `(+5, -3, +1)`; the
index takes 2 bits and the offsets go out as `1028`, `1020` and `1024`. -/
theorem relative_position_single_cube_witness :
    (2 < fourCubes.NumCubes ∧
      (∀ k, k < fourCubes.NumCubes → (movedSnapshot k ≠ restSnapshot k ↔ k = 2)) ∧
      |(movedSnapshot 2).position_x - (restSnapshot 2).position_x| ≤ 1023 ∧
      |(movedSnapshot 2).position_y - (restSnapshot 2).position_y| ≤ 1023 ∧
      |(movedSnapshot 2).position_z - (restSnapshot 2).position_z| ≤ 1023) ∧
    singleRelativeImage fourCubes (movedSnapshot 2) (restSnapshot 2) 2 =
      true :: (toBits 7 1 ++ (toBits 2 2 ++ (false :: true ::
        (toBits 11 1028 ++ (toBits 11 1020 ++ (toBits 11 1024 ++
          quatBits restCube.orientation)))))) ∧
    (serialize_relative_position fourCubes (spec_index_codec fourCubes) StreamMode.writing
        (BaseRef.snapshot restSnapshot)).run (⟨[], 0⟩, movedSnapshot) =
      (Except.ok (changedMask fourCubes movedSnapshot restSnapshot),
        (⟨[] ++ singleRelativeImage fourCubes (movedSnapshot 2) (restSnapshot 2) 2, 0⟩,
          movedSnapshot)) ∧
    ∃ out : Cubes 9,
      (serialize_relative_position fourCubes (spec_index_codec fourCubes) StreamMode.reading
          (BaseRef.snapshot restSnapshot)).run
          (⟨singleRelativeImage fourCubes (movedSnapshot 2) (restSnapshot 2) 2 ++ [], 0⟩,
            restSnapshot) =
        (Except.ok (changedMask fourCubes movedSnapshot restSnapshot), (⟨[], 0⟩, out)) ∧
      ∀ k, k < fourCubes.NumCubes → out k = movedSnapshot k := by
  have hi : 2 < fourCubes.NumCubes := by decide
  have hdiff : ∀ k, k < fourCubes.NumCubes → (movedSnapshot k ≠ restSnapshot k ↔ k = 2) := by
    decide
  have hx : |(movedSnapshot 2).position_x - (restSnapshot 2).position_x| ≤ 1023 := by decide
  have hy : |(movedSnapshot 2).position_y - (restSnapshot 2).position_y| ≤ 1023 := by decide
  have hz : |(movedSnapshot 2).position_z - (restSnapshot 2).position_z| ≤ 1023 := by decide
  have hclog : Nat.clog 2 fourCubes.NumCubes = 2 := by
    rw [← bits_required_index fourCubes.NumCubes (by decide)]
    decide
  refine ⟨⟨hi, hdiff, hx, hy, hz⟩, ?_,
    relative_position_single_cube fourCubes (spec_index_codec fourCubes) restSnapshot
      movedSnapshot 2 hi hdiff hx hy hz [] [] 0 restSnapshot⟩
  unfold singleRelativeImage
  rw [hclog]
  rfl


/-- C14. `NumCubes` is a compile-time constant of a header that is not among the sources;
the thresholds of the source, `MaxIndex = 89` (line 568) and `900` bits (line 700), are
those of a program of about 900 cubes, and the claim is stated for `NumCubes ≥ 888`, the
least number of cubes from which `8 + 88 * bits_required( 0, NumCubes - 1 ) ≤ NumCubes`.
For every base and every snapshot within the position bounds for which `CHANGED_INDEX`
takes its `use_indices` branch (fewer than 89 changed cubes), the `NOT_CHANGED` body has
at least as many bits as the `CHANGED_INDEX` body; the two hold the same cubes, the
`CHANGED_INDEX` body with `8 + |C| * bits_required( 0, NumCubes - 1 )` bits around them
where the `NOT_CHANGED` body has `NumCubes` bits. -/
theorem changed_index_cost {Q : Nat} (K : Constants) (codec : IndexCodec) (base : BaseRef Q)
    (S : Cubes Q) (hN : 888 ≤ K.NumCubes)
    (hin : ∀ k, k < K.NumCubes → InBounds K (S k))
    (hlt : countChanged (changedMask K S (base.get S)) K.NumCubes 0 < 89) :
    ((serialize_changed_index K codec StreamMode.writing base).run
        (⟨[], 0⟩, S)).2.1.bits.length ≤
      ((serialize_not_changed K StreamMode.writing base).run (⟨[], 0⟩, S)).2.1.bits.length ∧
    ((serialize_changed_index K codec StreamMode.writing base).run
        (⟨[], 0⟩, S)).2.1.bits.length + K.NumCubes =
      ((serialize_not_changed K StreamMode.writing base).run (⟨[], 0⟩, S)).2.1.bits.length +
        (8 + countChanged (changedMask K S (base.get S)) K.NumCubes 0 *
          bits_required 0 ((K.NumCubes : Int) - 1)) :=
  ⟨changed_index_order_core K codec base S hN hin hlt,
    changed_index_cost_core K codec base S hin hlt⟩

/-- Witness of C14: 901 cubes at rest, cube 2 moved; one changed cube, and the
`CHANGED_INDEX` body is `901 - (8 + 1 * 10)` bits shorter than the `NOT_CHANGED` body. -/
theorem changed_index_cost_witness :
    888 ≤ demoCubes.NumCubes ∧
    movedSnapshot ≠ restSnapshot ∧
    countChanged (changedMask demoCubes movedSnapshot
      ((BaseRef.snapshot restSnapshot).get movedSnapshot)) demoCubes.NumCubes 0 = 1 ∧
    ((serialize_changed_index demoCubes (spec_index_codec demoCubes) StreamMode.writing
        (BaseRef.snapshot restSnapshot)).run (⟨[], 0⟩, movedSnapshot)).2.1.bits.length ≤
      ((serialize_not_changed demoCubes StreamMode.writing (BaseRef.snapshot restSnapshot)).run
        (⟨[], 0⟩, movedSnapshot)).2.1.bits.length ∧
    ((serialize_changed_index demoCubes (spec_index_codec demoCubes) StreamMode.writing
        (BaseRef.snapshot restSnapshot)).run (⟨[], 0⟩, movedSnapshot)).2.1.bits.length +
        901 =
      ((serialize_not_changed demoCubes StreamMode.writing (BaseRef.snapshot restSnapshot)).run
        (⟨[], 0⟩, movedSnapshot)).2.1.bits.length + (8 + 1 * 10) := by
  have hin : ∀ k, k < demoCubes.NumCubes → InBounds demoCubes (movedSnapshot k) := by
    intro k _
    unfold movedSnapshot
    split <;> decide
  have hdiff : ∀ k, k < demoCubes.NumCubes → (movedSnapshot k ≠ restSnapshot k ↔ k = 2) := by
    intro k _
    unfold movedSnapshot restSnapshot
    by_cases hk : k = 2
    · simp only [hk, if_true, iff_true]
      decide
    · simp only [hk, if_false, iff_false, ne_eq, not_true_eq_false, not_false_eq_true]
  have hc : countChanged (changedMask demoCubes movedSnapshot
      ((BaseRef.snapshot restSnapshot).get movedSnapshot)) demoCubes.NumCubes 0 = 1 :=
    countChanged_single demoCubes restSnapshot movedSnapshot 2 (by decide) hdiff
  have hb : bits_required 0 ((demoCubes.NumCubes : Int) - 1) = 10 := by
    rw [bits_required_index demoCubes.NumCubes (by decide)]
    apply le_antisymm
    · exact (Nat.le_pow_iff_clog_le (by decide)).1 (by decide)
    · by_contra hlt
      have h9 : Nat.clog 2 demoCubes.NumCubes ≤ 9 := by omega
      exact absurd ((Nat.le_pow_iff_clog_le (by decide)).2 h9) (by decide)
  have h := changed_index_cost demoCubes (spec_index_codec demoCubes)
    (BaseRef.snapshot restSnapshot) movedSnapshot (by decide) hin (by rw [hc]; decide)
  rw [hc, hb, show demoCubes.NumCubes = 901 from rfl] at h
  exact ⟨by decide, fun heq => absurd (congrFun heq 2) (by decide), hc, h⟩


/-- C16. In every run of `Update` from `Reset`: `received_ack` is false after `Reset`;
after any number of frames it is true exactly when one of them handed an ack packet (type
`DELTA_ACK_PACKET`, port `LeftPort`) to the receive loop, and one more `Update` leaves it
true if it was true or if this frame hands over an ack packet, so no frame brings it back
to false. The snapshot packet an `Update` builds has `initial = !received_ack` as it
stood before the frame: `initial = true` when no earlier frame handed over an ack packet,
`initial = false` otherwise. -/
theorem received_ack_latches {Q : Nat} (d0 d1 d2 : DeltaInternal Q)
    (pre : List (UpdateInput Q)) ( input : UpdateInput Q) (out1 : List (List Sent))
    (sent : List Sent)
    (hrun : runUpdates d0.Reset pre = Except.ok (d1, out1))
    (hstep : Update d1 input = Except.ok (d2, sent)) :
    d0.Reset.received_ack = false ∧
    d1.received_ack = pre.any UpdateInput.hasAck ∧
    d2.received_ack = (pre.any UpdateInput.hasAck || input.hasAck) ∧
    (build_snapshot_packet d1 input.mode).initial = !(pre.any UpdateInput.hasAck) ∧
    ∀ p, { port := RightPort, packet := Packet.snapshot p } ∈ sent →
      p.initial = !(pre.any UpdateInput.hasAck) := by
  obtain ⟨r1, _⟩ := runUpdates_fields pre _ _ _ hrun
  obtain ⟨u1, _, u3⟩ := Update_fields d1 d2 input sent hstep
  have h1 : d1.received_ack = pre.any UpdateInput.hasAck := by
    rw [r1]
    rfl
  refine ⟨rfl, h1, by rw [u1, h1], by rw [← h1]; rfl, fun p hp => ?_⟩
  rw [u3 p hp, ← h1]
  rfl

/-- Witness of C16: a snapshot is sent, an ack packet arrives, a snapshot is sent; the
packet of the third frame has `initial = false`. -/
theorem received_ack_latches_witness :
    ∃ (d1 d2 : DeltaInternal 9) (out1 : List (List Sent)) (sent : List Sent),
      runUpdates exampleSession.Reset [sendFrame, ackFrame 0] = Except.ok (d1, out1) ∧
      Update d1 sendFrame = Except.ok (d2, sent) ∧
      d1.received_ack = true ∧ d2.received_ack = true ∧
      ∀ p, { port := RightPort, packet := Packet.snapshot p } ∈ sent → p.initial = false := by
  refine ⟨_, _, _, _, rfl, rfl, ?_⟩
  have h := received_ack_latches exampleSession _ _ [sendFrame, ackFrame 0] sendFrame _ _ rfl rfl
  exact ⟨h.2.1, h.2.2.1, h.2.2.2.2⟩

/-- C20. In every run of `Update` from `Reset`, before every send the session counter
`send_sequence` equals the window's next sequence; so the `sequence` field of the
snapshot packet an `Update` builds is the sequence the window's `Insert` allocates in the
same `Update`, and the two are equal again after the send, whether the sampling
succeeded and the packet was sent or failed and the packet was destroyed. -/
theorem packet_sequence_is_inserted_sequence {Q : Nat} (d0 d1 : DeltaInternal Q)
    (pre : List (UpdateInput Q)) (out1 : List (List Sent))
    (hrun : runUpdates d0.Reset pre = Except.ok (d1, out1)) (mode : Int)
    (sample : Option (Cubes Q)) :
    d1.send_sequence = d1.quantized_snapshot_sliding_window.sequence ∧
    (build_snapshot_packet d1 mode).sequence = d1.quantized_snapshot_sliding_window.Insert.1 ∧
    (send_snapshot d1 mode sample).1.send_sequence =
      (send_snapshot d1 mode sample).1.quantized_snapshot_sliding_window.sequence ∧
    ∀ ( input : UpdateInput Q) (d2 : DeltaInternal Q) (sent : List Sent),
      Update d1 input = Except.ok (d2, sent) →
      ∀ p, { port := RightPort, packet := Packet.snapshot p } ∈ sent →
        p.sequence = d1.quantized_snapshot_sliding_window.Insert.1 := by
  obtain ⟨_, r2⟩ := runUpdates_fields pre _ _ _ hrun
  have h1 : d1.send_sequence = d1.quantized_snapshot_sliding_window.sequence := r2 rfl
  obtain ⟨s1, s2, _⟩ := send_snapshot_fields d1 mode sample
  refine ⟨h1, h1, by rw [s1, s2, h1], fun input d2 sent hstep p hp => ?_⟩
  rw [(Update_fields d1 d2 input sent hstep).2.2 p hp]
  exact h1

/-- Witness of C20: a send, a send whose sampling fails, a send; the next packet gets the
sequence 3, the window's next sequence. -/
theorem packet_sequence_is_inserted_sequence_witness :
    ∃ (d1 : DeltaInternal 9) (out1 : List (List Sent)),
      runUpdates exampleSession.Reset [sendFrame, failedFrame, sendFrame] =
        Except.ok (d1, out1) ∧
      d1.quantized_snapshot_sliding_window.Insert.1 = 3 ∧
      (build_snapshot_packet d1 DELTA_MODE_NOT_CHANGED).sequence =
        d1.quantized_snapshot_sliding_window.Insert.1 := by
  refine ⟨_, _, rfl, rfl, ?_⟩
  exact (packet_sequence_is_inserted_sequence exampleSession _
    [sendFrame, failedFrame, sendFrame] _ rfl DELTA_MODE_NOT_CHANGED none).2.1


/-- C17, counterexample. From `Reset` the sender sends ten snapshots, so its window has
inserted the sequences 0 to 9, and then processes the ack packet naming sequence 7: the
next packet it builds has `initial = false` and `base_sequence = 7`, not 8. -/
theorem base_sequence_after_ack_counterexample :
    ∃ (d : DeltaInternal 9) (out : List (List Sent)),
      runUpdates exampleSession.Reset (List.replicate 10 sendFrame ++ [ackFrame 7]) =
        Except.ok (d, out) ∧
      d.quantized_snapshot_sliding_window.sequence = 10 ∧
      (build_snapshot_packet d DELTA_MODE_RELATIVE_POSITION).initial = false ∧
      (build_snapshot_packet d DELTA_MODE_RELATIVE_POSITION).base_sequence = 7 ∧
      (build_snapshot_packet d DELTA_MODE_RELATIVE_POSITION).base_sequence ≠ 8 := by
  refine ⟨_, _, rfl, rfl, rfl, ?_, ?_⟩ <;> decide

/-- C17 (as amended). After any run of `Update` from `Reset` in which the sender has
processed no ack packet, and one more `Update` in which it processes the ack packet
naming the sequence `a`, the next snapshot packet it builds has `initial = false` and
`base_sequence = a`: `Ack` is given `a - 1` and the base is `GetAck() + 1`. With the
sequences 0 to 9 inserted and the ack for 7, `base_sequence = 7`. -/
theorem base_sequence_after_first_ack {Q : Nat} (d0 d1 d2 : DeltaInternal Q)
    (pre : List (UpdateInput Q)) (out1 : List (List Sent)) ( input : UpdateInput Q)
    (sent : List Sent) (x : Received Q) (a : Nat) (mode : Int)
    (hrun : runUpdates d0.Reset pre = Except.ok (d1, out1))
    (hpre : pre.any UpdateInput.hasAck = false) (ha : a < 65536)
    (hx : input.received = [x]) (hport : x.port = LeftPort)
    (hpkt : x.packet = Packet.ack { ack := a })
    (hstep : Update d1 input = Except.ok (d2, sent)) :
    (build_snapshot_packet d2 mode).initial = false ∧
    (build_snapshot_packet d2 mode).base_sequence = a :=
  first_ack_core d1 d2 input sent x a mode
    (by rw [runUpdates_no_ack pre _ _ _ hrun hpre]; rfl) ha hx hport hpkt hstep

/-- Witness of C17 (as amended): ten sends, then the ack packet naming sequence 7. -/
theorem base_sequence_after_first_ack_witness :
    ∃ (d1 d2 : DeltaInternal 9) (out1 : List (List Sent)) (sent : List Sent),
      runUpdates exampleSession.Reset (List.replicate 10 sendFrame) = Except.ok (d1, out1) ∧
      Update d1 (ackFrame 7) = Except.ok (d2, sent) ∧
      (build_snapshot_packet d2 DELTA_MODE_RELATIVE_POSITION).initial = false ∧
      (build_snapshot_packet d2 DELTA_MODE_RELATIVE_POSITION).base_sequence = 7 := by
  refine ⟨_, _, _, _, rfl, rfl, ?_⟩
  exact base_sequence_after_first_ack exampleSession _ _ (List.replicate 10 sendFrame) _
    (ackFrame 7) _ _ 7 DELTA_MODE_RELATIVE_POSITION rfl (by decide) (by decide) rfl rfl rfl rfl


theorem holdingBuffer_Find (sequence : Nat) :
    (holdingBuffer sequence).Find sequence = some restSnapshot := by
  simp [holdingBuffer, SequenceBuffer.Find]

/-- C19. On every frame in which `Find` returns the snapshot of each snapshot packet
handed to the receiver, `Update` runs to its end, and: when no snapshot packet was handed
to the receiver it sends no ack packet; when at least one was, it sends exactly one, to
`LeftPort`, whose `ack` is the sequence of one of them, and, whenever their sequences lie
within `2^15` consecutive sequence numbers (from any `w` on, wrapping), every other
sequence received in the frame is below it under `sequence_greater_than`, whatever the
order of arrival. -/
theorem one_ack_per_frame {Q : Nat} (d : DeltaInternal Q) ( input : UpdateInput Q)
    (hfound : ∀ x, x ∈ input.received → ∀ p, x.packet = Packet.snapshot p →
      x.port = RightPort → x.sequence_buffer.Find p.sequence ≠ none) :
    ∃ (d' : DeltaInternal Q) (sent : List Sent),
      Update d input = Except.ok (d', sent) ∧
      (snapshotSequences input.received = [] → sentAcks sent = []) ∧
      (snapshotSequences input.received ≠ [] →
        ∃ g, g ∈ snapshotSequences input.received ∧ sentAcks sent = [g] ∧
          { port := LeftPort, packet := Packet.ack { ack := g } } ∈ sent ∧
          ∀ w, w < 65536 →
            (∀ s, s ∈ snapshotSequences input.received →
              s < 65536 ∧ (s + 65536 - w) % 65536 < 32768) →
            ∀ s, s ∈ snapshotSequences input.received →
              s = g ∨ sequence_greater_than g s = true) := by
  obtain ⟨d', hloop⟩ := receive_loop_ok input.received
    (if input.send_due then send_snapshot d input.mode input.sample else (d, [])).1 false 0 hfound
  have hsend : sentAcks (if input.send_due then send_snapshot d input.mode input.sample
      else (d, [])).2 = [] := by
    cases input.send_due with
    | true => exact send_snapshot_no_acks d input.mode input.sample
    | false => rfl
  obtain ⟨f1, f2⟩ := ackFold_fst (snapshotSequences input.received) false 0
  refine ⟨d', _, by unfold Update; simp only []; rw [hloop], ?_, ?_⟩
  · intro hnil
    rw [sentAcks_append, hsend, hnil]
    rfl
  · intro hne
    have h1 : (ackFold (snapshotSequences input.received) false 0).1 = true := by
      rw [f1]
      cases hs : snapshotSequences input.received with
      | nil => exact absurd hs hne
      | cons a rest => rfl
    have hmem : (ackFold (snapshotSequences input.received) false 0).2 ∈
        snapshotSequences input.received := by
      rcases f2 with h | h
      · exact h
      · rw [h] at h1
        exact absurd h1 (by simp)
    refine ⟨_, hmem, ?_, ?_, ?_⟩
    · rw [sentAcks_append, hsend, h1]
      rfl
    · rw [h1]
      simp
    · intro w hw hwin s hs
      obtain ⟨g1, _⟩ := ackFold_greatest w hw (snapshotSequences input.received) false 0 hwin
        (fun h => absurd h (by simp))
      have hle := g1 s hs
      obtain ⟨s1, s2⟩ := hwin s hs
      obtain ⟨e1, e2⟩ := hwin _ hmem
      by_cases heq : (s + 65536 - w) % 65536 =
          ((ackFold (snapshotSequences input.received) false 0).2 + 65536 - w) % 65536
      · left
        omega
      · right
        exact (sequence_greater_than_iff w _ s hw e1 s1 e2 s2).2 (by omega)

/-- Witness of C19: the snapshot packets 5, 7 and 6 arrive in one frame. -/
theorem one_ack_per_frame_witness :
    (∀ x, x ∈ arrivalFrame.received → ∀ p, x.packet = Packet.snapshot p →
      x.port = RightPort → x.sequence_buffer.Find p.sequence ≠ none) ∧
    snapshotSequences arrivalFrame.received = [5, 7, 6] ∧
    ∃ (d' : DeltaInternal 9) (sent : List Sent),
      Update exampleSession arrivalFrame = Except.ok (d', sent) ∧
      sent = [{ port := LeftPort, packet := Packet.ack { ack := 7 } }] ∧
      (snapshotSequences arrivalFrame.received ≠ [] →
        ∃ g, g ∈ snapshotSequences arrivalFrame.received ∧ sentAcks sent = [g] ∧
          { port := LeftPort, packet := Packet.ack { ack := g } } ∈ sent ∧
          ∀ w, w < 65536 →
            (∀ s, s ∈ snapshotSequences arrivalFrame.received →
              s < 65536 ∧ (s + 65536 - w) % 65536 < 32768) →
            ∀ s, s ∈ snapshotSequences arrivalFrame.received →
              s = g ∨ sequence_greater_than g s = true) := by
  have hfound : ∀ x, x ∈ arrivalFrame.received → ∀ p, x.packet = Packet.snapshot p →
      x.port = RightPort → x.sequence_buffer.Find p.sequence ≠ none := by
    intro x hx p hp _
    simp only [arrivalFrame, List.mem_cons, List.mem_singleton, List.not_mem_nil,
      or_false] at hx
    rcases hx with h | h | h <;> subst h <;>
      simp only [snapshotArrival, Packet.snapshot.injEq] at hp <;> subst hp <;>
      simp [snapshotArrival, holdingBuffer_Find]
  obtain ⟨d', sent, hU, _, h2⟩ := one_ack_per_frame exampleSession arrivalFrame hfound
  have hU' : Update exampleSession arrivalFrame =
      Except.ok (_, [{ port := LeftPort, packet := Packet.ack { ack := 7 } }]) := rfl
  have hs : sent = [{ port := LeftPort, packet := Packet.ack { ack := 7 } }] := by
    have h := hU.symm.trans hU'
    simp only [Except.ok.injEq, Prod.mk.injEq] at h
    exact h.2
  exact ⟨hfound, rfl, d', sent, hU, hs, h2⟩


/-- C28. For every `ConnectPacket` with `a`, `b`, `c` in `[-10, 10]`, every `UpdatePacket`
with a 16-bit `timestamp` and every `DisconnectPacket` with `x` in `[-100, 100]`, bounds
included: writing the packet with its `Serialize` succeeds, and reading the bits written
into the packet the factory makes, with the `Serialize` of the same type, succeeds,
consumes all the bits and yields a packet equal under `operator==`. -/
theorem test_packets_round_trip (connect : ConnectPacket) (update : UpdatePacket)
    (disconnect : DisconnectPacket)
    (ha : -10 ≤ connect.a ∧ connect.a ≤ 10) (hb : -10 ≤ connect.b ∧ connect.b ≤ 10)
    (hc : -10 ≤ connect.c ∧ connect.c ≤ 10) (ht : update.timestamp < 65536)
    (hx : -100 ≤ disconnect.x ∧ disconnect.x ≤ 100) :
    (∃ (bits : List Bool) (q : ConnectPacket),
      (ConnectPacket.Serialize StreamMode.writing).run (⟨[], 0⟩, connect) =
        (Except.ok (), (⟨bits, 0⟩, connect)) ∧
      (ConnectPacket.Serialize StreamMode.reading).run (⟨bits, 0⟩, ConnectPacket.fresh) =
        (Except.ok (), (⟨[], 0⟩, q)) ∧
      q.equals connect = true) ∧
    (∃ (bits : List Bool) (q : UpdatePacket),
      (UpdatePacket.Serialize StreamMode.writing).run (⟨[], 0⟩, update) =
        (Except.ok (), (⟨bits, 0⟩, update)) ∧
      (UpdatePacket.Serialize StreamMode.reading).run (⟨bits, 0⟩, UpdatePacket.fresh) =
        (Except.ok (), (⟨[], 0⟩, q)) ∧
      q.equals update = true) ∧
    (∃ (bits : List Bool) (q : DisconnectPacket),
      (DisconnectPacket.Serialize StreamMode.writing).run (⟨[], 0⟩, disconnect) =
        (Except.ok (), (⟨bits, 0⟩, disconnect)) ∧
      (DisconnectPacket.Serialize StreamMode.reading).run (⟨bits, 0⟩, DisconnectPacket.fresh) =
        (Except.ok (), (⟨[], 0⟩, q)) ∧
      q.equals disconnect = true) := by
  refine ⟨⟨_, connect, run_connect_writing connect ha hb hc [] 0, ?_, ?_⟩,
    ⟨_, update, run_update_writing update [] 0, ?_, ?_⟩,
    ⟨_, disconnect, run_disconnect_writing disconnect hx [] 0, ?_, ?_⟩⟩
  · have h := run_connect_reading connect ConnectPacket.fresh ha hb hc [] 0
    rw [List.append_nil] at h
    rw [List.nil_append]
    exact h
  · simp [ConnectPacket.equals]
  · have h := run_update_reading update UpdatePacket.fresh ht [] 0
    rw [List.append_nil] at h
    rw [List.nil_append]
    exact h
  · simp [UpdatePacket.equals]
  · have h := run_disconnect_reading disconnect DisconnectPacket.fresh hx [] 0
    rw [List.append_nil] at h
    rw [List.nil_append]
    exact h
  · simp [DisconnectPacket.equals]

/-- Witness of C28: the packets of the test, `a = 2, b = 6, c = -1`, `timestamp = 500`
and `x = -100`. -/
theorem test_packets_round_trip_witness :
    ∃ (bits : List Bool) (q : DisconnectPacket),
      (DisconnectPacket.Serialize StreamMode.writing).run
          (⟨[], 0⟩, ({ x := -100 } : DisconnectPacket)) =
        (Except.ok (), (⟨bits, 0⟩, { x := -100 })) ∧
      (DisconnectPacket.Serialize StreamMode.reading).run (⟨bits, 0⟩, DisconnectPacket.fresh) =
        (Except.ok (), (⟨[], 0⟩, q)) ∧
      q.equals { x := -100 } = true :=
  (test_packets_round_trip { a := 2, b := 6, c := -1 } { timestamp := 500 } { x := -100 }
    (by decide) (by decide) (by decide) (by decide) (by decide)).2.2

/-- C29. For every mode and every snapshot whose cubes lie within the quantized position
bounds, whatever the base, writing the `DeltaSnapshotPacket` runs to its end: no
`serialize_int` fails its range check (`delta_mode`, `num_changed`, the cube indices, the
relative offsets of the `use_relative` branch, the absolute positions) and the assertion
`num_written == num_changed` holds. The absent `serialize_index_relative` is assumed to
write every index above the previous one and below `NumCubes`. -/
theorem write_never_fails {Q : Nat} (K : Constants) (codec : IndexCodec)
    (crib : (Nat → Bool) → Int) (ctx : Context Q) (p : DeltaSnapshotPacket)
    (hmode : 0 ≤ p.delta_mode ∧ p.delta_mode < DELTA_NUM_MODES)
    (hcodec : codec.Lawful K.NumCubes)
    (hin : ∀ k, k < K.NumCubes → InBounds K (ctx.sliding_window.Get p.sequence k))
    (bs : List Bool) (c : Nat) :
    (DeltaSnapshotPacket.Serialize K codec crib StreamMode.writing ctx p ⟨bs, c⟩).status =
      Except.ok () ∧
    (DeltaSnapshotPacket.Serialize K codec crib StreamMode.writing ctx p ⟨bs, c⟩).status ≠
      Except.error Failure.range := by
  rw [Serialize_writing K codec crib ctx p hmode hcodec hin bs c]
  exact ⟨rfl, by simp⟩

/-- Witness of C29: the far cube of `farSnapshot`, sent with absolute positions in mode
`RELATIVE_POSITION`. -/
theorem write_never_fails_witness :
    (∀ k, k < fourCubes.NumCubes →
      InBounds fourCubes (exampleSender.sliding_window.Get 9 k)) ∧
    (DeltaSnapshotPacket.Serialize fourCubes (spec_index_codec fourCubes)
      (spec_count_relative_index_bits fourCubes) StreamMode.writing exampleSender
      (farPacket DELTA_MODE_RELATIVE_POSITION) ⟨[], 0⟩).status = Except.ok () := by
  have hin : ∀ k, k < fourCubes.NumCubes →
      InBounds fourCubes (exampleSender.sliding_window.Get 9 k) := by decide
  exact ⟨hin, (write_never_fails fourCubes (spec_index_codec fourCubes)
    (spec_count_relative_index_bits fourCubes) exampleSender
    (farPacket DELTA_MODE_RELATIVE_POSITION) (by decide) (spec_index_codec_lawful fourCubes)
    hin [] 0).1⟩

/-- C21. For every simulator state and clock value: when some buffered packet has a
dequeue time at or before the clock, `ReceivePacket` returns the packet of a slot `j`
whose dequeue time is at or before the clock and is the least among all buffered
packets, empties slot `j` and leaves every other slot and every other field unchanged;
and it returns none and changes nothing exactly when no buffered packet has a dequeue
time at or before the clock. -/
theorem receive_returns_oldest_due {A P T : Type} [LinearOrderedAddCommGroup T]
    (sim : NetworkSimulator A P T) :
    ((∃ x, x ∈ sim.m_packets ∧ x.packet ≠ none ∧ x.dequeueTime ≤ sim.m_timeBase.time) →
      ∃ (j : Nat) (o : PacketData A P T) (p : A × P),
        sim.m_packets[j]? = some o ∧ o.packet = some p ∧
        o.dequeueTime ≤ sim.m_timeBase.time ∧
        (∀ x, x ∈ sim.m_packets → x.packet ≠ none → o.dequeueTime ≤ x.dequeueTime) ∧
        sim.ReceivePacket.1 = some p ∧
        sim.ReceivePacket.2.m_packets[j]? = some { o with packet := none } ∧
        (∀ i, i ≠ j → sim.ReceivePacket.2.m_packets[i]? = sim.m_packets[i]?) ∧
        sim.ReceivePacket.2 = { sim with m_packets := sim.ReceivePacket.2.m_packets }) ∧
    (sim.ReceivePacket = (none, sim) ↔
      ¬ ∃ x, x ∈ sim.m_packets ∧ x.packet ≠ none ∧ x.dequeueTime ≤ sim.m_timeBase.time) := by
  constructor
  · intro hex
    obtain ⟨j, o, p, hj, hp, hdue, hmin, _, hr⟩ := (receive_core sim).1 hex
    refine ⟨j, o, p, hj, hp, hdue, hmin, ?_, ?_, ?_, ?_⟩
    · rw [hr]
    · rw [hr]
      exact List.getElem?_set_self (List.getElem?_eq_some.1 hj).1
    · intro i hi
      rw [hr]
      exact List.getElem?_set_ne (Ne.symm hi)
    · rw [hr]
  · constructor
    · intro hnone hex
      obtain ⟨j, o, p, _, _, _, _, _, hr⟩ := (receive_core sim).1 hex
      rw [hr] at hnone
      exact absurd (congrArg Prod.fst hnone) (by simp)
    · intro hno
      exact ((receive_core sim).2 hno).2

/-- Witness of C21: of the two packets buffered with dequeue times 5 and 1 at clock 10,
`ReceivePacket` returns the second. -/
theorem receive_returns_oldest_due_witness :
    ∃ (j : Nat) (o : PacketData Nat Nat Int) (p : Nat × Nat),
      exampleSimulator.m_packets[j]? = some o ∧ o.packet = some p ∧
      o.dequeueTime ≤ exampleSimulator.m_timeBase.time ∧
      exampleSimulator.ReceivePacket.1 = some p ∧ p = (1001, 20) := by
  obtain ⟨j, o, p, h1, h2, h3, _, h5, _⟩ :=
    (receive_returns_oldest_due exampleSimulator).1
      ⟨{ packet := some (1001, 20), dequeueTime := 1, packetNumber := 1 },
        List.getElem?_mem (rfl : exampleSimulator.m_packets[1]? = some _),
        by decide, by decide⟩
  refine ⟨j, o, p, h1, h2, h3, h5, ?_⟩
  have h : exampleSimulator.ReceivePacket.1 = some (1001, 20) := by decide
  rw [h] at h5
  exact (Option.some.inj h5).symm

/-- Counterexample to C22: the active state has packet loss 100, so every loss roll in
`[0, 100]` is at or below it; the packet sent is buffered all the same and the next
`ReceivePacket` returns it. -/
theorem packet_loss_counterexample :
    lossySimulator.m_state.packetLoss = 100 ∧
    (lossySimulator.SendPacket 1000 10 0).m_packets[0]? =
      some { packet := some (1000, 10), dequeueTime := 0, packetNumber := 0 } ∧
    (lossySimulator.SendPacket 1000 10 0).ReceivePacket.1 = some (1000, 10) := by
  refine ⟨by decide, rfl, by decide⟩

/-- C22, amended. `SendPacket` makes no loss roll: for every `SendPacket` call on a
simulator whose slot `m_packetNumber % numPackets` exists, and whatever the packet loss
of the active state, 100 included, the packet is buffered in that slot with the dequeue
time `time + latency + random`, the buffer is the one a state of any other packet loss
gives, and a `ReceivePacket` made after an `Update` has moved the clock to that dequeue
time or later returns a packet. -/
theorem send_buffers_whatever_loss {A P T : Type} [LinearOrderedAddCommGroup T]
    (sim : NetworkSimulator A P T) (address : A) (packet : P) (random : T)
    (h : sim.m_packetNumber % sim.m_config.numPackets < sim.m_packets.length) :
    (sim.SendPacket address packet random).m_packets[
        sim.m_packetNumber % sim.m_config.numPackets]? =
      some { packet := some (address, packet)
             packetNumber := sim.m_packetNumber
             dequeueTime := sim.m_timeBase.time + (sim.m_state.latency + random) } ∧
    (∀ loss : T,
      (NetworkSimulator.SendPacket
        { sim with m_state := { sim.m_state with packetLoss := loss } }
        address packet random).m_packets =
      (sim.SendPacket address packet random).m_packets) ∧
    (∀ (timeBase : TimeBase T) (rand1 rand2 : Nat),
      sim.m_timeBase.time + (sim.m_state.latency + random) ≤ timeBase.time →
      ((sim.SendPacket address packet random).Update timeBase rand1
        rand2).ReceivePacket.1 ≠ none) := by
  have hslot := SendPacket_slot sim address packet random h
  refine ⟨hslot, fun loss => rfl, fun timeBase rand1 rand2 hdue => ?_⟩
  obtain ⟨u1, _, _, u4⟩ :=
    simulator_Update_fields (sim.SendPacket address packet random) timeBase rand1 rand2
  have hex : ∃ x, x ∈ ((sim.SendPacket address packet random).Update timeBase rand1
      rand2).m_packets ∧ x.packet ≠ none ∧
      x.dequeueTime ≤ ((sim.SendPacket address packet random).Update timeBase rand1
        rand2).m_timeBase.time := by
    refine ⟨{ packet := some (address, packet)
              packetNumber := sim.m_packetNumber
              dequeueTime := sim.m_timeBase.time + (sim.m_state.latency + random) },
      ?_, ?_, ?_⟩
    · rw [u1]
      exact List.getElem?_mem hslot
    · simp
    · rw [u4]
      exact hdue
  obtain ⟨j, o, p, _, _, _, _, _, hr⟩ := (receive_core _).1 hex
  rw [hr]
  simp

/-- Witness of C22: the simulator whose active state has packet loss 100 and the packet
`10` for address `1000`. -/
theorem send_buffers_whatever_loss_witness :
    lossySimulator.m_packetNumber % lossySimulator.m_config.numPackets <
      lossySimulator.m_packets.length ∧
    (lossySimulator.SendPacket 1000 10 0).m_packets[0]? =
      some { packet := some (1000, 10), packetNumber := 0, dequeueTime := 0 + (0 + 0) } :=
  ⟨by decide, (send_buffers_whatever_loss lossySimulator 1000 10 0 (by decide)).1⟩

/-- C25. For a fixed clock value and no intervening `SendPacket`: the slots handed out
by up to `n` successive `ReceivePacket` calls have non-decreasing dequeue times, each of
them was buffered at the start with a dequeue time at or before the clock, and the
packets the calls return are the packets of these slots, in this order. The order in
which the packets were sent plays no part: the simulator state is arbitrary. -/
theorem receive_order_is_dequeue_order {A P T : Type} [LinearOrderedAddCommGroup T]
    (n : Nat) (sim : NetworkSimulator A P T) :
    List.Pairwise (fun a b => a.dequeueTime ≤ b.dequeueTime) (sim.receiveLog n).1 ∧
    (∀ e, e ∈ (sim.receiveLog n).1 → e ∈ sim.m_packets ∧ e.packet ≠ none) ∧
    (sim.receiveMany n).1 = (sim.receiveLog n).1.filterMap PacketData.packet ∧
    (sim.receiveMany n).2 = (sim.receiveLog n).2 := by
  refine ⟨receiveLog_sorted n sim, receiveLog_mem n sim, ?_, ?_⟩
  · rw [receiveMany_eq_log]
  · rw [receiveMany_eq_log]

/-- C26. A packet sent at clock time `t` while the active state has latency `L` and
jitter `J`, the random offset being in `[-J, J]`, is buffered with a dequeue time in
`[t + L - J, t + L + J]`; and in every simulator state whose slot still holds this entry
and whose clock is earlier than `t + L - J`, `ReceivePacket` does not hand out this slot
and leaves the entry in it. -/
theorem dequeue_time_window {A P T : Type} [LinearOrderedAddCommGroup T]
    (sim : NetworkSimulator A P T) (address : A) (packet : P) (random : T)
    (hlow : -sim.m_state.jitter ≤ random) (hhigh : random ≤ sim.m_state.jitter)
    (h : sim.m_packetNumber % sim.m_config.numPackets < sim.m_packets.length) :
    ∃ e : PacketData A P T,
      (sim.SendPacket address packet random).m_packets[
        sim.m_packetNumber % sim.m_config.numPackets]? = some e ∧
      e.packet = some (address, packet) ∧
      sim.m_timeBase.time + sim.m_state.latency - sim.m_state.jitter ≤ e.dequeueTime ∧
      e.dequeueTime ≤ sim.m_timeBase.time + sim.m_state.latency + sim.m_state.jitter ∧
      ∀ (later : NetworkSimulator A P T) (idx : Nat), later.m_packets[idx]? = some e →
        later.m_timeBase.time <
          sim.m_timeBase.time + sim.m_state.latency - sim.m_state.jitter →
        (∀ r, later.chosen = some r → r.1 ≠ idx) ∧
        later.ReceivePacket.2.m_packets[idx]? = some e := by
  have hslot := SendPacket_slot sim address packet random h
  have hlo : sim.m_timeBase.time + sim.m_state.latency - sim.m_state.jitter ≤
      sim.m_timeBase.time + (sim.m_state.latency + random) := by
    rw [sub_eq_add_neg, add_assoc]
    exact add_le_add_left (add_le_add_left hlow _) _
  have hhi : sim.m_timeBase.time + (sim.m_state.latency + random) ≤
      sim.m_timeBase.time + sim.m_state.latency + sim.m_state.jitter := by
    rw [add_assoc]
    exact add_le_add_left (add_le_add_left hhigh _) _
  refine ⟨_, hslot, rfl, hlo, hhi, fun later idx hheld hearly => ?_⟩
  have hbefore : later.m_timeBase.time <
      sim.m_timeBase.time + (sim.m_state.latency + random) := lt_of_lt_of_le hearly hlo
  refine ⟨fun r hr hidx => ?_, ReceivePacket_not_due later idx _ hheld hbefore⟩
  obtain ⟨h1, _, h3, _⟩ := chosen_some later r hr
  rw [hidx, hheld] at h1
  simp only [Option.some.injEq] at h1
  rw [← h1] at h3
  exact absurd h3 (not_le.2 hbefore)

/-- Witness of C26: at clock 4, with latency 3 and jitter 2 active, a packet is sent with
random offset -1. Its dequeue time 6 lies in the window from 5 to 9; the simulator after
the send still has clock 4, earlier than 5, and there `ReceivePacket` returns nothing,
does not hand out slot 0 and leaves the entry in it. -/
theorem dequeue_time_window_witness :
    jitterSimulator.m_timeBase.time = 4 ∧ jitterSimulator.m_state.latency = 3 ∧
    jitterSimulator.m_state.jitter = 2 ∧
    ∃ e : PacketData Nat Nat Int,
      (jitterSimulator.SendPacket 1000 10 (-1)).m_packets[0]? = some e ∧
      e.packet = some (1000, 10) ∧ 4 + 3 - 2 ≤ e.dequeueTime ∧ e.dequeueTime ≤ 4 + 3 + 2 ∧
      e.dequeueTime = 6 ∧
      (jitterSimulator.SendPacket 1000 10 (-1)).chosen.map Prod.fst ≠ some 0 ∧
      (jitterSimulator.SendPacket 1000 10 (-1)).ReceivePacket.1 = none ∧
      (jitterSimulator.SendPacket 1000 10 (-1)).ReceivePacket.2.m_packets[0]? = some e := by
  obtain ⟨e, h1, h2, h3, h4, h5⟩ :=
    dequeue_time_window jitterSimulator 1000 10 (-1) (by decide) (by decide) (by decide)
  have h6 := h5 (jitterSimulator.SendPacket 1000 10 (-1)) 0 h1 (by decide)
  have he : e = { packet := some (1000, 10), packetNumber := 0, dequeueTime := 6 } :=
    Option.some.inj (h1.symm.trans rfl)
  refine ⟨rfl, rfl, rfl, e, h1, h2, h3, h4, ?_, ?_, rfl, h6.2⟩
  · rw [he]
  · intro hc
    cases hr : (jitterSimulator.SendPacket 1000 10 (-1)).chosen with
    | none => rw [hr] at hc; simp at hc
    | some r =>
      rw [hr] at hc
      simp only [Option.map_some', Option.some.injEq] at hc
      exact h6.1 r hr hc

/-- C27. When the list of states is empty, as it is until `AddState` is called, `Update`
changes only the time base: after every sequence of `Update` calls, whatever the time
bases and the random outcomes, the active latency, jitter and packet loss, the buffered
packets, the packet number, the configuration and the empty list of states are what they
were. -/
theorem update_without_states {A P T : Type} [LinearOrderedAddCommGroup T]
    (us : List (TimeBase T × Nat × Nat)) (sim : NetworkSimulator A P T)
    (h : sim.m_states = []) :
    (sim.calls (us.map (fun u => SimulatorCall.update u.1 u.2.1 u.2.2))).m_state =
      sim.m_state ∧
    (sim.calls (us.map (fun u => SimulatorCall.update u.1 u.2.1 u.2.2))).m_packets =
      sim.m_packets ∧
    (sim.calls (us.map (fun u => SimulatorCall.update u.1 u.2.1 u.2.2))).m_states = [] ∧
    (sim.calls (us.map (fun u => SimulatorCall.update u.1 u.2.1 u.2.2))).m_packetNumber =
      sim.m_packetNumber ∧
    (sim.calls (us.map (fun u => SimulatorCall.update u.1 u.2.1 u.2.2))).m_config =
      sim.m_config ∧
    (∀ (timeBase : TimeBase T) (rand1 rand2 : Nat),
      sim.Update timeBase rand1 rand2 = { sim with m_timeBase := timeBase }) :=
  ⟨(updates_no_states us sim h).1, (updates_no_states us sim h).2.1,
    (updates_no_states us sim h).2.2.1, (updates_no_states us sim h).2.2.2.1,
    (updates_no_states us sim h).2.2.2.2,
    fun timeBase rand1 rand2 => Update_no_states sim timeBase rand1 rand2 h⟩

/-- Witness of C27: the simulator holding two packets, which has no states, and two
`Update` calls whose first `rand()` is a multiple of `stateChance`. -/
theorem update_without_states_witness :
    exampleSimulator.m_states = [] ∧
    (exampleSimulator.calls
      [SimulatorCall.update { time := 11, deltaTime := 1 } 0 0,
        SimulatorCall.update { time := 12, deltaTime := 1 } 1000 3]).m_packets =
      exampleSimulator.m_packets :=
  ⟨rfl, (update_without_states
    ([({ time := 11, deltaTime := 1 }, 0, 0), ({ time := 12, deltaTime := 1 }, 1000, 3)] :
      List (TimeBase Int × Nat × Nat))
    exampleSimulator rfl).2.1⟩

/-- C23. For every sequence of calls of `SendPacket`, `Update` and `AddState` on an empty
simulator, one whose `numPackets` slots all hold no packet, as they do after the
constructor and whenever every buffered packet has been received, that sends at most
`numPackets` packets and keeps the `uint32_t` packet number from wrapping, whatever the
packet loss of the active state: once the clock has reached the dequeue time of every
buffered packet, `ReceivePacket` calls repeated until one returns none, at least as many
as packets were sent, return each sent packet exactly once (their list is a permutation
of the list of sent packets), and the next `ReceivePacket` returns none. -/
theorem sent_packets_received_once {A P T : Type} [LinearOrderedAddCommGroup T]
    (sim : NetworkSimulator A P T) (ops : List (SimulatorCall A P T)) (n : Nat)
    (hslots : sim.m_packets.length = sim.m_config.numPackets)
    (hempty : ∀ x, x ∈ sim.m_packets → x.packet = none)
    (hint : sim.m_packetNumber + (sentPackets ops).length < 4294967296)
    (hsends : (sentPackets ops).length ≤ sim.m_config.numPackets)
    (hdue : ∀ x, x ∈ (sim.calls ops).m_packets → x.packet ≠ none →
      x.dequeueTime ≤ (sim.calls ops).m_timeBase.time)
    (hn : (sentPackets ops).length ≤ n) :
    List.Perm ((sim.calls ops).receiveMany n).1 (sentPackets ops) ∧
    ((sim.calls ops).receiveMany n).2.ReceivePacket.1 = none := by
  have hfill := empty_then_calls sim ops hslots hempty hint hsends
  have h := receiveMany_drains n (sim.calls ops) hdue
    (by rw [hfill.length_eq]; exact hn)
  exact ⟨h.1.trans hfill, h.2⟩

/-- Witness of C23: the simulator of two slots that has been sent two packets and has
handed both out, so that it is empty with packet number 2; it is then sent two more
packets with delays 2 and 1 at clock 10, the clock is moved to 20, and two
`ReceivePacket` calls return the second of them, then the first, and a third returns
none. -/
theorem sent_packets_received_once_witness :
    drainedSimulator.m_packetNumber = 2 ∧
    drainedSimulator.m_timeBase.time = 10 ∧
    ((drainedSimulator.calls laterSends).receiveMany 2).1 = [(1001, 40), (1000, 30)] ∧
    List.Perm ((drainedSimulator.calls laterSends).receiveMany 2).1
      [(1000, 30), (1001, 40)] ∧
    ((drainedSimulator.calls laterSends).receiveMany 2).2.ReceivePacket.1 = none :=
  ⟨rfl, rfl, rfl,
    sent_packets_received_once drainedSimulator laterSends 2 (by decide) (by decide)
      (by decide) (by decide) (by decide) (by decide)⟩

/-- C24. On a freshly constructed simulator of `numPackets > 0` slots that is sent
`numPackets + k` packets (`k ≤ numPackets`, the total below `2^32`) by calls of
`SendPacket` mixed with calls of `Update` and `AddState`, and receives none: the `n`-th
packet sent, counted from 0, gets packet number `n`, is stored in slot
`n % numPackets` whatever that slot held, and leaves the packet number at `n + 1`; at
the end slot `m % numPackets` holds packet `m` for each of the last `numPackets` packets
`k ≤ m < numPackets + k`, every buffered packet is one of these, and whatever run of
`Update` and `ReceivePacket` calls follows hands out only these, so none of the first
`k` packets. -/
theorem ring_keeps_last_packets {A P T : Type} [LinearOrderedAddCommGroup T]
    (config : NetworkSimulatorConfig) (ops : List (SimulatorCall A P T)) (k : Nat)
    (hN : 0 < config.numPackets) (hkN : k ≤ config.numPackets)
    (hsent : (sentPackets ops).length = config.numPackets + k)
    (hint : config.numPackets + k < 4294967296) :
    (∀ (pre post : List (SimulatorCall A P T)) (address : A) (packet : P) (random : T),
      ops = pre ++ SimulatorCall.send address packet random :: post →
      ((NetworkSimulator.create config : NetworkSimulator A P T).calls pre).m_packetNumber =
        (sentPackets pre).length ∧
      ((NetworkSimulator.create config : NetworkSimulator A P T).calls
        (pre ++ [SimulatorCall.send address packet random])).m_packets[
          (sentPackets pre).length % config.numPackets]? =
        some { packet := some (address, packet)
               packetNumber := (sentPackets pre).length
               dequeueTime :=
                ((NetworkSimulator.create config : NetworkSimulator A P T).calls
                  pre).m_timeBase.time +
                (((NetworkSimulator.create config : NetworkSimulator A P T).calls
                  pre).m_state.latency + random) } ∧
      ((NetworkSimulator.create config : NetworkSimulator A P T).calls
        (pre ++ [SimulatorCall.send address packet random])).m_packetNumber =
        (sentPackets pre).length + 1) ∧
    (∀ m, k ≤ m → m < config.numPackets + k →
      ∃ e, ((NetworkSimulator.create config : NetworkSimulator A P T).calls
          ops).m_packets[m % config.numPackets]? = some e ∧
        e.packetNumber = m ∧ e.packet = (sentPackets ops)[m]?) ∧
    (∀ e, e ∈ ((NetworkSimulator.create config : NetworkSimulator A P T).calls
        ops).m_packets → e.packet ≠ none →
      k ≤ e.packetNumber ∧ e.packetNumber < config.numPackets + k ∧
        e.packet = (sentPackets ops)[e.packetNumber]?) ∧
    (∀ (steps : List (Option (TimeBase T × Nat × Nat))) (e : PacketData A P T),
      e ∈ ((NetworkSimulator.create config : NetworkSimulator A P T).calls
        ops).receiveRun steps →
      k ≤ e.packetNumber ∧ e.packetNumber < config.numPackets + k ∧
        e.packet = (sentPackets ops)[e.packetNumber]?) := by
  have hring := ring_calls config.numPackets hN ops
    (NetworkSimulator.create config : NetworkSimulator A P T) [] (ring_create config)
    (by
      rw [List.length_nil, Nat.zero_add, hsent]
      exact hint)
  rw [List.nil_append] at hring
  obtain ⟨hlast, hbuf⟩ := ring_last config.numPackets k hN hkN _ _ hring hsent
  refine ⟨fun pre post address packet random hops => ?_, hlast, hbuf, fun steps e he => ?_⟩
  · have hlen : (sentPackets pre).length + 1 < 4294967296 := by
      have h1 := congrArg (fun l => (sentPackets l).length) hops
      simp only [sentPackets_append, sentPackets, List.length_append, List.length_cons] at h1
      omega
    have hpre := ring_calls config.numPackets hN pre
      (NetworkSimulator.create config : NetworkSimulator A P T) [] (ring_create config)
      (by
        rw [List.length_nil, Nat.zero_add]
        omega)
    rw [List.nil_append] at hpre
    obtain ⟨hc, hl, hk, _⟩ := hpre
    have hslot := SendPacket_slot
      ((NetworkSimulator.create config : NetworkSimulator A P T).calls pre)
      address packet random
      (by
        rw [hc, hl]
        exact Nat.mod_lt _ hN)
    rw [hc, hk] at hslot
    refine ⟨hk, ?_, ?_⟩
    · rw [calls_append]
      exact hslot
    · rw [calls_append]
      show (((NetworkSimulator.create config : NetworkSimulator A P T).calls
        pre).m_packetNumber + 1) % 4294967296 = _
      rw [hk]
      exact Nat.mod_eq_of_lt hlen
  · obtain ⟨i1, i2⟩ := receiveRun_mem steps _ e he
    exact hbuf e i1 i2

/-- Witness of C24: three packets sent to the simulator of two slots; slot 0 holds the
third packet, with number 2, and slot 1 the second, with number 1. -/
theorem ring_keeps_last_packets_witness :
    (sentPackets overwriteSends).length = twoSlots.numPackets + 1 ∧
    (∃ e, ((NetworkSimulator.create twoSlots : NetworkSimulator Nat Nat Int).calls
        overwriteSends).m_packets[2 % twoSlots.numPackets]? = some e ∧
      e.packetNumber = 2 ∧ e.packet = (sentPackets overwriteSends)[2]?) ∧
    (∃ e, ((NetworkSimulator.create twoSlots : NetworkSimulator Nat Nat Int).calls
        overwriteSends).m_packets[1 % twoSlots.numPackets]? = some e ∧
      e.packetNumber = 1 ∧ e.packet = (sentPackets overwriteSends)[1]?) :=
  ⟨by decide,
    (ring_keeps_last_packets twoSlots overwriteSends 1 (by decide) (by decide) (by decide)
      (by decide)).2.1 2 (by decide) (by decide),
    (ring_keeps_last_packets twoSlots overwriteSends 1 (by decide) (by decide) (by decide)
      (by decide)).2.1 1 (by decide) (by decide)⟩

/-- C35. `AddState` only appends to the list of states: for every simulator, after
`AddState( state )` the active state is the one it was, the list of states is the old
one followed by `state`, every other field is unchanged and `SendPacket` buffers what it
would have buffered without the call; on a freshly constructed simulator the active
state is still latency 0, jitter 0 and packet loss 0; and the active state stays what it
was through every further run of `SendPacket`, `AddState` and `Update` calls in which no
`Update` draws a multiple of `stateChance`, the one way `Update` picks a state. -/
theorem add_state_only_appends {A P T : Type} [LinearOrderedAddCommGroup T]
    (sim : NetworkSimulator A P T) (state : NetworkSimulatorState T) :
    sim.AddState state = { sim with m_states := sim.m_states ++ [state] } ∧
    (sim.AddState state).m_state = sim.m_state ∧
    (∀ (address : A) (packet : P) (random : T),
      ((sim.AddState state).SendPacket address packet random).m_packets =
        (sim.SendPacket address packet random).m_packets) ∧
    (∀ config : NetworkSimulatorConfig,
      ((NetworkSimulator.create config : NetworkSimulator A P T).AddState state).m_state =
        { latency := 0, jitter := 0, packetLoss := 0 }) ∧
    (∀ ops : List (SimulatorCall A P T),
      ops.all (fun c => !c.selects sim.m_config.stateChance) = true →
      ((sim.AddState state).calls ops).m_state = sim.m_state) := by
  refine ⟨rfl, rfl, fun _ _ _ => rfl, fun _ => rfl, fun ops h => ?_⟩
  exact (calls_without_selection ops (sim.AddState state) h).1

/-- Witness of C35: the simulator holding two packets, a state of latency 3 added, and
then a further state added, a packet sent and an `Update` that draws 1. -/
theorem add_state_only_appends_witness :
    quietCalls.all (fun c => !c.selects exampleSimulator.m_config.stateChance) = true ∧
    ((exampleSimulator.AddState { latency := 3, jitter := 0, packetLoss := 0 }).calls
      quietCalls).m_state = exampleSimulator.m_state :=
  ⟨by decide,
    (add_state_only_appends exampleSimulator
      { latency := 3, jitter := 0, packetLoss := 0 }).2.2.2.2 quietCalls (by decide)⟩

/-- C33. In the modes `RELATIVE_POSITION` and `RELATIVE_ORIENTATION`, when a packet is
written and then read against the same base: every cube that the writer encodes with
`relative_position = false`, because a position offset from the base exceeds 1023 in
magnitude, comes back with `interacting = false`, whatever the `interacting` of the cube
written, and with the written positions and orientation. -/
theorem absolute_fallback_clears_interacting {Q : Nat} (K : Constants) (codec : IndexCodec)
    (crib cribR : (Nat → Bool) → Int) (sender receiver : Context Q)
    (p p0 : DeltaSnapshotPacket) (rest : List Bool)
    (hp : p.WellTyped)
    (hmode : p.delta_mode = DELTA_MODE_RELATIVE_POSITION ∨
      p.delta_mode = DELTA_MODE_RELATIVE_ORIENTATION)
    (hcodec : codec.Lawful K.NumCubes)
    (hin : ∀ k, k < K.NumCubes → InBounds K (sender.sliding_window.Get p.sequence k))
    (hbase : ReceiverHasBase K sender receiver p) :
    ∃ out : Cubes Q,
      (DeltaSnapshotPacket.Serialize K codec cribR StreamMode.reading receiver p0
        ⟨(DeltaSnapshotPacket.Serialize K codec crib StreamMode.writing sender p
          ⟨[], 0⟩).stream.bits ++ rest, 0⟩).status = Except.ok () ∧
      (DeltaSnapshotPacket.Serialize K codec cribR StreamMode.reading receiver p0
        ⟨(DeltaSnapshotPacket.Serialize K codec crib StreamMode.writing sender p
          ⟨[], 0⟩).stream.bits ++ rest, 0⟩).context.sequence_buffer.Find p.sequence =
        some out ∧
      ∀ k, k < K.NumCubes →
        useRelative (sender.sliding_window.Get p.sequence k) (senderBase sender p k) = false →
        (out k).interacting = false ∧
        (out k).position_x = (sender.sliding_window.Get p.sequence k).position_x ∧
        (out k).position_y = (sender.sliding_window.Get p.sequence k).position_y ∧
        (out k).position_z = (sender.sliding_window.Get p.sequence k).position_z ∧
        (out k).orientation = (sender.sliding_window.Get p.sequence k).orientation := by
  have hrange : 0 ≤ p.delta_mode ∧ p.delta_mode < DELTA_NUM_MODES := by
    rcases hmode with h | h <;> rw [h] <;> decide
  obtain ⟨_, _, out, hstatus, _, hfind, hout⟩ :=
    round_trip_core K codec crib cribR sender receiver p p0 rest hp hrange hcodec hin hbase
  refine ⟨out, hstatus, hfind, fun k hk hrel => ?_⟩
  rw [hout k hk]
  simp only [decodedCube, hmode, if_true, decodedRelative, hrel, Bool.false_eq_true, if_false,
    and_self]

/-- Witness of C33: `farSnapshot` written in mode `RELATIVE_ORIENTATION` against the
rest snapshot; cube 1 is interacting and 2000 units away in `x`, and comes back with
`interacting = false` and `position_x = 2000`. -/
theorem absolute_fallback_clears_interacting_witness :
    ∃ out : Cubes 9,
      (DeltaSnapshotPacket.Serialize fourCubes (spec_index_codec fourCubes)
        (spec_count_relative_index_bits fourCubes) StreamMode.reading exampleReceiver blankPacket
        ⟨(DeltaSnapshotPacket.Serialize fourCubes (spec_index_codec fourCubes)
          (spec_count_relative_index_bits fourCubes) StreamMode.writing exampleSender
          (farPacket DELTA_MODE_RELATIVE_ORIENTATION) ⟨[], 0⟩).stream.bits ++ [], 0⟩
        ).context.sequence_buffer.Find 9 = some out ∧
      (exampleSender.sliding_window.Get 9 1).interacting = true ∧
      (out 1).interacting = false ∧ (out 1).position_x = 2000 := by
  obtain ⟨out, _, hfind, hout⟩ := absolute_fallback_clears_interacting fourCubes
    (spec_index_codec fourCubes) (spec_count_relative_index_bits fourCubes)
    (spec_count_relative_index_bits fourCubes) exampleSender exampleReceiver
    (farPacket DELTA_MODE_RELATIVE_ORIENTATION) blankPacket [] (by decide) (Or.inr rfl)
    (spec_index_codec_lawful fourCubes) (by decide)
    (exampleReceiver_has_base DELTA_MODE_RELATIVE_ORIENTATION 9 (Or.inr rfl))
  obtain ⟨h1, h2, _⟩ := hout 1 (by decide) (by decide)
  exact ⟨out, hfind, by decide, h1, h2⟩

/-- C31. What the reader of `DataBlockFragmentPacket` checks: a read that succeeds has
`fragmentSize ≤ MaxFragmentSize` and a buffer of exactly `fragmentBytes` bytes, and
nothing relates `fragmentBytes` to `fragmentSize`: every packet with
`fragmentSize ≤ MaxFragmentSize` whose fields fit their widths and whose buffer holds
`fragmentBytes` bytes, whatever `fragmentBytes` below `65536`, is written and then read
back successfully, buffer included. So a read succeeds with `fragmentBytes` above
`fragmentSize` and above `MaxFragmentSize`. -/
theorem fragment_bytes_unchecked (MaxFragmentSize : Nat) (p : DataBlockFragmentPacket)
    (data : List Nat) (hsize : p.fragmentSize ≤ MaxFragmentSize)
    (h1 : p.clientId < 65536) (h2 : p.serverId < 65536) (h3 : p.blockSize < 4294967296)
    (h4 : p.numFragments < 65536) (h5 : p.fragmentSize < 65536) (h6 : p.fragmentId < 65536)
    (h7 : p.fragmentBytes < 65536)
    (hdata : p.fragmentData = some data) (hlen : data.length = p.fragmentBytes)
    (hbytes : ∀ b, b ∈ data → b < 256) :
    (DataBlockFragmentPacket.Serialize MaxFragmentSize StreamMode.writing).run (⟨[], 0⟩, p) =
      (Except.ok (), (⟨fragmentImage p data, 0⟩, p)) ∧
    (DataBlockFragmentPacket.Serialize MaxFragmentSize StreamMode.reading).run
        (⟨fragmentImage p data, 0⟩, DataBlockFragmentPacket.fresh) =
      (Except.ok (), (⟨[], 0⟩, p)) ∧
    (∀ s s' : Stream × DataBlockFragmentPacket,
      (DataBlockFragmentPacket.Serialize MaxFragmentSize StreamMode.reading).run s =
        (Except.ok (), s') →
      s'.2.fragmentSize ≤ MaxFragmentSize ∧
      ∃ buffer, s'.2.fragmentData = some buffer ∧ buffer.length = s'.2.fragmentBytes) :=
  ⟨run_fragment_writing MaxFragmentSize p data hsize hdata hlen,
    run_fragment_reading MaxFragmentSize p DataBlockFragmentPacket.fresh data hsize h1 h2 h3 h4
      h5 h6 h7 hdata hlen hbytes,
    fun s s' h => fragment_read_inv MaxFragmentSize s s' h⟩

/-- Witness of C31: with `MaxFragmentSize = 2`, the packet that declares
`fragmentSize = 1` and carries `fragmentBytes = 3` bytes is read back successfully. -/
theorem fragment_bytes_unchecked_witness :
    (DataBlockFragmentPacket.Serialize 2 StreamMode.reading).run
        (⟨fragmentImage oversizedFragment [7, 8, 9], 0⟩, DataBlockFragmentPacket.fresh) =
      (Except.ok (), (⟨[], 0⟩, oversizedFragment)) ∧
    oversizedFragment.fragmentSize < oversizedFragment.fragmentBytes ∧
    2 < oversizedFragment.fragmentBytes :=
  ⟨(fragment_bytes_unchecked 2 oversizedFragment [7, 8, 9] (by decide) (by decide) (by decide)
    (by decide) (by decide) (by decide) (by decide) (by decide) rfl rfl (by decide)).2.1,
    by decide, by decide⟩

/-- C34. Writing or measuring a `DeltaSnapshotPacket`, in any mode and whether or not the
run succeeds, leaves the context as it was: every cube of every sliding window entry,
the snapshot being sent and the base among them, and every cube of the initial snapshot
is unchanged. The relative-position routine itself leaves the cubes unchanged when it
writes or measures, although it assigns `cube.position = base.position + offset`: the
offset it adds is `cube.position - base.position`. -/
theorem writing_keeps_snapshots {Q : Nat} (K : Constants) (codec : IndexCodec)
    (crib : (Nat → Bool) → Int) (m : StreamMode)
    (hm : m = StreamMode.writing ∨ m = StreamMode.measuring) (ctx : Context Q)
    (p : DeltaSnapshotPacket) (stream : Stream) :
    (DeltaSnapshotPacket.Serialize K codec crib m ctx p stream).context = ctx ∧
    (∀ sequence k,
      (DeltaSnapshotPacket.Serialize K codec crib m ctx p stream).context.sliding_window.Get
        sequence k = ctx.sliding_window.Get sequence k) ∧
    (∀ k, (DeltaSnapshotPacket.Serialize K codec crib m ctx p stream).context.initial_snapshot k =
      ctx.initial_snapshot k) ∧
    (∀ (base : BaseRef Q) (i : Nat) (s : Stream × Cubes Q),
      ((serialize_cube_relative_position K m base i).run s).2.2 = s.2) := by
  have hw : m.IsWriting = true := by
    rcases hm with h | h <;> rw [h] <;> rfl
  have hctx := writing_context_core K codec crib m hw ctx p stream
  refine ⟨hctx, fun sequence k => by rw [hctx], fun k => by rw [hctx], fun base i s => ?_⟩
  exact keeps_cube_relative_position K m hw base i s

/-- Witness of C34: the sender writes `farSnapshot` in mode `RELATIVE_POSITION`; cube 1
of the snapshot is what it was. -/
theorem writing_keeps_snapshots_witness :
    (DeltaSnapshotPacket.Serialize fourCubes (spec_index_codec fourCubes)
      (spec_count_relative_index_bits fourCubes) StreamMode.writing exampleSender
      (farPacket DELTA_MODE_RELATIVE_POSITION) ⟨[], 0⟩).context.sliding_window.Get 9 1 =
      exampleSender.sliding_window.Get 9 1 :=
  (writing_keeps_snapshots fourCubes (spec_index_codec fourCubes)
    (spec_count_relative_index_bits fourCubes) StreamMode.writing (Or.inl rfl) exampleSender
    (farPacket DELTA_MODE_RELATIVE_POSITION) ⟨[], 0⟩).2.1 9 1

/-- C32. For every console state the routines keep well formed (`Invariant`, true of the
constructed console and kept by every routine) and every string shorter than `MaxLine`:
calling `AddToCommandHistory` with the string twice in succession leaves the console,
history lines and `commandHistoryIndex` included, as calling it once does; and a string
that compares equal to the history line before `commandHistoryIndex` is not added. -/
theorem add_to_history_twice (c : ConsoleInternal) (string : Int → Nat) (length : Int)
    (h : c.Invariant) (hs : IsString string length) (hl : length < MaxLine) :
    (c.AddToCommandHistory string).AddToCommandHistory string = c.AddToCommandHistory string ∧
    ((c.AddToCommandHistory string).AddToCommandHistory string).commandHistory =
      (c.AddToCommandHistory string).commandHistory ∧
    ((c.AddToCommandHistory string).AddToCommandHistory string).commandHistoryIndex =
      (c.AddToCommandHistory string).commandHistoryIndex ∧
    (strcmpEq string (c.commandHistory c.previousIndex) = true →
      c.AddToCommandHistory string = c) := by
  have hcore := add_twice_core c string length h.2.2.2.2.2.1 h.2.2.2.2.2.2.1 hs hl
  refine ⟨hcore, by rw [hcore], by rw [hcore], fun hcmp => ?_⟩
  unfold ConsoleInternal.AddToCommandHistory
  rw [if_pos hcmp]

/-- Witness of C32: the command `quit` added twice to the console that holds `hi`. -/
theorem add_to_history_twice_witness :
    (exampleConsole.AddToCommandHistory quitCommand).AddToCommandHistory quitCommand =
      exampleConsole.AddToCommandHistory quitCommand :=
  (add_to_history_twice exampleConsole quitCommand 4 exampleConsole_invariant
    quitCommand_isString (by decide)).1

/-- C36. After every run of routine calls on a constructed console in which no NUL is
typed, and after one more call of any routine (`CharacterTyped` with a character other
than NUL, `Backspace`, `CursorLeft`, `CursorRight`, `CursorBegin`, `CursorEnd`,
`ClearCommandString`, `PrevCommandInHistory`, `NextCommandInHistory`; also
`AddToCommandHistory` and Enter):
`0 ≤ commandCursorPosition ≤ commandLength ≤ MaxLine - 1`, `commandString` has a NUL at
offset `commandLength` and `strlen( commandString ) = commandLength`. Every routine keeps
the invariant `Invariant`, which says in addition that the command string holds only NUL
from `commandLength` to the end of the array. -/
theorem editing_keeps_command_line (calls : List ConsoleCall) (call : ConsoleCall)
    (hcalls : calls.all ConsoleCall.valid = true) (hcall : call.valid = true) :
    (0 ≤ ((ConsoleInternal.create.calls calls).call call).commandCursorPosition ∧
      ((ConsoleInternal.create.calls calls).call call).commandCursorPosition ≤
        ((ConsoleInternal.create.calls calls).call call).commandLength ∧
      ((ConsoleInternal.create.calls calls).call call).commandLength ≤ MaxLine - 1 ∧
      ((ConsoleInternal.create.calls calls).call call).commandString
        ((ConsoleInternal.create.calls calls).call call).commandLength = 0 ∧
      strlen ((ConsoleInternal.create.calls calls).call call).commandString =
        ((ConsoleInternal.create.calls calls).call call).commandLength) ∧
    (∀ c : ConsoleInternal, c.Invariant →
      (c.call call).Invariant ∧
      0 ≤ (c.call call).commandCursorPosition ∧
      (c.call call).commandCursorPosition ≤ (c.call call).commandLength ∧
      (c.call call).commandLength ≤ MaxLine - 1 ∧
      (c.call call).commandString (c.call call).commandLength = 0 ∧
      strlen (c.call call).commandString = (c.call call).commandLength) := by
  have hstep : ∀ c : ConsoleInternal, c.Invariant →
      (c.call call).Invariant ∧
      0 ≤ (c.call call).commandCursorPosition ∧
      (c.call call).commandCursorPosition ≤ (c.call call).commandLength ∧
      (c.call call).commandLength ≤ MaxLine - 1 ∧
      (c.call call).commandString (c.call call).commandLength = 0 ∧
      strlen (c.call call).commandString = (c.call call).commandLength := by
    intro c hc
    have hinv := invariant_call c call hcall hc
    exact ⟨hinv, hinv.1, hinv.2.1, hinv.2.2.1, (invariant_string _ hinv).1,
      (invariant_string _ hinv).2⟩
  exact ⟨(hstep _ (invariant_calls calls ConsoleInternal.create hcalls invariant_create)).2,
    hstep⟩

/-- Witness of C36: `Backspace` after the keys `h`, `i` and cursor left. -/
theorem editing_keeps_command_line_witness :
    0 ≤ ((ConsoleInternal.create.calls exampleKeys).call
        ConsoleCall.backspace).commandCursorPosition ∧
      ((ConsoleInternal.create.calls exampleKeys).call
        ConsoleCall.backspace).commandCursorPosition ≤
        ((ConsoleInternal.create.calls exampleKeys).call ConsoleCall.backspace).commandLength ∧
      ((ConsoleInternal.create.calls exampleKeys).call ConsoleCall.backspace).commandLength ≤
        MaxLine - 1 ∧
      ((ConsoleInternal.create.calls exampleKeys).call ConsoleCall.backspace).commandString
        ((ConsoleInternal.create.calls exampleKeys).call ConsoleCall.backspace).commandLength =
          0 ∧
      strlen ((ConsoleInternal.create.calls exampleKeys).call
        ConsoleCall.backspace).commandString =
        ((ConsoleInternal.create.calls exampleKeys).call ConsoleCall.backspace).commandLength :=
  (editing_keeps_command_line exampleKeys ConsoleCall.backspace rfl rfl).1

/-- C37. For every console state the routines keep well formed (`Invariant`) with
`commandLength < MaxLine - 1` and every character other than NUL: after
`CharacterTyped( c )` the command is one character longer and the cursor one further, the
command string holds the characters that were before the cursor, then `c`, then the
characters that were after the cursor, and it is a string of the new length; and a
`Backspace` straight after gives back the console as it was, `commandString`,
`commandLength` and `commandCursorPosition` included. -/
theorem typed_then_backspace (c : ConsoleInternal) (character : Nat) (h : c.Invariant)
    (hl : c.commandLength < MaxLine - 1) (hch : character ≠ 0) :
    (c.CharacterTyped character).commandLength = c.commandLength + 1 ∧
    (c.CharacterTyped character).commandCursorPosition = c.commandCursorPosition + 1 ∧
    (∀ k, (c.CharacterTyped character).commandString k =
      if k < c.commandCursorPosition then c.commandString k
      else if k = c.commandCursorPosition then character
      else if k ≤ c.commandLength then c.commandString (k - 1)
      else c.commandString k) ∧
    IsString (c.CharacterTyped character).commandString (c.commandLength + 1) ∧
    (c.CharacterTyped character).Backspace = c ∧
    (c.CharacterTyped character).Backspace.commandString = c.commandString ∧
    (c.CharacterTyped character).Backspace.commandLength = c.commandLength ∧
    (c.CharacterTyped character).Backspace.commandCursorPosition =
      c.commandCursorPosition := by
  have hinv := invariant_CharacterTyped c character hch h
  obtain ⟨h1, h2, h3, h4, h5, _⟩ := h
  obtain ⟨e1, e2, e3, _⟩ := CharacterTyped_spec c character (by omega) hl h2
  have hback := typed_then_backspace_core c character h1 h2 hl
    (h5 _ (le_refl _) (by unfold MaxLine at hl ⊢; omega))
  refine ⟨e1, e2, fun k => ?_, ?_, hback, by rw [hback], by rw [hback], by rw [hback]⟩
  · rw [e3 k]
    by_cases hk1 : k < c.commandCursorPosition
    · rw [if_pos hk1, if_neg (by omega), if_neg (by omega)]
    · rw [if_neg hk1]
      by_cases hk2 : k = c.commandCursorPosition
      · rw [if_pos hk2, if_pos hk2]
      · rw [if_neg hk2, if_neg hk2]
        by_cases hk3 : k ≤ c.commandLength
        · rw [if_pos hk3, if_pos ⟨by omega, hk3⟩]
        · rw [if_neg hk3, if_neg (by omega)]
  · have hs := invariant_string _ hinv
    rw [e1] at hs
    refine ⟨by omega, fun k hk0 hk1 => ?_, hs.1⟩
    exact hinv.2.2.2.1 k hk0 (by rw [e1]; exact hk1)

/-- Witness of C37: `!` typed into `hi` before the `i`, and taken back. -/
theorem typed_then_backspace_witness :
    exampleConsole.commandLength < MaxLine - 1 ∧
    (exampleConsole.CharacterTyped 33).Backspace = exampleConsole :=
  ⟨by decide,
    (typed_then_backspace exampleConsole 33 exampleConsole_invariant (by decide)
      (by decide)).2.2.2.2.1⟩

/-- C38. For every console state the routines keep well formed (`Invariant`) and every
command `X` that is not empty and shorter than `MaxLine`: after
`AddToCommandHistory( X )` and `ClearCommandString`, `PrevCommandInHistory` leaves
`commandLength` at the length of `X`, the cursor at the end of the line, and
`commandString` holding `X` followed by NUL to the end of the array, so that it is the
string `X`. In particular, after Enter on a command that is not empty,
`PrevCommandInHistory` brings the command string back as it was. -/
theorem enter_then_previous (c : ConsoleInternal) (command : Int → Nat) (length : Int)
    (h : c.Invariant) (hs : IsString command length) (h0 : 0 < length)
    (hl : length < MaxLine) :
    ((c.AddToCommandHistory command).ClearCommandString).PrevCommandInHistory.commandLength =
      length ∧
    ((c.AddToCommandHistory
      command).ClearCommandString).PrevCommandInHistory.commandCursorPosition = length ∧
    (∀ k, 0 ≤ k → k < MaxLine →
      ((c.AddToCommandHistory command).ClearCommandString).PrevCommandInHistory.commandString k =
        if k < length then command k else 0) ∧
    IsString ((c.AddToCommandHistory
      command).ClearCommandString).PrevCommandInHistory.commandString length ∧
    (command = c.commandString →
      c.Enter.PrevCommandInHistory.commandLength = c.commandLength ∧
      c.Enter.PrevCommandInHistory.commandCursorPosition = c.commandLength ∧
      ∀ k, 0 ≤ k → k < MaxLine →
        c.Enter.PrevCommandInHistory.commandString k = c.commandString k) := by
  obtain ⟨r1, r2⟩ := add_command_row c command length h hs h0 hl
  have hmain := previous_after_empty_command (c.AddToCommandHistory command).ClearCommandString
    command length hs h0 hl r1 rfl
    (by
      show memsetZero (c.AddToCommandHistory command).commandString MaxLine 0 = 0
      unfold memsetZero
      rw [if_pos ⟨le_refl _, by decide⟩])
    r2
  obtain ⟨m1, m2, m3⟩ := hmain
  refine ⟨m1, m2, m3, ⟨hs.1, fun k hk0 hk1 => ?_, ?_⟩, fun hcmd => ?_⟩
  · rw [m3 k hk0 (by omega), if_pos hk1]
    exact hs.2.1 k hk0 hk1
  · rw [m3 length hs.1 hl, if_neg (lt_irrefl _)]
  · have hlen : length = c.commandLength := by
      have e1 := strlenFrom_of_isString command length 256 hs (by
        unfold MaxLine at hl
        push_cast
        omega)
      have e2 := (invariant_string c h).2
      unfold strlen at e2
      have h256 : MaxLine.toNat = 256 := rfl
      rw [h256, ← hcmd, e1] at e2
      exact e2
    subst hcmd
    refine ⟨m1.trans hlen, m2.trans hlen, fun k hk0 hk1 => ?_⟩
    show ((c.AddToCommandHistory
      c.commandString).ClearCommandString).PrevCommandInHistory.commandString k = _
    rw [m3 k hk0 hk1]
    by_cases hk : k < length
    · rw [if_pos hk]
    · rw [if_neg hk]
      exact (h.2.2.2.2.1 k (by omega) hk1).symm

/-- Witness of C38: the command `quit` is added to the history of the console that
holds `hi`, the command line is cleared, and `PrevCommandInHistory` brings `quit` back
with `commandLength = 4`. -/
theorem enter_then_previous_witness :
    ((exampleConsole.AddToCommandHistory
      quitCommand).ClearCommandString).PrevCommandInHistory.commandLength = 4 ∧
    ((exampleConsole.AddToCommandHistory
      quitCommand).ClearCommandString).PrevCommandInHistory.commandCursorPosition = 4 :=
  ⟨(enter_then_previous exampleConsole quitCommand 4 exampleConsole_invariant
      quitCommand_isString (by decide) (by decide)).1,
    (enter_then_previous exampleConsole quitCommand 4 exampleConsole_invariant
      quitCommand_isString (by decide) (by decide)).2.1⟩

end Claims

end NetworkedPhysics
